import Mathlib

/-!
# Checkout and currency conversion of the online shop backend

A shallow embedding of `backend/internal/service/order.go` and
`backend/internal/service/product.go`, with the parts of `math/big`, of IEEE 754
binary64 arithmetic and of the relational store they rely on.

Floating values are modelled exactly: a finite value is a sign, a natural
mantissa and a binary exponent, and every operation rounds the exact result to
nearest, ties to even, as `float64` arithmetic and `math/big.Float` do.
-/

namespace Shop

/-! ## Correct rounding -/

/-- Number of binary digits, by halving; the first argument bounds the number of steps. -/
def bitLenAux : Nat → Nat → Nat
  | 0, _ => 0
  | fuel + 1, n => if n = 0 then 0 else bitLenAux fuel (n / 2) + 1

/-- The value of `big.Int.BitLen` on a magnitude: 0 for 0, else the position of the top bit. -/
def bitLen (n : Nat) : Nat := bitLenAux n n

/-- The integer nearest to `a / b`, ties to the even one (`b` positive). -/
def rne (a b : Nat) : Nat :=
  let q := a / b
  let r := a % b
  if 2 * r < b then q else if b < 2 * r then q + 1 else if q % 2 = 0 then q else q + 1

/-- Numerator and denominator of `(a / b) / 2 ^ s`. -/
def shiftFrac (a b : Nat) (s : Int) : Nat × Nat :=
  if 0 ≤ s then (a, b * 2 ^ s.toNat) else (a * 2 ^ (-s).toNat, b)

/-- The exponent `e` of the last place when the positive `a / b` is written with `p`
significant bits: `2 ^ (p - 1) ≤ (a / b) / 2 ^ e < 2 ^ p`. -/
def ulpExp (p a b : Nat) : Int :=
  let s : Int := (bitLen a : Int) - (bitLen b : Int) - (p : Int)
  let ab := shiftFrac a b s
  if ab.1 < ab.2 * 2 ^ p then s else s + 1

/-- The multiple of `2 ^ e` nearest to `a / b`, as a count of units `2 ^ e`. -/
def roundAt (a b : Nat) (e : Int) : Nat :=
  rne (shiftFrac a b e).1 (shiftFrac a b e).2

/-! ## `float64` -/

/-- A `float64`: `fin neg mant exp` is `(-1) ^ neg * mant * 2 ^ exp`. The operations below
return a zero as `fin neg 0 0`, and a finite value other than zero with `mant < 2 ^ 53`,
`-1074 ≤ exp ≤ 971`, and `2 ^ 52 ≤ mant` unless `exp = -1074`. -/
inductive F64 where
  | fin (neg : Bool) (mant : Nat) (exp : Int)
  | inf (neg : Bool)
  | nan
  deriving DecidableEq, Repr

namespace F64

/-- Positive zero, the zero value of a Go `float64`. -/
def zero : F64 := .fin false 0 0

/-- The rational value of a finite float (0 for infinities and NaN). -/
def toRat : F64 → ℚ
  | .fin neg mant exp => (if neg then -1 else 1) * (mant : ℚ) * (2 : ℚ) ^ exp
  | .inf _ => 0
  | .nan => 0

/-- Round the magnitude `a / b` with sign `neg` to the nearest `float64`, ties to even,
with gradual underflow and overflow to infinity. -/
def round (neg : Bool) (a b : Nat) : F64 :=
  if a = 0 then .fin neg 0 0 else
  let e := max (ulpExp 53 a b) (-1074)
  let q := roundAt a b e
  let qe : Nat × Int := if q = 2 ^ 53 then (2 ^ 52, e + 1) else (q, e)
  if 971 < qe.2 then .inf neg else if q = 0 then .fin neg 0 0 else .fin neg qe.1 qe.2

/-- Go `x * y` on `float64`. -/
def mul : F64 → F64 → F64
  | .nan, _ => .nan
  | _, .nan => .nan
  | .inf s, .inf t => .inf (xor s t)
  | .inf s, .fin t n _ => if n = 0 then .nan else .inf (xor s t)
  | .fin s m _, .inf t => if m = 0 then .nan else .inf (xor s t)
  | .fin s m e, .fin t n k =>
    round (xor s t) (shiftFrac (m * n) 1 (-(e + k))).1 (shiftFrac (m * n) 1 (-(e + k))).2

/-- The signed integer `(-1) ^ neg * m`. -/
def signed (neg : Bool) (m : Nat) : Int := if neg then -(m : Int) else (m : Int)

/-- Go `x + y` on `float64`. -/
def add : F64 → F64 → F64
  | .nan, _ => .nan
  | _, .nan => .nan
  | .inf s, .inf t => if s = t then .inf s else .nan
  | .inf s, .fin _ _ _ => .inf s
  | .fin _ _ _, .inf t => .inf t
  | .fin s m e, .fin t n k =>
    let c := min e k
    let x : Int := signed s (m * 2 ^ (e - c).toNat) + signed t (n * 2 ^ (k - c).toNat)
    if x = 0 then .fin (s && t) 0 0
    else round (decide (x < 0)) (shiftFrac x.natAbs 1 (-c)).1 (shiftFrac x.natAbs 1 (-c)).2

/-- The fused multiply-add `x * y + z` on `float64`: the exact value of `x * y + z` is
rounded once. With finite factors an infinite `z` is the result, whatever the size of the
product; an infinite factor makes the product exact, and the result is that of the sum. -/
def fma : F64 → F64 → F64 → F64
  | .fin s m e, .fin t n k, .fin u p j =>
    let c := min (e + k) j
    let x : Int :=
      signed (xor s t) (m * n * 2 ^ (e + k - c).toNat) + signed u (p * 2 ^ (j - c).toNat)
    if x = 0 then .fin (xor s t && u) 0 0
    else round (decide (x < 0)) (shiftFrac x.natAbs 1 (-c)).1 (shiftFrac x.natAbs 1 (-c)).2
  | .fin _ _ _, .fin _ _ _, .inf u => .inf u
  | .fin _ _ _, .fin _ _ _, .nan => .nan
  | x, y, z => add (mul x y) z

/-- Go `z + x * y` on `float64`, as in `total += price * quantity`. The language lets a
build fuse the two operations, also across statements, and round once (the compiler does so
on arm64 and on amd64 at `GOAMD64=v3`); a build that does not fuse rounds the product and
then the sum. -/
def mulAdd (fused : Bool) (z x y : F64) : F64 :=
  if fused then fma x y z else add z (mul x y)

/-- Go `float64(q)` for an `int32` value `q`. -/
def ofInt (q : Int) : F64 := round (decide (q < 0)) q.natAbs 1

end F64

/-! ## `math/big.Float` -/

/-- A `big.Float` value; the precision belongs to the variable holding it and is passed to
the operations. -/
inductive BigFloat where
  | fin (neg : Bool) (mant : Nat) (exp : Int)
  | inf (neg : Bool)
  deriving DecidableEq, Repr

namespace BigFloat

/-- `big.MaxExp`. -/
def maxExp : Int := 2147483647

/-- `big.MinExp`. -/
def minExp : Int := -2147483648

/-- The rational value of a finite `big.Float` (0 for infinities). -/
def toRat : BigFloat → ℚ
  | .fin neg mant exp => (if neg then -1 else 1) * (mant : ℚ) * (2 : ℚ) ^ exp
  | .inf _ => 0

/-- Round the magnitude `a / b` with sign `neg` to `p` bits, to nearest even. The exponent
of `math/big` counts from the binary point before the mantissa, so it is `p` more than the
exponent of the last place; beyond `MaxExp` the result is an infinity, below `MinExp` a
zero. -/
def round (p : Nat) (neg : Bool) (a b : Nat) : BigFloat :=
  if a = 0 then .fin neg 0 0 else
  let e := ulpExp p a b
  let q := roundAt a b e
  let qe : Nat × Int := if q = 2 ^ p then (2 ^ (p - 1), e + 1) else (q, e)
  if maxExp < qe.2 + p then .inf neg
  else if qe.2 + p < minExp then .fin neg 0 0
  else .fin neg qe.1 qe.2

/-- `new(big.Float).SetInt(x)`: exact. -/
def ofInt (x : Int) : BigFloat := .fin (decide (x < 0)) x.natAbs 0

/-- `new(big.Float).SetFloat64(f)`: exact; panics (`none`) on NaN. -/
def ofF64 : F64 → Option BigFloat
  | .fin neg mant exp => some (.fin neg mant exp)
  | .inf neg => some (.inf neg)
  | .nan => none

/-- `new(big.Float).SetFloat64(1)`. -/
def one : BigFloat := .fin false 1 0

/-- `new(big.Float).SetFloat64(10)`. -/
def ten : BigFloat := .fin false 10 0

/-- `new(big.Float).SetFloat64(100)`. -/
def hundred : BigFloat := .fin false 100 0

/-- `z.Mul(x, y)` for `z` of precision `p`; panics (`none`) on zero times infinity. -/
def mul (p : Nat) : BigFloat → BigFloat → Option BigFloat
  | .fin s m e, .fin t n k =>
    some (round p (xor s t) (shiftFrac (m * n) 1 (-(e + k))).1 (shiftFrac (m * n) 1 (-(e + k))).2)
  | .fin s m _, .inf t => if m = 0 then none else some (.inf (xor s t))
  | .inf s, .fin t n _ => if n = 0 then none else some (.inf (xor s t))
  | .inf s, .inf t => some (.inf (xor s t))

/-- `z.Quo(x, y)` for `z` of precision `p`; panics (`none`) on 0/0 and on inf/inf. -/
def quo (p : Nat) : BigFloat → BigFloat → Option BigFloat
  | .fin s m e, .fin t n k =>
    if n = 0 then (if m = 0 then none else some (.inf (xor s t)))
    else some (round p (xor s t) (shiftFrac m n (k - e)).1 (shiftFrac m n (k - e)).2)
  | .fin s _ _, .inf t => some (.fin (xor s t) 0 0)
  | .inf s, .fin t _ _ => some (.inf (xor s t))
  | .inf _, .inf _ => none

/-- `x.Float64()`: the nearest `float64`. -/
def toF64 : BigFloat → F64
  | .fin neg mant exp => F64.round neg (shiftFrac mant 1 (-exp)).1 (shiftFrac mant 1 (-exp)).2
  | .inf neg => .inf neg

/-- `x.Text('f', 0)` read back by `new(big.Int).SetString(_, 10)`: the decimal expansion is
rounded to an integer, to nearest and ties to even; the text of an infinity does not parse
and leaves a nil `*big.Int`. -/
def textInt : BigFloat → Option Int
  | .fin neg mant exp =>
    some (F64.signed neg (roundAt mant 1 (-exp)))
  | .inf _ => none

end BigFloat

/-! ## Scaled decimals -/

/-- The fields of `pgtype.Numeric` that the service reads: the mantissa `Int` (a pointer,
possibly nil), the decimal exponent `Exp` and the flag `Valid`. -/
structure Numeric where
  int : Option Int
  exp : Int
  valid : Bool
  deriving DecidableEq, Repr

/-- The loop `scale.Mul(scale, ten)` run `k` times; `scale` and `ten` have precision 53. -/
def scaleLoop : Nat → BigFloat → Option BigFloat
  | 0, scale => some scale
  | k + 1, scale => (BigFloat.mul 53 scale BigFloat.ten).bind (scaleLoop k)

/-- The function `numericToFloat` of `product.go`; `none` is a run-time panic of `math/big`. -/
def numericToFloat (n : Numeric) : Option F64 :=
  if !n.valid then some F64.zero else
  match n.int with
  | none => some F64.zero
  | some i =>
    let prec := max (bitLen i.natAbs) 64
    let f := BigFloat.ofInt i
    if n.exp = 0 then some f.toF64
    else if 0 < n.exp then
      (scaleLoop n.exp.toNat BigFloat.one).bind fun scale =>
        (BigFloat.mul prec f scale).map BigFloat.toF64
    else
      (scaleLoop (-n.exp).toNat BigFloat.one).bind fun scale =>
        (BigFloat.quo prec f scale).map BigFloat.toF64

/-- The function `floatToNumeric` of `order.go`; `none` is the panic of `SetFloat64` on NaN.
The error result of the source is always nil and is left out. -/
def floatToNumeric (f : F64) : Option Numeric :=
  (BigFloat.ofF64 f).bind fun bf =>
    (BigFloat.mul 53 bf BigFloat.hundred).map fun scaled =>
      { int := scaled.textInt, exp := -2, valid := true }

/-- The decimal value `Int * 10 ^ Exp` of a scaled decimal (0 when the mantissa is nil). -/
def Numeric.toRat (n : Numeric) : ℚ :=
  match n.int with
  | none => 0
  | some i => (i : ℚ) * (10 : ℚ) ^ n.exp

/-! ## Errors (`domain/errors.go`) -/

/-- The sentinel errors of the domain package. -/
inductive Sentinel where
  | notFound | conflict | unauthorized | forbidden | invalidInput
  | otpExpired | otpInvalid | otpAlreadyUsed | userNotVerified
  | rateLimitExceeded | insufficientStock | emptyCart
  deriving DecidableEq, Repr

/-- A Go error value as the service builds and inspects it. -/
inductive GoError where
  /-- one of the sentinels of the domain package -/
  | sentinel (s : Sentinel)
  /-- the sentinel `pgx.ErrNoRows` -/
  | noRows
  /-- any other error without a cause, such as a failure of the store -/
  | other (text : String)
  /-- the value `&domain.AppError{Err: err, Message: message}` -/
  | app (err : GoError) (message : String)
  /-- the value `fmt.Errorf(text + ": %w", err)` -/
  | wrap (text : String) (err : GoError)
  deriving DecidableEq, Repr

/-- `errors.Is(e, s)` for a domain sentinel `s`. -/
def GoError.isSentinel : GoError → Sentinel → Bool
  | .sentinel t, s => decide (t = s)
  | .noRows, _ => false
  | .other _, _ => false
  | .app err _, s => err.isSentinel s
  | .wrap _ err, s => err.isSentinel s

/-- `errors.Is(e, pgx.ErrNoRows)`. -/
def GoError.isNoRows : GoError → Bool
  | .sentinel _ => false
  | .noRows => true
  | .other _ => false
  | .app err _ => err.isNoRows
  | .wrap _ err => err.isNoRows

/-- How a call ends when it does not return a value: with an error, or with a panic. -/
inductive Failure where
  | error (e : GoError)
  | panic
  deriving DecidableEq, Repr

/-! ## The store -/

/-- The columns of a product row that checkout reads (`db.GetProductsForOrderRow`). -/
structure Product where
  id : Nat
  name : String
  price : Numeric
  stockQuantity : Int
  deriving DecidableEq, Repr

/-- A row of the carts table. -/
structure Cart where
  id : Nat
  userID : Nat
  deriving DecidableEq, Repr

/-- A row of the cart items table. -/
structure CartItem where
  id : Nat
  cartID : Nat
  productID : Nat
  quantity : Int
  deriving DecidableEq, Repr

/-- A row of the orders table. Instants are counted in nanoseconds from the zero `time.Time`. -/
structure Order where
  id : Nat
  userID : Nat
  deliveryAddress : String
  deliveryDate : Int
  notes : Option String
  paymentMethod : String
  status : String
  totalAmount : Numeric
  createdAt : Int
  deriving DecidableEq, Repr

/-- A row of the order items table. -/
structure OrderItem where
  id : Nat
  orderID : Nat
  productID : Nat
  quantity : Int
  unitPrice : Numeric
  totalPrice : Numeric
  deriving DecidableEq, Repr

/-- The tables that checkout reads and writes. -/
structure Store where
  products : List Product
  carts : List Cart
  cartItems : List CartItem
  orders : List Order
  orderItems : List OrderItem
  deriving DecidableEq, Repr

/-- The connection pool: the committed tables and the number of transactions begun on it. -/
structure Db where
  store : Store
  txBegun : Nat
  deriving DecidableEq, Repr

/-- Which calls into the store fail, and with which error; the two loops of the transaction
are indexed by the position of the cart line. -/
structure Faults where
  getCart : Option GoError
  getCartItems : Option GoError
  begin : Option GoError
  fetchProducts : Option GoError
  createOrder : Option GoError
  createOrderItem : Nat → Option GoError
  deductStock : Nat → Option GoError
  clearCart : Option GoError
  commit : Option GoError
  getOrderItems : Option GoError

/-- No call into the store fails. -/
def Faults.none : Faults :=
  { getCart := Option.none, getCartItems := Option.none, begin := Option.none,
    fetchProducts := Option.none, createOrder := Option.none,
    createOrderItem := fun _ => Option.none, deductStock := fun _ => Option.none,
    clearCart := Option.none, commit := Option.none, getOrderItems := Option.none }

/-- What a call of `CreateOrder` takes from its surroundings: the clock, the identifiers and
the creation instant that the store generates, the failures of the store, and whether the
build fuses a multiplication and an addition of `float64` values into one operation. -/
structure Env where
  now : Int
  newOrderID : Nat
  newOrderItemID : Nat → Nat
  createdAt : Int
  orderStatus : String
  faults : Faults
  fused : Bool

/-- Modelled from the spec: the query `GetCartByUserID` of the missing package
`internal/repository/db`: the cart of the user (one per user), `pgx.ErrNoRows` when the user
has none. -/
def getCartByUserID (fault : Option GoError) (s : Store) (userID : Nat) : Except GoError Cart :=
  match fault with
  | some e => .error e
  | Option.none =>
    match s.carts.find? (fun c => c.userID = userID) with
    | some c => .ok c
    | Option.none => .error .noRows

/-- Whether the product that a cart line references is in the products table. -/
def hasProduct (s : Store) (ci : CartItem) : Bool :=
  (s.products.find? (fun p => p.id = ci.productID)).isSome

/-- Modelled from the spec: the query `GetCartItems` of the missing package
`internal/repository/db`: the line items of the cart, each joined with its product (the row
carries the name, the price and the image of the product, see `getCartItemRows`), so a line
whose product is not in the products table has no row. -/
def getCartItems (fault : Option GoError) (s : Store) (cartID : Nat) :
    Except GoError (List CartItem) :=
  match fault with
  | some e => .error e
  | Option.none =>
    .ok ((s.cartItems.filter (fun ci => ci.cartID = cartID)).filter (hasProduct s))

/-- Modelled from the spec: the query `GetProductsForOrder` of the missing package
`internal/repository/db`: the products whose id is among the given ids, read with a row
lock. -/
def getProductsForOrder (fault : Option GoError) (s : Store) (productIDs : List Nat) :
    Except GoError (List Product) :=
  match fault with
  | some e => .error e
  | Option.none => .ok (s.products.filter (fun p => p.id ∈ productIDs))

/-- Modelled from the spec: the query `CreateOrder` of the missing package
`internal/repository/db`: insert the order row and return it. -/
def insertOrder (s : Store) (o : Order) : Store := { s with orders := s.orders ++ [o] }

/-- Modelled from the spec: the query `CreateOrderItem` of the missing package
`internal/repository/db`: insert the order item row. -/
def insertOrderItem (s : Store) (oi : OrderItem) : Store :=
  { s with orderItems := s.orderItems ++ [oi] }

/-- Modelled from the spec: the query `DeductProductStock` of the missing package
`internal/repository/db`, a conditional decrement: the stock of the product is lowered by the
quantity when it is at least the quantity, and no row changes otherwise. -/
def deductProductStock (s : Store) (productID : Nat) (quantity : Int) : Store :=
  { s with products := s.products.map fun p =>
      if p.id = productID ∧ quantity ≤ p.stockQuantity then
        { p with stockQuantity := p.stockQuantity - quantity }
      else p }

/-- Modelled from the spec: the query `ClearCart` of the missing package
`internal/repository/db`: delete the line items of the cart. -/
def clearCart (s : Store) (cartID : Nat) : Store :=
  { s with cartItems := s.cartItems.filter (fun ci => ¬ ci.cartID = cartID) }

/-- Modelled from the spec: the query `GetOrderItems` of the missing package
`internal/repository/db`: the items of the order. -/
def getOrderItems (fault : Option GoError) (s : Store) (orderID : Nat) :
    Except GoError (List OrderItem) :=
  match fault with
  | some e => .error e
  | Option.none => .ok (s.orderItems.filter (fun oi => oi.orderID = orderID))

/-! ## Checkout (`service/order.go`) -/

/-- The input of `CreateOrder`; the delivery date is an instant in nanoseconds from the zero
`time.Time`, so that `IsZero` is `= 0` and `Before` is `<`. -/
structure CreateOrderInput where
  userID : Nat
  deliveryAddress : String
  deliveryDate : Int
  notes : String
  paymentMethod : String
  deriving DecidableEq, Repr

/-- An item of the response (without the product name and image, which come from a join). -/
structure OrderItemResponse where
  id : Nat
  productID : Nat
  quantity : Int
  unitPrice : F64
  totalPrice : F64
  deriving DecidableEq, Repr

/-- The response of `CreateOrder`. -/
structure OrderResponse where
  id : Nat
  deliveryAddress : String
  deliveryDate : Int
  notes : Option String
  paymentMethod : String
  status : String
  totalAmount : F64
  items : List OrderItemResponse
  createdAt : Int
  deriving DecidableEq, Repr

/-- The function `validateOrderInput`, with the value `now` of `time.Now()`. -/
def validateOrderInput (now : Int) (i : CreateOrderInput) : Option GoError :=
  if i.deliveryAddress = "" then
    some (.app (.sentinel .invalidInput) "delivery address is required")
  else if i.deliveryDate = 0 ∨ i.deliveryDate < now then
    some (.app (.sentinel .invalidInput) "delivery date must be in the future")
  else Option.none

/-- The map built by `productMap[p.ID] = p` over the fetched products. -/
def productMap (products : List Product) : Nat → Option Product :=
  products.foldl (fun m p => fun k => if k = p.id then some p else m k) (fun _ => Option.none)

/-- The zero value of the product row, which a Go map returns for a missing key. -/
def zeroProduct : Product :=
  { id := 0, name := "", price := { int := Option.none, exp := 0, valid := false },
    stockQuantity := 0 }

/-- The loop "validate stock" of `CreateOrder`. -/
def validateStock (pm : Nat → Option Product) : List CartItem → Option GoError
  | [] => Option.none
  | ci :: rest =>
    match pm ci.productID with
    | Option.none => some (.other ("product " ++ toString ci.productID ++ " not found"))
    | some p =>
      if p.stockQuantity < ci.quantity then
        some (.app (.sentinel .insufficientStock) ("not enough stock for '" ++ p.name ++ "'"))
      else validateStock pm rest

/-- The loop "compute total" of `CreateOrder`, from the running `totalAmount`; the step
`totalAmount += price * float64(ci.Quantity)` is one fused operation on a build that
fuses. -/
def computeTotal (fused : Bool) (pm : Nat → Option Product) : List CartItem → F64 → Option F64
  | [], totalAmount => some totalAmount
  | ci :: rest, totalAmount =>
    match numericToFloat ((pm ci.productID).getD zeroProduct).price with
    | Option.none => Option.none
    | some price =>
      computeTotal fused pm rest (F64.mulAdd fused totalAmount price (F64.ofInt ci.quantity))

/-- The loop "create order items and deduct stock" of `CreateOrder`, from line number `k`. -/
def createItems (env : Env) (orderID : Nat) (pm : Nat → Option Product) :
    Nat → List CartItem → Store → Except Failure Store
  | _, [], s => .ok s
  | k, ci :: rest, s =>
    match numericToFloat ((pm ci.productID).getD zeroProduct).price with
    | Option.none => .error .panic
    | some unitPrice =>
      match floatToNumeric unitPrice with
      | Option.none => .error .panic
      | some unitPriceNumeric =>
        match floatToNumeric (F64.mul unitPrice (F64.ofInt ci.quantity)) with
        | Option.none => .error .panic
        | some totalPriceNumeric =>
          match env.faults.createOrderItem k with
          | some e => .error (.error (.wrap "create order item" e))
          | Option.none =>
            match env.faults.deductStock k with
            | some e => .error (.error (.wrap "deduct stock" e))
            | Option.none =>
              createItems env orderID pm (k + 1) rest
                (deductProductStock
                  (insertOrderItem s
                    { id := env.newOrderItemID k, orderID := orderID, productID := ci.productID,
                      quantity := ci.quantity, unitPrice := unitPriceNumeric,
                      totalPrice := totalPriceNumeric })
                  ci.productID ci.quantity)

/-- The function passed to `pgx.BeginTxFunc` by `CreateOrder`, run on the tables as the
transaction sees them. -/
def checkoutTx (env : Env) (i : CreateOrderInput) (cart : Cart) (cartItems : List CartItem)
    (s : Store) : Except Failure (Order × Store) :=
  match getProductsForOrder env.faults.fetchProducts s (cartItems.map fun ci => ci.productID) with
  | .error e => .error (.error (.wrap "fetch products" e))
  | .ok products =>
    match validateStock (productMap products) cartItems with
    | some e => .error (.error e)
    | Option.none =>
      match computeTotal env.fused (productMap products) cartItems F64.zero with
      | Option.none => .error .panic
      | some totalAmount =>
        match floatToNumeric totalAmount with
        | Option.none => .error .panic
        | some totalNumeric =>
          match env.faults.createOrder with
          | some e => .error (.error (.wrap "create order" e))
          | Option.none =>
            let order : Order :=
              { id := env.newOrderID, userID := i.userID, deliveryAddress := i.deliveryAddress,
                deliveryDate := i.deliveryDate,
                notes := if i.notes = "" then Option.none else some i.notes,
                paymentMethod :=
                  if i.paymentMethod = "" then "cash_on_delivery" else i.paymentMethod,
                status := env.orderStatus, totalAmount := totalNumeric,
                createdAt := env.createdAt }
            match createItems env order.id (productMap products) 0 cartItems
                (insertOrder s order) with
            | .error f => .error f
            | .ok s2 =>
              match env.faults.clearCart with
              | some e => .error (.error (.wrap "clear cart" e))
              | Option.none => .ok (order, clearCart s2 cart.id)

/-- The function `pgx.BeginTxFunc`: begin a transaction, run `fn` in it, commit when `fn`
returns without error, and roll back when it returns an error or panics or when the commit
fails. -/
def beginTxFunc {α : Type} (faults : Faults) (db : Db)
    (fn : Store → Except Failure (α × Store)) : Except Failure α × Db :=
  match faults.begin with
  | some e => (.error (.error e), db)
  | Option.none =>
    match fn db.store with
    | .error f => (.error f, { db with txBegun := db.txBegun + 1 })
    | .ok (a, s) =>
      match faults.commit with
      | some e => (.error (.error e), { db with txBegun := db.txBegun + 1 })
      | Option.none => (.ok a, { store := s, txBegun := db.txBegun + 1 })

/-- The function `mapOrderResponse`; `none` is a panic of a conversion. -/
def mapOrderResponse (o : Order) (items : List OrderItem) : Option OrderResponse :=
  (numericToFloat o.totalAmount).bind fun totalAmount =>
    (items.mapM fun item =>
      (numericToFloat item.unitPrice).bind fun unitPrice =>
        (numericToFloat item.totalPrice).map fun totalPrice =>
          ({ id := item.id, productID := item.productID, quantity := item.quantity,
             unitPrice := unitPrice, totalPrice := totalPrice } : OrderItemResponse)).map
      fun items =>
        { id := o.id, deliveryAddress := o.deliveryAddress, deliveryDate := o.deliveryDate,
          notes := o.notes, paymentMethod := o.paymentMethod, status := o.status,
          totalAmount := totalAmount, items := items, createdAt := o.createdAt }

/-- The method `OrderService.CreateOrder`: the result and the pool after the call. -/
def CreateOrder (env : Env) (db : Db) (i : CreateOrderInput) :
    Except Failure OrderResponse × Db :=
  match validateOrderInput env.now i with
  | some e => (.error (.error e), db)
  | Option.none =>
    match getCartByUserID env.faults.getCart db.store i.userID with
    | .error e =>
      if e.isNoRows then (.error (.error (.sentinel .emptyCart)), db)
      else (.error (.error (.wrap "get cart" e)), db)
    | .ok cart =>
      match getCartItems env.faults.getCartItems db.store cart.id with
      | .error e => (.error (.error (.wrap "get cart items" e)), db)
      | .ok cartItems =>
        if cartItems.length = 0 then (.error (.error (.sentinel .emptyCart)), db)
        else
          match beginTxFunc env.faults db (checkoutTx env i cart cartItems) with
          | (.error f, db1) => (.error f, db1)
          | (.ok order, db1) =>
            match getOrderItems env.faults.getOrderItems db1.store order.id with
            | .error e => (.error (.error (.wrap "get order items" e)), db1)
            | .ok orderItems =>
              match mapOrderResponse order orderItems with
              | Option.none => (.error .panic, db1)
              | some r => (.ok r, db1)

/-! ## Reading orders (`service/order.go`) -/

/-- Which of the two queries of `GetOrder` fail, and with which error. -/
structure GetOrderFaults where
  getOrderByID : Option GoError
  getOrderItems : Option GoError

/-- Modelled from the spec: the query `GetOrderByID` of the missing package
`internal/repository/db`, whose predicate holds both the order id and the user id: the order
with that id that belongs to that user, `pgx.ErrNoRows` when there is none. -/
def getOrderByID (fault : Option GoError) (s : Store) (id userID : Nat) : Except GoError Order :=
  match fault with
  | some e => .error e
  | Option.none =>
    match s.orders.find? (fun o => o.id = id ∧ o.userID = userID) with
    | some o => .ok o
    | Option.none => .error .noRows

/-- The method `OrderService.GetOrder`; `parseUUID` is `uuid.Parse`, which gives no value for
a malformed identifier. -/
def GetOrder (parseUUID : String → Option Nat) (faults : GetOrderFaults) (s : Store)
    (userID : Nat) (orderID : String) : Except Failure OrderResponse :=
  match parseUUID orderID with
  | Option.none => .error (.error (.app (.sentinel .invalidInput) "invalid order id"))
  | some oid =>
    match getOrderByID faults.getOrderByID s oid userID with
    | .error e =>
      if e.isNoRows then .error (.error (.sentinel .notFound))
      else .error (.error (.wrap "get order" e))
    | .ok order =>
      match getOrderItems faults.getOrderItems s order.id with
      | .error e => .error (.error (.wrap "get order items" e))
      | .ok items =>
        match mapOrderResponse order items with
        | Option.none => .error .panic
        | some r => .ok r

/-- The conversion `int32(x)` of a Go `int`: the low 32 bits, read as a signed number. -/
def toInt32 (x : Int) : Int := (x + 2147483648) % 4294967296 - 2147483648

/-- A Go `int` result on a 64-bit platform: the low 64 bits, read as a signed number. -/
def toInt64 (x : Int) : Int :=
  (x + 9223372036854775808) % 18446744073709551616 - 9223372036854775808

/-- The queries of `ListOrders`, taken as they answer: `ListOrdersByUserID` (user, limit,
offset), `CountOrdersByUserID` and `GetOrderItems`. -/
structure ListOrdersQueries where
  listOrdersByUserID : Nat → Int → Int → Except GoError (List Order)
  countOrdersByUserID : Nat → Except GoError Int
  getOrderItems : Nat → Except GoError (List OrderItem)

/-- The value `ListOrdersOutput`. -/
structure ListOrdersOutput where
  orders : List OrderResponse
  total : Int
  page : Int
  limit : Int
  totalPages : Int
  deriving DecidableEq, Repr

/-- The loop of `ListOrders` over the fetched orders. -/
def listOrderResponses (q : ListOrdersQueries) : List Order → Except Failure (List OrderResponse)
  | [] => .ok []
  | o :: rest =>
    match q.getOrderItems o.id with
    | .error e => .error (.error (.wrap "get order items" e))
    | .ok items =>
      match mapOrderResponse o items with
      | Option.none => .error .panic
      | some r =>
        match listOrderResponses q rest with
        | .error f => .error f
        | .ok rs => .ok (r :: rs)

/-- The method `OrderService.ListOrders`; `page` and `limit` are Go `int` values, the
quotient and the remainder are those of Go (towards zero). -/
def ListOrders (q : ListOrdersQueries) (userID : Nat) (page limit : Int) :
    Except Failure ListOrdersOutput :=
  let page := if page < 1 then 1 else page
  let limit := if limit < 1 ∨ limit > 50 then 10 else limit
  let offset := toInt32 (toInt64 ((page - 1) * limit))
  match q.listOrdersByUserID userID (toInt32 limit) offset with
  | .error e => .error (.error (.wrap "list orders" e))
  | .ok orders =>
    match q.countOrdersByUserID userID with
    | .error e => .error (.error (.wrap "count orders" e))
    | .ok total =>
      match listOrderResponses q orders with
      | .error f => .error f
      | .ok responses =>
        let totalPages := Int.tdiv total limit
        let totalPages := if Int.tmod total limit > 0 then totalPages + 1 else totalPages
        .ok { orders := responses, total := total, page := page, limit := limit,
              totalPages := totalPages }

/-! ## Listing products (`service/product.go`) -/

/-- The row `db.ListProductsRow`. -/
structure ListProductsRow where
  id : Nat
  categoryID : Option Nat
  categoryName : Option String
  categorySlug : Option String
  name : String
  description : Option String
  price : Numeric
  imageURL : Option String
  stockQuantity : Int
  isActive : Bool
  deriving DecidableEq, Repr

/-- The value `ProductResponse`. -/
structure ProductResponse where
  id : Nat
  categoryID : Option Nat
  categoryName : Option String
  categorySlug : Option String
  name : String
  description : Option String
  price : F64
  imageURL : Option String
  stockQuantity : Int
  isActive : Bool
  deriving DecidableEq, Repr

/-- The function `mapListProductRow`; `none` is a panic of the price conversion. -/
def mapListProductRow (r : ListProductsRow) : Option ProductResponse :=
  (numericToFloat r.price).map fun price =>
    { id := r.id, categoryID := r.categoryID, categoryName := r.categoryName,
      categorySlug := r.categorySlug, name := r.name, description := r.description,
      price := price, imageURL := r.imageURL, stockQuantity := r.stockQuantity,
      isActive := r.isActive }

/-- The value `ListProductsInput`. -/
structure ListProductsInput where
  categoryID : Option String
  sortBy : String
  page : Int
  limit : Int
  deriving DecidableEq, Repr

/-- The value `ListProductsOutput`. -/
structure ListProductsOutput where
  products : List ProductResponse
  total : Int
  page : Int
  limit : Int
  totalPages : Int
  deriving DecidableEq, Repr

/-- The queries of the product list, taken as they answer: `ListProducts` (category, sort
key, limit, offset) and `CountProducts` (category). -/
structure ListProductsQueries where
  listProducts : Option Nat → Option String → Int → Int → Except GoError (List ListProductsRow)
  countProducts : Option Nat → Except GoError Int

/-- The method `ProductService.List`; `parseUUID` is `uuid.Parse`. -/
def ProductService.List (parseUUID : String → Option Nat) (q : ListProductsQueries)
    (i : ListProductsInput) : Except Failure ListProductsOutput :=
  let page := if i.page < 1 then 1 else i.page
  let limit := if i.limit < 1 ∨ i.limit > 100 then 20 else i.limit
  let catID : Except Failure (Option Nat) :=
    match i.categoryID with
    | Option.none => .ok Option.none
    | some c =>
      if c = "" then .ok Option.none
      else
        match parseUUID c with
        | Option.none => .error (.error (.app (.sentinel .invalidInput) "invalid category_id"))
        | some id => .ok (some id)
  match catID with
  | .error f => .error f
  | .ok catID =>
    let sortBy : Option String :=
      if i.sortBy = "price_asc" ∨ i.sortBy = "price_desc" then some i.sortBy else Option.none
    let offset := toInt32 (toInt64 ((page - 1) * limit))
    match q.listProducts catID sortBy (toInt32 limit) offset with
    | .error e => .error (.error (.wrap "list products" e))
    | .ok rows =>
      match q.countProducts catID with
      | .error e => .error (.error (.wrap "count products" e))
      | .ok total =>
        match rows.mapM mapListProductRow with
        | Option.none => .error .panic
        | some products =>
          let totalPages := Int.tdiv total limit
          let totalPages := if Int.tmod total limit > 0 then totalPages + 1 else totalPages
          .ok { products := products, total := total, page := page, limit := limit,
                totalPages := totalPages }

/-- The function `queryInt` of the handlers once the text is scanned: `scanned` is the
number that `fmt.Sscanf(s, "%d", &n)` reads from a text that is not empty, if it reads
one. -/
def queryInt (s : String) (scanned : Option Int) (defaultVal : Int) : Int :=
  if s = "" then defaultVal
  else
    match scanned with
    | Option.none => defaultVal
    | some n => if n < 1 then defaultVal else n

/-! ## Errors at the boundary (`handler/response.go`) -/

/-- The text of a sentinel of the domain package. -/
def Sentinel.text : Sentinel → String
  | .notFound => "resource not found"
  | .conflict => "resource already exists"
  | .unauthorized => "unauthorized"
  | .forbidden => "forbidden"
  | .invalidInput => "invalid input"
  | .otpExpired => "OTP has expired"
  | .otpInvalid => "OTP is invalid"
  | .otpAlreadyUsed => "OTP has already been used"
  | .userNotVerified => "user account is not verified"
  | .rateLimitExceeded => "rate limit exceeded, please try again later"
  | .insufficientStock => "insufficient stock for one or more items"
  | .emptyCart => "cart is empty"

/-- The method `Error()` of an error value. -/
def GoError.text : GoError → String
  | .sentinel s => s.text
  | .noRows => "no rows in result set"
  | .other text => text
  | .app err message => if message = "" then err.text else message
  | .wrap text err => text ++ ": " ++ err.text

/-- `errors.As(err, &appErr)`: the fields `Err` and `Message` of the first `*domain.AppError`
of the chain, if there is one. -/
def GoError.asAppError : GoError → Option (GoError × String)
  | .sentinel _ => Option.none
  | .noRows => Option.none
  | .other _ => Option.none
  | .app err message => some (err, message)
  | .wrap _ err => err.asAppError

/-- The function `resolveError`: the HTTP status and the message for an error. -/
def resolveError (err : GoError) : Nat × String :=
  let appErr := err.asAppError
  let err := match appErr with
    | some (inner, _) => inner
    | Option.none => err
  let msg := err.text
  let msg := match appErr with
    | some (_, message) => if message = "" then msg else message
    | Option.none => msg
  if err.isSentinel .notFound then (404, msg)
  else if err.isSentinel .conflict then (409, msg)
  else if err.isSentinel .unauthorized then (401, msg)
  else if err.isSentinel .forbidden then (403, msg)
  else if err.isSentinel .invalidInput then (400, msg)
  else if err.isSentinel .otpExpired || err.isSentinel .otpInvalid
      || err.isSentinel .otpAlreadyUsed then (422, msg)
  else if err.isSentinel .rateLimitExceeded then (429, msg)
  else if err.isSentinel .insufficientStock then (409, msg)
  else if err.isSentinel .emptyCart then (400, msg)
  else (500, "an internal error occurred")

/-! ## Accounts and one-time codes (`service/auth.go`) -/

/-- The constant `otpLength`. -/
def otpLength : Nat := 6

/-- The constant `maxOTPAttempts`. -/
def maxOTPAttempts : Int := 5

/-- The constant `maxOTPPerHour`. -/
def maxOTPPerHour : Int := 3

/-- The duration `time.Hour`, in nanoseconds. -/
def hour : Int := 3600000000000

/-- The duration `5 * time.Minute`, in nanoseconds. -/
def otpLifetime : Int := 300000000000

/-- A row of the users table (`db.User`). -/
structure User where
  id : Nat
  firstName : String
  lastName : String
  phoneNumber : String
  emailAddress : String
  isVerified : Bool
  deriving DecidableEq, Repr

/-- A row of the table of one-time codes. Instants are counted in nanoseconds. -/
structure Otp where
  id : Nat
  userID : Nat
  otpHash : String
  expiresAt : Int
  isUsed : Bool
  attemptCount : Int
  createdAt : Int
  deriving DecidableEq, Repr

/-- A call `SendOTP(to, firstName, otp)` of the email sender. -/
structure SentMail where
  recipient : String
  firstName : String
  otp : String
  deriving DecidableEq, Repr

/-- What the authentication service reads and writes: the two tables, in the order in which
the rows were inserted, and the messages handed to the email sender. -/
structure AuthStore where
  users : List User
  otps : List Otp
  outbox : List SentMail
  deriving DecidableEq, Repr

/-- Which queries of the authentication service fail, and with which error. -/
structure AuthFaults where
  getUserByEmail : Option GoError
  getUserByPhone : Option GoError
  createUser : Option GoError
  getLatestOTP : Option GoError
  incrementOTPAttempts : Option GoError
  markOTPUsed : Option GoError
  markUserVerified : Option GoError
  countRecentOTPs : Option GoError
  invalidateUserOTPs : Option GoError
  createOTP : Option GoError

/-- No query fails. -/
def AuthFaults.none : AuthFaults :=
  { getUserByEmail := Option.none, getUserByPhone := Option.none, createUser := Option.none,
    getLatestOTP := Option.none, incrementOTPAttempts := Option.none,
    markOTPUsed := Option.none, markUserVerified := Option.none,
    countRecentOTPs := Option.none, invalidateUserOTPs := Option.none,
    createOTP := Option.none }

/-- What a call of the authentication service takes from its surroundings: the clock (one
instant for the whole call), `strings.ToLower`, the outcome of
`bcrypt.CompareHashAndPassword(hash, candidate)` (true when it returns nil), the draws of
`rand.Int(rand.Reader, 10)` by position, `bcrypt.GenerateFromPassword`, the signing of a
token for a subject with its issue and expiry seconds, the lifetime of a token, the answer
of the email sender, the identifiers that the store generates, and the failures of the
store. -/
structure AuthEnv where
  now : Int
  toLower : String → String
  compareHash : String → String → Bool
  random : Nat → Except GoError (Fin 10)
  generateHash : String → Except GoError String
  signToken : Nat → Int → Int → Except GoError String
  accessTokenTTL : Int
  sendMail : SentMail → Option GoError
  newUserID : Nat
  newOtpID : Nat
  faults : AuthFaults

/-- Modelled from the spec: the query `GetUserByEmail` of the missing package
`internal/repository/db`: the user with that email address, `pgx.ErrNoRows` when there is
none. -/
def getUserByEmail (fault : Option GoError) (s : AuthStore) (email : String) :
    Except GoError User :=
  match fault with
  | some e => .error e
  | Option.none =>
    match s.users.find? (fun u => u.emailAddress = email) with
    | some u => .ok u
    | Option.none => .error .noRows

/-- Modelled from the spec: the query `GetUserByPhone` of the missing package
`internal/repository/db`: the user with that phone number, `pgx.ErrNoRows` when there is
none. -/
def getUserByPhone (fault : Option GoError) (s : AuthStore) (phone : String) :
    Except GoError User :=
  match fault with
  | some e => .error e
  | Option.none =>
    match s.users.find? (fun u => u.phoneNumber = phone) with
    | some u => .ok u
    | Option.none => .error .noRows

/-- Modelled from the spec: the query `CreateUser` of the missing package
`internal/repository/db`: insert an unverified user and return the row. -/
def createUser (fault : Option GoError) (s : AuthStore) (u : User) :
    Except GoError (User × AuthStore) :=
  match fault with
  | some e => .error e
  | Option.none => .ok (u, { s with users := s.users ++ [u] })

/-- Modelled from the spec: the query `GetLatestOTPByUserID` of the missing package
`internal/repository/db`: the code issued last to the user, `pgx.ErrNoRows` when the user
has none. -/
def getLatestOTPByUserID (fault : Option GoError) (s : AuthStore) (userID : Nat) :
    Except GoError Otp :=
  match fault with
  | some e => .error e
  | Option.none =>
    match (s.otps.filter (fun o => o.userID = userID)).getLast? with
    | some o => .ok o
    | Option.none => .error .noRows

/-- Modelled from the spec: the query `IncrementOTPAttempts` of the missing package
`internal/repository/db`: the attempt counter of the code goes up by one. -/
def incrementOTPAttempts (fault : Option GoError) (s : AuthStore) (otpID : Nat) :
    Except GoError AuthStore :=
  match fault with
  | some e => .error e
  | Option.none =>
    .ok { s with otps := s.otps.map fun o =>
            if o.id = otpID then { o with attemptCount := o.attemptCount + 1 } else o }

/-- Modelled from the spec: the query `MarkOTPUsed` of the missing package
`internal/repository/db`: the code is marked used. -/
def markOTPUsed (fault : Option GoError) (s : AuthStore) (otpID : Nat) :
    Except GoError AuthStore :=
  match fault with
  | some e => .error e
  | Option.none =>
    .ok { s with otps := s.otps.map fun o =>
            if o.id = otpID then { o with isUsed := true } else o }

/-- Modelled from the spec: the query `MarkUserVerified` of the missing package
`internal/repository/db`: the user is marked verified and the row is returned,
`pgx.ErrNoRows` when there is no such user. -/
def markUserVerified (fault : Option GoError) (s : AuthStore) (userID : Nat) :
    Except GoError (User × AuthStore) :=
  match fault with
  | some e => .error e
  | Option.none =>
    match s.users.find? (fun u => u.id = userID) with
    | Option.none => .error .noRows
    | some u =>
      .ok ({ u with isVerified := true },
           { s with users := s.users.map fun v =>
               if v.id = userID then { v with isVerified := true } else v })

/-- Modelled from the spec: the query `CountRecentOTPsByUserID` of the missing package
`internal/repository/db`: the number of codes issued to the user within the past rolling
hour. -/
def countRecentOTPsByUserID (fault : Option GoError) (now : Int) (s : AuthStore)
    (userID : Nat) : Except GoError Int :=
  match fault with
  | some e => .error e
  | Option.none =>
    .ok ((s.otps.filter fun o => o.userID = userID ∧ now - hour < o.createdAt).length : Int)

/-- Modelled from the spec: the query `InvalidateUserOTPs` of the missing package
`internal/repository/db`: every code of the user is marked used. -/
def invalidateUserOTPs (fault : Option GoError) (s : AuthStore) (userID : Nat) :
    Except GoError AuthStore :=
  match fault with
  | some e => .error e
  | Option.none =>
    .ok { s with otps := s.otps.map fun o =>
            if o.userID = userID then { o with isUsed := true } else o }

/-- Modelled from the spec: the query `CreateOTP` of the missing package
`internal/repository/db`: insert a fresh code, unused and with no attempt. -/
def createOTP (fault : Option GoError) (s : AuthStore) (o : Otp) : Except GoError AuthStore :=
  match fault with
  | some e => .error e
  | Option.none => .ok { s with otps := s.otps ++ [o] }

/-- The loop of `generateOTP` from position `i` with `k` bytes left to fill. -/
def generateOTPLoop (random : Nat → Except GoError (Fin 10)) :
    Nat → Nat → List Char → Except GoError (List Char)
  | 0, _, digits => .ok digits
  | k + 1, i, digits =>
    match random i with
    | .error e => .error e
    | .ok n => generateOTPLoop random k (i + 1) (digits ++ [Char.ofNat (48 + n.val)])

/-- The function `generateOTP` for a length that is not negative. -/
def generateOTP (random : Nat → Except GoError (Fin 10)) (length : Nat) :
    Except GoError String :=
  match generateOTPLoop random length 0 [] with
  | .error e => .error e
  | .ok digits => .ok (String.mk digits)

/-- The method `generateJWT`: the claims are the subject, the issue second and the expiry
second. -/
def generateJWT (env : AuthEnv) (userID : Nat) : Except GoError String :=
  env.signToken userID (env.now / 1000000000) ((env.now + env.accessTokenTTL) / 1000000000)

/-- The method `sendOTP`: the error, if any, and the tables afterwards. -/
def sendOTP (env : AuthEnv) (s : AuthStore) (user : User) : Except GoError Unit × AuthStore :=
  match countRecentOTPsByUserID env.faults.countRecentOTPs env.now s user.id with
  | .error e => (.error (.wrap "count otps" e), s)
  | .ok count =>
    if count ≥ maxOTPPerHour then (.error (.sentinel .rateLimitExceeded), s)
    else
      match invalidateUserOTPs env.faults.invalidateUserOTPs s user.id with
      | .error e => (.error (.wrap "invalidate otps" e), s)
      | .ok s1 =>
        match generateOTP env.random otpLength with
        | .error e => (.error (.wrap "generate otp" e), s1)
        | .ok rawOTP =>
          match env.generateHash rawOTP with
          | .error e => (.error (.wrap "hash otp" e), s1)
          | .ok hash =>
            match createOTP env.faults.createOTP s1
                { id := env.newOtpID, userID := user.id, otpHash := hash,
                  expiresAt := env.now + otpLifetime, isUsed := false, attemptCount := 0,
                  createdAt := env.now } with
            | .error e => (.error (.wrap "store otp" e), s1)
            | .ok s2 =>
              let mail : SentMail :=
                { recipient := user.emailAddress, firstName := user.firstName, otp := rawOTP }
              match env.sendMail mail with
              | some e => (.error e, { s2 with outbox := s2.outbox ++ [mail] })
              | Option.none => (.ok (), { s2 with outbox := s2.outbox ++ [mail] })

/-- The value `VerifyOTPInput`. -/
structure VerifyOTPInput where
  email : String
  otp : String
  deriving DecidableEq, Repr

/-- The value `AuthResult`. -/
structure AuthResult where
  token : String
  user : User
  deriving DecidableEq, Repr

/-- The method `AuthService.VerifyOTP`: the result and the tables afterwards. -/
def VerifyOTP (env : AuthEnv) (s : AuthStore) (i : VerifyOTPInput) :
    Except GoError AuthResult × AuthStore :=
  match getUserByEmail env.faults.getUserByEmail s (env.toLower i.email) with
  | .error e =>
    if e.isNoRows then
      (.error (.app (.sentinel .notFound) "no account found with this email"), s)
    else (.error (.wrap "get user" e), s)
  | .ok user =>
    match getLatestOTPByUserID env.faults.getLatestOTP s user.id with
    | .error e =>
      if e.isNoRows then
        (.error (.app (.sentinel .otpInvalid) "no OTP found, please request a new one"), s)
      else (.error (.wrap "get otp" e), s)
    | .ok otp =>
      if otp.isUsed then (.error (.sentinel .otpAlreadyUsed), s)
      else if env.now > otp.expiresAt then (.error (.sentinel .otpExpired), s)
      else if otp.attemptCount ≥ maxOTPAttempts then
        (.error (.app (.sentinel .otpInvalid)
          "too many failed attempts, please request a new OTP"), s)
      else if !env.compareHash otp.otpHash i.otp then
        match incrementOTPAttempts env.faults.incrementOTPAttempts s otp.id with
        | .error e => (.error (.wrap "increment otp attempts" e), s)
        | .ok s1 => (.error (.sentinel .otpInvalid), s1)
      else
        match markOTPUsed env.faults.markOTPUsed s otp.id with
        | .error e => (.error (.wrap "mark otp used" e), s)
        | .ok s1 =>
          match markUserVerified env.faults.markUserVerified s1 user.id with
          | .error e => (.error (.wrap "mark user verified" e), s1)
          | .ok (verifiedUser, s2) =>
            match generateJWT env verifiedUser.id with
            | .error e => (.error (.wrap "generate jwt" e), s2)
            | .ok token => (.ok { token := token, user := verifiedUser }, s2)

/-- The method `AuthService.ResendOTP`. -/
def ResendOTP (env : AuthEnv) (s : AuthStore) (email : String) :
    Except GoError Unit × AuthStore :=
  match getUserByEmail env.faults.getUserByEmail s (env.toLower email) with
  | .error e =>
    if e.isNoRows then
      (.error (.app (.sentinel .notFound) "no account found with this email"), s)
    else (.error (.wrap "get user" e), s)
  | .ok user =>
    if user.isVerified then
      (.error (.app (.sentinel .conflict) "account is already verified"), s)
    else sendOTP env s user

/-- The function `unicode.IsSpace`. -/
def isSpace (c : Char) : Bool :=
  c.toNat ∈ [0x09, 0x0A, 0x0B, 0x0C, 0x0D, 0x20, 0x85, 0xA0, 0x1680, 0x2000, 0x2001, 0x2002,
    0x2003, 0x2004, 0x2005, 0x2006, 0x2007, 0x2008, 0x2009, 0x200A, 0x2028, 0x2029, 0x202F,
    0x205F, 0x3000]

/-- The function `strings.TrimSpace`. -/
def trimSpace (s : String) : String :=
  String.mk ((s.data.dropWhile isSpace).reverse.dropWhile isSpace).reverse

/-- The class `[a-zA-Z0-9._%+\-]`. -/
def emailLocalChar (c : Char) : Bool :=
  c.isAlphanum || c = '.' || c = '_' || c = '%' || c = '+' || c = '-'

/-- The class `[a-zA-Z0-9.\-]`. -/
def emailDomainChar (c : Char) : Bool := c.isAlphanum || c = '.' || c = '-'

/-- Whether `emailRegex` matches: the text before the first `@` is a run of the first
class that is not empty, and what follows splits at its last `.` into a run of the second
class that is not empty and at least two letters. -/
def emailRegexMatch (s : String) : Bool :=
  let name := s.data.takeWhile (fun c => c ≠ '@')
  match s.data.dropWhile (fun c => c ≠ '@') with
  | [] => false
  | _ :: rest =>
    let tld := (rest.reverse.takeWhile (fun c => c ≠ '.')).reverse
    match rest.reverse.dropWhile (fun c => c ≠ '.') with
    | [] => false
    | _ :: domainRev =>
      !name.isEmpty && name.all emailLocalChar && !domainRev.isEmpty
        && domainRev.all emailDomainChar && decide (2 ≤ tld.length) && tld.all Char.isAlpha

/-- Whether `phoneRegex` matches: an optional `+`, a digit from 1 to 9, then 7 to 14
digits. -/
def phoneRegexMatch (s : String) : Bool :=
  let digits := match s.data with
    | '+' :: rest => rest
    | cs => cs
  match digits with
  | [] => false
  | d :: rest =>
    decide ('1' ≤ d ∧ d ≤ '9') && rest.all Char.isDigit && decide (7 ≤ rest.length)
      && decide (rest.length ≤ 14)

/-- The value `RegisterInput`. -/
structure RegisterInput where
  firstName : String
  lastName : String
  phoneNumber : String
  email : String
  deriving DecidableEq, Repr

/-- The function `validateRegisterInput`; the trimmed texts are local to it. -/
def validateRegisterInput (i : RegisterInput) : Option GoError :=
  let email := trimSpace i.email
  let phoneNumber := trimSpace i.phoneNumber
  let firstName := trimSpace i.firstName
  let lastName := trimSpace i.lastName
  if firstName = "" ∨ lastName = "" then
    some (.app (.sentinel .invalidInput) "first name and last name are required")
  else if !emailRegexMatch email then
    some (.app (.sentinel .invalidInput) "invalid email address")
  else if !phoneRegexMatch phoneNumber then
    some (.app (.sentinel .invalidInput) "invalid phone number format (e.g. +1234567890)")
  else Option.none

/-- The method `AuthService.Register`. -/
def Register (env : AuthEnv) (s : AuthStore) (i : RegisterInput) :
    Except GoError Unit × AuthStore :=
  match validateRegisterInput i with
  | some e => (.error e, s)
  | Option.none =>
    match getUserByEmail env.faults.getUserByEmail s (env.toLower i.email) with
    | .ok existing =>
      if existing.isVerified then
        (.error (.app (.sentinel .conflict) "an account with this email already exists"), s)
      else sendOTP env s existing
    | .error err =>
      if !err.isNoRows then (.error (.wrap "get user by email" err), s)
      else
        match getUserByPhone env.faults.getUserByPhone s i.phoneNumber with
        | .ok _ =>
          (.error (.app (.sentinel .conflict)
            "an account with this phone number already exists"), s)
        | .error err2 =>
          if !err2.isNoRows then (.error (.wrap "get user by phone" err2), s)
          else
            match createUser env.faults.createUser s
                { id := env.newUserID, firstName := i.firstName, lastName := i.lastName,
                  phoneNumber := i.phoneNumber, emailAddress := env.toLower i.email,
                  isVerified := false } with
            | .error e => (.error (.wrap "create user" e), s)
            | .ok (user, s1) => sendOTP env s1 user

/-! ## The cart (`service/cart.go`) -/

/-- The row `db.GetCartItemsRow`: a cart line with the name, the image and the current price
of its product. -/
structure GetCartItemsRow where
  id : Nat
  cartID : Nat
  productID : Nat
  quantity : Int
  productName : String
  productPrice : Numeric
  productImageURL : Option String
  deriving DecidableEq, Repr

/-- The value `CartItemResponse`. -/
structure CartItemResponse where
  id : Nat
  productID : Nat
  productName : String
  productImage : Option String
  price : F64
  quantity : Int
  subtotal : F64
  deriving DecidableEq, Repr

/-- The value `CartResponse`. -/
structure CartResponse where
  id : Nat
  items : List CartItemResponse
  total : F64
  deriving DecidableEq, Repr

/-- The loop of `buildCartResponse` from the items appended so far and the running total;
`none` is a panic of the price conversion. The subtotal of the item is the rounded product;
the step `total += subtotal` after `subtotal := price * float64(item.Quantity)` is one fused
operation on a build that fuses, which then adds the product that is not rounded. -/
def buildCartItems (fused : Bool) :
    List GetCartItemsRow → List CartItemResponse → F64 → Option (List CartItemResponse × F64)
  | [], items, total => some (items, total)
  | item :: rest, items, total =>
    match numericToFloat item.productPrice with
    | Option.none => Option.none
    | some price =>
      buildCartItems fused rest
        (items ++ [{ id := item.id, productID := item.productID,
                     productName := item.productName, productImage := item.productImageURL,
                     price := price, quantity := item.quantity,
                     subtotal := F64.mul price (F64.ofInt item.quantity) }])
        (F64.mulAdd fused total price (F64.ofInt item.quantity))

/-- The function `buildCartResponse`; `none` is a panic of the price conversion. -/
def buildCartResponse (fused : Bool) (cart : Cart) (items : List GetCartItemsRow) :
    Option CartResponse :=
  (buildCartItems fused items [] F64.zero).map fun r =>
    { id := cart.id, items := r.1, total := r.2 }

/-- Which queries of the cart service fail, and with which error. -/
structure CartFaults where
  getProductByID : Option GoError
  getOrCreateCart : Option GoError
  upsertCartItem : Option GoError
  getCartItems : Option GoError

/-- No query of the cart service fails. -/
def CartFaults.none : CartFaults :=
  { getProductByID := Option.none, getOrCreateCart := Option.none,
    upsertCartItem := Option.none, getCartItems := Option.none }

/-- What a call of the cart service takes from its surroundings: `uuid.Parse`, the image
column of the products table (by product id), the identifiers that the store generates, the
failures of the store, and whether the build fuses a multiplication and an addition of
`float64` values into one operation. -/
structure CartEnv where
  parseUUID : String → Option Nat
  imageURL : Nat → Option String
  newCartID : Nat
  newCartItemID : Nat
  faults : CartFaults
  fused : Bool

/-- Modelled from the spec: the query `GetProductByID` of the missing package
`internal/repository/db`: the product with that id, `pgx.ErrNoRows` when there is none. -/
def getProductByID (fault : Option GoError) (s : Store) (id : Nat) : Except GoError Product :=
  match fault with
  | some e => .error e
  | Option.none =>
    match s.products.find? (fun p => p.id = id) with
    | some p => .ok p
    | Option.none => .error .noRows

/-- Modelled from the spec: the query `GetOrCreateCart` of the missing package
`internal/repository/db`: the cart of the user, created when the user has none. -/
def getOrCreateCart (fault : Option GoError) (newCartID : Nat) (s : Store) (userID : Nat) :
    Except GoError (Cart × Store) :=
  match fault with
  | some e => .error e
  | Option.none =>
    match s.carts.find? (fun c => c.userID = userID) with
    | some c => .ok (c, s)
    | Option.none =>
      .ok ({ id := newCartID, userID := userID },
           { s with carts := s.carts ++ [{ id := newCartID, userID := userID }] })

/-- Modelled from the spec: the query `UpsertCartItem` of the missing package
`internal/repository/db`: the quantity is added to the line of the cart for the product,
and a line with the quantity is inserted when the cart has no line for the product. -/
def upsertCartItem (fault : Option GoError) (newCartItemID : Nat) (s : Store)
    (cartID productID : Nat) (quantity : Int) : Except GoError Store :=
  match fault with
  | some e => .error e
  | Option.none =>
    if s.cartItems.any (fun ci => ci.cartID = cartID ∧ ci.productID = productID) then
      .ok { s with cartItems := s.cartItems.map fun ci =>
              if ci.cartID = cartID ∧ ci.productID = productID then
                { ci with quantity := ci.quantity + quantity }
              else ci }
    else
      .ok { s with cartItems := s.cartItems ++
              [{ id := newCartItemID, cartID := cartID, productID := productID,
                 quantity := quantity }] }

/-- Modelled from the spec: the query `GetCartItems` of the missing package
`internal/repository/db` with all its columns: the lines of the cart, each joined with its
product. -/
def getCartItemRows (fault : Option GoError) (imageURL : Nat → Option String) (s : Store)
    (cartID : Nat) : Except GoError (List GetCartItemsRow) :=
  match fault with
  | some e => .error e
  | Option.none =>
    .ok ((s.cartItems.filter (fun ci => ci.cartID = cartID)).filterMap fun ci =>
      (s.products.find? (fun p => p.id = ci.productID)).map fun p =>
        { id := ci.id, cartID := ci.cartID, productID := ci.productID,
          quantity := ci.quantity, productName := p.name, productPrice := p.price,
          productImageURL := imageURL p.id })

/-- The method `CartService.GetCart`: the result and the tables afterwards. -/
def GetCart (env : CartEnv) (s : Store) (userID : Nat) : Except Failure CartResponse × Store :=
  match getOrCreateCart env.faults.getOrCreateCart env.newCartID s userID with
  | .error e => (.error (.error (.wrap "get or create cart" e)), s)
  | .ok (cart, s1) =>
    match getCartItemRows env.faults.getCartItems env.imageURL s1 cart.id with
    | .error e => (.error (.error (.wrap "get cart items" e)), s1)
    | .ok items =>
      match buildCartResponse env.fused cart items with
      | Option.none => (.error .panic, s1)
      | some r => (.ok r, s1)

/-- The value `AddCartItemInput`. -/
structure AddCartItemInput where
  userID : Nat
  productID : String
  quantity : Int
  deriving DecidableEq, Repr

/-- The method `CartService.AddItem`: the result and the tables afterwards. -/
def AddItem (env : CartEnv) (s : Store) (i : AddCartItemInput) :
    Except Failure CartResponse × Store :=
  if i.quantity < 1 then
    (.error (.error (.app (.sentinel .invalidInput) "quantity must be at least 1")), s)
  else
    match env.parseUUID i.productID with
    | Option.none => (.error (.error (.app (.sentinel .invalidInput) "invalid product id")), s)
    | some productID =>
      match getProductByID env.faults.getProductByID s productID with
      | .error e =>
        if e.isNoRows then (.error (.error (.sentinel .notFound)), s)
        else (.error (.error (.wrap "get product" e)), s)
      | .ok product =>
        if product.stockQuantity < i.quantity then
          (.error (.error (.sentinel .insufficientStock)), s)
        else
          match getOrCreateCart env.faults.getOrCreateCart env.newCartID s i.userID with
          | .error e => (.error (.error (.wrap "get or create cart" e)), s)
          | .ok (cart, s1) =>
            match upsertCartItem env.faults.upsertCartItem env.newCartItemID s1 cart.id
                productID i.quantity with
            | .error e => (.error (.error (.wrap "upsert cart item" e)), s1)
            | .ok s2 => GetCart env s2 i.userID

/-! ## Predicates and data used in the statements -/

/-- A finite `float64` of sign `neg` and magnitude `v`. -/
def F64.IsVal (f : F64) (neg : Bool) (v : ℚ) : Prop :=
  ∃ m e, f = F64.fin neg m e ∧ (m : ℚ) * (2 : ℚ) ^ e = v

/-- A finite `big.Float` of sign `neg` and magnitude `v`. -/
def BigFloat.IsVal (f : BigFloat) (neg : Bool) (v : ℚ) : Prop :=
  ∃ m e, f = BigFloat.fin neg m e ∧ (m : ℚ) * (2 : ℚ) ^ e = v

/-- Whether an optional `big.Float` is the non-negative integer `n`. -/
def BigFloat.isNat (r : Option BigFloat) (n : Nat) : Bool :=
  match r with
  | some (.fin false m e) => if 0 ≤ e then m * 2 ^ e.toNat == n else m == n * 2 ^ (-e).toNat
  | _ => false

/-- The price that the checkout reads for a cart line from the map of fetched products. -/
def linePrice (pm : Nat → Option Product) (ci : CartItem) : Numeric :=
  ((pm ci.productID).getD zeroProduct).price

/-- The order item row that the checkout writes for a cart line, given its converted unit
price and total price. -/
def RowOf (orderID : Nat) (pm : Nat → Option Product) (ci : CartItem) (oi : OrderItem) : Prop :=
  oi.orderID = orderID ∧ oi.productID = ci.productID ∧ oi.quantity = ci.quantity ∧
    ∃ unitPrice, numericToFloat (linePrice pm ci) = some unitPrice ∧
      floatToNumeric unitPrice = some oi.unitPrice ∧
      floatToNumeric (F64.mul unitPrice (F64.ofInt ci.quantity)) = some oi.totalPrice

/-- The product rows after the conditional decrement of `deductProductStock`. -/
def deductRows (ps : List Product) (productID : Nat) (quantity : Int) : List Product :=
  ps.map fun p =>
    if p.id = productID ∧ quantity ≤ p.stockQuantity then
      { p with stockQuantity := p.stockQuantity - quantity }
    else p

/-- A product row after a checkout of the cart lines: the stock is lowered by the quantity
of the line that references the product, and the row is unchanged when no line does. -/
def afterCheckout (lines : List CartItem) (p : Product) : Product :=
  match lines.find? (fun ci => ci.productID = p.id) with
  | some ci => { p with stockQuantity := p.stockQuantity - ci.quantity }
  | Option.none => p

/-- The store of the example of the spec: product A (9.99, stock 5) and product B (5.00,
stock 1), and the cart of user 42 with two of A and one of B. -/
def demoStore : Store :=
  { products := [⟨1, "A", ⟨some 999, -2, true⟩, 5⟩, ⟨2, "B", ⟨some 500, -2, true⟩, 1⟩]
    carts := [⟨7, 42⟩]
    cartItems := [⟨1, 7, 1, 2⟩, ⟨2, 7, 2, 1⟩]
    orders := []
    orderItems := [] }

/-- The pool holding `demoStore`. -/
def demoDb : Db := { store := demoStore, txBegun := 0 }

/-- Surroundings in which no call into the store fails. -/
def demoEnv : Env :=
  { now := 100
    newOrderID := 1
    newOrderItemID := fun k => k
    createdAt := 100
    orderStatus := "pending"
    faults := Faults.none
    fused := false }

/-- A valid checkout request of user 42. -/
def demoInput : CreateOrderInput :=
  { userID := 42, deliveryAddress := "12 Baker Street", deliveryDate := 200, notes := "",
    paymentMethod := "" }

/-- The exact amount of a cart line in the last place of its price: mantissa of the price
times quantity. -/
def lineCents (pm : Nat → Option Product) (ci : CartItem) : Int :=
  (linePrice pm ci).int.getD 0 * ci.quantity

/-- A cart line of ordinary currency form: the price is a valid non-negative decimal with
two fractional digits, and the quantity is a positive `int32`. -/
def LineOk (pm : Nat → Option Product) (ci : CartItem) : Prop :=
  (linePrice pm ci).valid = true ∧ (linePrice pm ci).exp = -2 ∧
    (linePrice pm ci).int.isSome = true ∧ 0 ≤ (linePrice pm ci).int.getD 0 ∧
    0 < ci.quantity ∧ ci.quantity < 2 ^ 31

instance (pm : Nat → Option Product) (ci : CartItem) : Decidable (LineOk pm ci) := by
  unfold LineOk
  infer_instance

/-- The cart lines of a user: the line items of the user's cart, none without a cart. -/
def cartLines (s : Store) (userID : Nat) : List CartItem :=
  match s.carts.find? (fun c => c.userID = userID) with
  | some c => s.cartItems.filter (fun ci => ci.cartID = c.id)
  | Option.none => []

/-- A cart of ordinary currency range: every line is of ordinary currency form, there are
at most 1000 lines, and the exact total is at most `10 ^ 12` hundredths. -/
def OrdinaryCart (s : Store) (userID : Nat) : Prop :=
  (∀ ci ∈ cartLines s userID, LineOk (productMap s.products) ci) ∧
    (cartLines s userID).length ≤ 1000 ∧
    ((cartLines s userID).map (lineCents (productMap s.products))).sum ≤ 10 ^ 12

instance (s : Store) (userID : Nat) : Decidable (OrdinaryCart s userID) := by
  unfold OrdinaryCart
  infer_instance

/-- The integer nearest to the rational `v`, which is not negative; a tie goes to the even
integer. -/
def nearestEven (v : ℚ) : Nat :=
  if 2 * (v - (Nat.floor v : ℚ)) < 1 then Nat.floor v
  else if 1 < 2 * (v - (Nat.floor v : ℚ)) then Nat.floor v + 1
  else if Nat.floor v % 2 = 0 then Nat.floor v else Nat.floor v + 1

/-- The exponent of the last place when the positive rational `v` is written with `p`
significant bits. -/
def lastPlace (p : Nat) (v : ℚ) : Int := Int.log 2 v - ((p : Int) - 1)

/-- The rational `v` rounded to `p` significant bits, to nearest and ties to even: the
multiple of the last place that is nearest to `v`; 0 for `v` not positive. -/
def roundToBits (p : Nat) (v : ℚ) : ℚ :=
  if v ≤ 0 then 0
  else (nearestEven (v / (2 : ℚ) ^ lastPlace p v) : ℚ) * (2 : ℚ) ^ lastPlace p v

/-- A cart whose amounts the checkout keeps exact: every line is of ordinary currency form,
and the number of lines plus three, times the exact total in hundredths plus one, is at most
`2 ^ 52`. A cart of ordinary currency range is one of them, and so is a single line of less
than `2 ^ 50` hundredths, about `1.1 * 10 ^ 15`. -/
def ExactCart (s : Store) (userID : Nat) : Prop :=
  (∀ ci ∈ cartLines s userID, LineOk (productMap s.products) ci) ∧
    (((cartLines s userID).length : Int) + 3)
      * (((cartLines s userID).map (lineCents (productMap s.products))).sum + 1) ≤ 2 ^ 52

instance (s : Store) (userID : Nat) : Decidable (ExactCart s userID) := by
  unfold ExactCart
  infer_instance

/-- A store whose only product is priced 16984.17, and the cart of user 42 with 1046242623
units of it. -/
def bulkStore : Store :=
  { products := [⟨1, "A", ⟨some 1698417, -2, true⟩, 2000000000⟩]
    carts := [⟨7, 42⟩]
    cartItems := [⟨1, 7, 1, 1046242623⟩]
    orders := []
    orderItems := [] }

/-- The surroundings of the examples on a build that fuses a multiplication and an
addition. -/
def fusedEnv : Env := { demoEnv with fused := true }

/-- Reference conversion, from the words of the spec: an invalid or absent decimal converts
to zero; otherwise the value is the mantissa multiplied by `10 ^ Exp` for an exponent that
is not negative, and divided by `10 ^ (-Exp)` for a negative one. The result is a `float64`,
so it is the `float64` nearest to that value. -/
def numericToFloatSpec (n : Numeric) : F64 :=
  if !n.valid then F64.zero else
  match n.int with
  | Option.none => F64.zero
  | some i =>
    if 0 ≤ n.exp then F64.round (decide (i < 0)) (i.natAbs * 10 ^ n.exp.toNat) 1
    else F64.round (decide (i < 0)) i.natAbs (10 ^ (-n.exp).toNat)

/-- The store of the example with the stock of product B lowered to 0, so that the second
cart line asks for more than is in stock. -/
def lowStore : Store :=
  { products := [⟨1, "A", ⟨some 999, -2, true⟩, 5⟩, ⟨2, "B", ⟨some 500, -2, true⟩, 0⟩]
    carts := [⟨7, 42⟩]
    cartItems := [⟨1, 7, 1, 2⟩, ⟨2, 7, 2, 1⟩]
    orders := []
    orderItems := [] }

/-- Surroundings in which the clearing of the cart fails. -/
def clearFailsEnv : Env :=
  { now := 100
    newOrderID := 1
    newOrderItemID := fun k => k
    createdAt := 100
    orderStatus := "pending"
    faults := { Faults.none with clearCart := some (.other "connection lost") }
    fused := false }

/-- The reading of `floatToNumeric` as a truncation: the mantissa is `f * 100` with the
digits after the point dropped. -/
def floatToNumericSpec : F64 → Option Numeric
  | .fin neg mant exp =>
    some { int := some (F64.signed neg
             ((shiftFrac (mant * 100) 1 (-exp)).1 / (shiftFrac (mant * 100) 1 (-exp)).2)),
           exp := -2, valid := true }
  | .inf _ => Option.none
  | .nan => Option.none

/-- The default payment method in the words of the spec. -/
def defaultPaymentMethodSpec : String := "cash on delivery"

/-- The table of the spec: the HTTP status of each of the eleven error kinds; the sentinel
`ErrUserNotVerified` is not in the table. -/
def statusTable : Sentinel → Option Nat
  | .notFound => some 404
  | .conflict => some 409
  | .unauthorized => some 401
  | .forbidden => some 403
  | .invalidInput => some 400
  | .otpExpired => some 422
  | .otpInvalid => some 422
  | .otpAlreadyUsed => some 422
  | .rateLimitExceeded => some 429
  | .insufficientStock => some 409
  | .emptyCart => some 400
  | .userNotVerified => Option.none

/-- An identifier parser for the examples: the text `order-1` is the identifier 1, and any
other text is malformed. -/
def demoParseUUID (t : String) : Option Nat := if t = "order-1" then some 1 else Option.none

/-- A store whose only order, with identifier 1, belongs to user 42. -/
def orderStore : Store :=
  { products := []
    carts := []
    cartItems := []
    orders := [⟨1, 42, "12 Baker Street", 200, Option.none, "cash_on_delivery", "pending",
      ⟨some 2498, -2, true⟩, 100⟩]
    orderItems := [] }

/-- A store without any order. -/
def emptyStore : Store :=
  { products := [], carts := [], cartItems := [], orders := [], orderItems := [] }

/-- The limit of a list operation as the spec words it: clamped into the interval from
`lo` to `hi`. -/
def clampSpec (lo hi x : Int) : Int := max lo (min hi x)

/-- Queries of `ListOrders` that find no order. -/
def noOrdersQueries : ListOrdersQueries :=
  { listOrdersByUserID := fun _ _ _ => .ok []
    countOrdersByUserID := fun _ => .ok 0
    getOrderItems := fun _ => .ok [] }

/-- Queries of the product list that find no product. -/
def noProductsQueries : ListProductsQueries :=
  { listProducts := fun _ _ _ _ => .ok []
    countProducts := fun _ => .ok 0 }

/-- Surroundings of the authentication service for the examples: instant 1000, ASCII
lower-casing, a hash that is the code behind the text `hash:`, draws that are all 4, and no
failure. -/
def demoAuthEnv : AuthEnv :=
  { now := 1000
    toLower := fun t => String.mk (t.data.map Char.toLower)
    compareHash := fun h c => h = "hash:" ++ c
    random := fun _ => .ok 4
    generateHash := fun c => .ok ("hash:" ++ c)
    signToken := fun sub _ _ => .ok ("token-" ++ toString sub)
    accessTokenTTL := 3600000000000
    sendMail := fun _ => Option.none
    newUserID := 2
    newOtpID := 2
    faults := AuthFaults.none }

/-- The unverified user 1 of the examples. -/
def demoUser : User :=
  { id := 1, firstName := "Ada", lastName := "Baker", phoneNumber := "+201234567890",
    emailAddress := "ada@example.com", isVerified := false }

/-- The code 123456 issued to user 1 at instant 900, expiring at instant 2000. -/
def demoOtp : Otp :=
  { id := 1, userID := 1, otpHash := "hash:123456", expiresAt := 2000, isUsed := false,
    attemptCount := 0, createdAt := 900 }

/-- Tables with the user of the examples and the given codes. -/
def authStoreWith (otps : List Otp) : AuthStore :=
  { users := [demoUser], otps := otps, outbox := [] }

/-- Consecutive calls of `VerifyOTP`, each with its own surroundings: the results in order
and the tables after the last call. -/
def verifyAll : List (AuthEnv × VerifyOTPInput) → AuthStore →
    List (Except GoError AuthResult) × AuthStore
  | [], s => ([], s)
  | c :: rest, s =>
    ((VerifyOTP c.1 s c.2).1 :: (verifyAll rest (VerifyOTP c.1 s c.2).2).1,
      (verifyAll rest (VerifyOTP c.1 s c.2).2).2)

/-- A call of `VerifyOTP` for the user while the code is active: the store does not fail,
the email of the input is that of the user, and the instant is not after the expiry. -/
def ActiveAttempt (users : List User) (user : User) (otp : Otp)
    (c : AuthEnv × VerifyOTPInput) : Prop :=
  c.1.faults.getUserByEmail = Option.none ∧ c.1.faults.getLatestOTP = Option.none ∧
    c.1.faults.incrementOTPAttempts = Option.none ∧
    users.find? (fun u => u.emailAddress = c.1.toLower c.2.email) = some user ∧
    c.1.now ≤ otp.expiresAt

instance (users : List User) (user : User) (otp : Otp) (c : AuthEnv × VerifyOTPInput) :
    Decidable (ActiveAttempt users user otp c) := by
  unfold ActiveAttempt
  infer_instance

/-- The number of codes issued to the user within the hour before `now`. -/
def recentOTPs (now : Int) (s : AuthStore) (userID : Nat) : Nat :=
  (s.otps.filter fun o => o.userID = userID ∧ now - hour < o.createdAt).length

/-- The code that `sendOTP` stores for the user, with the given hash. -/
def issuedOtp (env : AuthEnv) (user : User) (hash : String) : Otp :=
  { id := env.newOtpID, userID := user.id, otpHash := hash, expiresAt := env.now + otpLifetime,
    isUsed := false, attemptCount := 0, createdAt := env.now }

/-- The surroundings of the examples at another instant and with another fresh code id. -/
def authEnvAt (now : Int) (otpID : Nat) : AuthEnv :=
  { demoAuthEnv with now := now, newOtpID := otpID }

/-- The row that `Register` inserts for a new user. -/
def registeredUser (env : AuthEnv) (i : RegisterInput) : User :=
  { id := env.newUserID, firstName := i.firstName, lastName := i.lastName,
    phoneNumber := i.phoneNumber, emailAddress := env.toLower i.email, isVerified := false }

/-- The codes of the table after `InvalidateUserOTPs` for the user. -/
def invalidated (otps : List Otp) (userID : Nat) : List Otp :=
  otps.map fun o => if o.userID = userID then { o with isUsed := true } else o

/-- Consecutive calls of `ResendOTP` for one email, each with its own surroundings: the
results in order and the tables after the last call. -/
def resendAll : List AuthEnv → String → AuthStore → List (Except GoError Unit) × AuthStore
  | [], _, s => ([], s)
  | env :: rest, email, s =>
    ((ResendOTP env s email).1 :: (resendAll rest email (ResendOTP env s email).2).1,
      (resendAll rest email (ResendOTP env s email).2).2)

/-- Whether a call of `ResendOTP` for the email finds the user and meets no failure of the
store, of the random source, of the hashing or of the email sender. -/
def issues (env : AuthEnv) (users : List User) (email : String) (user : User) : Bool :=
  decide (env.faults.getUserByEmail = Option.none) &&
  decide (users.find? (fun u => u.emailAddress = env.toLower email) = some user) &&
  decide (env.faults.countRecentOTPs = Option.none) &&
  decide (env.faults.invalidateUserOTPs = Option.none) &&
  decide (env.faults.createOTP = Option.none) &&
  match generateOTP env.random otpLength with
  | .error _ => false
  | .ok rawOTP =>
    match env.generateHash rawOTP with
    | .error _ => false
    | .ok _ =>
      (env.sendMail { recipient := user.emailAddress, firstName := user.firstName,
                      otp := rawOTP }).isNone

/-- A call of one of the three operations of the authentication service. -/
inductive AuthCall where
  | register (i : RegisterInput)
  | resend (email : String)
  | verify (i : VerifyOTPInput)

/-- The tables after a call. -/
def AuthCall.run (env : AuthEnv) (s : AuthStore) : AuthCall → AuthStore
  | .register i => (Register env s i).2
  | .resend email => (ResendOTP env s email).2
  | .verify i => (VerifyOTP env s i).2

/-- The tables after a sequence of calls, each with its own surroundings. -/
def runCalls : List (AuthEnv × AuthCall) → AuthStore → AuthStore
  | [], s => s
  | c :: rest, s => runCalls rest (c.2.run c.1 s)

/-- Queries of `ListOrders` over a store that refuses a negative offset, as PostgreSQL
does, and holds no order. -/
def offsetCheckOrders : ListOrdersQueries :=
  { listOrdersByUserID := fun _ _ offset =>
      if offset < 0 then .error (.other "OFFSET must not be negative") else .ok []
    countOrdersByUserID := fun _ => .ok 0
    getOrderItems := fun _ => .ok [] }

/-- Queries of the product list over a store that refuses a negative offset and holds no
product. -/
def offsetCheckProducts : ListProductsQueries :=
  { listProducts := fun _ _ _ offset =>
      if offset < 0 then .error (.other "OFFSET must not be negative") else .ok []
    countProducts := fun _ => .ok 0 }

/-- The queries of `ListOrders` with the list query answering, whatever limit and offset it
is asked, as it answers at the given limit and offset. -/
def ListOrdersQueries.fixedAt (q : ListOrdersQueries) (limit offset : Int) :
    ListOrdersQueries :=
  ⟨fun u _ _ => q.listOrdersByUserID u limit offset, q.countOrdersByUserID, q.getOrderItems⟩

/-- The queries of the product list with the list query answering, whatever limit and
offset it is asked, as it answers at the given limit and offset. -/
def ListProductsQueries.fixedAt (pq : ListProductsQueries) (limit offset : Int) :
    ListProductsQueries :=
  ⟨fun c s _ _ => pq.listProducts c s limit offset, pq.countProducts⟩

/-- Queries of `ListOrders` over a store that counts 95 orders and returns none of them. -/
def manyOrders : ListOrdersQueries :=
  { listOrdersByUserID := fun _ _ _ => .ok []
    countOrdersByUserID := fun _ => .ok 95
    getOrderItems := fun _ => .ok [] }

/-- Queries of the product list over a store that counts 95 products and returns none of
them. -/
def manyProducts : ListProductsQueries :=
  { listProducts := fun _ _ _ _ => .ok []
    countProducts := fun _ => .ok 95 }

/-- Surroundings of the cart service for the examples: the text `product-1` is the product
id 1 and `product-9` the product id 9, any other text is malformed; no product has an image
and nothing fails. -/
def demoCartEnv : CartEnv :=
  { parseUUID := fun t =>
      if t = "product-1" then some 1 else if t = "product-9" then some 9 else Option.none
    imageURL := fun _ => Option.none
    newCartID := 8
    newCartItemID := 3
    faults := CartFaults.none
    fused := false }

/-- The store of the example with four of product A (stock 5) in the cart of user 42. -/
def fullCartStore : Store :=
  { products := [⟨1, "A", ⟨some 999, -2, true⟩, 5⟩, ⟨2, "B", ⟨some 500, -2, true⟩, 1⟩]
    carts := [⟨7, 42⟩]
    cartItems := [⟨1, 7, 1, 4⟩]
    orders := []
    orderItems := [] }

/-- The item of the cart view that belongs to a cart row: the fields of the row, the
converted price, and the product of the price and the quantity as subtotal. -/
def ItemOf (row : GetCartItemsRow) (item : CartItemResponse) : Prop :=
  item.id = row.id ∧ item.productID = row.productID ∧ item.productName = row.productName ∧
    item.productImage = row.productImageURL ∧ item.quantity = row.quantity ∧
    numericToFloat row.productPrice = some item.price ∧
    item.subtotal = F64.mul item.price (F64.ofInt item.quantity)

/-- The cart line of a row of `GetCartItems`. -/
def GetCartItemsRow.line (r : GetCartItemsRow) : CartItem :=
  { id := r.id, cartID := r.cartID, productID := r.productID, quantity := r.quantity }

/-- The rows of the cart of the example: two of product A at 9.99 and one of product B at
5.00. -/
def demoCartRows : List GetCartItemsRow :=
  [⟨1, 7, 1, 2, "A", ⟨some 999, -2, true⟩, Option.none⟩,
   ⟨2, 7, 2, 1, "B", ⟨some 500, -2, true⟩, some "b.png"⟩]

/-- The rows of a cart with one unit of a product at 0.01 and three units of a product at
0.10. -/
def centRows : List GetCartItemsRow :=
  [⟨1, 7, 1, 1, "A", ⟨some 1, -2, true⟩, Option.none⟩,
   ⟨2, 7, 2, 3, "B", ⟨some 10, -2, true⟩, Option.none⟩]

/-- Tables in which the user of the examples is verified and has no code. -/
def verifiedStore : AuthStore :=
  { users := [{ demoUser with isVerified := true }], otps := [], outbox := [] }

/-- A registration whose email and phone number are those of the user of the examples with
a space in front of each, and a space behind the email. -/
def paddedInput : RegisterInput :=
  { firstName := "Ada", lastName := "Baker", phoneNumber := " +201234567890",
    email := " Ada@Example.com " }

/-- A registration with the email of the user of the examples behind a space, and another
phone number. -/
def paddedEmailInput : RegisterInput :=
  { firstName := "Ada", lastName := "Baker", phoneNumber := "+201111111111",
    email := " Ada@Example.com" }

/-- A registration with another email, and the phone number of the user of the examples
behind a space. -/
def paddedPhoneInput : RegisterInput :=
  { firstName := "Grace", lastName := "Baker", phoneNumber := " +201234567890",
    email := "grace@example.com" }

/-- A valid registration with the email of the user of the examples and another phone
number. -/
def sameEmailInput : RegisterInput :=
  { firstName := "Ada", lastName := "Baker", phoneNumber := "+201111111111",
    email := "Ada@Example.com" }

/-- A letter, in the words of the spec: `a` to `z` or `A` to `Z`. -/
def SpecLetter (c : Char) : Prop := ('a' ≤ c ∧ c ≤ 'z') ∨ ('A' ≤ c ∧ c ≤ 'Z')

/-- A decimal digit, in the words of the spec. -/
def SpecDigit (c : Char) : Prop := '0' ≤ c ∧ c ≤ '9'

/-- The form of an email in the words of the spec: `local@domain.tld` with a local part,
not empty, of letters, digits and `. _ % + -`, a domain, not empty, of letters, digits, `.`
and `-`, and a final label of at least two letters. -/
def EmailFormSpec (s : String) : Prop :=
  ∃ name domain tld : List Char, s.data = name ++ '@' :: (domain ++ '.' :: tld) ∧
    name ≠ [] ∧
    (∀ c ∈ name, SpecLetter c ∨ SpecDigit c ∨ c = '.' ∨ c = '_' ∨ c = '%' ∨ c = '+' ∨ c = '-') ∧
    domain ≠ [] ∧ (∀ c ∈ domain, SpecLetter c ∨ SpecDigit c ∨ c = '.' ∨ c = '-') ∧
    2 ≤ tld.length ∧ ∀ c ∈ tld, SpecLetter c

/-- The form of a phone number in the words of the spec: an optional `+`, a digit other
than zero, and 7 to 14 further digits. -/
def PhoneFormSpec (s : String) : Prop :=
  ∃ (plus : Bool) (d : Char) (rest : List Char),
    s.data = (if plus then ['+'] else []) ++ d :: rest ∧
    '1' ≤ d ∧ d ≤ '9' ∧ 7 ≤ rest.length ∧ rest.length ≤ 14 ∧ ∀ c ∈ rest, SpecDigit c

/-- A random source for the examples whose draws are all 4. -/
def fourSource : Nat → Except GoError (Fin 10) := fun _ => .ok 4

theorem bitLenAux_spec (fuel : Nat) : ∀ n : Nat, n ≤ fuel →
    n < 2 ^ bitLenAux fuel n ∧ (n ≠ 0 → 2 ^ (bitLenAux fuel n - 1) ≤ n) := by
  induction fuel with
  | zero =>
    intro n hn
    have : n = 0 := by omega
    subst this
    simp [bitLenAux]
  | succ fuel ih =>
    intro n hn
    by_cases h0 : n = 0
    · subst h0
      simp [bitLenAux]
    · have hle : n / 2 ≤ fuel := by omega
      obtain ⟨h1, h2⟩ := ih (n / 2) hle
      simp only [bitLenAux, h0, if_false]
      refine ⟨?_, fun _ => ?_⟩
      · rw [pow_succ]
        omega
      · simp only [Nat.add_sub_cancel]
        by_cases h3 : n / 2 = 0
        · have : bitLenAux fuel (n / 2) = 0 := by
            rw [h3]
            cases fuel <;> simp [bitLenAux]
          rw [this]
          simp
          omega
        · have h4 := h2 h3
          have h5 : bitLenAux fuel (n / 2) ≠ 0 := by
            intro h6
            rw [h6] at h1
            simp at h1
            exact h3 h1
          have h6 : bitLenAux fuel (n / 2) = (bitLenAux fuel (n / 2) - 1) + 1 := by omega
          rw [h6, pow_succ]
          omega

theorem bitLen_lt (n : Nat) : n < 2 ^ bitLen n := (bitLenAux_spec n n le_rfl).1

theorem bitLen_le (n : Nat) (h : n ≠ 0) : 2 ^ (bitLen n - 1) ≤ n :=
  (bitLenAux_spec n n le_rfl).2 h

theorem bitLen_pos (n : Nat) (h : n ≠ 0) : 0 < bitLen n := by
  by_contra h0
  have h1 := bitLen_lt n
  have : bitLen n = 0 := by omega
  rw [this] at h1
  simp at h1
  exact h h1

theorem shiftFrac_snd_pos (a b : Nat) (s : Int) (hb : 0 < b) : 0 < (shiftFrac a b s).2 := by
  unfold shiftFrac
  split
  · exact Nat.mul_pos hb (pow_pos (by norm_num) _)
  · exact hb

theorem shiftFrac_val (a b : Nat) (s : Int) :
    ((shiftFrac a b s).1 : ℚ) / ((shiftFrac a b s).2 : ℚ) = (a : ℚ) / b * (2 : ℚ) ^ (-s) := by
  unfold shiftFrac
  split
  · rename_i h
    have hs : s = (s.toNat : ℤ) := (Int.toNat_of_nonneg h).symm
    simp only [Nat.cast_mul, Nat.cast_pow, Nat.cast_ofNat]
    rw [zpow_neg]
    nth_rewrite 2 [hs]
    rw [zpow_natCast, div_mul_eq_div_div, div_eq_mul_inv ((a : ℚ) / b)]
  · rename_i h
    have hs : -s = ((-s).toNat : ℤ) := (Int.toNat_of_nonneg (by omega)).symm
    simp only [Nat.cast_mul, Nat.cast_pow, Nat.cast_ofNat]
    nth_rewrite 2 [hs]
    rw [zpow_natCast]
    ring

theorem rne_err (a b : Nat) (hb : 0 < b) : |((rne a b : ℕ) : ℚ) - (a : ℚ) / b| ≤ 1 / 2 := by
  have hb' : (0 : ℚ) < b := by exact_mod_cast hb
  have hdm : (a : ℚ) = (b : ℚ) * ((a / b : ℕ) : ℚ) + ((a % b : ℕ) : ℚ) := by
    exact_mod_cast (Nat.div_add_mod a b).symm
  have hx : (a : ℚ) / b = ((a / b : ℕ) : ℚ) + ((a % b : ℕ) : ℚ) / b := by
    rw [eq_comm, ← sub_eq_zero]
    field_simp
    rw [hdm]
    ring
  have hr0 : (0 : ℚ) ≤ ((a % b : ℕ) : ℚ) / b := by positivity
  have hr1 : ((a % b : ℕ) : ℚ) / b < 1 := by
    rw [div_lt_one hb']
    exact_mod_cast Nat.mod_lt a hb
  rw [hx, abs_le]
  unfold rne
  simp only
  split
  · rename_i h
    have : ((a % b : ℕ) : ℚ) / b ≤ 1 / 2 := by
      rw [div_le_iff₀ hb']
      have : (2 : ℚ) * ((a % b : ℕ) : ℚ) < b := by exact_mod_cast h
      linarith
    constructor <;> linarith
  · split
    · rename_i h1 h
      have : 1 / 2 ≤ ((a % b : ℕ) : ℚ) / b := by
        rw [le_div_iff₀ hb']
        have : (b : ℚ) < (2 : ℚ) * ((a % b : ℕ) : ℚ) := by exact_mod_cast h
        linarith
      push_cast
      constructor <;> linarith
    · rename_i h1 h2
      have h3 : 2 * (a % b) = b := by omega
      have : ((a % b : ℕ) : ℚ) / b = 1 / 2 := by
        rw [div_eq_iff (ne_of_gt hb')]
        have : (2 : ℚ) * ((a % b : ℕ) : ℚ) = b := by exact_mod_cast h3
        linarith
      split
      · constructor <;> linarith
      · push_cast
        constructor <;> linarith

theorem rne_eq_of_near (a b k : Nat) (hb : 0 < b)
    (h : |(a : ℚ) / b - (k : ℚ)| < 1 / 2) : rne a b = k := by
  have h1 := rne_err a b hb
  have h2 : |((rne a b : ℕ) : ℚ) - (k : ℚ)| < 1 := by
    have : ((rne a b : ℕ) : ℚ) - (k : ℚ) = (((rne a b : ℕ) : ℚ) - (a : ℚ) / b) + ((a : ℚ) / b - k) := by
      ring
    rw [this]
    calc _ ≤ |((rne a b : ℕ) : ℚ) - (a : ℚ) / b| + |(a : ℚ) / b - k| := abs_add _ _
      _ < 1 := by linarith
  rw [abs_lt] at h2
  have h3 : ((rne a b : ℕ) : ℚ) < (k : ℚ) + 1 := by linarith
  have h4 : (k : ℚ) < ((rne a b : ℕ) : ℚ) + 1 := by linarith
  have h5 : rne a b < k + 1 := by exact_mod_cast h3
  have h6 : k < rne a b + 1 := by exact_mod_cast h4
  omega

theorem roundAt_err (a b : Nat) (e : Int) (hb : 0 < b) :
    |((roundAt a b e : ℕ) : ℚ) - (a : ℚ) / b * (2 : ℚ) ^ (-e)| ≤ 1 / 2 := by
  have h := rne_err (shiftFrac a b e).1 (shiftFrac a b e).2 (shiftFrac_snd_pos a b e hb)
  rw [shiftFrac_val] at h
  exact h

theorem roundAt_val_err (a b : Nat) (e : Int) (hb : 0 < b) :
    |((roundAt a b e : ℕ) : ℚ) * (2 : ℚ) ^ e - (a : ℚ) / b| ≤ (2 : ℚ) ^ e / 2 := by
  have h := roundAt_err a b e hb
  have h2 : (0 : ℚ) < (2 : ℚ) ^ e := zpow_pos (by norm_num) e
  have h3 : ((roundAt a b e : ℕ) : ℚ) * (2 : ℚ) ^ e - (a : ℚ) / b
      = (((roundAt a b e : ℕ) : ℚ) - (a : ℚ) / b * (2 : ℚ) ^ (-e)) * (2 : ℚ) ^ e := by
    rw [sub_mul, mul_assoc, ← zpow_add₀ (by norm_num : (2 : ℚ) ≠ 0)]
    simp
  rw [h3, abs_mul, abs_of_pos h2]
  calc _ ≤ 1 / 2 * (2 : ℚ) ^ e := mul_le_mul_of_nonneg_right h (le_of_lt h2)
    _ = (2 : ℚ) ^ e / 2 := by ring

theorem ulpExp_spec (p a b : Nat) (ha : 0 < a) (hb : 0 < b) :
    (2 : ℚ) ^ ((p : ℤ) - 1) ≤ (a : ℚ) / b * (2 : ℚ) ^ (-(ulpExp p a b)) ∧
      (a : ℚ) / b * (2 : ℚ) ^ (-(ulpExp p a b)) < (2 : ℚ) ^ (p : ℤ) := by
  have h2 : (2 : ℚ) ≠ 0 := by norm_num
  have ha' : (0 : ℚ) < a := by exact_mod_cast ha
  have hb' : (0 : ℚ) < b := by exact_mod_cast hb
  have hla := bitLen_pos a (by omega)
  have hlb := bitLen_pos b (by omega)
  have ha1 : (a : ℚ) < (2 : ℚ) ^ (bitLen a : ℤ) := by
    rw [zpow_natCast]
    exact_mod_cast bitLen_lt a
  have ha2 : (2 : ℚ) ^ ((bitLen a : ℤ) - 1) ≤ a := by
    have h := bitLen_le a (by omega)
    have : ((bitLen a : ℤ) - 1) = ((bitLen a - 1 : ℕ) : ℤ) := by omega
    rw [this, zpow_natCast]
    exact_mod_cast h
  have hb1 : (b : ℚ) < (2 : ℚ) ^ (bitLen b : ℤ) := by
    rw [zpow_natCast]
    exact_mod_cast bitLen_lt b
  have hb2 : (2 : ℚ) ^ ((bitLen b : ℤ) - 1) ≤ b := by
    have h := bitLen_le b (by omega)
    have : ((bitLen b : ℤ) - 1) = ((bitLen b - 1 : ℕ) : ℤ) := by omega
    rw [this, zpow_natCast]
    exact_mod_cast h
  set s : ℤ := (bitLen a : ℤ) - (bitLen b : ℤ) - (p : ℤ) with hs
  have hpos : ∀ z : ℤ, (0 : ℚ) < (2 : ℚ) ^ z := fun z => zpow_pos (by norm_num) z
  -- bounds on y = a / b * 2 ^ (-s)
  have hy1 : (2 : ℚ) ^ ((p : ℤ) - 1) < (a : ℚ) / b * (2 : ℚ) ^ (-s) := by
    have e1 : (2 : ℚ) ^ ((p : ℤ) - 1) = (2 : ℚ) ^ ((bitLen a : ℤ) - 1) / (2 : ℚ) ^ (bitLen b : ℤ)
        * (2 : ℚ) ^ (-s) := by
      rw [← zpow_sub₀ h2, ← zpow_add₀ h2]
      congr 1
      omega
    rw [e1]
    apply mul_lt_mul_of_pos_right _ (hpos _)
    calc (2 : ℚ) ^ ((bitLen a : ℤ) - 1) / (2 : ℚ) ^ (bitLen b : ℤ)
        ≤ (a : ℚ) / (2 : ℚ) ^ (bitLen b : ℤ) := by
          apply div_le_div_of_nonneg_right ha2 (le_of_lt (hpos _))
      _ < (a : ℚ) / b := by
          apply div_lt_div_of_pos_left ha' hb' hb1
  have hy2 : (a : ℚ) / b * (2 : ℚ) ^ (-s) < (2 : ℚ) ^ ((p : ℤ) + 1) := by
    have e1 : (2 : ℚ) ^ ((p : ℤ) + 1) = (2 : ℚ) ^ (bitLen a : ℤ) / (2 : ℚ) ^ ((bitLen b : ℤ) - 1)
        * (2 : ℚ) ^ (-s) := by
      rw [← zpow_sub₀ h2, ← zpow_add₀ h2]
      congr 1
      omega
    rw [e1]
    apply mul_lt_mul_of_pos_right _ (hpos _)
    calc (a : ℚ) / b ≤ (a : ℚ) / (2 : ℚ) ^ ((bitLen b : ℤ) - 1) := by
          apply div_le_div_of_nonneg_left (le_of_lt ha') (hpos _) hb2
      _ < (2 : ℚ) ^ (bitLen a : ℤ) / (2 : ℚ) ^ ((bitLen b : ℤ) - 1) := by
          apply div_lt_div_of_pos_right ha1 (hpos _)
  have htest : (shiftFrac a b s).1 < (shiftFrac a b s).2 * 2 ^ p ↔
      (a : ℚ) / b * (2 : ℚ) ^ (-s) < (2 : ℚ) ^ (p : ℤ) := by
    have hpos2 : (0 : ℚ) < ((shiftFrac a b s).2 : ℚ) := by
      exact_mod_cast shiftFrac_snd_pos a b s hb
    rw [← shiftFrac_val, div_lt_iff₀ hpos2, zpow_natCast]
    constructor
    · intro h
      have : ((shiftFrac a b s).1 : ℚ) < (((shiftFrac a b s).2 * 2 ^ p : ℕ) : ℚ) := by
        exact_mod_cast h
      push_cast at this
      linarith
    · intro h
      have : ((shiftFrac a b s).1 : ℚ) < (((shiftFrac a b s).2 * 2 ^ p : ℕ) : ℚ) := by
        push_cast
        linarith
      exact_mod_cast this
  unfold ulpExp
  simp only
  rw [← hs]
  split
  · rename_i h
    exact ⟨le_of_lt hy1, htest.mp h⟩
  · rename_i h
    have h' : (2 : ℚ) ^ (p : ℤ) ≤ (a : ℚ) / b * (2 : ℚ) ^ (-s) := by
      by_contra hc
      exact h (htest.mpr (not_le.mp hc))
    have e2 : (a : ℚ) / b * (2 : ℚ) ^ (-(s + 1)) = (a : ℚ) / b * (2 : ℚ) ^ (-s) / 2 := by
      have : -(s + 1) = -s - 1 := by ring
      rw [this, zpow_sub₀ h2]
      simp
      ring
    rw [e2]
    constructor
    · rw [zpow_sub₀ h2]
      simp only [zpow_one]
      apply div_le_div_of_nonneg_right h' (by norm_num)
    · rw [div_lt_iff₀ (by norm_num : (0 : ℚ) < 2)]
      have : (2 : ℚ) ^ ((p : ℤ) + 1) = (2 : ℚ) ^ (p : ℤ) * 2 := by
        rw [zpow_add₀ h2]
        simp
      linarith

theorem ulpExp_lt (p a b : Nat) (U : ℤ) (ha : 0 < a) (hb : 0 < b)
    (h : (a : ℚ) / b < (2 : ℚ) ^ U) : (p : ℤ) - 1 + ulpExp p a b < U := by
  have h2 : (2 : ℚ) ≠ 0 := by norm_num
  have h1 := (ulpExp_spec p a b ha hb).1
  have hpos : (0 : ℚ) < (2 : ℚ) ^ (ulpExp p a b) := zpow_pos (by norm_num) _
  have h3 : (2 : ℚ) ^ ((p : ℤ) - 1 + ulpExp p a b) ≤ (a : ℚ) / b := by
    rw [zpow_add₀ h2]
    calc (2 : ℚ) ^ ((p : ℤ) - 1) * (2 : ℚ) ^ (ulpExp p a b)
        ≤ (a : ℚ) / b * (2 : ℚ) ^ (-(ulpExp p a b)) * (2 : ℚ) ^ (ulpExp p a b) :=
          mul_le_mul_of_nonneg_right h1 (le_of_lt hpos)
      _ = (a : ℚ) / b := by
          rw [mul_assoc, ← zpow_add₀ h2]
          simp
  exact (zpow_lt_zpow_iff_right₀ (by norm_num : (1 : ℚ) < 2)).mp (lt_of_le_of_lt h3 h)

theorem ulpExp_gt (p a b : Nat) (L : ℤ) (ha : 0 < a) (hb : 0 < b)
    (h : (2 : ℚ) ^ L ≤ (a : ℚ) / b) : L < (p : ℤ) + ulpExp p a b := by
  have h2 : (2 : ℚ) ≠ 0 := by norm_num
  have h1 := (ulpExp_spec p a b ha hb).2
  have hpos : (0 : ℚ) < (2 : ℚ) ^ (ulpExp p a b) := zpow_pos (by norm_num) _
  have h3 : (a : ℚ) / b < (2 : ℚ) ^ ((p : ℤ) + ulpExp p a b) := by
    rw [zpow_add₀ h2]
    calc (a : ℚ) / b = (a : ℚ) / b * (2 : ℚ) ^ (-(ulpExp p a b)) * (2 : ℚ) ^ (ulpExp p a b) := by
          rw [mul_assoc, ← zpow_add₀ h2]
          simp
      _ < (2 : ℚ) ^ (p : ℤ) * (2 : ℚ) ^ (ulpExp p a b) := mul_lt_mul_of_pos_right h1 hpos
  exact (zpow_lt_zpow_iff_right₀ (by norm_num : (1 : ℚ) < 2)).mp (lt_of_le_of_lt h h3)

theorem round_core_err (p a b : Nat) (ha : 0 < a) (hb : 0 < b) :
    |((roundAt a b (ulpExp p a b) : ℕ) : ℚ) * (2 : ℚ) ^ (ulpExp p a b) - (a : ℚ) / b|
      ≤ (a : ℚ) / b * (2 : ℚ) ^ (-(p : ℤ)) := by
  have h2 : (2 : ℚ) ≠ 0 := by norm_num
  have h1 := (ulpExp_spec p a b ha hb).1
  have h3 := roundAt_val_err a b (ulpExp p a b) hb
  have hpos : (0 : ℚ) < (2 : ℚ) ^ (-(p : ℤ) + 1 + ulpExp p a b) := zpow_pos (by norm_num) _
  have h4 : (2 : ℚ) ^ (ulpExp p a b) / 2 ≤ (a : ℚ) / b * (2 : ℚ) ^ (-(p : ℤ)) := by
    have e1 : (2 : ℚ) ^ (ulpExp p a b) / 2
        = (2 : ℚ) ^ ((p : ℤ) - 1) * (2 : ℚ) ^ (-(p : ℤ) + ulpExp p a b) := by
      rw [← zpow_add₀ h2]
      have : (p : ℤ) - 1 + (-(p : ℤ) + ulpExp p a b) = ulpExp p a b - 1 := by ring
      rw [this, zpow_sub₀ h2]
      simp
    have e2 : (a : ℚ) / b * (2 : ℚ) ^ (-(p : ℤ))
        = (a : ℚ) / b * (2 : ℚ) ^ (-(ulpExp p a b)) * (2 : ℚ) ^ (-(p : ℤ) + ulpExp p a b) := by
      rw [mul_assoc, ← zpow_add₀ h2]
      congr 2
      ring
    rw [e1, e2]
    exact mul_le_mul_of_nonneg_right h1 (le_of_lt (zpow_pos (by norm_num) _))
  exact le_trans h3 h4

theorem frac_eq_zero (a b : Nat) (hb : 0 < b) (h : (a : ℚ) / b = 0) : a = 0 := by
  have hb' : (b : ℚ) ≠ 0 := by exact_mod_cast (ne_of_gt hb)
  rcases div_eq_zero_iff.mp h with h1 | h1
  · exact_mod_cast h1
  · exact absurd h1 hb'

theorem F64.round_spec (neg : Bool) (a b : Nat) (v : ℚ) (hb : 0 < b) (hv : (a : ℚ) / b = v)
    (hlo : v = 0 ∨ (2 : ℚ) ^ (-1022 : ℤ) ≤ v) (hhi : v < (2 : ℚ) ^ (1023 : ℤ)) :
    ∃ z, (F64.round neg a b).IsVal neg z ∧ |z - v| ≤ v * (2 : ℚ) ^ (-53 : ℤ) := by
  subst hv
  by_cases ha0 : a = 0
  · subst ha0
    refine ⟨0, ⟨0, 0, ?_, by simp⟩, by simp⟩
    simp [F64.round]
  · have ha : 0 < a := Nat.pos_of_ne_zero ha0
    have hlo' : (2 : ℚ) ^ (-1022 : ℤ) ≤ (a : ℚ) / b := by
      rcases hlo with h | h
      · exact absurd (frac_eq_zero a b hb h) ha0
      · exact h
    have hE1 := ulpExp_gt 53 a b (-1022) ha hb hlo'
    have hE2 := ulpExp_lt 53 a b 1023 ha hb hhi
    have herr := round_core_err 53 a b ha hb
    have hmax : max (ulpExp 53 a b) (-1074) = ulpExp 53 a b := by
      apply max_eq_left
      push_cast at hE1
      omega
    unfold F64.round
    simp only [ha0, if_false, hmax]
    by_cases hq : roundAt a b (ulpExp 53 a b) = 2 ^ 53
    · simp only [hq, if_true]
      have hlt : ¬ (971 < ulpExp 53 a b + 1) := by
        push_cast at hE2
        omega
      simp only [hlt, if_false]
      have h53 : ¬ ((2 : ℕ) ^ 53 = 0) := by norm_num
      simp only [h53, if_false]
      refine ⟨_, ⟨_, _, rfl, rfl⟩, ?_⟩
      rw [hq] at herr
      have e1 : ((2 ^ 52 : ℕ) : ℚ) * (2 : ℚ) ^ (ulpExp 53 a b + 1)
          = ((2 ^ 53 : ℕ) : ℚ) * (2 : ℚ) ^ (ulpExp 53 a b) := by
        rw [zpow_add₀ (by norm_num : (2 : ℚ) ≠ 0)]
        push_cast
        ring
      rw [e1]
      exact herr
    · simp only [hq, if_false]
      have hlt : ¬ (971 < ulpExp 53 a b) := by
        push_cast at hE2
        omega
      simp only [hlt, if_false]
      by_cases hq0 : roundAt a b (ulpExp 53 a b) = 0
      · simp only [hq0, if_true]
        refine ⟨_, ⟨_, _, rfl, rfl⟩, ?_⟩
        rw [hq0] at herr
        simpa using herr
      · simp only [hq0, if_false]
        exact ⟨_, ⟨_, _, rfl, rfl⟩, herr⟩

theorem BigFloat.bigRound_spec (p : Nat) (neg : Bool) (a b : Nat) (v : ℚ) (hb : 0 < b)
    (hv : (a : ℚ) / b = v) (hp1 : 0 < p) (hp : p ≤ 2 ^ 20)
    (hlo : v = 0 ∨ (2 : ℚ) ^ (-(2 : ℤ) ^ 20) ≤ v) (hhi : v < (2 : ℚ) ^ ((2 : ℤ) ^ 20)) :
    ∃ z, (BigFloat.round p neg a b).IsVal neg z ∧ |z - v| ≤ v * (2 : ℚ) ^ (-(p : ℤ)) := by
  subst hv
  by_cases ha0 : a = 0
  · subst ha0
    refine ⟨0, ⟨0, 0, ?_, by simp⟩, by simp⟩
    simp [BigFloat.round]
  · have ha : 0 < a := Nat.pos_of_ne_zero ha0
    have hlo' : (2 : ℚ) ^ (-(2 : ℤ) ^ 20) ≤ (a : ℚ) / b := by
      rcases hlo with h | h
      · exact absurd (frac_eq_zero a b hb h) ha0
      · exact h
    have hE1 := ulpExp_gt p a b (-(2 : ℤ) ^ 20) ha hb hlo'
    have hE2 := ulpExp_lt p a b ((2 : ℤ) ^ 20) ha hb hhi
    have herr := round_core_err p a b ha hb
    have hp' : (p : ℤ) ≤ 2 ^ 20 := by exact_mod_cast hp
    norm_num at hE1 hE2 hp'
    unfold BigFloat.round
    simp only [ha0, if_false]
    by_cases hq : roundAt a b (ulpExp p a b) = 2 ^ p
    · simp only [hq, if_true]
      have hlt1 : ¬ (BigFloat.maxExp < ulpExp p a b + 1 + (p : ℤ)) := by
        unfold BigFloat.maxExp
        omega
      have hlt2 : ¬ (ulpExp p a b + 1 + (p : ℤ) < BigFloat.minExp) := by
        unfold BigFloat.minExp
        omega
      simp only [hlt1, hlt2, if_false]
      refine ⟨_, ⟨_, _, rfl, rfl⟩, ?_⟩
      rw [hq] at herr
      have e1 : ((2 ^ (p - 1) : ℕ) : ℚ) * (2 : ℚ) ^ (ulpExp p a b + 1)
          = ((2 ^ p : ℕ) : ℚ) * (2 : ℚ) ^ (ulpExp p a b) := by
        rw [zpow_add₀ (by norm_num : (2 : ℚ) ≠ 0)]
        have h7 : (2 : ℚ) ^ p = (2 : ℚ) ^ (p - 1) * 2 := by
          rw [← pow_succ]
          congr 1
          omega
        push_cast
        rw [h7]
        simp only [zpow_one]
        ring
      rw [e1]
      exact herr
    · simp only [hq, if_false]
      have hlt1 : ¬ (BigFloat.maxExp < ulpExp p a b + (p : ℤ)) := by
        unfold BigFloat.maxExp
        omega
      have hlt2 : ¬ (ulpExp p a b + (p : ℤ) < BigFloat.minExp) := by
        unfold BigFloat.minExp
        omega
      simp only [hlt1, hlt2, if_false]
      exact ⟨_, ⟨_, _, rfl, rfl⟩, herr⟩

theorem shiftFrac_dyadic (m : Nat) (e : Int) :
    ((shiftFrac m 1 (-e)).1 : ℚ) / ((shiftFrac m 1 (-e)).2 : ℚ) = (m : ℚ) * (2 : ℚ) ^ e := by
  rw [shiftFrac_val]
  simp

theorem F64.mul_spec (f g : F64) (s t : Bool) (x y : ℚ) (hf : f.IsVal s x) (hg : g.IsVal t y)
    (hlo : x * y = 0 ∨ (2 : ℚ) ^ (-1022 : ℤ) ≤ x * y) (hhi : x * y < (2 : ℚ) ^ (1023 : ℤ)) :
    ∃ z, (F64.mul f g).IsVal (xor s t) z ∧ |z - x * y| ≤ x * y * (2 : ℚ) ^ (-53 : ℤ) := by
  obtain ⟨m, e, rfl, hx⟩ := hf
  obtain ⟨n, k, rfl, hy⟩ := hg
  unfold F64.mul
  apply F64.round_spec _ _ _ _ (shiftFrac_snd_pos _ _ _ (by norm_num)) _ hlo hhi
  rw [shiftFrac_dyadic, ← hx, ← hy, zpow_add₀ (by norm_num : (2 : ℚ) ≠ 0)]
  push_cast
  ring

theorem F64.add_spec (f g : F64) (x y : ℚ) (hf : f.IsVal false x) (hg : g.IsVal false y)
    (hlo : x + y = 0 ∨ (2 : ℚ) ^ (-1022 : ℤ) ≤ x + y) (hhi : x + y < (2 : ℚ) ^ (1023 : ℤ)) :
    ∃ z, (F64.add f g).IsVal false z ∧ |z - (x + y)| ≤ (x + y) * (2 : ℚ) ^ (-53 : ℤ) := by
  obtain ⟨m, e, rfl, hx⟩ := hf
  obtain ⟨n, k, rfl, hy⟩ := hg
  have h2 : (2 : ℚ) ≠ 0 := by norm_num
  unfold F64.add
  simp only [F64.signed, Bool.false_eq_true, if_false, Bool.and_self]
  set c := min e k with hc
  have hec : 0 ≤ e - c := by
    have := min_le_left e k
    omega
  have hkc : 0 ≤ k - c := by
    have := min_le_right e k
    omega
  have hval : (((m * 2 ^ (e - c).toNat + n * 2 ^ (k - c).toNat : ℕ) : ℚ)) * (2 : ℚ) ^ c = x + y := by
    have e1 : (2 : ℚ) ^ (e - c).toNat = (2 : ℚ) ^ (e - c) := by
      rw [← zpow_natCast, Int.toNat_of_nonneg hec]
    have e2 : (2 : ℚ) ^ (k - c).toNat = (2 : ℚ) ^ (k - c) := by
      rw [← zpow_natCast, Int.toNat_of_nonneg hkc]
    push_cast
    rw [e1, e2, add_mul, mul_assoc, mul_assoc, ← zpow_add₀ h2, ← zpow_add₀ h2, ← hx, ← hy]
    simp
  have hnn : ((m : ℤ) * 2 ^ (e - c).toNat + (n : ℤ) * 2 ^ (k - c).toNat)
      = ((m * 2 ^ (e - c).toNat + n * 2 ^ (k - c).toNat : ℕ) : ℤ) := by
    push_cast
    rfl
  push_cast
  rw [hnn]
  by_cases h0 : ((m * 2 ^ (e - c).toNat + n * 2 ^ (k - c).toNat : ℕ) : ℤ) = 0
  · simp only [h0, if_true]
    have h0' : (m * 2 ^ (e - c).toNat + n * 2 ^ (k - c).toNat : ℕ) = 0 := by exact_mod_cast h0
    rw [h0'] at hval
    simp at hval
    refine ⟨0, ⟨0, 0, rfl, by simp⟩, ?_⟩
    rw [← hval]
    simp
  · simp only [h0, if_false]
    have hneg : decide (((m * 2 ^ (e - c).toNat + n * 2 ^ (k - c).toNat : ℕ) : ℤ) < 0) = false := by
      simp only [decide_eq_false_iff_not, not_lt]
      exact Int.natCast_nonneg _
    rw [hneg, Int.natAbs_ofNat]
    apply F64.round_spec _ _ _ _ (shiftFrac_snd_pos _ _ _ (by norm_num)) _ hlo hhi
    rw [shiftFrac_dyadic]
    exact hval

theorem F64.fma_spec (f g h : F64) (x y w : ℚ) (hf : f.IsVal false x) (hg : g.IsVal false y)
    (hh : h.IsVal false w)
    (hlo : x * y + w = 0 ∨ (2 : ℚ) ^ (-1022 : ℤ) ≤ x * y + w)
    (hhi : x * y + w < (2 : ℚ) ^ (1023 : ℤ)) :
    ∃ z, (F64.fma f g h).IsVal false z ∧
      |z - (x * y + w)| ≤ (x * y + w) * (2 : ℚ) ^ (-53 : ℤ) := by
  obtain ⟨m, e, rfl, hx⟩ := hf
  obtain ⟨n, k, rfl, hy⟩ := hg
  obtain ⟨p, j, rfl, hw⟩ := hh
  have h2 : (2 : ℚ) ≠ 0 := by norm_num
  unfold F64.fma
  simp only [F64.signed, Bool.xor_false, Bool.false_eq_true, if_false, Bool.and_self]
  set c := min (e + k) j with hc
  have hec : 0 ≤ e + k - c := by
    have := min_le_left (e + k) j
    omega
  have hjc : 0 ≤ j - c := by
    have := min_le_right (e + k) j
    omega
  have hval : (((m * n * 2 ^ (e + k - c).toNat + p * 2 ^ (j - c).toNat : ℕ) : ℚ)) * (2 : ℚ) ^ c
      = x * y + w := by
    have e1 : (2 : ℚ) ^ (e + k - c).toNat = (2 : ℚ) ^ (e + k - c) := by
      rw [← zpow_natCast, Int.toNat_of_nonneg hec]
    have e2 : (2 : ℚ) ^ (j - c).toNat = (2 : ℚ) ^ (j - c) := by
      rw [← zpow_natCast, Int.toNat_of_nonneg hjc]
    have e3 : (2 : ℚ) ^ (e + k - c) * (2 : ℚ) ^ c = (2 : ℚ) ^ e * (2 : ℚ) ^ k := by
      rw [← zpow_add₀ h2, ← zpow_add₀ h2]
      congr 1
      ring
    have e4 : (2 : ℚ) ^ (j - c) * (2 : ℚ) ^ c = (2 : ℚ) ^ j := by
      rw [← zpow_add₀ h2]
      congr 1
      ring
    push_cast
    rw [e1, e2, add_mul, ← hx, ← hy, ← hw]
    have e5 : (m : ℚ) * (n : ℚ) * (2 : ℚ) ^ (e + k - c) * (2 : ℚ) ^ c
        = (m : ℚ) * (n : ℚ) * ((2 : ℚ) ^ (e + k - c) * (2 : ℚ) ^ c) := by ring
    have e6 : (p : ℚ) * (2 : ℚ) ^ (j - c) * (2 : ℚ) ^ c
        = (p : ℚ) * ((2 : ℚ) ^ (j - c) * (2 : ℚ) ^ c) := by ring
    rw [e5, e6, e3, e4]
    ring
  have hnn : ((m : ℤ) * (n : ℤ) * 2 ^ (e + k - c).toNat + (p : ℤ) * 2 ^ (j - c).toNat)
      = ((m * n * 2 ^ (e + k - c).toNat + p * 2 ^ (j - c).toNat : ℕ) : ℤ) := by
    push_cast
    rfl
  push_cast
  rw [hnn]
  by_cases h0 : ((m * n * 2 ^ (e + k - c).toNat + p * 2 ^ (j - c).toNat : ℕ) : ℤ) = 0
  · simp only [h0, if_true]
    have h0' : (m * n * 2 ^ (e + k - c).toNat + p * 2 ^ (j - c).toNat : ℕ) = 0 := by
      exact_mod_cast h0
    rw [h0'] at hval
    simp at hval
    refine ⟨0, ⟨0, 0, rfl, by simp⟩, ?_⟩
    rw [← hval]
    simp
  · simp only [h0, if_false]
    have hneg : decide (((m * n * 2 ^ (e + k - c).toNat + p * 2 ^ (j - c).toNat : ℕ) : ℤ) < 0)
        = false := by
      simp only [decide_eq_false_iff_not, not_lt]
      exact Int.natCast_nonneg _
    rw [hneg, Int.natAbs_ofNat]
    apply F64.round_spec _ _ _ _ (shiftFrac_snd_pos _ _ _ (by norm_num)) _ hlo hhi
    rw [shiftFrac_dyadic]
    exact hval

theorem isVal_nonneg (f : F64) (s : Bool) (x : ℚ) (h : f.IsVal s x) : 0 ≤ x := by
  obtain ⟨m, e, _, hx⟩ := h
  rw [← hx]
  positivity

theorem F64.mulAdd_spec (fused : Bool) (acc f g : F64) (a x y : ℚ) (hacc : acc.IsVal false a)
    (hf : f.IsVal false x) (hg : g.IsVal false y)
    (hplo : x * y = 0 ∨ (2 : ℚ) ^ (-1022 : ℤ) ≤ x * y) (hphi : x * y < (2 : ℚ) ^ (1023 : ℤ))
    (hsum : ∀ w, |w - x * y| ≤ x * y * (2 : ℚ) ^ (-53 : ℤ) →
      (a + w = 0 ∨ (2 : ℚ) ^ (-1022 : ℤ) ≤ a + w) ∧ a + w < (2 : ℚ) ^ (1023 : ℤ)) :
    ∃ z w, (F64.mulAdd fused acc f g).IsVal false z ∧
      |w - x * y| ≤ x * y * (2 : ℚ) ^ (-53 : ℤ) ∧
      |z - (a + w)| ≤ (a + w) * (2 : ℚ) ^ (-53 : ℤ) := by
  cases fused with
  | false =>
    obtain ⟨w, hw1, hw2⟩ := F64.mul_spec f g false false x y hf hg hplo hphi
    simp only [Bool.xor_false] at hw1
    obtain ⟨hlo, hhi⟩ := hsum w hw2
    obtain ⟨z, hz1, hz2⟩ := F64.add_spec acc (F64.mul f g) a w hacc hw1 hlo hhi
    exact ⟨z, w, by simpa [F64.mulAdd] using hz1, hw2, hz2⟩
  | true =>
    have hx0 := isVal_nonneg f false x hf
    have hy0 := isVal_nonneg g false y hg
    have hw2 : |x * y - x * y| ≤ x * y * (2 : ℚ) ^ (-53 : ℤ) := by
      rw [sub_self, abs_zero]
      positivity
    obtain ⟨hlo, hhi⟩ := hsum (x * y) hw2
    rw [add_comm] at hlo hhi
    obtain ⟨z, hz1, hz2⟩ := F64.fma_spec f g acc x y a hf hg hacc hlo hhi
    refine ⟨z, x * y, by simpa [F64.mulAdd] using hz1, hw2, ?_⟩
    rw [add_comm a]
    exact hz2

theorem F64.ofInt_spec (q : Int) (hq : 0 ≤ q) (hhi : q < 2 ^ 62) :
    ∃ z, (F64.ofInt q).IsVal false z ∧ |z - (q : ℚ)| ≤ (q : ℚ) * (2 : ℚ) ^ (-53 : ℤ) := by
  unfold F64.ofInt
  have hneg : decide (q < 0) = false := by
    simp only [decide_eq_false_iff_not, not_lt]
    exact hq
  rw [hneg]
  have hq' : ((q.natAbs : ℕ) : ℚ) = (q : ℚ) := by
    obtain ⟨k, rfl⟩ := Int.eq_ofNat_of_zero_le hq
    simp
  apply F64.round_spec _ _ _ _ (by norm_num) (by simp [hq'])
  · by_cases h0 : q = 0
    · left
      simp [h0]
    · right
      have : (1 : ℚ) ≤ (q : ℚ) := by
        have : (1 : ℤ) ≤ q := by omega
        exact_mod_cast this
      calc (2 : ℚ) ^ (-1022 : ℤ) ≤ 1 := by
            apply zpow_le_one_of_nonpos₀ (by norm_num) (by norm_num)
        _ ≤ q := this
  · have : (q : ℚ) < (2 : ℚ) ^ (62 : ℕ) := by exact_mod_cast hhi
    calc (q : ℚ) < (2 : ℚ) ^ (62 : ℕ) := this
      _ = (2 : ℚ) ^ (62 : ℤ) := by norm_num
      _ ≤ (2 : ℚ) ^ (1023 : ℤ) := zpow_le_zpow_right₀ (by norm_num) (by norm_num)

theorem BigFloat.bigMul_spec (p : Nat) (f g : BigFloat) (s t : Bool) (x y : ℚ)
    (hf : f.IsVal s x) (hg : g.IsVal t y) (hp1 : 0 < p) (hp : p ≤ 2 ^ 20)
    (hlo : x * y = 0 ∨ (2 : ℚ) ^ (-(2 : ℤ) ^ 20) ≤ x * y)
    (hhi : x * y < (2 : ℚ) ^ ((2 : ℤ) ^ 20)) :
    ∃ r z, BigFloat.mul p f g = some r ∧ r.IsVal (xor s t) z ∧
      |z - x * y| ≤ x * y * (2 : ℚ) ^ (-(p : ℤ)) := by
  obtain ⟨m, e, rfl, hx⟩ := hf
  obtain ⟨n, k, rfl, hy⟩ := hg
  unfold BigFloat.mul
  have h := BigFloat.bigRound_spec p (xor s t) (shiftFrac (m * n) 1 (-(e + k))).1
    (shiftFrac (m * n) 1 (-(e + k))).2 (x * y) (shiftFrac_snd_pos _ _ _ (by norm_num))
    (by
      rw [shiftFrac_dyadic, ← hx, ← hy, zpow_add₀ (by norm_num : (2 : ℚ) ≠ 0)]
      push_cast
      ring) hp1 hp hlo hhi
  obtain ⟨z, hz1, hz2⟩ := h
  exact ⟨_, z, rfl, hz1, hz2⟩

theorem BigFloat.bigQuo_spec (p : Nat) (f g : BigFloat) (s t : Bool) (x y : ℚ)
    (hf : f.IsVal s x) (hg : g.IsVal t y) (hy0 : 0 < y) (hp1 : 0 < p) (hp : p ≤ 2 ^ 20)
    (hlo : x / y = 0 ∨ (2 : ℚ) ^ (-(2 : ℤ) ^ 20) ≤ x / y)
    (hhi : x / y < (2 : ℚ) ^ ((2 : ℤ) ^ 20)) :
    ∃ r z, BigFloat.quo p f g = some r ∧ r.IsVal (xor s t) z ∧
      |z - x / y| ≤ x / y * (2 : ℚ) ^ (-(p : ℤ)) := by
  obtain ⟨m, e, rfl, hx⟩ := hf
  obtain ⟨n, k, rfl, hy⟩ := hg
  have h2 : (2 : ℚ) ≠ 0 := by norm_num
  have hn : n ≠ 0 := by
    intro h
    rw [h] at hy
    simp at hy
    linarith
  unfold BigFloat.quo
  simp only [hn, if_false]
  have h := BigFloat.bigRound_spec p (xor s t) (shiftFrac m n (k - e)).1
    (shiftFrac m n (k - e)).2 (x / y) (shiftFrac_snd_pos _ _ _ (Nat.pos_of_ne_zero hn))
    (by
      have hn' : (n : ℚ) ≠ 0 := by exact_mod_cast hn
      have hk : (2 : ℚ) ^ k ≠ 0 := zpow_ne_zero _ h2
      rw [shiftFrac_val, ← hx, ← hy, neg_sub, zpow_sub₀ h2]
      field_simp) hp1 hp hlo hhi
  obtain ⟨z, hz1, hz2⟩ := h
  exact ⟨_, z, rfl, hz1, hz2⟩

theorem BigFloat.toF64_spec (r : BigFloat) (s : Bool) (x : ℚ) (hr : r.IsVal s x)
    (hlo : x = 0 ∨ (2 : ℚ) ^ (-1022 : ℤ) ≤ x) (hhi : x < (2 : ℚ) ^ (1023 : ℤ)) :
    ∃ z, r.toF64.IsVal s z ∧ |z - x| ≤ x * (2 : ℚ) ^ (-53 : ℤ) := by
  obtain ⟨m, e, rfl, hx⟩ := hr
  unfold BigFloat.toF64
  exact F64.round_spec _ _ _ _ (shiftFrac_snd_pos _ _ _ (by norm_num))
    (by rw [shiftFrac_dyadic, hx]) hlo hhi

theorem BigFloat.textInt_spec (r : BigFloat) (s : Bool) (x : ℚ) (K : Nat) (hr : r.IsVal s x)
    (h : |x - (K : ℚ)| < 1 / 2) : r.textInt = some (F64.signed s K) := by
  obtain ⟨m, e, rfl, hx⟩ := hr
  have h1 : roundAt m 1 (-e) = K := by
    unfold roundAt
    apply rne_eq_of_near _ _ K (shiftFrac_snd_pos _ _ _ (by norm_num))
    rw [shiftFrac_dyadic, hx]
    exact h
  simp only [BigFloat.textInt, h1]

set_option maxRecDepth 100000 in
theorem scaleLoop_check : ∀ k, k ≤ 22 → BigFloat.isNat (scaleLoop k BigFloat.one) (10 ^ k) = true := by
  decide

theorem BigFloat.isNat_spec (r : Option BigFloat) (n : Nat) (h : BigFloat.isNat r n = true) :
    ∃ r1, r = some r1 ∧ r1.IsVal false n := by
  unfold BigFloat.isNat at h
  split at h
  · rename_i m e
    refine ⟨_, rfl, m, e, rfl, ?_⟩
    split at h
    · rename_i he
      have h1 : m * 2 ^ e.toNat = n := by simpa using h
      rw [← h1]
      push_cast
      rw [← zpow_natCast, Int.toNat_of_nonneg he]
    · rename_i he
      have h1 : m = n * 2 ^ (-e).toNat := by simpa using h
      rw [h1]
      push_cast
      rw [← zpow_natCast, Int.toNat_of_nonneg (by omega), mul_assoc,
        ← zpow_add₀ (by norm_num : (2 : ℚ) ≠ 0)]
      simp
  · simp at h

theorem bitLen_le_of_lt (n k : Nat) (h : n < 2 ^ k) : bitLen n ≤ k := by
  by_cases h0 : n = 0
  · subst h0
    simp [bitLen, bitLenAux]
  · have h1 := bitLen_le n h0
    have h2 : 2 ^ (bitLen n - 1) < 2 ^ k := lt_of_le_of_lt h1 h
    have h3 := (Nat.pow_lt_pow_iff_right (by norm_num : 1 < 2)).mp h2
    omega

theorem two_round_bound (v z1 z a b : ℚ) (_hv : 0 ≤ v) (_ha : 0 ≤ a) (hb : 0 ≤ b)
    (h1 : |z1 - v| ≤ v * a) (h2 : |z - z1| ≤ z1 * b) : |z - v| ≤ v * (a + b + a * b) := by
  rw [abs_le] at h1 h2 ⊢
  have h3 : z1 * b ≤ (v + v * a) * b := mul_le_mul_of_nonneg_right (by linarith [h1.2]) hb
  constructor <;> nlinarith [h1.1, h1.2, h2.1, h2.2]

theorem toF64_after_round (r1 : BigFloat) (s : Bool) (z1 v : ℚ) (hr : r1.IsVal s z1)
    (h1 : |z1 - v| ≤ v * (2 : ℚ) ^ (-64 : ℤ))
    (hlo : v = 0 ∨ (2 : ℚ) ^ (-1021 : ℤ) ≤ v) (hhi : v < (2 : ℚ) ^ (1022 : ℤ)) :
    ∃ z, r1.toF64.IsVal s z ∧ |z - v| ≤ v * ((2 : ℚ) ^ (-53 : ℤ) + (2 : ℚ) ^ (-63 : ℤ)) := by
  have hv0 : 0 ≤ v := by
    rcases hlo with h | h
    · rw [h]
    · exact le_trans (le_of_lt (zpow_pos (by norm_num) _)) h
  have e64 : (2 : ℚ) ^ (-64 : ℤ) ≤ 1 / 2 := by norm_num
  have e64' : (0 : ℚ) ≤ (2 : ℚ) ^ (-64 : ℤ) := by positivity
  have e53 : (0 : ℚ) ≤ (2 : ℚ) ^ (-53 : ℤ) := by positivity
  have e3 : (2 : ℚ) ^ (-64 : ℤ) + (2 : ℚ) ^ (-53 : ℤ) + (2 : ℚ) ^ (-64 : ℤ) * (2 : ℚ) ^ (-53 : ℤ)
      ≤ (2 : ℚ) ^ (-53 : ℤ) + (2 : ℚ) ^ (-63 : ℤ) := by
    norm_num
  have eL : (2 : ℚ) ^ (-1022 : ℤ) = (2 : ℚ) ^ (-1021 : ℤ) / 2 := by
    rw [show (-1022 : ℤ) = -1021 - 1 by norm_num, zpow_sub₀ (by norm_num : (2 : ℚ) ≠ 0)]
    simp
  have eU : (2 : ℚ) ^ (1023 : ℤ) = (2 : ℚ) ^ (1022 : ℤ) * 2 := by
    rw [show (1023 : ℤ) = 1022 + 1 by norm_num, zpow_add₀ (by norm_num : (2 : ℚ) ≠ 0)]
    simp
  have hbound := two_round_bound v z1
  have key := BigFloat.toF64_spec r1 s z1 hr
  rw [eL, eU] at key
  clear eL eU
  generalize (2 : ℚ) ^ (-64 : ℤ) = u at *
  generalize (2 : ℚ) ^ (-53 : ℤ) = w at *
  generalize (2 : ℚ) ^ (-63 : ℤ) = w2 at *
  generalize (2 : ℚ) ^ (-1021 : ℤ) = L at *
  generalize (2 : ℚ) ^ (1022 : ℤ) = U at *
  have hvu : v * u ≤ v * (1 / 2) := mul_le_mul_of_nonneg_left e64 hv0
  have h1' := abs_le.mp h1
  have hz1lo : v / 2 ≤ z1 := by linarith [h1'.1]
  have hz1hi : z1 ≤ v * 2 := by linarith [h1'.2]
  have hlo1 : z1 = 0 ∨ L / 2 ≤ z1 := by
    rcases hlo with h | h
    · left
      rw [h] at h1'
      simp at h1'
      linarith [h1'.1, h1'.2]
    · right
      linarith
  have hhi1 : z1 < U * 2 := by linarith
  obtain ⟨z, hz, hz2⟩ := key hlo1 hhi1
  refine ⟨z, hz, ?_⟩
  have h5 := hbound z u w hv0 e64' e53 h1 hz2
  exact le_trans h5 (mul_le_mul_of_nonneg_left e3 hv0)

theorem numericToFloat_err (i e : ℤ) (v : ℚ) (he1 : -22 ≤ e) (he2 : e ≤ 22)
    (hv : v = (i.natAbs : ℚ) * (10 : ℚ) ^ e)
    (hlo : i = 0 ∨ (2 : ℚ) ^ (-1021 : ℤ) ≤ v) (hhi : v < (2 : ℚ) ^ (1022 : ℤ)) :
    ∃ f z, numericToFloat ⟨some i, e, true⟩ = some f ∧ f.IsVal (decide (i < 0)) z ∧
      |z - v| ≤ v * ((2 : ℚ) ^ (-53 : ℤ) + (2 : ℚ) ^ (-63 : ℤ)) := by
  have h2 : (2 : ℚ) ≠ 0 := by norm_num
  have h10 : (10 : ℚ) ≠ 0 := by norm_num
  have hofInt : (BigFloat.ofInt i).IsVal (decide (i < 0)) (i.natAbs : ℚ) :=
    ⟨i.natAbs, 0, rfl, by simp⟩
  have hx0 : (0 : ℚ) ≤ (i.natAbs : ℚ) := by positivity
  have hv0 : 0 ≤ v := by
    rw [hv]
    positivity
  have hlo' : v = 0 ∨ (2 : ℚ) ^ (-1021 : ℤ) ≤ v := by
    rcases hlo with h | h
    · left
      rw [hv, h]
      simp
    · right
      exact h
  have hloB : v = 0 ∨ (2 : ℚ) ^ (-(2 : ℤ) ^ 20) ≤ v := by
    rcases hlo' with h | h
    · left
      exact h
    · right
      exact le_trans (zpow_le_zpow_right₀ (by norm_num) (by norm_num)) h
  have hhiB : v < (2 : ℚ) ^ ((2 : ℤ) ^ 20) :=
    lt_of_lt_of_le hhi (zpow_le_zpow_right₀ (by norm_num) (by norm_num))
  -- the mantissa is below 2 ^ 1096
  have hnat : i.natAbs < 2 ^ 1096 := by
    have e1 : (i.natAbs : ℚ) = v * (10 : ℚ) ^ (-e) := by
      rw [hv, mul_assoc, ← zpow_add₀ h10]
      simp
    have e2 : (10 : ℚ) ^ (-e) ≤ (10 : ℚ) ^ (22 : ℤ) :=
      zpow_le_zpow_right₀ (by norm_num) (by omega)
    have e3 : (10 : ℚ) ^ (22 : ℤ) ≤ (2 : ℚ) ^ (74 : ℤ) := by norm_num
    have e4 : (0 : ℚ) < (10 : ℚ) ^ (-e) := zpow_pos (by norm_num) _
    have e5 : (i.natAbs : ℚ) < (2 : ℚ) ^ (1022 : ℤ) * (2 : ℚ) ^ (74 : ℤ) := by
      rw [e1]
      calc v * (10 : ℚ) ^ (-e) ≤ v * (2 : ℚ) ^ (74 : ℤ) :=
            mul_le_mul_of_nonneg_left (le_trans e2 e3) hv0
        _ < (2 : ℚ) ^ (1022 : ℤ) * (2 : ℚ) ^ (74 : ℤ) :=
            mul_lt_mul_of_pos_right hhi (zpow_pos (by norm_num) _)
    rw [← zpow_add₀ h2] at e5
    have e6 : (i.natAbs : ℚ) < ((2 ^ 1096 : ℕ) : ℚ) := by
      rw [Nat.cast_pow, ← zpow_natCast]
      exact e5
    exact_mod_cast e6
  have hbl : bitLen i.natAbs ≤ 1096 := bitLen_le_of_lt _ _ hnat
  have hP1 : 0 < max (bitLen i.natAbs) 64 := lt_of_lt_of_le (by norm_num) (le_max_right _ _)
  have hP2 : max (bitLen i.natAbs) 64 ≤ 2 ^ 20 := max_le (le_trans hbl (by norm_num)) (by norm_num)
  have hPpow : (2 : ℚ) ^ (-((max (bitLen i.natAbs) 64 : ℕ) : ℤ)) ≤ (2 : ℚ) ^ (-64 : ℤ) := by
    apply zpow_le_zpow_right₀ (by norm_num)
    have : (64 : ℤ) ≤ ((max (bitLen i.natAbs) 64 : ℕ) : ℤ) := by
      exact_mod_cast le_max_right (bitLen i.natAbs) 64
    omega
  unfold numericToFloat
  simp only [Bool.not_true, Bool.false_eq_true, if_false]
  by_cases e0 : e = 0
  · subst e0
    simp only [if_true]
    have hv' : v = (i.natAbs : ℚ) := by simpa using hv
    obtain ⟨z, hz1, hz2⟩ := toF64_after_round (BigFloat.ofInt i) (decide (i < 0)) v v
      (by rw [hv']; exact hofInt) (by simpa using mul_nonneg hv0 (by positivity)) hlo' hhi
    exact ⟨_, z, rfl, hz1, hz2⟩
  · simp only [e0, if_false]
    by_cases epos : 0 < e
    · simp only [epos, if_true]
      obtain ⟨sc, hsc1, hsc2⟩ := BigFloat.isNat_spec _ _ (scaleLoop_check e.toNat (by omega))
      have hk : ((10 ^ e.toNat : ℕ) : ℚ) = (10 : ℚ) ^ e := by
        push_cast
        rw [← zpow_natCast, Int.toNat_of_nonneg (le_of_lt epos)]
      rw [hk] at hsc2
      obtain ⟨r, z1, hr1, hr2, hr3⟩ := BigFloat.bigMul_spec (max (bitLen i.natAbs) 64)
        (BigFloat.ofInt i) sc (decide (i < 0)) false _ _ hofInt hsc2 hP1 hP2
        (by rw [← hv]; exact hloB) (by rw [← hv]; exact hhiB)
      rw [← hv] at hr3
      simp only [Bool.xor_false] at hr2
      have hr4 : |z1 - v| ≤ v * (2 : ℚ) ^ (-64 : ℤ) :=
        le_trans hr3 (mul_le_mul_of_nonneg_left hPpow hv0)
      obtain ⟨z, hz1, hz2⟩ := toF64_after_round r (decide (i < 0)) z1 v hr2 hr4 hlo' hhi
      refine ⟨r.toF64, z, ?_, hz1, hz2⟩
      rw [hsc1]
      simp only [Option.some_bind, hr1, Option.map_some']
    · simp only [epos, if_false]
      obtain ⟨sc, hsc1, hsc2⟩ := BigFloat.isNat_spec _ _ (scaleLoop_check (-e).toNat (by omega))
      have hk : ((10 ^ (-e).toNat : ℕ) : ℚ) = (10 : ℚ) ^ (-e) := by
        push_cast
        rw [← zpow_natCast, Int.toNat_of_nonneg (by omega)]
      rw [hk] at hsc2
      have hdiv : (i.natAbs : ℚ) / (10 : ℚ) ^ (-e) = v := by
        rw [hv, zpow_neg, div_inv_eq_mul]
      obtain ⟨r, z1, hr1, hr2, hr3⟩ := BigFloat.bigQuo_spec (max (bitLen i.natAbs) 64)
        (BigFloat.ofInt i) sc (decide (i < 0)) false _ _ hofInt hsc2
        (zpow_pos (by norm_num) _) hP1 hP2
        (by rw [hdiv]; exact hloB) (by rw [hdiv]; exact hhiB)
      rw [hdiv] at hr3
      simp only [Bool.xor_false] at hr2
      have hr4 : |z1 - v| ≤ v * (2 : ℚ) ^ (-64 : ℤ) :=
        le_trans hr3 (mul_le_mul_of_nonneg_left hPpow hv0)
      obtain ⟨z, hz1, hz2⟩ := toF64_after_round r (decide (i < 0)) z1 v hr2 hr4 hlo' hhi
      refine ⟨r.toF64, z, ?_, hz1, hz2⟩
      rw [hsc1]
      simp only [Option.some_bind, hr1, Option.map_some']

theorem floatToNumeric_near (f : F64) (s : Bool) (x : ℚ) (K : Nat) (hf : f.IsVal s x)
    (hlo : x = 0 ∨ (2 : ℚ) ^ (-1100 : ℤ) ≤ x) (hK : (K : ℚ) ≤ 2 ^ 50)
    (h : |x * 100 - (K : ℚ)| ≤ 1 / 4) :
    floatToNumeric f = some ⟨some (F64.signed s K), -2, true⟩ := by
  have hx0 : 0 ≤ x := by
    rcases hlo with h0 | h0
    · rw [h0]
    · exact le_trans (le_of_lt (zpow_pos (by norm_num) _)) h0
  have hf' := hf
  obtain ⟨m, e, rfl, hx⟩ := hf
  have h100 : BigFloat.hundred.IsVal false 100 := ⟨100, 0, rfl, by norm_num⟩
  have habs := abs_le.mp h
  have hxK : x * 100 ≤ 2 ^ 50 + 1 / 4 := by linarith [habs.2]
  obtain ⟨r, z, hr1, hr2, hr3⟩ := BigFloat.bigMul_spec 53 (BigFloat.fin s m e) BigFloat.hundred s false
    x 100 ⟨m, e, rfl, hx⟩ h100 (by norm_num) (by norm_num)
    (by
      rcases hlo with h0 | h0
      · left
        rw [h0]
        simp
      · right
        calc (2 : ℚ) ^ (-(2 : ℤ) ^ 20) ≤ (2 : ℚ) ^ (-1100 : ℤ) :=
              zpow_le_zpow_right₀ (by norm_num) (by norm_num)
          _ ≤ x := h0
          _ ≤ x * 100 := by linarith)
    (by
      calc x * 100 ≤ 2 ^ 50 + 1 / 4 := hxK
        _ < (2 : ℚ) ^ (51 : ℤ) := by norm_num
        _ ≤ (2 : ℚ) ^ ((2 : ℤ) ^ 20) := zpow_le_zpow_right₀ (by norm_num) (by norm_num))
  simp only [Bool.xor_false] at hr2
  have hz : |z - (K : ℚ)| < 1 / 2 := by
    have e1 : x * 100 * (2 : ℚ) ^ (-((53 : ℕ) : ℤ)) ≤ (2 ^ 50 + 1 / 4) * (2 : ℚ) ^ (-((53 : ℕ) : ℤ)) :=
      mul_le_mul_of_nonneg_right hxK (by positivity)
    have e2 : (2 ^ 50 + 1 / 4) * (2 : ℚ) ^ (-((53 : ℕ) : ℤ)) < 1 / 4 := by norm_num
    have e3 := lt_of_le_of_lt e1 e2
    generalize x * 100 * (2 : ℚ) ^ (-((53 : ℕ) : ℤ)) = d at hr3 e3
    have hr3' := abs_le.mp hr3
    rw [abs_lt]
    constructor <;> linarith [hr3'.1, hr3'.2, habs.1, habs.2]
  have ht := BigFloat.textInt_spec r s z K hr2 hz
  unfold floatToNumeric
  simp only [BigFloat.ofF64, Option.some_bind, hr1, Option.map_some', ht]

theorem signed_natAbs (i : Int) : F64.signed (decide (i < 0)) i.natAbs = i := by
  unfold F64.signed
  by_cases h : i < 0
  · simp only [h, decide_True, if_true]
    omega
  · simp only [h, decide_False, Bool.false_eq_true, if_false]
    omega

theorem roundtrip_cents (i : Int) (h : i.natAbs ≤ 10 ^ 15) :
    (numericToFloat ⟨some i, -2, true⟩).bind floatToNumeric = some ⟨some i, -2, true⟩ := by
  have hq : ((i.natAbs : ℕ) : ℚ) ≤ 10 ^ 15 := by exact_mod_cast h
  have hq0 : (0 : ℚ) ≤ ((i.natAbs : ℕ) : ℚ) := by positivity
  have hv : ((i.natAbs : ℕ) : ℚ) / 100 = (i.natAbs : ℚ) * (10 : ℚ) ^ (-2 : ℤ) := by
    norm_num
    ring
  obtain ⟨f, z, hf1, hf2, hf3⟩ := numericToFloat_err i (-2) (((i.natAbs : ℕ) : ℚ) / 100)
    (by norm_num) (by norm_num) hv
    (by
      by_cases h0 : i = 0
      · left
        exact h0
      · right
        have : (1 : ℚ) ≤ ((i.natAbs : ℕ) : ℚ) := by
          have : 1 ≤ i.natAbs := by omega
          exact_mod_cast this
        calc (2 : ℚ) ^ (-1021 : ℤ) ≤ (2 : ℚ) ^ (-7 : ℤ) :=
              zpow_le_zpow_right₀ (by norm_num) (by norm_num)
          _ ≤ 1 / 100 := by norm_num
          _ ≤ ((i.natAbs : ℕ) : ℚ) / 100 := by linarith)
    (by
      calc ((i.natAbs : ℕ) : ℚ) / 100 ≤ 10 ^ 15 / 100 := by linarith
        _ < (2 : ℚ) ^ (50 : ℤ) := by norm_num
        _ ≤ (2 : ℚ) ^ (1022 : ℤ) := zpow_le_zpow_right₀ (by norm_num) (by norm_num))
  rw [hf1, Option.some_bind]
  have hf3' := abs_le.mp hf3
  have eps : ((2 : ℚ) ^ (-53 : ℤ) + (2 : ℚ) ^ (-63 : ℤ)) ≤ 1 / (8 * 10 ^ 15) := by norm_num
  have eps0 : (0 : ℚ) ≤ ((2 : ℚ) ^ (-53 : ℤ) + (2 : ℚ) ^ (-63 : ℤ)) := by positivity
  generalize ((2 : ℚ) ^ (-53 : ℤ) + (2 : ℚ) ^ (-63 : ℤ)) = ε at *
  have herr : ((i.natAbs : ℕ) : ℚ) / 100 * ε ≤ 1 / 800 := by
    calc ((i.natAbs : ℕ) : ℚ) / 100 * ε ≤ (10 ^ 15 / 100) * (1 / (8 * 10 ^ 15)) :=
          mul_le_mul (by linarith) eps eps0 (by norm_num)
      _ = 1 / 800 := by norm_num
  have h1 := floatToNumeric_near f (decide (i < 0)) z i.natAbs hf2
    (by
      by_cases h0 : i = 0
      · left
        subst h0
        simp at hf3'
        linarith [hf3'.1, hf3'.2]
      · right
        have : (1 : ℚ) ≤ ((i.natAbs : ℕ) : ℚ) := by
          have : 1 ≤ i.natAbs := by omega
          exact_mod_cast this
        calc (2 : ℚ) ^ (-1100 : ℤ) ≤ (2 : ℚ) ^ (-8 : ℤ) :=
              zpow_le_zpow_right₀ (by norm_num) (by norm_num)
          _ ≤ 1 / 100 - 1 / 800 := by norm_num
          _ ≤ z := by linarith [hf3'.1])
    (by
      calc ((i.natAbs : ℕ) : ℚ) ≤ 10 ^ 15 := hq
        _ ≤ 2 ^ 50 := by norm_num)
    (by
      rw [abs_le]
      constructor <;> linarith [hf3'.1, hf3'.2])
  rw [h1, signed_natAbs]

theorem productMap_snoc (ps : List Product) (p : Product) (k : Nat) :
    productMap (ps ++ [p]) k = if k = p.id then some p else productMap ps k := by
  unfold productMap
  rw [List.foldl_append]
  rfl

theorem productMap_nil (k : Nat) : productMap [] k = Option.none := rfl

theorem productMap_some (ps : List Product) (k : Nat) (p : Product)
    (h : productMap ps k = some p) : p ∈ ps ∧ p.id = k := by
  induction ps using List.reverseRecOn with
  | nil => simp [productMap_nil] at h
  | append_singleton ps q ih =>
    rw [productMap_snoc] at h
    by_cases hk : k = q.id
    · simp only [hk, if_true, Option.some.injEq] at h
      subst h
      exact ⟨by simp, hk.symm⟩
    · simp only [hk, if_false] at h
      obtain ⟨h1, h2⟩ := ih h
      exact ⟨by simp [h1], h2⟩

theorem productMap_filter (ps : List Product) (ids : List Nat) (k : Nat) :
    productMap (ps.filter fun p => p.id ∈ ids) k
      = if k ∈ ids then productMap ps k else Option.none := by
  induction ps using List.reverseRecOn with
  | nil => simp [productMap_nil]
  | append_singleton ps q ih =>
    rw [List.filter_append]
    by_cases hq : q.id ∈ ids
    · have : List.filter (fun p => decide (p.id ∈ ids)) [q] = [q] := by simp [hq]
      rw [this, productMap_snoc, productMap_snoc, ih]
      by_cases hk : k = q.id
      · subst hk
        simp [hq]
      · simp [hk]
    · have : List.filter (fun p => decide (p.id ∈ ids)) [q] = [] := by simp [hq]
      rw [this, List.append_nil, productMap_snoc, ih]
      by_cases hk : k = q.id
      · subst hk
        simp [hq]
      · simp [hk]

theorem productMap_unique (ps : List Product) (p : Product)
    (hnd : (ps.map fun q => q.id).Nodup) (hp : p ∈ ps) : productMap ps p.id = some p := by
  induction ps using List.reverseRecOn with
  | nil => simp at hp
  | append_singleton ps q ih =>
    rw [productMap_snoc]
    rw [List.map_append, List.nodup_append] at hnd
    obtain ⟨hnd1, _, hdis⟩ := hnd
    rcases List.mem_append.mp hp with h1 | h1
    · have hne : p.id ≠ q.id := by
        intro heq
        apply hdis (a := p.id)
        · exact List.mem_map.mpr ⟨p, h1, rfl⟩
        · simp [heq]
      simp only [hne, if_false]
      exact ih hnd1 h1
    · simp at h1
      subst h1
      simp

theorem beginTxFunc_error {α : Type} (faults : Faults) (db : Db)
    (fn : Store → Except Failure (α × Store)) (f : Failure) (hb : faults.begin = Option.none)
    (h : fn db.store = .error f) :
    beginTxFunc faults db fn = (.error f, { db with txBegun := db.txBegun + 1 }) := by
  unfold beginTxFunc
  simp only [hb, h]

theorem beginTxFunc_ok_inv {α : Type} (faults : Faults) (db db1 : Db)
    (fn : Store → Except Failure (α × Store)) (a : α)
    (h : beginTxFunc faults db fn = (.ok a, db1)) :
    faults.begin = Option.none ∧ faults.commit = Option.none ∧
      ∃ s, fn db.store = .ok (a, s) ∧ db1 = { store := s, txBegun := db.txBegun + 1 } := by
  unfold beginTxFunc at h
  split at h
  · simp at h
  · rename_i hb
    split at h
    · simp at h
    · rename_i a1 s1 hfn
      split at h
      · simp at h
      · rename_i hc
        simp only [Prod.mk.injEq, Except.ok.injEq] at h
        obtain ⟨h1, h2⟩ := h
        subst h1
        exact ⟨hb, hc, s1, hfn, h2.symm⟩

theorem beginTxFunc_store {α : Type} (faults : Faults) (db : Db)
    (fn : Store → Except Failure (α × Store)) (f : Failure)
    (h : (beginTxFunc faults db fn).1 = .error f) :
    (beginTxFunc faults db fn).2.store = db.store := by
  unfold beginTxFunc at h ⊢
  cases hb : faults.begin with
  | some e => simp only [hb]
  | none =>
    simp only [hb] at h ⊢
    cases hfn : fn db.store with
    | error f1 => simp only [hfn]
    | ok p =>
      obtain ⟨a, s⟩ := p
      simp only [hfn] at h ⊢
      cases hc : faults.commit with
      | some e => simp only [hc]
      | none => simp [hc] at h

theorem CreateOrder_unfold (env : Env) (db : Db) (i : CreateOrderInput) (cart : Cart)
    (cartItems : List CartItem) (hv : validateOrderInput env.now i = Option.none)
    (hc : getCartByUserID env.faults.getCart db.store i.userID = .ok cart)
    (hi : getCartItems env.faults.getCartItems db.store cart.id = .ok cartItems)
    (hne : cartItems ≠ []) :
    CreateOrder env db i =
      match beginTxFunc env.faults db (checkoutTx env i cart cartItems) with
      | (.error f, db1) => (.error f, db1)
      | (.ok order, db1) =>
        match getOrderItems env.faults.getOrderItems db1.store order.id with
        | .error e => (.error (.error (.wrap "get order items" e)), db1)
        | .ok orderItems =>
          match mapOrderResponse order orderItems with
          | Option.none => (.error .panic, db1)
          | some r => (.ok r, db1) := by
  have hlen : ¬ cartItems.length = 0 := by
    intro h
    exact hne (List.length_eq_zero.mp h)
  unfold CreateOrder
  simp only [hv, hc, hi, hlen, if_false]

theorem CreateOrder_ok_inv (env : Env) (db db1 : Db) (i : CreateOrderInput) (r : OrderResponse)
    (h : CreateOrder env db i = (.ok r, db1)) :
    ∃ cart cartItems order s,
      validateOrderInput env.now i = Option.none ∧
      getCartByUserID env.faults.getCart db.store i.userID = .ok cart ∧
      getCartItems env.faults.getCartItems db.store cart.id = .ok cartItems ∧
      cartItems ≠ [] ∧
      checkoutTx env i cart cartItems db.store = .ok (order, s) ∧
      db1 = { store := s, txBegun := db.txBegun + 1 } := by
  unfold CreateOrder at h
  split at h
  · simp at h
  · rename_i hv
    split at h
    · split at h <;> simp at h
    · rename_i cart hc
      split at h
      · simp at h
      · rename_i cartItems hi
        split at h
        · simp at h
        · rename_i hlen
          split at h
          · simp at h
          · rename_i order db2 htx
            obtain ⟨_, _, s, hfn, hdb⟩ := beginTxFunc_ok_inv _ _ _ _ _ htx
            have hdb1 : db1 = db2 := by
              split at h
              · simp at h
              · split at h
                · simp at h
                · simp only [Prod.mk.injEq] at h
                  exact h.2.symm
            refine ⟨cart, cartItems, order, s, hv, hc, hi, ?_, hfn, ?_⟩
            · intro h0
              apply hlen
              rw [h0]
              rfl
            · rw [hdb1, hdb]

theorem validateStock_none (pm : Nat → Option Product) (items : List CartItem)
    (h : validateStock pm items = Option.none) :
    ∀ ci ∈ items, ∃ p, pm ci.productID = some p ∧ ci.quantity ≤ p.stockQuantity := by
  induction items with
  | nil => simp
  | cons ci rest ih =>
    unfold validateStock at h
    split at h
    · simp at h
    · rename_i p hp
      split at h
      · simp at h
      · rename_i hlt
        intro cj hcj
        rcases List.mem_cons.mp hcj with h1 | h1
        · subst h1
          exact ⟨p, hp, not_lt.mp hlt⟩
        · exact ih h cj h1

theorem validateStock_first (pm : Nat → Option Product) (pre post : List CartItem)
    (ci0 : CartItem) (p0 : Product)
    (hpre : ∀ ci ∈ pre, ∃ p, pm ci.productID = some p ∧ ci.quantity ≤ p.stockQuantity)
    (h0 : pm ci0.productID = some p0) (hlt : p0.stockQuantity < ci0.quantity) :
    validateStock pm (pre ++ ci0 :: post)
      = some (.app (.sentinel .insufficientStock)
          ("not enough stock for \x27" ++ p0.name ++ "\x27")) := by
  induction pre with
  | nil =>
    simp only [List.nil_append, validateStock, h0, hlt, if_true]
  | cons ci rest ih =>
    obtain ⟨p, hp, hle⟩ := hpre ci (by simp)
    have hnl : ¬ p.stockQuantity < ci.quantity := not_lt.mpr hle
    simp only [List.cons_append, validateStock, hp, hnl, if_false]
    exact ih (fun cj hcj => hpre cj (by simp [hcj]))

theorem createItems_ok (env : Env) (orderID : Nat) (pm : Nat → Option Product)
    (items : List CartItem) :
    ∀ (k : Nat) (s s2 : Store), createItems env orderID pm k items s = .ok s2 →
      s2.orders = s.orders ∧ s2.carts = s.carts ∧ s2.cartItems = s.cartItems ∧
      s2.products = items.foldl (fun ps ci => deductRows ps ci.productID ci.quantity)
        s.products ∧
      ∃ rows, s2.orderItems = s.orderItems ++ rows ∧
        List.Forall₂ (RowOf orderID pm) items rows := by
  induction items with
  | nil =>
    intro k s s2 h
    simp only [createItems, Except.ok.injEq] at h
    subst h
    exact ⟨rfl, rfl, rfl, rfl, [], by simp, List.Forall₂.nil⟩
  | cons ci rest ih =>
    intro k s s2 h
    unfold createItems at h
    split at h
    · simp at h
    · rename_i unitPrice hup
      split at h
      · simp at h
      · rename_i upn hupn
        split at h
        · simp at h
        · rename_i tpn htpn
          split at h
          · simp at h
          · split at h
            · simp at h
            · obtain ⟨h1, h2, h3, h4, rows, h5, h6⟩ := ih _ _ _ h
              refine ⟨?_, ?_, ?_, ?_, ?_⟩
              · rw [h1]
                rfl
              · rw [h2]
                rfl
              · rw [h3]
                rfl
              · rw [h4, List.foldl_cons]
                rfl
              · refine ⟨(⟨env.newOrderItemID k, orderID, ci.productID, ci.quantity, upn, tpn⟩ :
                    OrderItem) :: rows, ?_, List.Forall₂.cons ?_ h6⟩
                · rw [h5]
                  simp [deductProductStock, insertOrderItem]
                · exact ⟨rfl, rfl, rfl, unitPrice, hup, hupn, htpn⟩

theorem checkoutTx_ok_inv (env : Env) (i : CreateOrderInput) (cart : Cart)
    (cartItems : List CartItem) (s s1 : Store) (order : Order)
    (h : checkoutTx env i cart cartItems s = .ok (order, s1)) :
    ∃ pm total s2,
      pm = productMap (s.products.filter fun p => p.id ∈ cartItems.map fun ci => ci.productID) ∧
      validateStock pm cartItems = Option.none ∧
      computeTotal env.fused pm cartItems F64.zero = some total ∧
      floatToNumeric total = some order.totalAmount ∧
      order.id = env.newOrderID ∧
      order.paymentMethod
        = (if i.paymentMethod = "" then "cash_on_delivery" else i.paymentMethod) ∧
      createItems env env.newOrderID pm 0 cartItems (insertOrder s order) = .ok s2 ∧
      s1 = clearCart s2 cart.id := by
  unfold checkoutTx at h
  split at h
  · simp at h
  · rename_i products hfetch
    have hprod : products
        = s.products.filter fun p => p.id ∈ cartItems.map fun ci => ci.productID := by
      unfold getProductsForOrder at hfetch
      split at hfetch
      · simp at hfetch
      · simp only [Except.ok.injEq] at hfetch
        exact hfetch.symm
    split at h
    · simp at h
    · rename_i hval
      split at h
      · simp at h
      · rename_i total htot
        split at h
        · simp at h
        · rename_i tn htn
          split at h
          · simp at h
          · simp only at h
            split at h
            · simp at h
            · rename_i s2 hitems
              split at h
              · simp at h
              · simp only [Except.ok.injEq, Prod.mk.injEq] at h
                obtain ⟨ho, hs⟩ := h
                subst ho
                refine ⟨productMap products, total, s2, by rw [hprod], hval, htot, htn, rfl, rfl,
                  hitems, hs.symm⟩

theorem afterCheckout_nil (p : Product) : afterCheckout [] p = p := rfl

theorem deductRows_fold (items : List CartItem) :
    ∀ ps : List Product, (items.map fun ci => ci.productID).Nodup →
      (∀ ci ∈ items, ∀ p ∈ ps, p.id = ci.productID → ci.quantity ≤ p.stockQuantity) →
      items.foldl (fun ps ci => deductRows ps ci.productID ci.quantity) ps
        = ps.map (afterCheckout items) := by
  induction items with
  | nil =>
    intro ps _ _
    simp only [List.foldl_nil]
    rw [List.map_congr_left (g := id) (fun p _ => afterCheckout_nil p), List.map_id]
  | cons ci rest ih =>
    intro ps hnd hval
    rw [List.map_cons, List.nodup_cons] at hnd
    obtain ⟨hnot, hnd'⟩ := hnd
    have hrest : ∀ cj ∈ rest, cj.productID ≠ ci.productID := by
      intro cj hcj heq
      apply hnot
      rw [← heq]
      exact List.mem_map.mpr ⟨cj, hcj, rfl⟩
    rw [List.foldl_cons, ih (deductRows ps ci.productID ci.quantity) hnd']
    · unfold deductRows
      rw [List.map_map]
      apply List.map_congr_left
      intro p hp
      simp only [Function.comp]
      by_cases hid : p.id = ci.productID
      · have hq := hval ci (by simp) p hp hid
        simp only [hid, hq, and_self, if_true]
        have hnone : rest.find? (fun cj => decide (cj.productID = ci.productID)) = Option.none := by
          rw [List.find?_eq_none]
          intro cj hcj
          simpa using hrest cj hcj
        unfold afterCheckout
        simp only [hid, hnone, List.find?_cons, decide_True]
      · simp only [hid, false_and, if_false]
        unfold afterCheckout
        have hne : ¬ ci.productID = p.id := fun h => hid h.symm
        simp only [List.find?_cons, hne, decide_False]
    · intro cj hcj p' hp' heq
      unfold deductRows at hp'
      obtain ⟨p, hp, hfp⟩ := List.mem_map.mp hp'
      have hne := hrest cj hcj
      by_cases hid : p.id = ci.productID ∧ ci.quantity ≤ p.stockQuantity
      · simp only [hid, and_self, if_true] at hfp
        rw [← hfp] at heq
        simp only at heq
        exact absurd heq.symm hne
      · simp only [hid, if_false] at hfp
        subst hfp
        exact hval cj (by simp [hcj]) p hp heq

theorem getCartByUserID_ok (fault : Option GoError) (s : Store) (userID : Nat) (cart : Cart)
    (h : getCartByUserID fault s userID = .ok cart) :
    s.carts.find? (fun c => c.userID = userID) = some cart := by
  unfold getCartByUserID at h
  split at h
  · simp at h
  · split at h
    · rename_i c hc
      simp only [Except.ok.injEq] at h
      rw [← h]
      exact hc
    · simp at h

theorem getCartItems_ok (fault : Option GoError) (s : Store) (cartID : Nat)
    (items : List CartItem) (h : getCartItems fault s cartID = .ok items) :
    items = (s.cartItems.filter (fun ci => ci.cartID = cartID)).filter (hasProduct s) := by
  unfold getCartItems at h
  split at h
  · simp at h
  · simp only [Except.ok.injEq] at h
    exact h.symm

theorem hasProduct_of_mem (s : Store) (ci : CartItem) (p : Product) (hp : p ∈ s.products)
    (hid : p.id = ci.productID) : hasProduct s ci = true := by
  unfold hasProduct
  rw [Option.isSome_iff_ne_none]
  intro hnone
  rw [List.find?_eq_none] at hnone
  exact hnone p hp (by simpa using hid)

theorem hasProduct_of_map (s : Store) (ci : CartItem) (p : Product)
    (h : productMap s.products ci.productID = some p) : hasProduct s ci = true := by
  obtain ⟨hp, hid⟩ := productMap_some _ _ _ h
  exact hasProduct_of_mem s ci p hp hid

theorem afterCheckout_joined (s : Store) (p : Product) (hp : p ∈ s.products)
    (lines : List CartItem) :
    afterCheckout (lines.filter (hasProduct s)) p = afterCheckout lines p := by
  unfold afterCheckout
  have hfind : (lines.filter (hasProduct s)).find? (fun ci => ci.productID = p.id)
      = lines.find? (fun ci => ci.productID = p.id) := by
    induction lines with
    | nil => rfl
    | cons ci rest ih =>
      by_cases hid : ci.productID = p.id
      · have hh : hasProduct s ci = true := hasProduct_of_mem s ci p hp hid.symm
        rw [List.filter_cons_of_pos hh]
        simp only [List.find?_cons, hid, decide_True]
      · by_cases hh : hasProduct s ci = true
        · rw [List.filter_cons_of_pos hh]
          simp only [List.find?_cons, hid, decide_False]
          exact ih
        · rw [List.filter_cons_of_neg hh]
          simp only [List.find?_cons, hid, decide_False]
          exact ih
  rw [hfind]

/-- The two readings of the query `GetCartItems`, with and without the columns of the
product, return the same cart lines. -/
theorem getCartItemRows_lines (imageURL : Nat → Option String) (s : Store) (cartID : Nat) :
    ∃ rows lines, getCartItemRows Option.none imageURL s cartID = .ok rows ∧
      getCartItems Option.none s cartID = .ok lines ∧
      rows.map GetCartItemsRow.line = lines := by
  refine ⟨_, _, rfl, rfl, ?_⟩
  generalize s.cartItems.filter (fun ci => ci.cartID = cartID) = l
  induction l with
  | nil => rfl
  | cons ci rest ih =>
    cases hp : s.products.find? (fun p => p.id = ci.productID) with
    | none =>
      have hh : ¬ hasProduct s ci = true := by simp [hasProduct, hp]
      rw [List.filter_cons_of_neg hh]
      simp only [List.filterMap_cons, hp, Option.map_none']
      exact ih
    | some p =>
      have hh : hasProduct s ci = true := by simp [hasProduct, hp]
      rw [List.filter_cons_of_pos hh]
      simp only [List.filterMap_cons, hp, Option.map_some', List.map_cons]
      rw [ih]
      rfl

theorem validated_on_store (s : Store) (cartItems : List CartItem)
    (h : validateStock (productMap (s.products.filter fun p =>
      p.id ∈ cartItems.map fun ci => ci.productID)) cartItems = Option.none) :
    ∀ ci ∈ cartItems, ∃ p, productMap s.products ci.productID = some p ∧
      ci.quantity ≤ p.stockQuantity := by
  intro ci hci
  obtain ⟨p, hp, hq⟩ := validateStock_none _ _ h ci hci
  rw [productMap_filter] at hp
  have hmem : ci.productID ∈ cartItems.map fun ci => ci.productID :=
    List.mem_map.mpr ⟨ci, hci, rfl⟩
  simp only [hmem, if_true] at hp
  exact ⟨p, hp, hq⟩

theorem createItems_faults (env : Env) (orderID : Nat) (pm : Nat → Option Product)
    (items : List CartItem) :
    ∀ (k : Nat) (s s2 : Store), createItems env orderID pm k items s = .ok s2 →
      ∀ j, j < items.length →
        env.faults.createOrderItem (k + j) = Option.none ∧
        env.faults.deductStock (k + j) = Option.none := by
  induction items with
  | nil =>
    intro k s s2 _ j hj
    simp at hj
  | cons ci rest ih =>
    intro k s s2 h j hj
    unfold createItems at h
    split at h
    · simp at h
    · split at h
      · simp at h
      · split at h
        · simp at h
        · split at h
          · simp at h
          · rename_i hf1
            split at h
            · simp at h
            · rename_i hf2
              cases j with
              | zero => exact ⟨hf1, hf2⟩
              | succ j =>
                have := ih (k + 1) _ _ h j (by simpa using hj)
                have e : k + (j + 1) = k + 1 + j := by omega
                rw [e]
                exact this

theorem checkoutTx_ok_faults (env : Env) (i : CreateOrderInput) (cart : Cart)
    (cartItems : List CartItem) (s s1 : Store) (order : Order)
    (h : checkoutTx env i cart cartItems s = .ok (order, s1)) :
    env.faults.fetchProducts = Option.none ∧ env.faults.createOrder = Option.none ∧
      env.faults.clearCart = Option.none := by
  unfold checkoutTx at h
  split at h
  · simp at h
  · rename_i products hfetch
    have hf : env.faults.fetchProducts = Option.none := by
      unfold getProductsForOrder at hfetch
      split at hfetch
      · simp at hfetch
      · rename_i hf
        exact hf
    split at h
    · simp at h
    · split at h
      · simp at h
      · split at h
        · simp at h
        · split at h
          · simp at h
          · rename_i hco
            simp only at h
            split at h
            · simp at h
            · split at h
              · simp at h
              · rename_i hcc
                exact ⟨hf, hco, hcc⟩

theorem CreateOrder_store (env : Env) (db : Db) (i : CreateOrderInput) :
    (CreateOrder env db i).2.store = db.store ∨
      ∃ cart cartItems order s, checkoutTx env i cart cartItems db.store = .ok (order, s) ∧
        (CreateOrder env db i).2.store = s := by
  cases hv : validateOrderInput env.now i with
  | some e =>
    left
    simp only [CreateOrder, hv]
  | none =>
    cases hc : getCartByUserID env.faults.getCart db.store i.userID with
    | error e =>
      left
      simp only [CreateOrder, hv, hc]
      split <;> rfl
    | ok cart =>
      cases hi : getCartItems env.faults.getCartItems db.store cart.id with
      | error e =>
        left
        simp only [CreateOrder, hv, hc, hi]
      | ok cartItems =>
        by_cases hne : cartItems = []
        · left
          subst hne
          simp only [CreateOrder, hv, hc, hi, List.length_nil, if_true]
        · rw [CreateOrder_unfold env db i cart cartItems hv hc hi hne]
          cases htx : beginTxFunc env.faults db (checkoutTx env i cart cartItems) with
          | mk res db2 =>
            cases res with
            | error f =>
              left
              have h1 := beginTxFunc_store env.faults db (checkoutTx env i cart cartItems) f
                (by rw [htx])
              rw [htx] at h1
              exact h1
            | ok order =>
              right
              obtain ⟨_, _, s, hfn, hdb⟩ := beginTxFunc_ok_inv _ _ _ _ _ htx
              refine ⟨cart, cartItems, order, s, hfn, ?_⟩
              simp only
              split
              · rw [hdb]
              · split
                · rw [hdb]
                · rw [hdb]

theorem deductRows_nonneg (ps : List Product) (productID : Nat) (quantity : Int)
    (h : ∀ p ∈ ps, 0 ≤ p.stockQuantity) :
    ∀ p ∈ deductRows ps productID quantity, 0 ≤ p.stockQuantity := by
  intro p hp
  unfold deductRows at hp
  obtain ⟨q, hq, hfq⟩ := List.mem_map.mp hp
  split at hfq
  · rename_i hc
    rw [← hfq]
    simp only
    omega
  · rw [← hfq]
    exact h q hq

theorem deductRows_fold_nonneg (items : List CartItem) :
    ∀ ps : List Product, (∀ p ∈ ps, 0 ≤ p.stockQuantity) →
      ∀ p ∈ items.foldl (fun ps ci => deductRows ps ci.productID ci.quantity) ps,
        0 ≤ p.stockQuantity := by
  induction items with
  | nil =>
    intro ps h
    exact h
  | cons ci rest ih =>
    intro ps h
    rw [List.foldl_cons]
    exact ih _ (deductRows_nonneg ps _ _ h)

/-- C7, at the boundary: a delivery date equal to the current instant (here instant 1000)
passes `validateOrderInput`, although the date is not in the future. -/
theorem validateOrderInput_accepts_current_instant :
    validateOrderInput 1000
      { userID := 1, deliveryAddress := "12 Baker Street", deliveryDate := 1000, notes := "",
        paymentMethod := "" } = Option.none := by
  decide

/-- C6: for an input that passes validation, when the reads of the cart do not fail,
`CreateOrder` fails with the sentinel `ErrEmptyCart` if the user has no cart or the cart has
no line item, and the pool is left as it was: no transaction is begun and no table
changes. -/
theorem createOrder_empty_cart (env : Env) (db : Db) (i : CreateOrderInput)
    (hv : validateOrderInput env.now i = Option.none)
    (hf1 : env.faults.getCart = Option.none) (hf2 : env.faults.getCartItems = Option.none)
    (hempty : db.store.carts.find? (fun c => c.userID = i.userID) = Option.none ∨
      ∃ c, db.store.carts.find? (fun c => c.userID = i.userID) = some c ∧
        db.store.cartItems.filter (fun ci => ci.cartID = c.id) = []) :
    CreateOrder env db i = (.error (.error (.sentinel .emptyCart)), db) ∧
      (GoError.sentinel Sentinel.emptyCart).isSentinel .emptyCart = true := by
  refine ⟨?_, rfl⟩
  unfold CreateOrder
  rcases hempty with h | ⟨c, h1, h2⟩
  · simp only [hv, getCartByUserID, hf1, h, GoError.isNoRows, if_true]
  · simp only [hv, getCartByUserID, hf1, h1, getCartItems, hf2, h2, List.filter_nil,
      List.length_nil, if_true]

/-- C4: when the steps before the transaction succeed and a step inside the transaction
fails (the product fetch, the stock validation, the order insert, an order item insert, a
stock deduction or the cart clear), `CreateOrder` returns an error and the tables are the
ones before the call. -/
theorem createOrder_all_or_nothing (env : Env) (db : Db) (i : CreateOrderInput) (cart : Cart)
    (cartItems : List CartItem) (hv : validateOrderInput env.now i = Option.none)
    (hc : getCartByUserID env.faults.getCart db.store i.userID = .ok cart)
    (hi : getCartItems env.faults.getCartItems db.store cart.id = .ok cartItems)
    (hne : cartItems ≠ []) (hb : env.faults.begin = Option.none)
    (hfail : env.faults.fetchProducts ≠ Option.none ∨
      validateStock (productMap (db.store.products.filter fun p =>
        p.id ∈ cartItems.map fun ci => ci.productID)) cartItems ≠ Option.none ∨
      env.faults.createOrder ≠ Option.none ∨
      (∃ k, k < cartItems.length ∧ env.faults.createOrderItem k ≠ Option.none) ∨
      (∃ k, k < cartItems.length ∧ env.faults.deductStock k ≠ Option.none) ∨
      env.faults.clearCart ≠ Option.none) :
    ∃ f, CreateOrder env db i = (.error f, { store := db.store, txBegun := db.txBegun + 1 }) := by
  cases htx : checkoutTx env i cart cartItems db.store with
  | error f =>
    refine ⟨f, ?_⟩
    rw [CreateOrder_unfold env db i cart cartItems hv hc hi hne,
      beginTxFunc_error env.faults db _ f hb htx]
  | ok p =>
    exfalso
    obtain ⟨order, s1⟩ := p
    obtain ⟨hf1, hf2, hf3⟩ := checkoutTx_ok_faults _ _ _ _ _ _ _ htx
    obtain ⟨pm, total, s2, hpm, hval, _, _, _, _, hitems, _⟩ := checkoutTx_ok_inv _ _ _ _ _ _ _ htx
    have hfl := createItems_faults _ _ _ _ _ _ _ hitems
    rcases hfail with h | h | h | ⟨k, hk, h⟩ | ⟨k, hk, h⟩ | h
    · exact h hf1
    · rw [← hpm] at h
      exact h hval
    · exact h hf2
    · have := (hfl k hk).1
      rw [Nat.zero_add] at this
      exact h this
    · have := (hfl k hk).2
      rw [Nat.zero_add] at this
      exact h this
    · exact h hf3

/-- C3: when the steps before the stock validation succeed, every cart line before `ci0`
has enough stock and the line `ci0` asks for more than the stock of its product `p0`,
`CreateOrder` fails with `ErrInsufficientStock` and a message naming `p0`, and no table
changes. Moreover no call of `CreateOrder` makes a stock negative. -/
theorem createOrder_insufficient_stock :
    (∀ (env : Env) (db : Db) (i : CreateOrderInput) (cart : Cart) (pre post : List CartItem)
      (ci0 : CartItem) (p0 : Product),
      validateOrderInput env.now i = Option.none →
      getCartByUserID env.faults.getCart db.store i.userID = .ok cart →
      getCartItems env.faults.getCartItems db.store cart.id = .ok (pre ++ ci0 :: post) →
      env.faults.begin = Option.none → env.faults.fetchProducts = Option.none →
      (∀ ci ∈ pre, ∃ p, productMap db.store.products ci.productID = some p ∧
        ci.quantity ≤ p.stockQuantity) →
      productMap db.store.products ci0.productID = some p0 →
      p0.stockQuantity < ci0.quantity →
      CreateOrder env db i
        = (.error (.error (.app (.sentinel .insufficientStock)
            ("not enough stock for \x27" ++ p0.name ++ "\x27"))),
           { store := db.store, txBegun := db.txBegun + 1 }) ∧
        (GoError.app (.sentinel .insufficientStock)
          ("not enough stock for \x27" ++ p0.name ++ "\x27")).isSentinel .insufficientStock
          = true) ∧
    (∀ (env : Env) (db : Db) (i : CreateOrderInput),
      (∀ p ∈ db.store.products, 0 ≤ p.stockQuantity) →
      ∀ p ∈ (CreateOrder env db i).2.store.products, 0 ≤ p.stockQuantity) := by
  constructor
  · intro env db i cart pre post ci0 p0 hv hc hi hb hfp hpre h0 hlt
    refine ⟨?_, rfl⟩
    have hne : pre ++ ci0 :: post ≠ [] := by simp
    have hmem : ∀ ci ∈ pre ++ ci0 :: post,
        ci.productID ∈ (pre ++ ci0 :: post).map fun ci => ci.productID :=
      fun ci hci => List.mem_map.mpr ⟨ci, hci, rfl⟩
    have hval := validateStock_first
      (productMap (db.store.products.filter fun p =>
        p.id ∈ (pre ++ ci0 :: post).map fun ci => ci.productID)) pre post ci0 p0
      (by
        intro ci hci
        obtain ⟨p, hp, hq⟩ := hpre ci hci
        refine ⟨p, ?_, hq⟩
        rw [productMap_filter]
        simp only [hmem ci (by simp [hci]), if_true, hp])
      (by
        rw [productMap_filter]
        simp only [hmem ci0 (by simp), if_true, h0])
      hlt
    have htx : checkoutTx env i cart (pre ++ ci0 :: post) db.store
        = .error (.error (.app (.sentinel .insufficientStock)
            ("not enough stock for \x27" ++ p0.name ++ "\x27"))) := by
      unfold checkoutTx
      simp only [getProductsForOrder, hfp, hval]
    rw [CreateOrder_unfold env db i cart _ hv hc hi hne, beginTxFunc_error env.faults db _ _ hb htx]
  · intro env db i hnn
    rcases CreateOrder_store env db i with h | ⟨cart, cartItems, order, s, htx, h⟩
    · rw [h]
      exact hnn
    · rw [h]
      obtain ⟨pm, total, s2, _, _, _, _, _, _, hitems, hs⟩ := checkoutTx_ok_inv _ _ _ _ _ _ _ htx
      obtain ⟨_, _, _, hprod, _⟩ := createItems_ok _ _ _ _ _ _ _ hitems
      rw [hs]
      have e : (clearCart s2 cart.id).products = s2.products := rfl
      rw [e, hprod]
      exact deductRows_fold_nonneg _ _ hnn

theorem CreateOrder_isOk_inv (env : Env) (db : Db) (i : CreateOrderInput)
    (h : (CreateOrder env db i).1.isOk = true) :
    ∃ cart cartItems order s,
      validateOrderInput env.now i = Option.none ∧
      getCartByUserID env.faults.getCart db.store i.userID = .ok cart ∧
      getCartItems env.faults.getCartItems db.store cart.id = .ok cartItems ∧
      cartItems ≠ [] ∧
      checkoutTx env i cart cartItems db.store = .ok (order, s) ∧
      (CreateOrder env db i).2 = { store := s, txBegun := db.txBegun + 1 } := by
  cases hres : CreateOrder env db i with
  | mk res db1 =>
    rw [hres] at h
    cases res with
    | error f => simp [Except.isOk, Except.toBool] at h
    | ok r => exact CreateOrder_ok_inv env db db1 i r hres

/-- C2: after a successful `CreateOrder`, when product ids are unique and the cart has at
most one line per product, every product row is the row before the call with its stock
lowered by the quantity of the cart line that references it, rows that no line references
are unchanged, and the cart of the user has no line item. -/
theorem createOrder_deducts_stock_and_clears_cart (env : Env) (db : Db)
    (i : CreateOrderInput) (h : (CreateOrder env db i).1.isOk = true)
    (hpk : (db.store.products.map fun p => p.id).Nodup)
    (hline : ∀ c ∈ db.store.carts,
      ((db.store.cartItems.filter fun ci => ci.cartID = c.id).map fun ci => ci.productID).Nodup) :
    ∃ cart, db.store.carts.find? (fun c => c.userID = i.userID) = some cart ∧
      (CreateOrder env db i).2.store.products = db.store.products.map
        (afterCheckout (db.store.cartItems.filter fun ci => ci.cartID = cart.id)) ∧
      (CreateOrder env db i).2.store.cartItems.filter (fun ci => ci.cartID = cart.id) = [] := by
  obtain ⟨cart, cartItems, order, s, _, hc, hi, _, htx, hdb⟩ := CreateOrder_isOk_inv _ _ _ h
  have hfind := getCartByUserID_ok _ _ _ _ hc
  have hitems := getCartItems_ok _ _ _ _ hi
  obtain ⟨pm, total, s2, hpm, hval, _, _, _, _, hci, hs⟩ := checkoutTx_ok_inv _ _ _ _ _ _ _ htx
  obtain ⟨_, _, hcart, hprod, _⟩ := createItems_ok _ _ _ _ _ _ _ hci
  rw [hpm] at hval
  have hv2 := validated_on_store db.store cartItems hval
  refine ⟨cart, hfind, ?_, ?_⟩
  · rw [hdb, hs]
    have e : (clearCart s2 cart.id).products = s2.products := rfl
    have e2 : (insertOrder db.store order).products = db.store.products := rfl
    simp only [e, hprod, e2]
    have hjoin : db.store.products.map
          (afterCheckout (db.store.cartItems.filter fun ci => ci.cartID = cart.id))
        = db.store.products.map (afterCheckout cartItems) := by
      apply List.map_congr_left
      intro p hp
      rw [hitems, afterCheckout_joined db.store p hp]
    rw [hjoin]
    apply deductRows_fold
    · rw [hitems]
      exact ((hline cart (List.mem_of_find?_eq_some hfind)).sublist
        ((List.filter_sublist _).map _))
    · intro ci hci p hp hid
      obtain ⟨p1, hp1, hq⟩ := hv2 ci hci
      have := productMap_unique db.store.products p hpk hp
      rw [hid, hp1] at this
      simp only [Option.some.injEq] at this
      rw [← this]
      exact hq
  · rw [hdb, hs]
    have e : (clearCart s2 cart.id).cartItems
        = s2.cartItems.filter (fun ci => ¬ ci.cartID = cart.id) := rfl
    simp only [e, List.filter_filter]
    rw [List.filter_eq_nil_iff]
    intro ci _
    simp

set_option maxRecDepth 100000 in
theorem createOrder_deducts_stock_and_clears_cart_witness :
    ∃ cart, demoDb.store.carts.find? (fun c => c.userID = demoInput.userID) = some cart ∧
      (CreateOrder demoEnv demoDb demoInput).2.store.products = demoDb.store.products.map
        (afterCheckout (demoDb.store.cartItems.filter fun ci => ci.cartID = cart.id)) ∧
      (CreateOrder demoEnv demoDb demoInput).2.store.cartItems.filter
        (fun ci => ci.cartID = cart.id) = [] :=
  createOrder_deducts_stock_and_clears_cart demoEnv demoDb demoInput (by decide) (by decide)
    (by decide)

theorem isVal_toRat (f : F64) (s : Bool) (z : ℚ) (h : f.IsVal s z) :
    f.toRat = (if s then -1 else 1) * z := by
  obtain ⟨m, e, rfl, hz⟩ := h
  unfold F64.toRat
  rw [← hz]
  ring

theorem int_eq_sign_natAbs (i : Int) :
    (i : ℚ) = (if decide (i < 0) = true then -1 else 1) * ((i.natAbs : ℕ) : ℚ) := by
  rcases Int.eq_nat_or_neg i with ⟨k, rfl | rfl⟩
  · have h0 : ¬ ((k : ℤ) < 0) := by omega
    have h1 : ¬ ((k : ℚ) < 0) := by
      have : (0 : ℚ) ≤ (k : ℚ) := by positivity
      linarith
    simp [h0, h1]
  · by_cases hk : k = 0
    · subst hk
      simp
    · have : (-(k : ℤ) < 0) := by omega
      simp [this]

theorem rne_eq_nearestEven (a b : Nat) (hb : 0 < b) : rne a b = nearestEven ((a : ℚ) / b) := by
  have hb' : (0 : ℚ) < b := by exact_mod_cast hb
  have hfl : Nat.floor ((a : ℚ) / b) = a / b := Nat.floor_div_eq_div a b
  have hdm : (a : ℚ) = (b : ℚ) * ((a / b : ℕ) : ℚ) + ((a % b : ℕ) : ℚ) := by
    exact_mod_cast (Nat.div_add_mod a b).symm
  have hfrac : (a : ℚ) / b - ((a / b : ℕ) : ℚ) = ((a % b : ℕ) : ℚ) / b := by
    field_simp
    linarith
  have h1 : (2 * (((a % b : ℕ) : ℚ) / b) < 1) ↔ 2 * (a % b) < b := by
    rw [← mul_div_assoc, div_lt_one hb']
    exact_mod_cast Iff.rfl
  have h2 : (1 < 2 * (((a % b : ℕ) : ℚ) / b)) ↔ b < 2 * (a % b) := by
    rw [← mul_div_assoc, one_lt_div hb']
    exact_mod_cast Iff.rfl
  unfold rne nearestEven
  rw [hfl, hfrac]
  simp only [h1, h2]

theorem nearestEven_natCast (n : Nat) : nearestEven (n : ℚ) = n := by
  unfold nearestEven
  simp

theorem nearestEven_err (v : ℚ) (hv : 0 ≤ v) : |((nearestEven v : ℕ) : ℚ) - v| ≤ 1 / 2 := by
  have h1 : ((Nat.floor v : ℕ) : ℚ) ≤ v := Nat.floor_le hv
  have h2 : v < ((Nat.floor v : ℕ) : ℚ) + 1 := Nat.lt_floor_add_one v
  unfold nearestEven
  rw [abs_le]
  split
  · constructor <;> linarith
  · split
    · push_cast
      constructor <;> linarith
    · split
      · constructor <;> linarith
      · push_cast
        constructor <;> linarith

theorem nearestEven_eq_of_near (v : ℚ) (hv : 0 ≤ v) (k : Nat)
    (h : |v - (k : ℚ)| < 1 / 2) : nearestEven v = k := by
  have h1 := nearestEven_err v hv
  rw [abs_le] at h1
  rw [abs_lt] at h
  have h3 : ((nearestEven v : ℕ) : ℚ) < (k : ℚ) + 1 := by linarith [h1.2, h.1]
  have h4 : (k : ℚ) < ((nearestEven v : ℕ) : ℚ) + 1 := by linarith [h1.1, h.2]
  have h5 : nearestEven v < k + 1 := by exact_mod_cast h3
  have h6 : k < nearestEven v + 1 := by exact_mod_cast h4
  omega

theorem roundAt_eq_nearestEven (a b : Nat) (e : Int) (hb : 0 < b) :
    roundAt a b e = nearestEven ((a : ℚ) / b / (2 : ℚ) ^ e) := by
  unfold roundAt
  rw [rne_eq_nearestEven _ _ (shiftFrac_snd_pos a b e hb), shiftFrac_val, zpow_neg,
    div_eq_mul_inv ((a : ℚ) / b)]

theorem ulpExp_eq_lastPlace (p a b : Nat) (ha : 0 < a) (hb : 0 < b) :
    ulpExp p a b = lastPlace p ((a : ℚ) / b) := by
  have h2 : (2 : ℚ) ≠ 0 := by norm_num
  have hv : (0 : ℚ) < (a : ℚ) / b := by
    have ha' : (0 : ℚ) < a := by exact_mod_cast ha
    have hb' : (0 : ℚ) < b := by exact_mod_cast hb
    positivity
  obtain ⟨h1, h3⟩ := ulpExp_spec p a b ha hb
  have hpos : (0 : ℚ) < (2 : ℚ) ^ (ulpExp p a b) := zpow_pos (by norm_num) _
  have e1 : (a : ℚ) / b = (a : ℚ) / b * (2 : ℚ) ^ (-(ulpExp p a b)) * (2 : ℚ) ^ (ulpExp p a b) := by
    rw [mul_assoc, ← zpow_add₀ h2]
    simp
  have hlo : (2 : ℚ) ^ ((p : ℤ) - 1 + ulpExp p a b) ≤ (a : ℚ) / b := by
    rw [zpow_add₀ h2, e1]
    exact mul_le_mul_of_nonneg_right h1 (le_of_lt hpos)
  have hhi : (a : ℚ) / b < (2 : ℚ) ^ ((p : ℤ) + ulpExp p a b) := by
    rw [zpow_add₀ h2, e1]
    exact mul_lt_mul_of_pos_right h3 hpos
  have k1 : (p : ℤ) - 1 + ulpExp p a b ≤ Int.log 2 ((a : ℚ) / b) := by
    have := (Int.zpow_le_iff_le_log (b := 2) (by norm_num) hv).mp
      (by exact_mod_cast hlo)
    exact this
  have k2 : Int.log 2 ((a : ℚ) / b) < (p : ℤ) + ulpExp p a b := by
    have := (Int.lt_zpow_iff_log_lt (b := 2) (by norm_num) hv).mp
      (by exact_mod_cast hhi)
    exact this
  unfold lastPlace
  omega

theorem lastPlace_spec (p : Nat) (v : ℚ) (hv : 0 < v) :
    (2 : ℚ) ^ ((p : ℤ) - 1) ≤ v / (2 : ℚ) ^ lastPlace p v ∧
      v / (2 : ℚ) ^ lastPlace p v < (2 : ℚ) ^ (p : ℤ) := by
  have h2 : (2 : ℚ) ≠ 0 := by norm_num
  have hpos : (0 : ℚ) < (2 : ℚ) ^ lastPlace p v := zpow_pos (by norm_num) _
  have h1 : ((2 : ℕ) : ℚ) ^ Int.log 2 v ≤ v := Int.zpow_log_le_self (by norm_num) hv
  have h3 : v < ((2 : ℕ) : ℚ) ^ (Int.log 2 v + 1) := Int.lt_zpow_succ_log_self (by norm_num) v
  push_cast at h1 h3
  constructor
  · rw [le_div_iff₀ hpos, ← zpow_add₀ h2]
    unfold lastPlace
    have : (p : ℤ) - 1 + (Int.log 2 v - ((p : ℤ) - 1)) = Int.log 2 v := by ring
    rw [this]
    exact h1
  · rw [div_lt_iff₀ hpos, ← zpow_add₀ h2]
    unfold lastPlace
    have : (p : ℤ) + (Int.log 2 v - ((p : ℤ) - 1)) = Int.log 2 v + 1 := by ring
    rw [this]
    exact h3

theorem lastPlace_unique (p : Nat) (v : ℚ) (hv : 0 < v) (e : Int)
    (h1 : (2 : ℚ) ^ ((p : ℤ) - 1) ≤ v / (2 : ℚ) ^ e) (h3 : v / (2 : ℚ) ^ e < (2 : ℚ) ^ (p : ℤ)) :
    lastPlace p v = e := by
  have h2 : (2 : ℚ) ≠ 0 := by norm_num
  have hpos : (0 : ℚ) < (2 : ℚ) ^ e := zpow_pos (by norm_num) _
  rw [le_div_iff₀ hpos, ← zpow_add₀ h2] at h1
  rw [div_lt_iff₀ hpos, ← zpow_add₀ h2] at h3
  have k1 : (p : ℤ) - 1 + e ≤ Int.log 2 v :=
    (Int.zpow_le_iff_le_log (b := 2) (by norm_num) hv).mp (by exact_mod_cast h1)
  have k2 : Int.log 2 v < (p : ℤ) + e :=
    (Int.lt_zpow_iff_log_lt (b := 2) (by norm_num) hv).mp (by exact_mod_cast h3)
  unfold lastPlace
  omega

theorem roundToBits_zero (p : Nat) : roundToBits p 0 = 0 := by
  unfold roundToBits
  simp

theorem BigFloat.round_val (p : Nat) (neg : Bool) (a b : Nat) (hb : 0 < b) (hp1 : 0 < p)
    (hp : p ≤ 2 ^ 20)
    (hlo : a = 0 ∨ (2 : ℚ) ^ (-(2 : ℤ) ^ 20) ≤ (a : ℚ) / b)
    (hhi : (a : ℚ) / b < (2 : ℚ) ^ ((2 : ℤ) ^ 20)) :
    (BigFloat.round p neg a b).IsVal neg (roundToBits p ((a : ℚ) / b)) := by
  by_cases ha0 : a = 0
  · subst ha0
    refine ⟨0, 0, ?_, ?_⟩
    · simp [BigFloat.round]
    · simp [roundToBits_zero]
  · have ha : 0 < a := Nat.pos_of_ne_zero ha0
    have hv : (0 : ℚ) < (a : ℚ) / b := by
      have ha' : (0 : ℚ) < a := by exact_mod_cast ha
      have hb' : (0 : ℚ) < b := by exact_mod_cast hb
      positivity
    have hlo' : (2 : ℚ) ^ (-(2 : ℤ) ^ 20) ≤ (a : ℚ) / b := by
      rcases hlo with h | h
      · exact absurd h ha0
      · exact h
    have hE1 := ulpExp_gt p a b (-(2 : ℤ) ^ 20) ha hb hlo'
    have hE2 := ulpExp_lt p a b ((2 : ℤ) ^ 20) ha hb hhi
    have hp' : (p : ℤ) ≤ 2 ^ 20 := by exact_mod_cast hp
    norm_num at hE1 hE2 hp'
    have hrb : roundToBits p ((a : ℚ) / b)
        = ((roundAt a b (ulpExp p a b) : ℕ) : ℚ) * (2 : ℚ) ^ (ulpExp p a b) := by
      unfold roundToBits
      rw [if_neg (not_le.mpr hv), ← ulpExp_eq_lastPlace p a b ha hb,
        ← roundAt_eq_nearestEven a b _ hb]
    rw [hrb]
    unfold BigFloat.round
    simp only [ha0, if_false]
    by_cases hq : roundAt a b (ulpExp p a b) = 2 ^ p
    · simp only [hq, if_true]
      have hlt1 : ¬ (BigFloat.maxExp < ulpExp p a b + 1 + (p : ℤ)) := by
        unfold BigFloat.maxExp
        omega
      have hlt2 : ¬ (ulpExp p a b + 1 + (p : ℤ) < BigFloat.minExp) := by
        unfold BigFloat.minExp
        omega
      simp only [hlt1, hlt2, if_false]
      refine ⟨_, _, rfl, ?_⟩
      rw [zpow_add₀ (by norm_num : (2 : ℚ) ≠ 0)]
      have h7 : (2 : ℚ) ^ p = (2 : ℚ) ^ (p - 1) * 2 := by
        rw [← pow_succ]
        congr 1
        omega
      push_cast
      rw [h7]
      simp only [zpow_one]
      ring
    · simp only [hq, if_false]
      have hlt1 : ¬ (BigFloat.maxExp < ulpExp p a b + (p : ℤ)) := by
        unfold BigFloat.maxExp
        omega
      have hlt2 : ¬ (ulpExp p a b + (p : ℤ) < BigFloat.minExp) := by
        unfold BigFloat.minExp
        omega
      simp only [hlt1, hlt2, if_false]
      exact ⟨_, _, rfl, rfl⟩

theorem BigFloat.textInt_val (r : BigFloat) (s : Bool) (x : ℚ) (hr : r.IsVal s x) :
    r.textInt = some (F64.signed s (nearestEven x)) := by
  obtain ⟨m, e, rfl, hx⟩ := hr
  have h1 : roundAt m 1 (-e) = nearestEven x := by
    rw [roundAt_eq_nearestEven m 1 (-e) (by norm_num), ← hx, zpow_neg]
    simp
  simp only [BigFloat.textInt, h1]

theorem F64.round_rat (neg : Bool) (a b : Nat) (ha : 0 < a) (hb : 0 < b) :
    F64.round neg a b
      = (if 971 < (if nearestEven ((a : ℚ) / b / (2 : ℚ) ^ max (lastPlace 53 ((a : ℚ) / b)) (-1074))
              = 2 ^ 53
            then ((2 : ℕ) ^ 52, max (lastPlace 53 ((a : ℚ) / b)) (-1074) + 1)
            else (nearestEven ((a : ℚ) / b / (2 : ℚ) ^ max (lastPlace 53 ((a : ℚ) / b)) (-1074)),
              max (lastPlace 53 ((a : ℚ) / b)) (-1074))).2
        then F64.inf neg
        else if nearestEven ((a : ℚ) / b / (2 : ℚ) ^ max (lastPlace 53 ((a : ℚ) / b)) (-1074)) = 0
          then F64.fin neg 0 0
          else F64.fin neg
            (if nearestEven ((a : ℚ) / b / (2 : ℚ) ^ max (lastPlace 53 ((a : ℚ) / b)) (-1074))
                = 2 ^ 53
              then ((2 : ℕ) ^ 52, max (lastPlace 53 ((a : ℚ) / b)) (-1074) + 1)
              else (nearestEven ((a : ℚ) / b / (2 : ℚ) ^ max (lastPlace 53 ((a : ℚ) / b)) (-1074)),
                max (lastPlace 53 ((a : ℚ) / b)) (-1074))).1
            (if nearestEven ((a : ℚ) / b / (2 : ℚ) ^ max (lastPlace 53 ((a : ℚ) / b)) (-1074))
                = 2 ^ 53
              then ((2 : ℕ) ^ 52, max (lastPlace 53 ((a : ℚ) / b)) (-1074) + 1)
              else (nearestEven ((a : ℚ) / b / (2 : ℚ) ^ max (lastPlace 53 ((a : ℚ) / b)) (-1074)),
                max (lastPlace 53 ((a : ℚ) / b)) (-1074))).2) := by
  have ha0 : a ≠ 0 := by omega
  unfold F64.round
  simp only [ha0, if_false]
  rw [ulpExp_eq_lastPlace 53 a b ha hb, roundAt_eq_nearestEven a b _ hb]

theorem F64.round_congr (neg : Bool) (a b c d : Nat) (hb : 0 < b) (hd : 0 < d)
    (h : (a : ℚ) / b = (c : ℚ) / d) : F64.round neg a b = F64.round neg c d := by
  by_cases ha0 : a = 0
  · subst ha0
    have hc : c = 0 := by
      apply frac_eq_zero c d hd
      rw [← h]
      simp
    subst hc
    simp [F64.round]
  · have ha : 0 < a := Nat.pos_of_ne_zero ha0
    have hc : 0 < c := by
      rcases Nat.eq_zero_or_pos c with h0 | h0
      · exfalso
        subst h0
        have : (a : ℚ) / b = 0 := by
          rw [h]
          simp
        exact ha0 (frac_eq_zero a b hb this)
      · exact h0
    rw [F64.round_rat neg a b ha hb, F64.round_rat neg c d hc hd, h]

theorem BigFloat.toF64_val (r : BigFloat) (s : Bool) (x : ℚ) (a b : Nat) (hb : 0 < b)
    (hr : r.IsVal s x) (hx : (a : ℚ) / b = x) : r.toF64 = F64.round s a b := by
  obtain ⟨m, e, rfl, hm⟩ := hr
  unfold BigFloat.toF64
  apply F64.round_congr _ _ _ _ _ (shiftFrac_snd_pos _ _ _ (by norm_num)) hb
  rw [shiftFrac_dyadic, hm, hx]

theorem roundToBits_exact (p : Nat) (c : Nat) (j : Int) (hc : 0 < c) (hcp : c < 2 ^ p) :
    roundToBits p ((c : ℚ) * (2 : ℚ) ^ j) = (c : ℚ) * (2 : ℚ) ^ j := by
  have h2 : (2 : ℚ) ≠ 0 := by norm_num
  have hcQ : (0 : ℚ) < (c : ℚ) := by exact_mod_cast hc
  have hv : (0 : ℚ) < (c : ℚ) * (2 : ℚ) ^ j := mul_pos hcQ (zpow_pos (by norm_num) _)
  obtain ⟨h1, _⟩ := lastPlace_spec p _ hv
  set e := lastPlace p ((c : ℚ) * (2 : ℚ) ^ j) with he
  have hx : (c : ℚ) * (2 : ℚ) ^ j / (2 : ℚ) ^ e = (c : ℚ) * (2 : ℚ) ^ (j - e) := by
    rw [zpow_sub₀ h2]
    ring
  have hje : 0 ≤ j - e := by
    by_contra hneg
    have hle : j - e ≤ -1 := by omega
    have h3 : (2 : ℚ) ^ (j - e) ≤ (2 : ℚ) ^ (-1 : ℤ) := zpow_le_zpow_right₀ (by norm_num) hle
    have h4 : (c : ℚ) * (2 : ℚ) ^ (j - e) ≤ (c : ℚ) * (2 : ℚ) ^ (-1 : ℤ) :=
      mul_le_mul_of_nonneg_left h3 (le_of_lt hcQ)
    have h5 : (c : ℚ) < (2 : ℚ) ^ (p : ℤ) := by
      rw [zpow_natCast]
      exact_mod_cast hcp
    have h6 : (2 : ℚ) ^ ((p : ℤ) - 1) = (2 : ℚ) ^ (p : ℤ) * (2 : ℚ) ^ (-1 : ℤ) := by
      rw [← zpow_add₀ h2]
      congr 1
    rw [hx, h6] at h1
    have h7 : (2 : ℚ) ^ (-1 : ℤ) = 1 / 2 := by norm_num
    rw [h7] at h1 h4
    linarith
  have hnat : (c : ℚ) * (2 : ℚ) ^ (j - e) = ((c * 2 ^ (j - e).toNat : ℕ) : ℚ) := by
    push_cast
    rw [← zpow_natCast, Int.toNat_of_nonneg hje]
  unfold roundToBits
  rw [if_neg (not_le.mpr hv), ← he, hx, hnat, nearestEven_natCast, ← hnat, mul_assoc,
    ← zpow_add₀ h2]
  congr 2
  ring

theorem nearestEven_stable (x y δ : ℚ) (hx : 0 ≤ x) (hy : 0 ≤ y) (hδ : δ < 1 / 2)
    (hyx : |y - x| ≤ δ)
    (hgap : δ < |x - ((Nat.floor x : ℕ) + 1 / 2 : ℚ)|) :
    nearestEven y = nearestEven x := by
  have h1 : ((Nat.floor x : ℕ) : ℚ) ≤ x := Nat.floor_le hx
  have h2 : x < ((Nat.floor x : ℕ) : ℚ) + 1 := Nat.lt_floor_add_one x
  have hyx' := abs_le.mp hyx
  by_cases hside : x < ((Nat.floor x : ℕ) : ℚ) + 1 / 2
  · have hg : δ < ((Nat.floor x : ℕ) : ℚ) + 1 / 2 - x := by
      rw [abs_of_neg (by linarith)] at hgap
      linarith
    have e1 : nearestEven x = Nat.floor x := by
      apply nearestEven_eq_of_near x hx
      rw [abs_lt]
      constructor <;> linarith
    have e2 : nearestEven y = Nat.floor x := by
      apply nearestEven_eq_of_near y hy
      rw [abs_lt]
      constructor <;> linarith [hyx'.1, hyx'.2]
    rw [e1, e2]
  · have hg : δ < x - (((Nat.floor x : ℕ) : ℚ) + 1 / 2) := by
      rw [abs_of_nonneg (by linarith)] at hgap
      exact hgap
    have e1 : nearestEven x = Nat.floor x + 1 := by
      apply nearestEven_eq_of_near x hx
      push_cast
      rw [abs_lt]
      constructor <;> linarith
    have e2 : nearestEven y = Nat.floor x + 1 := by
      apply nearestEven_eq_of_near y hy
      push_cast
      rw [abs_lt]
      constructor <;> linarith [hyx'.1, hyx'.2]
    rw [e1, e2]

theorem F64.round_twice (neg : Bool) (p : Nat) (hp : 54 ≤ p) (a b c d : Nat) (ha : 0 < a)
    (hb : 0 < b) (hd : 0 < d)
    (hw : (c : ℚ) / d = roundToBits p ((a : ℚ) / b))
    (hE : -1074 ≤ lastPlace 53 ((a : ℚ) / b))
    (hgap : ∀ n : ℕ,
      (a : ℚ) / b / (2 : ℚ) ^ lastPlace 53 ((a : ℚ) / b) = (n : ℚ) + 1 / 2 ∨
      (2 : ℚ) ^ ((52 : ℤ) - (p : ℤ))
        < |(a : ℚ) / b / (2 : ℚ) ^ lastPlace 53 ((a : ℚ) / b) - ((n : ℚ) + 1 / 2)|) :
    F64.round neg c d = F64.round neg a b := by
  have h2 : (2 : ℚ) ≠ 0 := by norm_num
  have hv : (0 : ℚ) < (a : ℚ) / b := by
    have ha' : (0 : ℚ) < a := by exact_mod_cast ha
    have hb' : (0 : ℚ) < b := by exact_mod_cast hb
    positivity
  generalize hvdef : (a : ℚ) / b = v at *
  generalize hEdef : lastPlace 53 v = E at *
  have hEp : lastPlace p v = E - ((p : ℤ) - 53) := by
    rw [← hEdef]
    unfold lastPlace
    push_cast
    ring
  obtain ⟨hx1, hx2⟩ := lastPlace_spec 53 v hv
  obtain ⟨hxp1, hxp2⟩ := lastPlace_spec p v hv
  rw [hEdef] at hx1 hx2
  rw [hEp] at hxp1 hxp2
  have hpos : ∀ z : ℤ, (0 : ℚ) < (2 : ℚ) ^ z := fun z => zpow_pos (by norm_num) z
  -- the scale between the two last places
  obtain ⟨t, ht⟩ : ∃ t : ℕ, p = t + 54 := ⟨p - 54, by omega⟩
  subst ht
  have hP : (2 : ℚ) ^ (E - (((t + 54 : ℕ) : ℤ) - 53)) = (2 : ℚ) ^ E / (2 : ℚ) ^ (t + 1) := by
    rw [zpow_sub₀ h2]
    congr 1
    rw [← zpow_natCast]
    congr 1
    push_cast
    ring
  have hPpos : (0 : ℚ) < (2 : ℚ) ^ (t + 1) := by positivity
  have hP2 : (2 : ℚ) ≤ (2 : ℚ) ^ (t + 1) := by
    rw [pow_succ]
    have : (1 : ℚ) ≤ (2 : ℚ) ^ t := one_le_pow₀ (by norm_num)
    linarith
  generalize hxdef : v / (2 : ℚ) ^ E = x at *
  have hxp : v / (2 : ℚ) ^ (E - (((t + 54 : ℕ) : ℤ) - 53)) = x * (2 : ℚ) ^ (t + 1) := by
    rw [hP, ← hxdef]
    field_simp
  rw [hxp] at hxp1 hxp2
  have hx0 : 0 ≤ x := le_trans (le_of_lt (hpos _)) hx1
  have hq := nearestEven_err (x * (2 : ℚ) ^ (t + 1)) (by positivity)
  generalize hqdef : nearestEven (x * (2 : ℚ) ^ (t + 1)) = q at *
  -- the value of the first rounding, in units of the last place of `float64`
  have hwval : (c : ℚ) / d = (q : ℚ) / (2 : ℚ) ^ (t + 1) * (2 : ℚ) ^ E := by
    rw [hw]
    unfold roundToBits
    rw [if_neg (not_le.mpr hv), hEp, hxp, hqdef, hP]
    ring
  have e52 : (2 : ℚ) ^ (((53 : ℕ) : ℤ) - 1) = 2 ^ 52 := by norm_num
  have e53 : (2 : ℚ) ^ ((53 : ℕ) : ℤ) = 2 ^ 53 := by norm_num
  rw [e52] at hx1
  rw [e53] at hx2
  have ep1 : (2 : ℚ) ^ ((((t + 54 : ℕ)) : ℤ) - 1) = 2 ^ 52 * (2 : ℚ) ^ (t + 1) := by
    rw [← pow_add, ← zpow_natCast]
    congr 1
    push_cast
    ring
  have ep2 : (2 : ℚ) ^ (((t + 54 : ℕ)) : ℤ) = 2 ^ 53 * (2 : ℚ) ^ (t + 1) := by
    rw [← pow_add, ← zpow_natCast]
    congr 1
    push_cast
    ring
  rw [ep1] at hxp1
  rw [ep2] at hxp2
  have hδ : (2 : ℚ) ^ ((52 : ℤ) - ((t + 54 : ℕ) : ℤ)) = 1 / (2 * (2 : ℚ) ^ (t + 1)) := by
    have : (52 : ℤ) - ((t + 54 : ℕ) : ℤ) = -(((t + 2 : ℕ)) : ℤ) := by
      push_cast
      ring
    rw [this, zpow_neg, zpow_natCast, one_div]
    congr 1
    ring
  rw [hδ] at hgap
  obtain ⟨y, hydef⟩ : ∃ y : ℚ, (q : ℚ) / (2 : ℚ) ^ (t + 1) = y := ⟨_, rfl⟩
  rw [hydef] at hwval
  have hyx : |y - x| ≤ 1 / (2 * (2 : ℚ) ^ (t + 1)) := by
    have e : y - x = ((q : ℚ) - x * (2 : ℚ) ^ (t + 1)) / (2 : ℚ) ^ (t + 1) := by
      rw [← hydef]
      field_simp
      ring
    rw [e, abs_div, abs_of_pos hPpos, div_le_iff₀ hPpos]
    calc |(q : ℚ) - x * (2 : ℚ) ^ (t + 1)| ≤ 1 / 2 := hq
      _ = 1 / (2 * (2 : ℚ) ^ (t + 1)) * (2 : ℚ) ^ (t + 1) := by field_simp
  have hδlt : 1 / (2 * (2 : ℚ) ^ (t + 1)) < 1 / 2 := by
    rw [div_lt_div_iff₀ (by positivity) (by norm_num)]
    linarith
  have hδpos : (0 : ℚ) < 1 / (2 * (2 : ℚ) ^ (t + 1)) := by positivity
  have hyx' := abs_le.mp hyx
  have hy0 : 0 ≤ y := by
    rw [← hydef]
    positivity
  have hwE : (c : ℚ) / d / (2 : ℚ) ^ E = y := by
    rw [hwval]
    field_simp
  have hmaxE : max E (-1074) = E := max_eq_left hE
  have hmaxE1 : max (E + 1) (-1074) = E + 1 := max_eq_left (by omega)
  -- the first rounding stays in the binade of `v`, or is the power of two above it
  have hqle : (q : ℚ) ≤ 2 ^ 53 * (2 : ℚ) ^ (t + 1) := by
    have h3 : (q : ℚ) < 2 ^ 53 * (2 : ℚ) ^ (t + 1) + 1 := by
      have := (abs_le.mp hq).2
      linarith
    have h4 : q < 2 ^ 53 * 2 ^ (t + 1) + 1 := by exact_mod_cast h3
    have h5 : q ≤ 2 ^ 53 * 2 ^ (t + 1) := by omega
    exact_mod_cast h5
  have hqge : 2 ^ 52 * (2 : ℚ) ^ (t + 1) ≤ (q : ℚ) := by
    have h3 : 2 ^ 52 * (2 : ℚ) ^ (t + 1) < (q : ℚ) + 1 := by
      have := (abs_le.mp hq).1
      linarith
    have h4 : 2 ^ 52 * 2 ^ (t + 1) < q + 1 := by exact_mod_cast h3
    have h5 : 2 ^ 52 * 2 ^ (t + 1) ≤ q := by omega
    exact_mod_cast h5
  have hy52 : 2 ^ 52 ≤ y := by
    rw [← hydef, le_div_iff₀ hPpos]
    exact hqge
  have hy53 : y ≤ 2 ^ 53 := by
    rw [← hydef, div_le_iff₀ hPpos]
    exact hqle
  have hcpos : 0 < c := by
    rcases Nat.eq_zero_or_pos c with h0 | h0
    · exfalso
      rw [h0] at hwval
      simp at hwval
      rcases hwval with h | h
      · rw [h] at hy52
        norm_num at hy52
      · exact absurd h (ne_of_gt (hpos E))
    · exact h0
  have hwpos : (0 : ℚ) < (c : ℚ) / d := by
    have hc' : (0 : ℚ) < c := by exact_mod_cast hcpos
    have hd' : (0 : ℚ) < d := by exact_mod_cast hd
    positivity
  rw [F64.round_rat neg c d hcpos hd, F64.round_rat neg a b ha hb, hvdef, hEdef, hmaxE, hxdef]
  by_cases htop : y = 2 ^ 53
  · -- the first rounding reaches the next power of two
    have hlp : lastPlace 53 ((c : ℚ) / d) = E + 1 := by
      apply lastPlace_unique 53 _ hwpos
      · rw [e52, zpow_add₀ h2, ← div_div, hwE, htop]
        norm_num
      · rw [e53, zpow_add₀ h2, ← div_div, hwE, htop]
        norm_num
    have hqw : nearestEven ((c : ℚ) / d / (2 : ℚ) ^ (E + 1)) = 2 ^ 52 := by
      rw [zpow_add₀ h2, ← div_div, hwE, htop]
      have : ((2 : ℚ) ^ 53 / (2 : ℚ) ^ (1 : ℤ)) = ((2 ^ 52 : ℕ) : ℚ) := by norm_num
      rw [this, nearestEven_natCast]
    have hqv : nearestEven x = 2 ^ 53 := by
      apply nearestEven_eq_of_near x hx0
      push_cast
      rw [abs_lt]
      rw [htop] at hyx'
      constructor <;> linarith [hyx'.1, hyx'.2]
    rw [hlp, hmaxE1, hqw, hqv]
    norm_num
  · have hlp : lastPlace 53 ((c : ℚ) / d) = E := by
      apply lastPlace_unique 53 _ hwpos
      · rw [e52, hwE]
        exact hy52
      · rw [e53, hwE]
        exact lt_of_le_of_ne hy53 htop
    rw [hlp, hmaxE, hwE]
    have hne : nearestEven y = nearestEven x := by
      rcases hgap (Nat.floor x) with h | h
      · -- `x` is a tie of `float64`: the first rounding is exact
        generalize Nat.floor x = n0 at h
        have hnat : x * (2 : ℚ) ^ (t + 1) = (((2 * n0 + 1) * 2 ^ t : ℕ) : ℚ) := by
          rw [h, pow_succ]
          push_cast
          ring
        have hq' : q = (2 * n0 + 1) * 2 ^ t := by
          rw [← hqdef, hnat, nearestEven_natCast]
        have : y = x := by
          rw [← hydef, hq', ← hnat]
          field_simp
        rw [this]
      · exact nearestEven_stable x y _ hx0 hy0 hδlt hyx h
    rw [hne]

theorem decimal_gap (m k p : Nat) (hm : 0 < m) (hk4 : k ≤ 4) (hp : 64 ≤ p)
    (hmp : m < 2 ^ p) :
    ∀ n : ℕ,
      (m : ℚ) / ((10 ^ k : ℕ) : ℚ) / (2 : ℚ) ^ lastPlace 53 ((m : ℚ) / ((10 ^ k : ℕ) : ℚ))
          = (n : ℚ) + 1 / 2 ∨
      (2 : ℚ) ^ ((52 : ℤ) - (p : ℤ))
        < |(m : ℚ) / ((10 ^ k : ℕ) : ℚ) / (2 : ℚ) ^ lastPlace 53 ((m : ℚ) / ((10 ^ k : ℕ) : ℚ))
            - ((n : ℚ) + 1 / 2)| := by
  intro n
  have h2 : (2 : ℚ) ≠ 0 := by norm_num
  have hmQ : (0 : ℚ) < (m : ℚ) := by exact_mod_cast hm
  have hden : (((10 ^ k : ℕ)) : ℚ) = (2 : ℚ) ^ k * (5 : ℚ) ^ k := by
    push_cast
    rw [← mul_pow]
    norm_num
  have h5pos : (0 : ℚ) < (5 : ℚ) ^ k := by positivity
  have h2pos : (0 : ℚ) < (2 : ℚ) ^ k := by positivity
  have hv : (0 : ℚ) < (m : ℚ) / ((10 ^ k : ℕ) : ℚ) := by
    rw [hden]
    positivity
  obtain ⟨hx1, _⟩ := lastPlace_spec 53 _ hv
  have e52 : (2 : ℚ) ^ (((53 : ℕ) : ℤ) - 1) = 2 ^ 52 := by norm_num
  rw [e52] at hx1
  generalize lastPlace 53 ((m : ℚ) / ((10 ^ k : ℕ) : ℚ)) = E at *
  rw [hden] at hx1 ⊢
  -- the bound on the error of the first rounding
  have hδ1 : (2 : ℚ) ^ ((52 : ℤ) - (p : ℤ)) ≤ 1 / 4096 := by
    calc (2 : ℚ) ^ ((52 : ℤ) - (p : ℤ)) ≤ (2 : ℚ) ^ (-12 : ℤ) :=
          zpow_le_zpow_right₀ (by norm_num) (by omega)
      _ = 1 / 4096 := by norm_num
  have hδ2 : (2 : ℚ) ^ ((52 : ℤ) - (p : ℤ)) * (m : ℚ) < 2 ^ 52 := by
    have hm' : (m : ℚ) < (2 : ℚ) ^ (p : ℤ) := by
      rw [zpow_natCast]
      exact_mod_cast hmp
    calc (2 : ℚ) ^ ((52 : ℤ) - (p : ℤ)) * (m : ℚ)
        < (2 : ℚ) ^ ((52 : ℤ) - (p : ℤ)) * (2 : ℚ) ^ (p : ℤ) :=
          mul_lt_mul_of_pos_left hm' (zpow_pos (by norm_num) _)
      _ = 2 ^ 52 := by
          rw [← zpow_add₀ h2]
          norm_num
  have hδ0 : (0 : ℚ) < (2 : ℚ) ^ ((52 : ℤ) - (p : ℤ)) := zpow_pos (by norm_num) _
  generalize (2 : ℚ) ^ ((52 : ℤ) - (p : ℤ)) = δ at *
  by_cases hD : (m : ℚ) / ((2 : ℚ) ^ k * (5 : ℚ) ^ k) / (2 : ℚ) ^ E = (n : ℚ) + 1 / 2
  · left
    exact hD
  · right
    have h5le : (5 : ℚ) ^ k ≤ 625 := by
      have : (5 : ℚ) ^ k ≤ (5 : ℚ) ^ 4 := pow_le_pow_right₀ (by norm_num) hk4
      norm_num at this
      exact this
    by_cases hc : E < 1 - (k : ℤ)
    · -- the last place is below `2 ^ (1 - k)`
      obtain ⟨s, hs⟩ : ∃ s : ℕ, E = 1 - (k : ℤ) - (s : ℤ) :=
        ⟨(1 - (k : ℤ) - E).toNat, by rw [Int.toNat_of_nonneg (by omega)]; ring⟩
      have hE2 : (2 : ℚ) ^ E = 2 / ((2 : ℚ) ^ k * (2 : ℚ) ^ s) := by
        rw [hs, zpow_sub₀ h2, zpow_sub₀ h2, zpow_one, zpow_natCast, zpow_natCast]
        field_simp
      have hZ : (m : ℚ) / ((2 : ℚ) ^ k * (5 : ℚ) ^ k) / (2 : ℚ) ^ E - ((n : ℚ) + 1 / 2)
          = (((m : ℤ) * 2 ^ s - (2 * (n : ℤ) + 1) * 5 ^ k : ℤ) : ℚ) / (2 * (5 : ℚ) ^ k) := by
        rw [hE2]
        push_cast
        field_simp
        ring
      have hZne : ((m : ℤ) * 2 ^ s - (2 * (n : ℤ) + 1) * 5 ^ k : ℤ) ≠ 0 := by
        intro h0
        apply hD
        have := hZ
        rw [h0] at this
        simp at this
        linarith
      have hZ1 : (1 : ℚ) ≤ |(((m : ℤ) * 2 ^ s - (2 * (n : ℤ) + 1) * 5 ^ k : ℤ) : ℚ)| := by
        exact_mod_cast Int.one_le_abs hZne
      rw [hZ, abs_div, abs_of_pos (by positivity : (0 : ℚ) < 2 * (5 : ℚ) ^ k),
        lt_div_iff₀ (by positivity)]
      calc δ * (2 * (5 : ℚ) ^ k) ≤ 1 / 4096 * (2 * 625) := by
            apply mul_le_mul hδ1 (by linarith) (by positivity) (by norm_num)
        _ < 1 := by norm_num
        _ ≤ _ := hZ1
    · -- the last place is at least `2 ^ (1 - k)`
      obtain ⟨s, hs⟩ : ∃ s : ℕ, E = (s : ℤ) + 1 - (k : ℤ) :=
        ⟨(E + (k : ℤ) - 1).toNat, by rw [Int.toNat_of_nonneg (by omega)]; ring⟩
      have hE2 : (2 : ℚ) ^ E = (2 : ℚ) ^ (s + 1) / (2 : ℚ) ^ k := by
        rw [hs, zpow_sub₀ h2, zpow_natCast]
        congr 1
        rw [← zpow_natCast]
        congr 1
      have hxeq : (m : ℚ) / ((2 : ℚ) ^ k * (5 : ℚ) ^ k) / (2 : ℚ) ^ E
          = (m : ℚ) / ((5 : ℚ) ^ k * (2 : ℚ) ^ (s + 1)) := by
        rw [hE2]
        field_simp
        ring
      have hZ : (m : ℚ) / ((2 : ℚ) ^ k * (5 : ℚ) ^ k) / (2 : ℚ) ^ E - ((n : ℚ) + 1 / 2)
          = (((m : ℤ) - (2 * (n : ℤ) + 1) * 5 ^ k * 2 ^ s : ℤ) : ℚ)
            / ((5 : ℚ) ^ k * (2 : ℚ) ^ (s + 1)) := by
        rw [hxeq]
        push_cast
        field_simp
        ring
      have hZne : ((m : ℤ) - (2 * (n : ℤ) + 1) * 5 ^ k * 2 ^ s : ℤ) ≠ 0 := by
        intro h0
        apply hD
        have := hZ
        rw [h0] at this
        simp at this
        linarith
      have hZ1 : (1 : ℚ) ≤ |(((m : ℤ) - (2 * (n : ℤ) + 1) * 5 ^ k * 2 ^ s : ℤ) : ℚ)| := by
        exact_mod_cast Int.one_le_abs hZne
      have hdpos : (0 : ℚ) < (5 : ℚ) ^ k * (2 : ℚ) ^ (s + 1) := by positivity
      rw [hxeq] at hx1
      rw [le_div_iff₀ hdpos] at hx1
      rw [hZ, abs_div, abs_of_pos hdpos, lt_div_iff₀ hdpos]
      have h3 : δ * ((5 : ℚ) ^ k * (2 : ℚ) ^ (s + 1)) * 2 ^ 52 < 2 ^ 52 := by
        calc δ * ((5 : ℚ) ^ k * (2 : ℚ) ^ (s + 1)) * 2 ^ 52
            = δ * (2 ^ 52 * ((5 : ℚ) ^ k * (2 : ℚ) ^ (s + 1))) := by ring
          _ ≤ δ * (m : ℚ) := by
              exact mul_le_mul_of_nonneg_left hx1 (le_of_lt hδ0)
          _ < 2 ^ 52 := hδ2
      have h4 : δ * ((5 : ℚ) ^ k * (2 : ℚ) ^ (s + 1)) < 1 := by
        by_contra hcon
        push_neg at hcon
        have : (2 : ℚ) ^ 52 ≤ δ * ((5 : ℚ) ^ k * (2 : ℚ) ^ (s + 1)) * 2 ^ 52 := by
          nlinarith
        linarith
      linarith

theorem lastPlace_ge (v : ℚ) (hv : 0 < v) (L : ℤ) (h : (2 : ℚ) ^ L ≤ v) :
    L - 52 ≤ lastPlace 53 v := by
  have k1 : L ≤ Int.log 2 v :=
    (Int.zpow_le_iff_le_log (b := 2) (by norm_num) hv).mp (by exact_mod_cast h)
  unfold lastPlace
  push_cast
  omega

theorem numericToFloat_exact_neg (i : Int) (k : Nat) (hk1 : 1 ≤ k) (hk4 : k ≤ 4)
    (hi : i.natAbs < 2 ^ 256) :
    numericToFloat ⟨some i, -(k : ℤ), true⟩
      = some (F64.round (decide (i < 0)) i.natAbs (10 ^ k)) := by
  have h2 : (2 : ℚ) ≠ 0 := by norm_num
  have hbl : bitLen i.natAbs ≤ 256 := bitLen_le_of_lt _ _ hi
  have hP1 : 0 < max (bitLen i.natAbs) 64 := lt_of_lt_of_le (by norm_num) (le_max_right _ _)
  have hP2 : max (bitLen i.natAbs) 64 ≤ 2 ^ 20 :=
    max_le (le_trans hbl (by norm_num)) (by norm_num)
  have hP3 : 64 ≤ max (bitLen i.natAbs) 64 := le_max_right _ _
  have hmp : i.natAbs < 2 ^ max (bitLen i.natAbs) 64 :=
    lt_of_lt_of_le (bitLen_lt _) (Nat.pow_le_pow_right (by norm_num) (le_max_left _ _))
  have h10pos : 0 < 10 ^ k := by positivity
  have h10Q : (0 : ℚ) < ((10 ^ k : ℕ) : ℚ) := by exact_mod_cast h10pos
  have h10le : ((10 ^ k : ℕ) : ℚ) ≤ 10 ^ 4 := by
    have : 10 ^ k ≤ 10 ^ 4 := Nat.pow_le_pow_right (by norm_num) hk4
    exact_mod_cast this
  obtain ⟨sc, hsc1, hsc2⟩ := BigFloat.isNat_spec _ _ (scaleLoop_check k (by omega))
  obtain ⟨n, e, rfl, hn⟩ := hsc2
  have hn0 : n ≠ 0 := by
    intro h
    rw [h] at hn
    simp only [Nat.cast_zero, zero_mul] at hn
    have : (0 : ℚ) < ((10 ^ k : ℕ) : ℚ) := h10Q
    rw [← hn] at this
    exact lt_irrefl _ this
  have hratio : ((shiftFrac i.natAbs n (e - 0)).1 : ℚ) / ((shiftFrac i.natAbs n (e - 0)).2 : ℚ)
      = (i.natAbs : ℚ) / ((10 ^ k : ℕ) : ℚ) := by
    rw [shiftFrac_val, ← hn, sub_zero, zpow_neg]
    field_simp
  have hsnd : 0 < (shiftFrac i.natAbs n (e - 0)).2 :=
    shiftFrac_snd_pos _ _ _ (Nat.pos_of_ne_zero hn0)
  have hvlt : (i.natAbs : ℚ) / ((10 ^ k : ℕ) : ℚ) < (2 : ℚ) ^ ((2 : ℤ) ^ 20) := by
    have h1 : ((i.natAbs : ℕ) : ℚ) < ((2 ^ 256 : ℕ) : ℚ) := Nat.cast_lt.mpr hi
    rw [Nat.cast_pow, Nat.cast_ofNat, ← zpow_natCast, Nat.cast_ofNat] at h1
    have h3 : (1 : ℚ) ≤ ((10 ^ k : ℕ) : ℚ) := Nat.one_le_cast.mpr h10pos
    calc (i.natAbs : ℚ) / ((10 ^ k : ℕ) : ℚ) ≤ (i.natAbs : ℚ) :=
          div_le_self (Nat.cast_nonneg _) h3
      _ < (2 : ℚ) ^ (256 : ℤ) := h1
      _ ≤ (2 : ℚ) ^ ((2 : ℤ) ^ 20) := zpow_le_zpow_right₀ (by norm_num) (by norm_num)
  have hvge : i.natAbs ≠ 0 → (2 : ℚ) ^ (-14 : ℤ) ≤ (i.natAbs : ℚ) / ((10 ^ k : ℕ) : ℚ) := by
    intro h0
    have h1 : (1 : ℚ) ≤ (i.natAbs : ℚ) := by
      have : 1 ≤ i.natAbs := Nat.pos_of_ne_zero h0
      exact_mod_cast this
    rw [le_div_iff₀ h10Q]
    calc (2 : ℚ) ^ (-14 : ℤ) * ((10 ^ k : ℕ) : ℚ) ≤ (2 : ℚ) ^ (-14 : ℤ) * 10 ^ 4 :=
          mul_le_mul_of_nonneg_left h10le (by positivity)
      _ ≤ 1 := by norm_num
      _ ≤ (i.natAbs : ℚ) := h1
  have hr := BigFloat.round_val (max (bitLen i.natAbs) 64) (decide (i < 0))
    (shiftFrac i.natAbs n (e - 0)).1 (shiftFrac i.natAbs n (e - 0)).2 hsnd hP1 hP2
    (by
      by_cases h0 : i.natAbs = 0
      · left
        apply frac_eq_zero _ _ hsnd
        rw [hratio, h0]
        simp
      · right
        rw [hratio]
        exact le_trans (zpow_le_zpow_right₀ (by norm_num) (by norm_num)) (hvge h0))
    (by rw [hratio]; exact hvlt)
  rw [hratio] at hr
  have hto : (BigFloat.round (max (bitLen i.natAbs) 64) (decide (i < 0))
      (shiftFrac i.natAbs n (e - 0)).1 (shiftFrac i.natAbs n (e - 0)).2).toF64
      = F64.round (decide (i < 0)) i.natAbs (10 ^ k) := by
    by_cases h0 : i.natAbs = 0
    · rw [h0] at hr ⊢
      simp only [Nat.cast_zero, zero_div, roundToBits_zero] at hr
      exact BigFloat.toF64_val _ _ 0 0 (10 ^ k) h10pos hr (by simp)
    · have hm : 0 < i.natAbs := Nat.pos_of_ne_zero h0
      have hv : (0 : ℚ) < (i.natAbs : ℚ) / ((10 ^ k : ℕ) : ℚ) :=
        div_pos (by exact_mod_cast hm) h10Q
      obtain ⟨M, Ex, hMr, hMv⟩ := hr
      rw [hMr]
      unfold BigFloat.toF64
      apply F64.round_twice (decide (i < 0)) (max (bitLen i.natAbs) 64) (by omega) i.natAbs
        (10 ^ k) _ _ hm h10pos (shiftFrac_snd_pos _ _ _ (by norm_num))
      · rw [shiftFrac_dyadic, hMv]
      · have := lastPlace_ge _ hv (-14) (hvge h0)
        omega
      · exact decimal_gap i.natAbs k _ hm hk4 hP3 hmp
  have hkneg : ¬ (-(k : ℤ) = 0) := by omega
  have hkpos : ¬ (0 < -(k : ℤ)) := by omega
  have hkk : (-(-(k : ℤ))).toNat = k := by simp
  unfold numericToFloat
  simp only [Bool.not_true, Bool.false_eq_true, if_false, hkneg, hkpos, hkk, hsc1,
    Option.some_bind, BigFloat.ofInt, BigFloat.quo, hn0, Bool.xor_false, Option.map_some', hto]

set_option maxRecDepth 100000 in
theorem numericToFloat_exact_pos (i : Int) (k : Nat) (hk1 : 1 ≤ k) (hk : k ≤ 22)
    (hi : i.natAbs * 5 ^ k < 2 ^ 64) :
    numericToFloat ⟨some i, (k : ℤ), true⟩
      = some (F64.round (decide (i < 0)) (i.natAbs * 10 ^ k) 1) := by
  have h2 : (2 : ℚ) ≠ 0 := by norm_num
  have h5pos : 0 < 5 ^ k := by positivity
  have hile : i.natAbs < 2 ^ 64 := lt_of_le_of_lt (Nat.le_mul_of_pos_right _ h5pos) hi
  have hbl : bitLen i.natAbs ≤ 64 := bitLen_le_of_lt _ _ hile
  have hP : max (bitLen i.natAbs) 64 = 64 := max_eq_right hbl
  obtain ⟨sc, hsc1, hsc2⟩ := BigFloat.isNat_spec _ _ (scaleLoop_check k hk)
  obtain ⟨n, e, rfl, hn⟩ := hsc2
  have hratio : ((shiftFrac (i.natAbs * n) 1 (-(0 + e))).1 : ℚ)
        / ((shiftFrac (i.natAbs * n) 1 (-(0 + e))).2 : ℚ)
      = ((i.natAbs * 5 ^ k : ℕ) : ℚ) * (2 : ℚ) ^ ((k : ℕ) : ℤ) := by
    rw [shiftFrac_dyadic, zero_add]
    push_cast
    rw [mul_assoc, hn, zpow_natCast, mul_assoc, ← mul_pow]
    norm_num
  have hsnd : 0 < (shiftFrac (i.natAbs * n) 1 (-(0 + e))).2 :=
    shiftFrac_snd_pos _ _ _ (by norm_num)
  have hvlt : ((i.natAbs * 5 ^ k : ℕ) : ℚ) * (2 : ℚ) ^ ((k : ℕ) : ℤ) < (2 : ℚ) ^ ((2 : ℤ) ^ 20) := by
    have h1 : ((i.natAbs * 5 ^ k : ℕ) : ℚ) < ((2 ^ 64 : ℕ) : ℚ) := by exact_mod_cast hi
    have h3 : (2 : ℚ) ^ ((k : ℕ) : ℤ) ≤ (2 : ℚ) ^ (22 : ℤ) :=
      zpow_le_zpow_right₀ (by norm_num) (by exact_mod_cast hk)
    calc ((i.natAbs * 5 ^ k : ℕ) : ℚ) * (2 : ℚ) ^ ((k : ℕ) : ℤ)
        ≤ ((2 ^ 64 : ℕ) : ℚ) * (2 : ℚ) ^ (22 : ℤ) :=
          mul_le_mul (le_of_lt h1) h3 (by positivity) (by positivity)
      _ = (2 : ℚ) ^ (86 : ℤ) := by norm_num
      _ < (2 : ℚ) ^ ((2 : ℤ) ^ 20) := zpow_lt_zpow_right₀ (by norm_num) (by norm_num)
  have hr := BigFloat.round_val 64 (decide (i < 0))
    (shiftFrac (i.natAbs * n) 1 (-(0 + e))).1 (shiftFrac (i.natAbs * n) 1 (-(0 + e))).2 hsnd
    (by norm_num) (by norm_num)
    (by
      by_cases h0 : i.natAbs = 0
      · left
        apply frac_eq_zero _ _ hsnd
        rw [hratio, h0]
        simp
      · right
        rw [hratio]
        have h1 : (1 : ℚ) ≤ ((i.natAbs * 5 ^ k : ℕ) : ℚ) := by
          have : 1 ≤ i.natAbs * 5 ^ k := Nat.mul_pos (Nat.pos_of_ne_zero h0) h5pos
          exact_mod_cast this
        have h3 : (1 : ℚ) ≤ (2 : ℚ) ^ ((k : ℕ) : ℤ) := one_le_zpow₀ (by norm_num) (by positivity)
        calc (2 : ℚ) ^ (-(2 : ℤ) ^ 20) ≤ 1 :=
              zpow_le_one_of_nonpos₀ (by norm_num) (by norm_num)
          _ = 1 * 1 := by norm_num
          _ ≤ _ := mul_le_mul h1 h3 (by norm_num) (by positivity))
    (by rw [hratio]; exact hvlt)
  rw [hratio] at hr
  have hval : roundToBits 64 (((i.natAbs * 5 ^ k : ℕ) : ℚ) * (2 : ℚ) ^ ((k : ℕ) : ℤ))
      = ((i.natAbs * 5 ^ k : ℕ) : ℚ) * (2 : ℚ) ^ ((k : ℕ) : ℤ) := by
    by_cases h0 : i.natAbs = 0
    · rw [h0]
      simp [roundToBits_zero]
    · exact roundToBits_exact 64 _ _ (Nat.mul_pos (Nat.pos_of_ne_zero h0) h5pos) hi
  rw [hval] at hr
  have hto := BigFloat.toF64_val _ _ _ (i.natAbs * 10 ^ k) 1 (by norm_num) hr
    (by
      push_cast
      rw [zpow_natCast, mul_assoc, ← mul_pow]
      norm_num)
  have hkne : ¬ ((k : ℤ) = 0) := by omega
  have hkpos : 0 < (k : ℤ) := by omega
  have hkk : ((k : ℤ)).toNat = k := by simp
  unfold numericToFloat
  simp only [Bool.not_true, Bool.false_eq_true, if_false, hkne, hkpos, if_true, hkk, hsc1,
    Option.some_bind, BigFloat.ofInt, BigFloat.mul, hP, Bool.xor_false, Option.map_some', hto]

theorem lineOk_elim (pm : Nat → Option Product) (ci : CartItem) (h : LineOk pm ci) :
    (∃ m : Nat, linePrice pm ci = ⟨some (m : Int), -2, true⟩) ∧
      0 < ci.quantity ∧ ci.quantity < 2 ^ 31 := by
  obtain ⟨h1, h2, h3, h4, h5, h6⟩ := h
  refine ⟨?_, h5, h6⟩
  cases hp : linePrice pm ci with
  | mk int exp valid =>
    rw [hp] at h1 h2 h3 h4
    simp only at h1 h2 h3 h4
    cases int with
    | none => simp at h3
    | some x =>
      simp only [Option.getD_some] at h4
      obtain ⟨m, hm⟩ := Int.eq_ofNat_of_zero_le h4
      exact ⟨m, by rw [h1, h2, hm]⟩

theorem pow_one_add_le (u : ℚ) (hu : 0 ≤ u) :
    ∀ N : ℕ, (N : ℚ) * u ≤ 1 → (1 + u) ^ N ≤ 1 + (N : ℚ) * u + ((N : ℚ) * u) ^ 2 := by
  intro N
  induction N with
  | zero =>
    intro _
    simp
  | succ n ih =>
    intro h
    push_cast at h ⊢
    have hn : (0 : ℚ) ≤ (n : ℚ) := Nat.cast_nonneg n
    have hnu : (n : ℚ) * u ≤ 1 := by nlinarith
    have h1 := ih hnu
    have h2 : (1 + u) ^ (n + 1) ≤ (1 + (n : ℚ) * u + ((n : ℚ) * u) ^ 2) * (1 + u) := by
      rw [pow_succ]
      exact mul_le_mul_of_nonneg_right h1 (by linarith)
    have h3 : (n : ℚ) * u * ((n : ℚ) * u) * u ≤ (n : ℚ) * u * u := by
      have : (n : ℚ) * u * ((n : ℚ) * u) ≤ (n : ℚ) * u * 1 :=
        mul_le_mul_of_nonneg_left hnu (mul_nonneg hn hu)
      nlinarith
    nlinarith [mul_nonneg hu hu, mul_nonneg hn (mul_nonneg hu hu)]

theorem one_le_pow_one_add (u : ℚ) (hu : 0 ≤ u) (N : ℕ) : 1 ≤ (1 + u) ^ N :=
  one_le_pow₀ (by linarith)

theorem F64.round_nat_exact (neg : Bool) (a : Nat) (ha : a < 2 ^ 53) :
    (F64.round neg a 1).IsVal neg (a : ℚ) := by
  have h2 : (2 : ℚ) ≠ 0 := by norm_num
  by_cases ha0 : a = 0
  · subst ha0
    exact ⟨0, 0, by simp [F64.round], by simp⟩
  · have hap : 0 < a := Nat.pos_of_ne_zero ha0
    have hspec := ulpExp_spec 53 a 1 hap (by norm_num)
    have haQ : (1 : ℚ) ≤ (a : ℚ) := by exact_mod_cast hap
    have haQ2 : (a : ℚ) < 2 ^ 53 := by exact_mod_cast ha
    have hE1 := ulpExp_gt 53 a 1 (-1) hap (by norm_num) (by
      simp only [Nat.cast_one, div_one]
      calc (2 : ℚ) ^ (-1 : ℤ) ≤ 1 := by norm_num
        _ ≤ a := haQ)
    have hE2 := ulpExp_lt 53 a 1 53 hap (by norm_num) (by
      simp only [Nat.cast_one, div_one]
      exact_mod_cast haQ2)
    obtain ⟨k, hk⟩ : ∃ k : ℕ, ulpExp 53 a 1 = -(k : ℤ) := by
      refine ⟨(-(ulpExp 53 a 1)).toNat, ?_⟩
      push_cast at hE2
      omega
    have hq : roundAt a 1 (ulpExp 53 a 1) = a * 2 ^ k := by
      rw [roundAt_eq_nearestEven a 1 _ (by norm_num), hk]
      have : (a : ℚ) / ((1 : ℕ) : ℚ) / (2 : ℚ) ^ (-(k : ℤ)) = ((a * 2 ^ k : ℕ) : ℚ) := by
        rw [zpow_neg, zpow_natCast]
        push_cast
        field_simp
      rw [this, nearestEven_natCast]
    have hlt : a * 2 ^ k < 2 ^ 53 := by
      have h := hspec.2
      rw [hk, neg_neg, zpow_natCast, zpow_natCast] at h
      rw [Nat.cast_one, div_one] at h
      have : ((a * 2 ^ k : ℕ) : ℚ) < ((2 ^ 53 : ℕ) : ℚ) := by
        rw [Nat.cast_mul, Nat.cast_pow, Nat.cast_pow, Nat.cast_ofNat]
        exact h
      exact_mod_cast this
    have hmax : max (ulpExp 53 a 1) (-1074) = ulpExp 53 a 1 := by
      apply max_eq_left
      push_cast at hE1
      omega
    have hne : ¬ (a * 2 ^ k = 2 ^ 53) := by omega
    have hne0 : ¬ (a * 2 ^ k = 0) := by positivity
    have h971 : ¬ (971 < ulpExp 53 a 1) := by
      push_cast at hE2
      omega
    refine ⟨a * 2 ^ k, ulpExp 53 a 1, ?_, ?_⟩
    · unfold F64.round
      simp only [ha0, if_false, hmax, hq, hne, hne0, h971]
    · rw [hk, zpow_neg, zpow_natCast]
      push_cast
      field_simp

theorem F64.ofInt_exact (q : Int) (hq : 0 ≤ q) (hhi : q < 2 ^ 53) :
    (F64.ofInt q).IsVal false (q : ℚ) := by
  obtain ⟨k, rfl⟩ := Int.eq_ofNat_of_zero_le hq
  have hk : k < 2 ^ 53 := by exact_mod_cast hhi
  have h := F64.round_nat_exact false k hk
  unfold F64.ofInt
  simpa using h

theorem floatToNumeric_tight (f : F64) (s : Bool) (x : ℚ) (K : Nat) (hf : f.IsVal s x)
    (hlo : x = 0 ∨ (2 : ℚ) ^ (-1100 : ℤ) ≤ x) (hhi : x * 100 < 2 ^ 60)
    (h : ∀ z, |z - x * 100| ≤ x * 100 * (2 : ℚ) ^ (-53 : ℤ) → |z - (K : ℚ)| < 1 / 2) :
    floatToNumeric f = some ⟨some (F64.signed s K), -2, true⟩ := by
  obtain ⟨m, e, rfl, hx⟩ := hf
  have h100 : BigFloat.hundred.IsVal false 100 := ⟨100, 0, rfl, by norm_num⟩
  obtain ⟨r, z, hr1, hr2, hr3⟩ := BigFloat.bigMul_spec 53 (BigFloat.fin s m e) BigFloat.hundred s false
    x 100 ⟨m, e, rfl, hx⟩ h100 (by norm_num) (by norm_num)
    (by
      rcases hlo with h0 | h0
      · left
        rw [h0]
        simp
      · right
        calc (2 : ℚ) ^ (-(2 : ℤ) ^ 20) ≤ (2 : ℚ) ^ (-1100 : ℤ) :=
              zpow_le_zpow_right₀ (by norm_num) (by norm_num)
          _ ≤ x := h0
          _ ≤ x * 100 := by
            have : (0 : ℚ) ≤ x := le_trans (le_of_lt (zpow_pos (by norm_num) _)) h0
            linarith)
    (by
      calc x * 100 < 2 ^ 60 := hhi
        _ = (2 : ℚ) ^ (60 : ℤ) := by norm_num
        _ ≤ (2 : ℚ) ^ ((2 : ℤ) ^ 20) := zpow_le_zpow_right₀ (by norm_num) (by norm_num))
  simp only [Bool.xor_false] at hr2
  have e53 : (-((53 : ℕ) : ℤ)) = (-53 : ℤ) := by norm_num
  rw [e53] at hr3
  have ht := BigFloat.textInt_spec r s z K hr2 (h z hr3)
  unfold floatToNumeric
  simp only [BigFloat.ofF64, Option.some_bind, hr1, Option.map_some', ht]

theorem price_exact (m : Nat) (hm : m < 2 ^ 256) :
    ∃ up zu, numericToFloat ⟨some (m : Int), -2, true⟩ = some up ∧ up.IsVal false zu ∧
      |zu - (m : ℚ) / 100| ≤ (m : ℚ) / 100 * (2 : ℚ) ^ (-53 : ℤ) := by
  have h1 := numericToFloat_exact_neg (m : Int) 2 (by norm_num) (by norm_num) (by simpa using hm)
  have hdec : decide ((m : ℤ) < 0) = false := by simp
  have e2 : (-((2 : ℕ) : ℤ)) = (-2 : ℤ) := by norm_num
  rw [hdec, e2, Int.natAbs_ofNat] at h1
  have hmQ : (m : ℚ) < 2 ^ 256 := by exact_mod_cast hm
  obtain ⟨z, hz1, hz2⟩ := F64.round_spec false m (10 ^ 2) ((m : ℚ) / 100) (by norm_num)
    (by norm_num)
    (by
      by_cases h0 : m = 0
      · left
        simp [h0]
      · right
        have : (1 : ℚ) ≤ (m : ℚ) := by
          have : 1 ≤ m := Nat.pos_of_ne_zero h0
          exact_mod_cast this
        calc (2 : ℚ) ^ (-1022 : ℤ) ≤ (2 : ℚ) ^ (-7 : ℤ) :=
              zpow_le_zpow_right₀ (by norm_num) (by norm_num)
          _ ≤ 1 / 100 := by norm_num
          _ ≤ (m : ℚ) / 100 := by linarith)
    (by
      calc (m : ℚ) / 100 ≤ (m : ℚ) := by
            have : (0 : ℚ) ≤ (m : ℚ) := Nat.cast_nonneg m
            linarith
        _ < 2 ^ 256 := hmQ
        _ = (2 : ℚ) ^ (256 : ℤ) := by norm_num
        _ ≤ (2 : ℚ) ^ (1023 : ℤ) := zpow_le_zpow_right₀ (by norm_num) (by norm_num))
  exact ⟨_, z, h1, hz1, hz2⟩

theorem line_tight (m : Nat) (q : Int) (hq0 : 0 < q) (hq1 : q < 2 ^ 31)
    (hm : (m : Int) * q ≤ 2 ^ 52) :
    ∃ up zu, numericToFloat ⟨some (m : Int), -2, true⟩ = some up ∧ up.IsVal false zu ∧
      |zu - (m : ℚ) / 100| ≤ (m : ℚ) / 100 * (2 : ℚ) ^ (-53 : ℤ) ∧
      (F64.ofInt q).IsVal false (q : ℚ) ∧
      |zu * (q : ℚ) - (m : ℚ) * (q : ℚ) / 100|
        ≤ (m : ℚ) * (q : ℚ) / 100 * (2 : ℚ) ^ (-53 : ℤ) ∧
      (zu * (q : ℚ) = 0 ∨ (2 : ℚ) ^ (-1022 : ℤ) ≤ zu * (q : ℚ)) ∧
      zu * (q : ℚ) < (2 : ℚ) ^ (1023 : ℤ) := by
  have hqQ : (1 : ℚ) ≤ (q : ℚ) := by
    have : (1 : ℤ) ≤ q := hq0
    exact_mod_cast this
  have hmQ0 : (0 : ℚ) ≤ (m : ℚ) := by positivity
  have hmq : (m : ℚ) * (q : ℚ) ≤ 2 ^ 52 := by exact_mod_cast hm
  have hmle : (m : Int) ≤ 2 ^ 52 := by nlinarith
  have hm256 : m < 2 ^ 256 := by
    have : (m : Int) < 2 ^ 256 := lt_of_le_of_lt hmle (by norm_num)
    exact_mod_cast this
  obtain ⟨up, zu, hup1, hup2, hup3⟩ := price_exact m hm256
  have hq2 := F64.ofInt_exact q (le_of_lt hq0) (lt_trans hq1 (by norm_num))
  have e2 : (2 : ℚ) ^ (-53 : ℤ) ≤ 1 / 2 := by norm_num
  have e2' : (0 : ℚ) ≤ (2 : ℚ) ^ (-53 : ℤ) := by positivity
  have eL : (2 : ℚ) ^ (-1022 : ℤ) ≤ 1 / 400 := by
    calc (2 : ℚ) ^ (-1022 : ℤ) ≤ (2 : ℚ) ^ (-9 : ℤ) :=
          zpow_le_zpow_right₀ (by norm_num) (by norm_num)
      _ ≤ 1 / 400 := by norm_num
  have eU : (2 : ℚ) ^ (53 : ℤ) < (2 : ℚ) ^ (1023 : ℤ) :=
    zpow_lt_zpow_right₀ (by norm_num) (by norm_num)
  have e53 : (2 : ℚ) ^ (53 : ℤ) = 2 ^ 53 := by norm_num
  rw [e53] at eU
  generalize (2 : ℚ) ^ (-53 : ℤ) = u at *
  generalize (2 : ℚ) ^ (-1022 : ℤ) = L at *
  generalize (2 : ℚ) ^ (1023 : ℤ) = U at *
  have hzu := abs_le.mp hup3
  have hv0 : (0 : ℚ) ≤ (m : ℚ) / 100 := by positivity
  have hve : (m : ℚ) / 100 * u ≤ (m : ℚ) / 100 * (1 / 2) := mul_le_mul_of_nonneg_left e2 hv0
  have hzu0 : (m : ℚ) / 100 / 2 ≤ zu := by linarith [hzu.1]
  have hzu1 : zu ≤ (m : ℚ) / 100 * 2 := by linarith [hzu.2]
  have hzu00 : 0 ≤ zu := by linarith
  refine ⟨up, zu, hup1, hup2, hup3, hq2, ?_, ?_, ?_⟩
  · have e5 : zu * (q : ℚ) - (m : ℚ) * (q : ℚ) / 100 = (zu - (m : ℚ) / 100) * (q : ℚ) := by ring
    have e6 : (m : ℚ) * (q : ℚ) / 100 * u = (m : ℚ) / 100 * u * (q : ℚ) := by ring
    rw [e5, e6, abs_mul, abs_of_pos (by linarith : (0 : ℚ) < (q : ℚ))]
    exact mul_le_mul_of_nonneg_right hup3 (by linarith)
  · by_cases h0 : m = 0
    · left
      have : zu = 0 := by
        rw [h0] at hzu0 hzu1
        simp at hzu0 hzu1
        linarith
      rw [this]
      simp
    · right
      have h1 : (1 : ℚ) ≤ (m : ℚ) := by
        have : 1 ≤ m := Nat.pos_of_ne_zero h0
        exact_mod_cast this
      have h2 : (1 : ℚ) / 200 ≤ zu := by linarith
      calc L ≤ 1 / 400 := eL
        _ ≤ 1 / 200 * 1 := by norm_num
        _ ≤ zu * (q : ℚ) := mul_le_mul h2 hqQ (by norm_num) hzu00
  · calc zu * (q : ℚ) ≤ (m : ℚ) / 100 * 2 * (q : ℚ) :=
          mul_le_mul_of_nonneg_right hzu1 (by linarith)
      _ = (m : ℚ) * (q : ℚ) * (2 / 100) := by ring
      _ ≤ 2 ^ 52 * (2 / 100) := mul_le_mul_of_nonneg_right hmq (by norm_num)
      _ ≤ 2 ^ 53 := by norm_num
      _ < U := eU

theorem lineCents_of (pm : Nat → Option Product) (ci : CartItem) (m : Nat)
    (h : linePrice pm ci = ⟨some (m : Int), -2, true⟩) :
    lineCents pm ci = (m : Int) * ci.quantity := by
  unfold lineCents
  rw [h]
  rfl

theorem lineCents_nonneg (pm : Nat → Option Product) (ci : CartItem) (h : LineOk pm ci) :
    0 ≤ lineCents pm ci := by
  obtain ⟨⟨m, hm⟩, hq0, _⟩ := lineOk_elim pm ci h
  rw [lineCents_of pm ci m hm]
  exact mul_nonneg (Int.natCast_nonneg m) (le_of_lt hq0)

theorem sumCents_nonneg (pm : Nat → Option Product) (items : List CartItem)
    (h : ∀ ci ∈ items, LineOk pm ci) : 0 ≤ (items.map (lineCents pm)).sum := by
  induction items with
  | nil => simp
  | cons ci rest ih =>
    rw [List.map_cons, List.sum_cons]
    have h1 := lineCents_nonneg pm ci (h ci (by simp))
    have h2 := ih (fun cj hcj => h cj (by simp [hcj]))
    omega

theorem growth_le (k : Nat) (hk : k + 3 ≤ 2 ^ 52) :
    (1 + (2 : ℚ) ^ (-53 : ℤ)) ^ 2 ≤ (1 + (2 : ℚ) ^ (-53 : ℤ)) ^ (k + 2) ∧
      (1 + (2 : ℚ) ^ (-53 : ℤ)) ^ (k + 2) ≤ 7 / 4 := by
  have e0 : (0 : ℚ) ≤ (2 : ℚ) ^ (-53 : ℤ) := by positivity
  constructor
  · exact pow_le_pow_right₀ (by linarith) (by omega)
  · have hkQ : ((k + 2 : ℕ) : ℚ) ≤ 2 ^ 52 := by
      have : k + 2 ≤ 2 ^ 52 := by omega
      exact_mod_cast this
    have hN : ((k + 2 : ℕ) : ℚ) * (2 : ℚ) ^ (-53 : ℤ) ≤ 1 / 2 := by
      calc ((k + 2 : ℕ) : ℚ) * (2 : ℚ) ^ (-53 : ℤ) ≤ 2 ^ 52 * (2 : ℚ) ^ (-53 : ℤ) :=
            mul_le_mul_of_nonneg_right hkQ e0
        _ = 1 / 2 := by norm_num
    have hN0 : 0 ≤ ((k + 2 : ℕ) : ℚ) * (2 : ℚ) ^ (-53 : ℤ) := mul_nonneg (Nat.cast_nonneg _) e0
    have h := pow_one_add_le _ e0 (k + 2)
    generalize ((k + 2 : ℕ) : ℚ) * (2 : ℚ) ^ (-53 : ℤ) = x at *
    have h1 := h (le_trans hN (by norm_num))
    have h2 : x ^ 2 ≤ 1 / 4 := by nlinarith
    exact le_trans h1 (by linarith)

set_option maxHeartbeats 800000 in
theorem computeTotal_tight (fused : Bool) (pm : Nat → Option Product) (items : List CartItem) :
    ∀ (acc : F64) (a : ℚ) (A : Int) (k : Nat), 0 ≤ A → acc.IsVal false a →
      |a - (A : ℚ) / 100| ≤ (A : ℚ) / 100 * ((1 + (2 : ℚ) ^ (-53 : ℤ)) ^ (k + 2) - 1) →
      (∀ ci ∈ items, LineOk pm ci) → k + items.length + 3 ≤ 2 ^ 52 →
      A + (items.map (lineCents pm)).sum ≤ 2 ^ 52 →
      ∃ t z, computeTotal fused pm items acc = some t ∧ t.IsVal false z ∧
        |z - ((A + (items.map (lineCents pm)).sum : Int) : ℚ) / 100|
          ≤ ((A + (items.map (lineCents pm)).sum : Int) : ℚ) / 100
            * ((1 + (2 : ℚ) ^ (-53 : ℤ)) ^ (k + items.length + 2) - 1) := by
  induction items with
  | nil =>
    intro acc a A k _ hacc herr _ _ _
    refine ⟨acc, a, rfl, hacc, ?_⟩
    simpa using herr
  | cons ci rest ih =>
    intro acc a A k hA hacc herr hlines hk hsum
    obtain ⟨⟨m, hm⟩, hq0, hq1⟩ := lineOk_elim pm ci (hlines ci (by simp))
    have hrest : ∀ cj ∈ rest, LineOk pm cj := fun cj hcj => hlines cj (by simp [hcj])
    have hcents := lineCents_of pm ci m hm
    have hrn := sumCents_nonneg pm rest hrest
    rw [List.map_cons, List.sum_cons, hcents] at hsum
    have hmq0 : 0 ≤ (m : Int) * ci.quantity := mul_nonneg (Int.natCast_nonneg m) (le_of_lt hq0)
    have hmq : (m : Int) * ci.quantity ≤ 2 ^ 52 := by omega
    have hAle : A + (m : Int) * ci.quantity ≤ 2 ^ 52 := by omega
    obtain ⟨up, zu, hup1, hup2, _, hq2, h5, hplo, hphi⟩ :=
      line_tight m ci.quantity hq0 hq1 hmq
    have hlen : (ci :: rest).length = rest.length + 1 := rfl
    rw [hlen] at hk
    obtain ⟨hG1, hG2⟩ := growth_le k (by omega)
    have hsucc : (1 + (2 : ℚ) ^ (-53 : ℤ)) ^ (k + 1 + 2)
        = (1 + (2 : ℚ) ^ (-53 : ℤ)) ^ (k + 2) * (1 + (2 : ℚ) ^ (-53 : ℤ)) := by
      rw [show k + 1 + 2 = (k + 2) + 1 by omega, pow_succ]
    -- rational facts
    have hAQ : (0 : ℚ) ≤ (A : ℚ) := by exact_mod_cast hA
    have hlQ : (0 : ℚ) ≤ (m : ℚ) * (ci.quantity : ℚ) := by exact_mod_cast hmq0
    have hsQ : (A : ℚ) + (m : ℚ) * (ci.quantity : ℚ) ≤ 2 ^ 52 := by exact_mod_cast hAle
    have hl0 : (0 : ℚ) ≤ (m : ℚ) * (ci.quantity : ℚ) / 100 := by positivity
    have e0 : (0 : ℚ) ≤ (2 : ℚ) ^ (-53 : ℤ) := by positivity
    have e1 : (2 : ℚ) ^ (-53 : ℤ) ≤ 1 / 8 := by norm_num
    have eL : (2 : ℚ) ^ (-1022 : ℤ) ≤ 1 / 800 := by
      calc (2 : ℚ) ^ (-1022 : ℤ) ≤ (2 : ℚ) ^ (-10 : ℤ) :=
            zpow_le_zpow_right₀ (by norm_num) (by norm_num)
        _ ≤ 1 / 800 := by norm_num
    have eU : (2 : ℚ) ^ (54 : ℤ) < (2 : ℚ) ^ (1023 : ℤ) :=
      zpow_lt_zpow_right₀ (by norm_num) (by norm_num)
    have e54 : (2 : ℚ) ^ (54 : ℤ) = 2 ^ 54 := by norm_num
    rw [e54] at eU
    have hstep := F64.mulAdd_spec fused acc up (F64.ofInt ci.quantity) a zu (ci.quantity : ℚ)
      hacc hup2 hq2 hplo hphi
    have hround := two_round_bound (((A : ℚ) + (m : ℚ) * (ci.quantity : ℚ)) / 100)
    have hline := two_round_bound ((m : ℚ) * (ci.quantity : ℚ) / 100) (zu * (ci.quantity : ℚ))
    generalize (1 + (2 : ℚ) ^ (-53 : ℤ)) ^ (k + 2) = E at *
    generalize (2 : ℚ) ^ (-53 : ℤ) = u at *
    generalize (2 : ℚ) ^ (-1022 : ℤ) = L at *
    generalize (2 : ℚ) ^ (1023 : ℤ) = U at *
    have hE1 : 2 * u + u * u ≤ E - 1 := by nlinarith
    have hE0 : 0 ≤ E - 1 := by nlinarith [mul_nonneg e0 e0]
    have hS0 : (0 : ℚ) ≤ (A : ℚ) / 100 := by positivity
    have ha := abs_le.mp herr
    have hSE : (A : ℚ) / 100 * (E - 1) ≤ (A : ℚ) / 100 * (3 / 4) :=
      mul_le_mul_of_nonneg_left (by linarith) hS0
    have hlE : (m : ℚ) * (ci.quantity : ℚ) / 100 * (u + u + u * u)
        ≤ (m : ℚ) * (ci.quantity : ℚ) / 100 * (E - 1) :=
      mul_le_mul_of_nonneg_left (by linarith) hl0
    have hlE2 : (m : ℚ) * (ci.quantity : ℚ) / 100 * (E - 1)
        ≤ (m : ℚ) * (ci.quantity : ℚ) / 100 * (3 / 4) :=
      mul_le_mul_of_nonneg_left (by linarith) hl0
    have ha0 : (A : ℚ) / 100 / 4 ≤ a := by linarith [ha.1]
    have ha1 : a ≤ (A : ℚ) / 100 * 2 := by linarith [ha.2]
    have hwb : ∀ w, |w - zu * (ci.quantity : ℚ)| ≤ zu * (ci.quantity : ℚ) * u →
        |w - (m : ℚ) * (ci.quantity : ℚ) / 100|
          ≤ (m : ℚ) * (ci.quantity : ℚ) / 100 * (u + u + u * u) :=
      fun w hw => hline w u u hl0 e0 e0 h5 hw
    obtain ⟨z1, zl, hz1v, hzl0, hz1e⟩ := hstep
      (by
        intro w hw
        have hz := abs_le.mp (hwb w hw)
        have hz0 : (m : ℚ) * (ci.quantity : ℚ) / 100 / 4 ≤ w := by linarith [hz.1]
        have hz1 : w ≤ (m : ℚ) * (ci.quantity : ℚ) / 100 * 2 := by linarith [hz.2]
        constructor
        · by_cases h0 : A + (m : Int) * ci.quantity = 0
          · left
            have hA0 : A = 0 := by omega
            have hm0 : (m : Int) * ci.quantity = 0 := by omega
            have hAq : (A : ℚ) = 0 := by exact_mod_cast hA0
            have hmq' : (m : ℚ) * (ci.quantity : ℚ) = 0 := by exact_mod_cast hm0
            rw [hAq] at ha0 ha1
            rw [hmq'] at hz0 hz1
            norm_num at ha0 ha1 hz0 hz1
            linarith
          · right
            have h1 : (1 : Int) ≤ A + (m : Int) * ci.quantity := by omega
            have h1Q : (1 : ℚ) ≤ (A : ℚ) + (m : ℚ) * (ci.quantity : ℚ) := by exact_mod_cast h1
            linarith
        · have : a + w ≤ ((A : ℚ) + (m : ℚ) * (ci.quantity : ℚ)) / 100 * 2 := by linarith
          have h2 : ((A : ℚ) + (m : ℚ) * (ci.quantity : ℚ)) / 100 * 2 ≤ 2 ^ 54 := by
            have : ((A : ℚ) + (m : ℚ) * (ci.quantity : ℚ)) / 100 * 2 ≤ 2 ^ 52 / 100 * 2 := by
              linarith
            have e : (2 : ℚ) ^ 52 / 100 * 2 ≤ 2 ^ 54 := by norm_num
            linarith
          linarith)
    have hzl2 := hwb zl hzl0
    have hz := abs_le.mp hzl2
    have hsumerr : |a + zl - ((A : ℚ) + (m : ℚ) * (ci.quantity : ℚ)) / 100|
        ≤ ((A : ℚ) + (m : ℚ) * (ci.quantity : ℚ)) / 100 * (E - 1) := by
      have e : ((A : ℚ) + (m : ℚ) * (ci.quantity : ℚ)) / 100 * (E - 1)
          = (A : ℚ) / 100 * (E - 1) + (m : ℚ) * (ci.quantity : ℚ) / 100 * (E - 1) := by ring
      rw [abs_le, e]
      constructor
      · linarith only [ha.1, hz.1, hlE]
      · linarith only [ha.2, hz.2, hlE]
    have h6 := hround (a + zl) z1 (E - 1) u (by positivity) hE0 e0 hsumerr hz1e
    have h7 : |z1 - ((A : ℚ) + (m : ℚ) * (ci.quantity : ℚ)) / 100|
        ≤ ((A : ℚ) + (m : ℚ) * (ci.quantity : ℚ)) / 100 * (E * (1 + u) - 1) := by
      have e : E - 1 + u + (E - 1) * u = E * (1 + u) - 1 := by ring
      rw [e] at h6
      exact h6
    have hcast : (((A + (m : Int) * ci.quantity : Int)) : ℚ)
        = (A : ℚ) + (m : ℚ) * (ci.quantity : ℚ) := by push_cast; ring
    obtain ⟨t, z, ht1, ht2, ht3⟩ :=
      ih (F64.mulAdd fused acc up (F64.ofInt ci.quantity)) z1
      (A + (m : Int) * ci.quantity) (k + 1) (by omega) hz1v
      (by rw [hcast, hsucc]; exact h7) hrest
      (by omega) (by omega)
    refine ⟨t, z, ?_, ht2, ?_⟩
    · have hp : ((pm ci.productID).getD zeroProduct).price = ⟨some (m : Int), -2, true⟩ := hm
      simp only [computeTotal, hp, hup1]
      exact ht1
    · have e1 : A + ((ci :: rest).map (lineCents pm)).sum
          = A + (m : Int) * ci.quantity + (rest.map (lineCents pm)).sum := by
        rw [List.map_cons, List.sum_cons, hcents]
        ring
      have e2 : k + (ci :: rest).length + 2 = k + 1 + rest.length + 2 := by
        rw [hlen]
        omega
      rw [e1, e2]
      exact ht3

theorem toRat_cents (x : Int) : (⟨some x, -2, true⟩ : Numeric).toRat = (x : ℚ) / 100 := by
  unfold Numeric.toRat
  norm_num
  ring

theorem cents_near (x e u : ℚ) (K : Nat) (he0 : 0 ≤ e) (hu0 : 0 ≤ u)
    (h1 : |x - (K : ℚ) / 100| ≤ (K : ℚ) / 100 * e) (h3 : (K : ℚ) * (e + u + e * u) < 1 / 2) :
    ∀ z, |z - x * 100| ≤ x * 100 * u → |z - (K : ℚ)| < 1 / 2 := by
  intro z hz
  have hK : (0 : ℚ) ≤ (K : ℚ) := Nat.cast_nonneg K
  have h1' : |x * 100 - (K : ℚ)| ≤ (K : ℚ) * e := by
    have e1 : x * 100 - (K : ℚ) = (x - (K : ℚ) / 100) * 100 := by ring
    have e2 : (K : ℚ) * e = (K : ℚ) / 100 * e * 100 := by ring
    rw [e1, e2, abs_mul, abs_of_pos (by norm_num : (0 : ℚ) < 100)]
    exact mul_le_mul_of_nonneg_right h1 (by norm_num)
  exact lt_of_le_of_lt (two_round_bound (K : ℚ) (x * 100) z e u hK he0 hu0 h1' hz) h3

theorem growth_bound (N K : Nat) (hN : 0 < N) (h : N * (K + 1) ≤ 2 ^ 52) :
    (K : ℚ) * ((1 + (2 : ℚ) ^ (-53 : ℤ)) ^ N - 1) < 1 / 2 := by
  have e0 : (0 : ℚ) < (2 : ℚ) ^ (-53 : ℤ) := by positivity
  have hQ : (N : ℚ) * ((K : ℚ) + 1) ≤ 2 ^ 52 := by exact_mod_cast h
  have hN0 : (0 : ℚ) < (N : ℚ) := by exact_mod_cast hN
  have hK0 : (0 : ℚ) ≤ (K : ℚ) := Nat.cast_nonneg K
  have e52 : (2 : ℚ) ^ 52 * (2 : ℚ) ^ (-53 : ℤ) = 1 / 2 := by norm_num
  have hQu : (N : ℚ) * ((K : ℚ) + 1) * (2 : ℚ) ^ (-53 : ℤ) ≤ 1 / 2 := by
    rw [← e52]
    exact mul_le_mul_of_nonneg_right hQ (le_of_lt e0)
  have hpow := pow_one_add_le ((2 : ℚ) ^ (-53 : ℤ)) (le_of_lt e0) N
  generalize (2 : ℚ) ^ (-53 : ℤ) = u at *
  have ht0 : 0 < (N : ℚ) * u := mul_pos hN0 e0
  have hs0 : 0 ≤ (N : ℚ) * (K : ℚ) * u := mul_nonneg (mul_nonneg (le_of_lt hN0) hK0) (le_of_lt e0)
  have hst : (N : ℚ) * (K : ℚ) * u ≤ 1 / 2 - (N : ℚ) * u := by linarith
  have hp := hpow (by linarith)
  have h1 : (K : ℚ) * ((1 + u) ^ N - 1) ≤ (K : ℚ) * ((N : ℚ) * u + ((N : ℚ) * u) ^ 2) :=
    mul_le_mul_of_nonneg_left (by linarith) hK0
  have h2 : (K : ℚ) * ((N : ℚ) * u + ((N : ℚ) * u) ^ 2)
      = (N : ℚ) * (K : ℚ) * u * (1 + (N : ℚ) * u) := by ring
  have h3 : (N : ℚ) * (K : ℚ) * u * (1 + (N : ℚ) * u)
      ≤ (1 / 2 - (N : ℚ) * u) * (1 + (N : ℚ) * u) :=
    mul_le_mul_of_nonneg_right hst (by linarith)
  generalize (N : ℚ) * u = t at *
  nlinarith

theorem row_tight (orderID : Nat) (pm : Nat → Option Product) (ci : CartItem) (oi : OrderItem)
    (m : Nat) (hm : linePrice pm ci = ⟨some (m : Int), -2, true⟩) (hq0 : 0 < ci.quantity)
    (hq1 : ci.quantity < 2 ^ 31) (hb : 4 * ((m : Int) * ci.quantity + 1) ≤ 2 ^ 52)
    (hrow : RowOf orderID pm ci oi) :
    oi.unitPrice = ⟨some (m : Int), -2, true⟩ ∧
      oi.totalPrice = ⟨some ((m : Int) * ci.quantity), -2, true⟩ := by
  obtain ⟨_, _, _, unitPrice, hu1, hu2, hu3⟩ := hrow
  have hmq0 : 0 ≤ (m : Int) * ci.quantity := mul_nonneg (Int.natCast_nonneg m) (le_of_lt hq0)
  have hmle : (m : Int) ≤ (m : Int) * ci.quantity := by nlinarith
  obtain ⟨up, zu, hup1, hup2, hup3, hq2, h5, hplo, hphi⟩ := line_tight m ci.quantity hq0 hq1
    (by omega)
  rw [hm, hup1] at hu1
  simp only [Option.some.injEq] at hu1
  subst hu1
  obtain ⟨zl, hzl1, hzl2⟩ := F64.mul_spec up (F64.ofInt ci.quantity) false false zu
    (ci.quantity : ℚ) hup2 hq2 hplo hphi
  simp only [Bool.xor_false] at hzl1
  obtain ⟨K, hK⟩ := Int.eq_ofNat_of_zero_le hmq0
  have hKQ : (K : ℚ) = (m : ℚ) * (ci.quantity : ℚ) := by
    have : ((K : Int) : ℚ) = (((m : Int) * ci.quantity : Int) : ℚ) := by rw [hK]
    push_cast at this
    exact this
  have hK4 : 4 * (K + 1) ≤ 2 ^ 52 := by
    have : 4 * ((K : Int) + 1) ≤ 2 ^ 52 := by omega
    exact_mod_cast this
  have hm4 : 4 * (m + 1) ≤ 2 ^ 52 := by
    have : 4 * ((m : Int) + 1) ≤ 2 ^ 52 := by omega
    exact_mod_cast this
  have hKle : (K : ℚ) ≤ 2 ^ 50 := by
    have : K ≤ 2 ^ 50 := by omega
    exact_mod_cast this
  have hmleQ : (m : ℚ) ≤ 2 ^ 50 := by
    have : m ≤ 2 ^ 50 := by omega
    exact_mod_cast this
  have hK0 : (0 : ℚ) ≤ (K : ℚ) := Nat.cast_nonneg K
  have hm0 : (0 : ℚ) ≤ (m : ℚ) := Nat.cast_nonneg m
  have e0 : (0 : ℚ) ≤ (2 : ℚ) ^ (-53 : ℤ) := by positivity
  have e1 : (2 : ℚ) ^ (-53 : ℤ) ≤ 1 / 8 := by norm_num
  have eL : (2 : ℚ) ^ (-1100 : ℤ) ≤ 1 / 800 := by
    calc (2 : ℚ) ^ (-1100 : ℤ) ≤ (2 : ℚ) ^ (-10 : ℤ) :=
          zpow_le_zpow_right₀ (by norm_num) (by norm_num)
      _ ≤ 1 / 800 := by norm_num
  have hg3 := growth_bound 3 K (by norm_num) (by omega)
  have hg2 := growth_bound 2 m (by norm_num) (by omega)
  rw [← hKQ] at h5
  have hline := two_round_bound ((K : ℚ) / 100) (zu * (ci.quantity : ℚ)) zl _ _
    (by positivity) e0 e0 h5 hzl2
  have hnearU := floatToNumeric_tight up false zu m hup2
  have hnearT := floatToNumeric_tight (F64.mul up (F64.ofInt ci.quantity)) false zl K hzl1
  have hcU := cents_near zu ((2 : ℚ) ^ (-53 : ℤ)) ((2 : ℚ) ^ (-53 : ℤ)) m e0 e0 hup3
  have hcT := cents_near zl ((2 : ℚ) ^ (-53 : ℤ) + (2 : ℚ) ^ (-53 : ℤ)
    + (2 : ℚ) ^ (-53 : ℤ) * (2 : ℚ) ^ (-53 : ℤ)) ((2 : ℚ) ^ (-53 : ℤ)) K
    (by positivity) e0 hline
  generalize (2 : ℚ) ^ (-53 : ℤ) = u at *
  generalize (2 : ℚ) ^ (-1100 : ℤ) = L at *
  have hzu := abs_le.mp hup3
  have hzl := abs_le.mp hline
  have huu : u * u ≤ u * (1 / 8) := mul_le_mul_of_nonneg_left e1 e0
  have hmu : (m : ℚ) / 100 * u ≤ (m : ℚ) / 100 * (1 / 8) :=
    mul_le_mul_of_nonneg_left e1 (by positivity)
  have hKu : (K : ℚ) / 100 * (u + u + u * u) ≤ (K : ℚ) / 100 * (1 / 2) :=
    mul_le_mul_of_nonneg_left (by linarith) (by positivity)
  constructor
  · have h1 := hnearU
      (by
        by_cases h0 : m = 0
        · left
          subst h0
          norm_num at hzu
          linarith [hzu.1, hzu.2]
        · right
          have : (1 : ℚ) ≤ (m : ℚ) := by
            have : 1 ≤ m := Nat.pos_of_ne_zero h0
            exact_mod_cast this
          linarith [hzu.1])
      (by
        have : zu * 100 ≤ 2 ^ 50 * 2 := by linarith [hzu.2]
        linarith)
      (hcU (by
        have e : (m : ℚ) * (u + u + u * u) = (m : ℚ) * ((1 + u) ^ 2 - 1) := by ring
        rw [e]
        exact hg2))
    rw [hu2] at h1
    simp only [Option.some.injEq] at h1
    rw [h1]
    rfl
  · have h2 := hnearT
      (by
        by_cases h0 : K = 0
        · left
          subst h0
          norm_num at hzl
          linarith [hzl.1, hzl.2]
        · right
          have : (1 : ℚ) ≤ (K : ℚ) := by
            have : 1 ≤ K := Nat.pos_of_ne_zero h0
            exact_mod_cast this
          linarith [hzl.1])
      (by
        have : zl * 100 ≤ 2 ^ 50 * 2 := by linarith [hzl.2]
        linarith)
      (hcT (by
        have e : (K : ℚ) * (u + u + u * u + u + (u + u + u * u) * u)
            = (K : ℚ) * ((1 + u) ^ 3 - 1) := by ring
        rw [e]
        exact hg3))
    rw [hu3] at h2
    simp only [Option.some.injEq] at h2
    rw [h2, hK]
    rfl

theorem lineCents_le_sum (pm : Nat → Option Product) (items : List CartItem)
    (h : ∀ ci ∈ items, LineOk pm ci) :
    ∀ ci ∈ items, lineCents pm ci ≤ (items.map (lineCents pm)).sum := by
  induction items with
  | nil => simp
  | cons c rest ih =>
    intro ci hci
    rw [List.map_cons, List.sum_cons]
    have h1 := lineCents_nonneg pm c (h c (by simp))
    have h2 := sumCents_nonneg pm rest (fun cj hcj => h cj (by simp [hcj]))
    rcases List.mem_cons.mp hci with h3 | h3
    · subst h3
      omega
    · have := ih (fun cj hcj => h cj (by simp [hcj])) ci h3
      omega

theorem rows_tight (orderID : Nat) (pm : Nat → Option Product) (items : List CartItem)
    (rows : List OrderItem) (hF : List.Forall₂ (RowOf orderID pm) items rows) :
    (∀ ci ∈ items, LineOk pm ci) → (∀ ci ∈ items, 4 * (lineCents pm ci + 1) ≤ 2 ^ 52) →
      (∀ oi ∈ rows, oi.orderID = orderID ∧
        oi.totalPrice.toRat = oi.unitPrice.toRat * (oi.quantity : ℚ)) ∧
      (rows.map fun oi => oi.totalPrice.toRat).sum
        = (((items.map (lineCents pm)).sum : Int) : ℚ) / 100 := by
  induction hF with
  | nil =>
    intro _ _
    simp
  | @cons ci oi rest rows' hrow _ ih =>
    intro hl hb
    obtain ⟨⟨m, hm⟩, hq0, hq1⟩ := lineOk_elim pm ci (hl ci (by simp))
    have hc := lineCents_of pm ci m hm
    have hb1 := hb ci (by simp)
    rw [hc] at hb1
    obtain ⟨hu, ht⟩ := row_tight orderID pm ci oi m hm hq0 hq1 hb1 hrow
    obtain ⟨ih1, ih2⟩ := ih (fun cj hcj => hl cj (by simp [hcj]))
      (fun cj hcj => hb cj (by simp [hcj]))
    constructor
    · intro o ho
      rcases List.mem_cons.mp ho with h1 | h1
      · subst h1
        refine ⟨hrow.1, ?_⟩
        rw [hu, ht, toRat_cents, toRat_cents, hrow.2.2.1]
        push_cast
        ring
      · exact ih1 o h1
    · rw [List.map_cons, List.sum_cons, ih2, ht, toRat_cents, List.map_cons, List.sum_cons, hc]
      push_cast
      ring

theorem linePrice_filter (ps : List Product) (items : List CartItem) (ci : CartItem)
    (hci : ci ∈ items) :
    linePrice (productMap (ps.filter fun p => p.id ∈ items.map fun ci => ci.productID)) ci
      = linePrice (productMap ps) ci := by
  unfold linePrice
  rw [productMap_filter]
  have hmem : ci.productID ∈ items.map fun ci => ci.productID :=
    List.mem_map.mpr ⟨ci, hci, rfl⟩
  simp only [hmem, if_true]

theorem lineCents_filter (ps : List Product) (items : List CartItem) (ci : CartItem)
    (hci : ci ∈ items) :
    lineCents (productMap (ps.filter fun p => p.id ∈ items.map fun ci => ci.productID)) ci
      = lineCents (productMap ps) ci := by
  unfold lineCents
  rw [linePrice_filter ps items ci hci]

theorem lineOk_filter (ps : List Product) (items : List CartItem) (ci : CartItem)
    (hci : ci ∈ items) (h : LineOk (productMap ps) ci) :
    LineOk (productMap (ps.filter fun p => p.id ∈ items.map fun ci => ci.productID)) ci := by
  unfold LineOk at h ⊢
  rw [linePrice_filter ps items ci hci]
  exact h

theorem checkout_exact (env : Env) (db : Db) (i : CreateOrderInput)
    (h : (CreateOrder env db i).1.isOk = true) (hord : ExactCart db.store i.userID) :
    ∃ order rows,
      (CreateOrder env db i).2.store.orders = db.store.orders ++ [order] ∧
      (CreateOrder env db i).2.store.orderItems = db.store.orderItems ++ rows ∧
      order.totalAmount = ⟨some (((cartLines db.store i.userID).map
        (lineCents (productMap db.store.products))).sum), -2, true⟩ ∧
      (∀ oi ∈ rows, oi.orderID = order.id ∧
        oi.totalPrice.toRat = oi.unitPrice.toRat * (oi.quantity : ℚ)) ∧
      (rows.map fun oi => oi.totalPrice.toRat).sum
        = ((((cartLines db.store i.userID).map
            (lineCents (productMap db.store.products))).sum : Int) : ℚ) / 100 := by
  obtain ⟨cart, cartItems, order, s, _, hc, hi, _, htx, hdb⟩ := CreateOrder_isOk_inv _ _ _ h
  have hfind := getCartByUserID_ok _ _ _ _ hc
  have hitems := getCartItems_ok _ _ _ _ hi
  have hlines : cartLines db.store i.userID = cartItems := by
    have hall := hord.1
    unfold cartLines at hall ⊢
    rw [hfind] at hall ⊢
    rw [hitems]
    symm
    rw [List.filter_eq_self]
    intro ci hci
    have hok := hall ci hci
    cases hpm : productMap db.store.products ci.productID with
    | some p => exact hasProduct_of_map db.store ci p hpm
    | none =>
      exfalso
      have hvalid := hok.1
      unfold linePrice at hvalid
      rw [hpm] at hvalid
      simp [zeroProduct] at hvalid
  obtain ⟨hok, hsz⟩ := hord
  rw [hlines] at hok hsz
  obtain ⟨pm, total, s2, hpm, _, htot, htn, hoid, _, hci, hs⟩ :=
    checkoutTx_ok_inv _ _ _ _ _ _ _ htx
  obtain ⟨hord2, _, _, _, rows, hrows, hF⟩ := createItems_ok _ _ _ _ _ _ _ hci
  have hok' : ∀ ci ∈ cartItems, LineOk pm ci := by
    intro ci hci'
    rw [hpm]
    exact lineOk_filter _ _ _ hci' (hok ci hci')
  have hmap : cartItems.map (lineCents pm)
      = cartItems.map (lineCents (productMap db.store.products)) := by
    apply List.map_congr_left
    intro ci hci'
    rw [hpm]
    exact lineCents_filter _ _ _ hci'
  rw [← hmap] at hsz
  have hnn := sumCents_nonneg pm cartItems hok'
  obtain ⟨K, hK⟩ := Int.eq_ofNat_of_zero_le hnn
  rw [hK] at hsz
  have hprodN : (cartItems.length + 3) * (K + 1) ≤ 2 ^ 52 := by exact_mod_cast hsz
  have hlenle : cartItems.length + 3 ≤ 2 ^ 52 :=
    le_trans (Nat.le_mul_of_pos_right _ (Nat.succ_pos K)) hprodN
  have hKle' : 3 * (K + 1) ≤ 2 ^ 52 :=
    le_trans (Nat.mul_le_mul_right _ (Nat.le_add_left 3 _)) hprodN
  have hsum' : (cartItems.map (lineCents pm)).sum ≤ 2 ^ 52 := by
    rw [hK]
    have : K ≤ 2 ^ 52 := by omega
    exact_mod_cast this
  -- the total
  obtain ⟨t, z, ht1, ht2, ht3⟩ := computeTotal_tight env.fused pm cartItems F64.zero 0 0 0 le_rfl
    ⟨0, 0, rfl, by simp⟩ (by simp) hok' (by omega) (by omega)
  rw [htot] at ht1
  simp only [Option.some.injEq] at ht1
  subst ht1
  simp only [zero_add] at ht3
  have hKQ : (K : ℚ) ≤ 2 ^ 52 := by
    have : K ≤ 2 ^ 52 := by omega
    exact_mod_cast this
  have hK0 : (0 : ℚ) ≤ (K : ℚ) := Nat.cast_nonneg K
  rw [hK] at ht3
  have hcast : (((K : Int)) : ℚ) = (K : ℚ) := by push_cast; rfl
  rw [hcast] at ht3
  have e0 : (0 : ℚ) ≤ (2 : ℚ) ^ (-53 : ℤ) := by positivity
  have eL : (2 : ℚ) ^ (-1100 : ℤ) ≤ 1 / 800 := by
    calc (2 : ℚ) ^ (-1100 : ℤ) ≤ (2 : ℚ) ^ (-10 : ℤ) :=
          zpow_le_zpow_right₀ (by norm_num) (by norm_num)
      _ ≤ 1 / 800 := by norm_num
  obtain ⟨_, hG2⟩ := growth_le cartItems.length (by omega)
  have hG1 := one_le_pow_one_add ((2 : ℚ) ^ (-53 : ℤ)) e0 (cartItems.length + 2)
  have hgrow := growth_bound (cartItems.length + 3) K (Nat.succ_pos _) hprodN
  have hsucc : (1 + (2 : ℚ) ^ (-53 : ℤ)) ^ (cartItems.length + 3)
      = (1 + (2 : ℚ) ^ (-53 : ℤ)) ^ (cartItems.length + 2) * (1 + (2 : ℚ) ^ (-53 : ℤ)) := by
    rw [show cartItems.length + 3 = (cartItems.length + 2) + 1 by omega, pow_succ]
  rw [hsucc] at hgrow
  have hnear := floatToNumeric_tight total false z K ht2
  have hcn := cents_near z ((1 + (2 : ℚ) ^ (-53 : ℤ)) ^ (cartItems.length + 2) - 1)
    ((2 : ℚ) ^ (-53 : ℤ)) K (by linarith) e0 ht3
  generalize (1 + (2 : ℚ) ^ (-53 : ℤ)) ^ (cartItems.length + 2) = E at *
  generalize (2 : ℚ) ^ (-53 : ℤ) = u at *
  generalize (2 : ℚ) ^ (-1100 : ℤ) = L at *
  have hz := abs_le.mp ht3
  have hKE : (K : ℚ) / 100 * (E - 1) ≤ (K : ℚ) / 100 * (3 / 4) :=
    mul_le_mul_of_nonneg_left (by linarith) (by positivity)
  have h2 := hnear
    (by
      by_cases h0 : K = 0
      · left
        subst h0
        norm_num at hz
        linarith [hz.1, hz.2]
      · right
        have : (1 : ℚ) ≤ (K : ℚ) := by
          have : 1 ≤ K := Nat.pos_of_ne_zero h0
          exact_mod_cast this
        linarith [hz.1])
    (by
      have : z * 100 ≤ 2 ^ 52 * 2 := by linarith [hz.2]
      linarith)
    (hcn (by
      have e : (K : ℚ) * (E - 1 + u + (E - 1) * u) = (K : ℚ) * (E * (1 + u) - 1) := by ring
      rw [e]
      exact hgrow))
  rw [htn] at h2
  simp only [Option.some.injEq] at h2
  -- the rows
  have hbound : ∀ ci ∈ cartItems, 4 * (lineCents pm ci + 1) ≤ 2 ^ 52 := by
    intro ci hci'
    have h1 := lineCents_le_sum pm cartItems hok' ci hci'
    have h3 : 1 ≤ cartItems.length := List.length_pos_of_mem hci'
    have h4 : 4 * (K + 1) ≤ (cartItems.length + 3) * (K + 1) :=
      Nat.mul_le_mul_right _ (by omega)
    have h5 : 4 * ((K : Int) + 1) ≤ 2 ^ 52 := by
      have : 4 * (K + 1) ≤ 2 ^ 52 := le_trans h4 hprodN
      exact_mod_cast this
    rw [hK] at h1
    omega
  obtain ⟨hr1, hr2⟩ := rows_tight env.newOrderID pm cartItems rows hF hok' hbound
  refine ⟨order, rows, ?_, ?_, ?_, ?_, ?_⟩
  · rw [hdb, hs]
    show s2.orders = _
    rw [hord2]
    rfl
  · rw [hdb, hs]
    show s2.orderItems = _
    rw [hrows]
    rfl
  · rw [hlines, ← hmap, h2, hK]
    rfl
  · intro oi hoi
    rw [hoid]
    exact hr1 oi hoi
  · rw [hr2, hlines, hmap]

theorem exactCart_of_ordinary (s : Store) (userID : Nat) (h : OrdinaryCart s userID) :
    ExactCart s userID := by
  obtain ⟨h1, h2, h3⟩ := h
  refine ⟨h1, ?_⟩
  have hnn := sumCents_nonneg _ _ h1
  have hlen : ((cartLines s userID).length : Int) ≤ 1000 := by exact_mod_cast h2
  have hlen0 : (0 : Int) ≤ ((cartLines s userID).length : Int) := Int.natCast_nonneg _
  calc (((cartLines s userID).length : Int) + 3)
        * (((cartLines s userID).map (lineCents (productMap s.products))).sum + 1)
      ≤ 1003 * (10 ^ 12 + 1) := by
        apply mul_le_mul (by omega) (by omega) (by omega) (by norm_num)
    _ ≤ 2 ^ 52 := by norm_num

theorem sum_price_quantity (pm : Nat → Option Product) (items : List CartItem)
    (h : ∀ ci ∈ items, LineOk pm ci) :
    (items.map fun ci => (linePrice pm ci).toRat * (ci.quantity : ℚ)).sum
      = (((items.map (lineCents pm)).sum : Int) : ℚ) / 100 := by
  induction items with
  | nil => simp
  | cons ci rest ih =>
    obtain ⟨⟨m, hm⟩, _, _⟩ := lineOk_elim pm ci (h ci (by simp))
    rw [List.map_cons, List.sum_cons, List.map_cons, List.sum_cons,
      ih (fun cj hcj => h cj (by simp [hcj])), lineCents_of pm ci m hm, hm, toRat_cents]
    push_cast
    ring

/-- C1, as stated, fails: the checkout of 1046242623 units of a product priced 16984.17
succeeds, on a build that fuses and on one that does not, and persists an order item with
the unit price 16984.17 and the total price 17769562570277.90, while the unit price times
the quantity is 17769562570277.91. -/
theorem createOrder_item_total_not_unit_times_quantity :
    ((CreateOrder demoEnv { store := bulkStore, txBegun := 0 } demoInput).1.isOk = true ∧
      (CreateOrder demoEnv { store := bulkStore, txBegun := 0 } demoInput).2.store.orderItems
        = [⟨0, 1, 1, 1046242623, ⟨some 1698417, -2, true⟩,
            ⟨some 1776956257027790, -2, true⟩⟩] ∧
      (CreateOrder fusedEnv { store := bulkStore, txBegun := 0 } demoInput).2.store.orderItems
        = [⟨0, 1, 1, 1046242623, ⟨some 1698417, -2, true⟩,
            ⟨some 1776956257027790, -2, true⟩⟩]) ∧
      (1698417 : Int) * 1046242623 = 1776956257027791 ∧
      ∃ oi ∈ (CreateOrder demoEnv { store := bulkStore, txBegun := 0 } demoInput).2.store.orderItems,
        oi.totalPrice.toRat ≠ oi.unitPrice.toRat * (oi.quantity : ℚ) := by
  have h1 : (CreateOrder demoEnv { store := bulkStore, txBegun := 0 } demoInput).2.store.orderItems
      = [⟨0, 1, 1, 1046242623, ⟨some 1698417, -2, true⟩,
          ⟨some 1776956257027790, -2, true⟩⟩] := by
    set_option maxRecDepth 100000 in decide
  have h2 : (CreateOrder fusedEnv { store := bulkStore, txBegun := 0 } demoInput).2.store.orderItems
      = [⟨0, 1, 1, 1046242623, ⟨some 1698417, -2, true⟩,
          ⟨some 1776956257027790, -2, true⟩⟩] := by
    set_option maxRecDepth 100000 in decide
  refine ⟨⟨by set_option maxRecDepth 100000 in decide, h1, h2⟩, by norm_num, ?_⟩
  rw [h1]
  refine ⟨_, List.mem_singleton.mpr rfl, ?_⟩
  rw [toRat_cents, toRat_cents]
  norm_num

/-- C1, amended: for every successful `CreateOrder`, on a build that fuses or not, on a
cart whose prices are valid, non-negative and with two fractional digits, whose quantities
are positive and for which the number of lines plus three, times the exact total in
hundredths plus one, is at most `2 ^ 52`, the call appends one order and its order items,
the total amount of the order is the sum of the total prices of these items, and the total
price of each item is its unit price times its quantity, as decimals. -/
theorem createOrder_amounts_consistent (env : Env) (db : Db) (i : CreateOrderInput)
    (h : (CreateOrder env db i).1.isOk = true) (hord : ExactCart db.store i.userID) :
    ∃ order rows,
      (CreateOrder env db i).2.store.orders = db.store.orders ++ [order] ∧
      (CreateOrder env db i).2.store.orderItems = db.store.orderItems ++ rows ∧
      (∀ oi ∈ rows, oi.orderID = order.id) ∧
      order.totalAmount.toRat = (rows.map fun oi => oi.totalPrice.toRat).sum ∧
      ∀ oi ∈ rows, oi.totalPrice.toRat = oi.unitPrice.toRat * (oi.quantity : ℚ) := by
  obtain ⟨order, rows, h1, h2, h3, h4, h5⟩ := checkout_exact env db i h hord
  refine ⟨order, rows, h1, h2, fun oi hoi => (h4 oi hoi).1, ?_, fun oi hoi => (h4 oi hoi).2⟩
  rw [h3, toRat_cents, h5]

set_option maxRecDepth 100000 in
/-- C1, witness: the checkout of the example on a build that fuses. -/
theorem createOrder_amounts_consistent_witness :
    ∃ order rows,
      (CreateOrder fusedEnv demoDb demoInput).2.store.orders = demoDb.store.orders ++ [order] ∧
      (CreateOrder fusedEnv demoDb demoInput).2.store.orderItems
        = demoDb.store.orderItems ++ rows ∧
      (∀ oi ∈ rows, oi.orderID = order.id) ∧
      order.totalAmount.toRat = (rows.map fun oi => oi.totalPrice.toRat).sum ∧
      ∀ oi ∈ rows, oi.totalPrice.toRat = oi.unitPrice.toRat * (oi.quantity : ℚ) :=
  createOrder_amounts_consistent fusedEnv demoDb demoInput (by decide) (by decide)

/-- C8: for every successful `CreateOrder`, on a build that fuses or not, on a cart of
ordinary currency range (prices valid, non-negative and with two fractional digits,
quantities positive, at most 1000 lines and at most `10 ^ 12` hundredths in total), the
persisted order total is the valid decimal with two fractional digits whose value is the
exact sum over the cart lines of price times quantity. -/
theorem createOrder_total_is_exact_sum (env : Env) (db : Db) (i : CreateOrderInput)
    (h : (CreateOrder env db i).1.isOk = true) (hord : OrdinaryCart db.store i.userID) :
    ∃ order,
      (CreateOrder env db i).2.store.orders = db.store.orders ++ [order] ∧
      order.totalAmount = ⟨some (((cartLines db.store i.userID).map
        (lineCents (productMap db.store.products))).sum), -2, true⟩ ∧
      order.totalAmount.toRat = ((cartLines db.store i.userID).map fun ci =>
        (linePrice (productMap db.store.products) ci).toRat * (ci.quantity : ℚ)).sum := by
  obtain ⟨order, rows, h1, _, h3, _, _⟩ :=
    checkout_exact env db i h (exactCart_of_ordinary _ _ hord)
  refine ⟨order, h1, h3, ?_⟩
  rw [h3, toRat_cents, sum_price_quantity _ _ hord.1]

set_option maxRecDepth 100000 in
/-- C8, witness: the example of the spec, two units at 9.99 and one at 5.00, on a build that
does not fuse and on one that does. -/
theorem createOrder_total_is_exact_sum_witness :
    (∃ order,
      (CreateOrder demoEnv demoDb demoInput).2.store.orders = demoDb.store.orders ++ [order] ∧
      order.totalAmount = ⟨some 2498, -2, true⟩) ∧
    (∃ order,
      (CreateOrder fusedEnv demoDb demoInput).2.store.orders = demoDb.store.orders ++ [order] ∧
      order.totalAmount = ⟨some 2498, -2, true⟩) := by
  obtain ⟨order, h1, h2, _⟩ :=
    createOrder_total_is_exact_sum demoEnv demoDb demoInput (by decide) (by decide)
  obtain ⟨order2, k1, k2, _⟩ :=
    createOrder_total_is_exact_sum fusedEnv demoDb demoInput (by decide) (by decide)
  refine ⟨⟨order, h1, ?_⟩, ⟨order2, k1, ?_⟩⟩
  · rw [h2]
    decide
  · rw [k2]
    decide

/-- The two rounding functions at some values: ties go to the even neighbour. -/
theorem nearestEven_examples :
    nearestEven (75 / 2) = 38 ∧ nearestEven (5 / 2) = 2 ∧ nearestEven (37 / 10) = 4 ∧
      roundToBits 53 (75 / 2) = 75 / 2 ∧ roundToBits 3 (11 / 8) = 3 / 2 ∧
      roundToBits 3 (9 / 8) = 1 := by
  have h1 := rne_eq_nearestEven 75 2 (by norm_num)
  have h2 := rne_eq_nearestEven 5 2 (by norm_num)
  have h3 := rne_eq_nearestEven 37 10 (by norm_num)
  have h4 := roundToBits_exact 53 75 (-1) (by norm_num) (by norm_num)
  obtain ⟨m5, e5, h5a, h5b⟩ := BigFloat.round_val 3 false 11 8 (by norm_num) (by norm_num)
    (by norm_num) (Or.inr (by
      calc (2 : ℚ) ^ (-(2 : ℤ) ^ 20) ≤ (2 : ℚ) ^ (0 : ℤ) :=
            zpow_le_zpow_right₀ (by norm_num) (by norm_num)
        _ ≤ ((11 : ℕ) : ℚ) / ((8 : ℕ) : ℚ) := by norm_num))
    (by
      calc ((11 : ℕ) : ℚ) / ((8 : ℕ) : ℚ) < (2 : ℚ) ^ (1 : ℤ) := by norm_num
        _ ≤ (2 : ℚ) ^ ((2 : ℤ) ^ 20) := zpow_le_zpow_right₀ (by norm_num) (by norm_num))
  obtain ⟨m6, e6, h6a, h6b⟩ := BigFloat.round_val 3 false 9 8 (by norm_num) (by norm_num)
    (by norm_num) (Or.inr (by
      calc (2 : ℚ) ^ (-(2 : ℤ) ^ 20) ≤ (2 : ℚ) ^ (0 : ℤ) :=
            zpow_le_zpow_right₀ (by norm_num) (by norm_num)
        _ ≤ ((9 : ℕ) : ℚ) / ((8 : ℕ) : ℚ) := by norm_num))
    (by
      calc ((9 : ℕ) : ℚ) / ((8 : ℕ) : ℚ) < (2 : ℚ) ^ (1 : ℤ) := by norm_num
        _ ≤ (2 : ℚ) ^ ((2 : ℤ) ^ 20) := zpow_le_zpow_right₀ (by norm_num) (by norm_num))
  have k5 : BigFloat.round 3 false 11 8 = BigFloat.fin false 6 (-2) := by decide
  have k6 : BigFloat.round 3 false 9 8 = BigFloat.fin false 4 (-2) := by decide
  rw [k5] at h5a
  rw [k6] at h6a
  simp only [BigFloat.fin.injEq, true_and] at h5a h6a
  obtain ⟨h5m, h5e⟩ := h5a
  obtain ⟨h6m, h6e⟩ := h6a
  subst h5m h5e h6m h6e
  have r1 : rne 75 2 = 38 := by decide
  have r2 : rne 5 2 = 2 := by decide
  have r3 : rne 37 10 = 4 := by decide
  rw [r1] at h1
  rw [r2] at h2
  rw [r3] at h3
  norm_num at h1 h2 h3 h4 h5b h6b
  exact ⟨h1.symm, h2.symm, h3.symm, h4, h5b.symm, h6b.symm⟩

/-- C9, as stated, fails: for the decimals 2877 with exponent -6 and 14073748835532801563
with exponent -5 the quotient is rounded to 64 bits and then to `float64`, and the result is
not the `float64` nearest to the reference value; for 3689348814741910733 with exponent 1
the product has more than 64 bits and is rounded twice in the same way; for 3 with exponent
23 and for 1 with exponent 25 the power of ten, built by repeated rounded multiplication,
is not exact. -/
theorem numericToFloat_differs_from_reference :
    numericToFloat ⟨some 2877, -6, true⟩
        ≠ some (numericToFloatSpec ⟨some 2877, -6, true⟩) ∧
      numericToFloat ⟨some 1, 25, true⟩ ≠ some (numericToFloatSpec ⟨some 1, 25, true⟩) ∧
      numericToFloat ⟨some 14073748835532801563, -5, true⟩
        ≠ some (numericToFloatSpec ⟨some 14073748835532801563, -5, true⟩) ∧
      numericToFloat ⟨some 3689348814741910733, 1, true⟩
        ≠ some (numericToFloatSpec ⟨some 3689348814741910733, 1, true⟩) ∧
      numericToFloat ⟨some 3, 23, true⟩ ≠ some (numericToFloatSpec ⟨some 3, 23, true⟩) := by
  refine ⟨?_, ?_, ?_, ?_, ?_⟩
  · set_option maxRecDepth 100000 in decide
  · set_option maxRecDepth 100000 in decide
  · set_option maxRecDepth 100000 in decide
  · set_option maxRecDepth 100000 in decide
  · set_option maxRecDepth 100000 in decide

/-- C9, amended: `numericToFloat` returns zero for an invalid decimal and for one without
mantissa. For a valid decimal it returns the `float64` nearest to `mantissa * 10 ^ Exp`
(ties to even) when the exponent is 0, when the exponent is from -4 to -1 (with a mantissa
below `2 ^ 256` in magnitude), and when the exponent is from 1 to 22 and
`|mantissa| * 5 ^ Exp` is below `2 ^ 64`. For every valid decimal with exponent between -22
and 22 whose value is zero or of magnitude in `[2 ^ -1021, 2 ^ 1022)`, it returns a finite
`float64` that differs from that value by at most `2 ^ -52` times its magnitude. -/
theorem numericToFloat_close_to_reference (n : Numeric) :
    ((n.valid = false ∨ n.int = Option.none) → numericToFloat n = some F64.zero) ∧
    (n.valid = true → n.exp = 0 → numericToFloat n = some (numericToFloatSpec n)) ∧
    (∀ i : Int, n.valid = true → n.int = some i → -4 ≤ n.exp → n.exp ≤ -1 →
      i.natAbs < 2 ^ 256 → numericToFloat n = some (numericToFloatSpec n)) ∧
    (∀ i : Int, n.valid = true → n.int = some i → 1 ≤ n.exp → n.exp ≤ 22 →
      i.natAbs * 5 ^ n.exp.toNat < 2 ^ 64 → numericToFloat n = some (numericToFloatSpec n)) ∧
    (∀ i : Int, n.valid = true → n.int = some i → -22 ≤ n.exp → n.exp ≤ 22 →
      (i = 0 ∨ (2 : ℚ) ^ (-1021 : ℤ) ≤ |(i : ℚ) * (10 : ℚ) ^ n.exp|) →
      |(i : ℚ) * (10 : ℚ) ^ n.exp| < (2 : ℚ) ^ (1022 : ℤ) →
      ∃ f, numericToFloat n = some f ∧
        |f.toRat - (i : ℚ) * (10 : ℚ) ^ n.exp|
          ≤ |(i : ℚ) * (10 : ℚ) ^ n.exp| * (2 : ℚ) ^ (-52 : ℤ)) := by
  refine ⟨?_, ?_, ?_, ?_, ?_⟩
  · rintro (h | h)
    · unfold numericToFloat
      simp [h]
    · unfold numericToFloat
      rw [h]
      by_cases hv : n.valid = true
      · simp [hv]
      · simp [hv]
  · intro hv he
    cases n with
    | mk int exp valid =>
      simp only at hv he
      subst hv he
      cases int with
      | none => rfl
      | some i =>
        simp [numericToFloat, numericToFloatSpec, BigFloat.toF64, BigFloat.ofInt, shiftFrac]
  · intro i hv hi he1 he2 hm
    cases n with
    | mk int exp valid =>
      simp only at hv hi he1 he2
      subst hv hi
      obtain ⟨k, hk⟩ : ∃ k : ℕ, exp = -(k : ℤ) :=
        ⟨(-exp).toNat, by rw [Int.toNat_of_nonneg (by omega)]; ring⟩
      subst hk
      have hnot : ¬ ((0 : ℤ) ≤ -(k : ℤ)) := by omega
      have hkk : (-(-(k : ℤ))).toNat = k := by simp
      rw [numericToFloat_exact_neg i k (by omega) (by omega)
        (lt_of_lt_of_le hm (Nat.pow_le_pow_right (by norm_num) (by norm_num)))]
      simp only [numericToFloatSpec, Bool.not_true, Bool.false_eq_true, if_false, hnot, hkk]
  · intro i hv hi he1 he2 hm
    cases n with
    | mk int exp valid =>
      simp only at hv hi he1 he2 hm
      subst hv hi
      obtain ⟨k, hk⟩ : ∃ k : ℕ, exp = (k : ℤ) :=
        ⟨exp.toNat, by rw [Int.toNat_of_nonneg (by omega)]⟩
      subst hk
      have hkk : ((k : ℤ)).toNat = k := by simp
      rw [hkk] at hm
      have hpos : (0 : ℤ) ≤ (k : ℤ) := by omega
      rw [numericToFloat_exact_pos i k (by omega) (by omega) hm]
      simp only [numericToFloatSpec, Bool.not_true, Bool.false_eq_true, if_false, hpos, if_true,
        hkk]
  · intro i hv hi he1 he2 hlo hhi
    cases n with
    | mk int exp valid =>
      simp only at hv hi he1 he2 hlo hhi
      subst hv hi
      have h10 : (0 : ℚ) < (10 : ℚ) ^ exp := zpow_pos (by norm_num) _
      have habs : |(i : ℚ) * (10 : ℚ) ^ exp| = ((i.natAbs : ℕ) : ℚ) * (10 : ℚ) ^ exp := by
        rw [abs_mul, abs_of_pos h10]
        congr 1
        rw [int_eq_sign_natAbs i]
        by_cases h : i < 0
        · simp [h]
        · simp [h]
      rw [habs] at hlo hhi ⊢
      obtain ⟨f, z, hf1, hf2, hf3⟩ := numericToFloat_err i exp _ he1 he2 rfl hlo hhi
      refine ⟨f, hf1, ?_⟩
      have hsign : f.toRat - (i : ℚ) * (10 : ℚ) ^ exp
          = (if decide (i < 0) = true then -1 else 1) *
            (z - ((i.natAbs : ℕ) : ℚ) * (10 : ℚ) ^ exp) := by
        rw [isVal_toRat f _ z hf2]
        nth_rewrite 1 [int_eq_sign_natAbs i]
        ring
      have habs2 : |f.toRat - (i : ℚ) * (10 : ℚ) ^ exp|
          = |z - ((i.natAbs : ℕ) : ℚ) * (10 : ℚ) ^ exp| := by
        rw [hsign, abs_mul]
        by_cases h : i < 0
        · simp [h]
        · simp [h]
      rw [habs2]
      refine le_trans hf3 (mul_le_mul_of_nonneg_left ?_ (by positivity))
      norm_num

set_option maxRecDepth 100000 in
/-- C9, witness: 9.99 and 24.98 as hundredths, and 12000 as 12 with exponent 3. -/
theorem numericToFloat_close_to_reference_witness :
    numericToFloat ⟨some 999, -2, true⟩ = some (numericToFloatSpec ⟨some 999, -2, true⟩) ∧
      numericToFloat ⟨some 12, 3, true⟩ = some (numericToFloatSpec ⟨some 12, 3, true⟩) :=
  ⟨(numericToFloat_close_to_reference ⟨some 999, -2, true⟩).2.2.1 999 rfl rfl (by decide)
      (by decide) (by decide),
    (numericToFloat_close_to_reference ⟨some 12, 3, true⟩).2.2.2.1 12 rfl rfl (by decide)
      (by decide) (by decide)⟩

/-- C10: for every valid decimal with exponent -2 and mantissa `m` of magnitude at most
`10 ^ 15`, `floatToNumeric (numericToFloat (m, -2))` is the valid decimal with the same
mantissa `m` and exponent -2. -/
theorem floatToNumeric_numericToFloat_roundtrip (m : Int) (h : m.natAbs ≤ 10 ^ 15) :
    (numericToFloat ⟨some m, -2, true⟩).bind floatToNumeric = some ⟨some m, -2, true⟩ :=
  roundtrip_cents m h

theorem floatToNumeric_numericToFloat_roundtrip_witness :
    (numericToFloat ⟨some 999, -2, true⟩).bind floatToNumeric = some ⟨some 999, -2, true⟩ :=
  floatToNumeric_numericToFloat_roundtrip 999 (by decide)

set_option maxRecDepth 100000 in
theorem createOrder_empty_cart_witness :
    CreateOrder demoEnv { store := { demoStore with carts := [] }, txBegun := 0 } demoInput
        = (.error (.error (.sentinel .emptyCart)),
            { store := { demoStore with carts := [] }, txBegun := 0 }) ∧
      (GoError.sentinel Sentinel.emptyCart).isSentinel .emptyCart = true :=
  createOrder_empty_cart demoEnv { store := { demoStore with carts := [] }, txBegun := 0 }
    demoInput (by decide) rfl rfl (Or.inl (by decide))

set_option maxRecDepth 100000 in
theorem createOrder_all_or_nothing_witness :
    ∃ f, CreateOrder clearFailsEnv demoDb demoInput
      = (.error f, { store := demoDb.store, txBegun := demoDb.txBegun + 1 }) :=
  createOrder_all_or_nothing clearFailsEnv demoDb demoInput ⟨7, 42⟩
    [⟨1, 7, 1, 2⟩, ⟨2, 7, 2, 1⟩] (by decide) rfl rfl (by decide) rfl
    (Or.inr (Or.inr (Or.inr (Or.inr (Or.inr (by decide))))))

set_option maxRecDepth 100000 in
theorem createOrder_insufficient_stock_witness :
    CreateOrder demoEnv { store := lowStore, txBegun := 0 } demoInput
        = (.error (.error (.app (.sentinel .insufficientStock) "not enough stock for \x27B\x27")),
            { store := lowStore, txBegun := 1 }) :=
  (createOrder_insufficient_stock.1 demoEnv { store := lowStore, txBegun := 0 } demoInput
    ⟨7, 42⟩ [⟨1, 7, 1, 2⟩] [] ⟨2, 7, 2, 1⟩ ⟨2, "B", ⟨some 500, -2, true⟩, 0⟩
    (by decide) rfl rfl rfl rfl
    (by
      intro ci hci
      rw [List.mem_singleton] at hci
      subst hci
      exact ⟨⟨1, "A", ⟨some 999, -2, true⟩, 5⟩, rfl, by decide⟩)
    rfl (by decide)).1

/-- C11, amended: for every finite `float64` of sign `s` and magnitude `x` (zero, or from
`2 ^ -1100` to below `2 ^ 1024`, which holds every finite `float64`), `floatToNumeric`
returns the valid decimal with exponent -2 whose mantissa has the sign `s` and, as
magnitude, the integer nearest (ties to even) to the product `x * 100` rounded to 53
significant bits (to nearest, ties to even). -/
theorem floatToNumeric_rounds_to_nearest (f : F64) (s : Bool) (x : ℚ) (hf : f.IsVal s x)
    (hlo : x = 0 ∨ (2 : ℚ) ^ (-1100 : ℤ) ≤ x) (hhi : x < (2 : ℚ) ^ (1024 : ℤ)) :
    floatToNumeric f
      = some { int := some (F64.signed s (nearestEven (roundToBits 53 (x * 100)))),
               exp := -2, valid := true } := by
  obtain ⟨m, e, rfl, hx⟩ := hf
  have hx0 : 0 ≤ x := by
    rw [← hx]
    positivity
  have hv : ((shiftFrac (m * 100) 1 (-(e + 0))).1 : ℚ) / ((shiftFrac (m * 100) 1 (-(e + 0))).2 : ℚ)
      = x * 100 := by
    rw [shiftFrac_dyadic, ← hx]
    push_cast
    simp only [add_zero]
    ring
  have hr := BigFloat.round_val 53 s (shiftFrac (m * 100) 1 (-(e + 0))).1
    (shiftFrac (m * 100) 1 (-(e + 0))).2 (shiftFrac_snd_pos _ _ _ (by norm_num)) (by norm_num)
    (by norm_num)
    (by
      rw [hv]
      rcases hlo with h0 | h0
      · left
        have hz : ((shiftFrac (m * 100) 1 (-(e + 0))).1 : ℚ)
            / ((shiftFrac (m * 100) 1 (-(e + 0))).2 : ℚ) = 0 := by
          rw [hv, h0]
          simp
        exact frac_eq_zero _ _ (shiftFrac_snd_pos _ _ _ (by norm_num)) hz
      · right
        calc (2 : ℚ) ^ (-(2 : ℤ) ^ 20) ≤ (2 : ℚ) ^ (-1100 : ℤ) :=
              zpow_le_zpow_right₀ (by norm_num) (by norm_num)
          _ ≤ x := h0
          _ ≤ x * 100 := by linarith)
    (by
      rw [hv]
      calc x * 100 < (2 : ℚ) ^ (1024 : ℤ) * 100 := by linarith
        _ ≤ (2 : ℚ) ^ (1024 : ℤ) * (2 : ℚ) ^ (7 : ℤ) := by
            apply mul_le_mul_of_nonneg_left _ (by positivity)
            norm_num
        _ = (2 : ℚ) ^ (1031 : ℤ) := by
            rw [← zpow_add₀ (by norm_num : (2 : ℚ) ≠ 0)]
            norm_num
        _ ≤ (2 : ℚ) ^ ((2 : ℤ) ^ 20) := zpow_le_zpow_right₀ (by norm_num) (by norm_num))
  rw [hv] at hr
  have ht := BigFloat.textInt_val _ s _ hr
  unfold floatToNumeric
  simp only [BigFloat.ofF64, Option.some_bind, BigFloat.mul, BigFloat.hundred, Bool.xor_false,
    Option.map_some', ht]

set_option maxRecDepth 100000 in
/-- C11, witness: the amount 0.375, whose product with 100 is the tie 37.5. -/
theorem floatToNumeric_rounds_to_nearest_witness :
    floatToNumeric (F64.fin false 6755399441055744 (-54))
      = some { int := some (F64.signed false (nearestEven (roundToBits 53 ((3 / 8 : ℚ) * 100)))),
               exp := -2, valid := true } :=
  floatToNumeric_rounds_to_nearest (F64.fin false 6755399441055744 (-54)) false (3 / 8)
    ⟨6755399441055744, -54, rfl, by norm_num⟩ (Or.inr (by norm_num)) (by norm_num)

set_option maxRecDepth 100000 in
/-- C11, counterexample: for the amounts 0.375 and 0.0078125 (both exact in binary) the
source returns the mantissas 38 and 1, while dropping the digits after the second decimal
place gives 37 and 0. -/
theorem floatToNumeric_not_truncation :
    floatToNumeric (F64.fin false 6755399441055744 (-54))
        = some { int := some 38, exp := -2, valid := true } ∧
      floatToNumericSpec (F64.fin false 6755399441055744 (-54))
        = some { int := some 37, exp := -2, valid := true } ∧
      floatToNumeric (F64.fin false 4503599627370496 (-59))
        = some { int := some 1, exp := -2, valid := true } ∧
      floatToNumericSpec (F64.fin false 4503599627370496 (-59))
        = some { int := some 0, exp := -2, valid := true } := by
  decide

/-- C12, the default is the text `cash_on_delivery`: every successful `CreateOrder` adds
exactly one order row, whose payment method is `cash_on_delivery` when the given payment
method is the empty text and the given payment method, unchanged, otherwise. -/
theorem createOrder_payment_method (env : Env) (db : Db) (i : CreateOrderInput)
    (h : (CreateOrder env db i).1.isOk = true) :
    ∃ order, (CreateOrder env db i).2.store.orders = db.store.orders ++ [order] ∧
      order.paymentMethod
        = (if i.paymentMethod = "" then "cash_on_delivery" else i.paymentMethod) := by
  obtain ⟨cart, cartItems, order, s, -, -, -, -, htx, hdb⟩ := CreateOrder_isOk_inv env db i h
  obtain ⟨pm, total, s2, -, -, -, -, -, hpay, hitems, hs⟩ :=
    checkoutTx_ok_inv env i cart cartItems db.store s order htx
  obtain ⟨ho, -, -, -, -⟩ := createItems_ok env env.newOrderID pm cartItems 0 _ s2 hitems
  refine ⟨order, ?_, hpay⟩
  rw [hdb, hs]
  simp only [clearCart, ho, insertOrder]

set_option maxRecDepth 100000 in
/-- C12, witness: the checkout of the example, whose payment method is empty. -/
theorem createOrder_payment_method_witness :
    (CreateOrder demoEnv demoDb demoInput).1.isOk = true ∧
    ∃ order, (CreateOrder demoEnv demoDb demoInput).2.store.orders
        = demoDb.store.orders ++ [order] ∧
      order.paymentMethod
        = (if demoInput.paymentMethod = "" then "cash_on_delivery"
           else demoInput.paymentMethod) :=
  ⟨by decide, createOrder_payment_method demoEnv demoDb demoInput (by decide)⟩

set_option maxRecDepth 100000 in
/-- C12, counterexample: the checkout of the example has an empty payment method and
succeeds; the order is persisted with the payment method `cash_on_delivery`, which is not
the text `cash on delivery`. -/
theorem createOrder_default_payment_text :
    demoInput.paymentMethod = "" ∧
    (CreateOrder demoEnv demoDb demoInput).1.isOk = true ∧
    ((CreateOrder demoEnv demoDb demoInput).2.store.orders.map fun o => o.paymentMethod)
      = ["cash_on_delivery"] ∧
    ((CreateOrder demoEnv demoDb demoInput).2.store.orders.map fun o => o.paymentMethod)
      ≠ [defaultPaymentMethodSpec] := by
  decide

theorem asAppError_isSentinel (e inner : GoError) (m : String)
    (h : e.asAppError = some (inner, m)) (s : Sentinel) :
    inner.isSentinel s = e.isSentinel s := by
  induction e with
  | sentinel t => simp [GoError.asAppError] at h
  | noRows => simp [GoError.asAppError] at h
  | other t => simp [GoError.asAppError] at h
  | app err message _ =>
    simp only [GoError.asAppError, Option.some.injEq, Prod.mk.injEq] at h
    rw [← h.1]
    simp [GoError.isSentinel]
  | wrap t err ih =>
    simp only [GoError.asAppError] at h
    rw [ih h]
    simp [GoError.isSentinel]

/-- C17: for each of the eleven error kinds of the table, `resolveError` returns the status
of the table, for the bare sentinel (with the text of the sentinel as message) and for the
sentinel wrapped in an `AppError` (with the message of the `AppError`, or the text of the
sentinel when that message is empty). -/
theorem resolveError_status_table (s : Sentinel) (code : Nat) (h : statusTable s = some code) :
    resolveError (.sentinel s) = (code, s.text) ∧
      ∀ message : String, resolveError (.app (.sentinel s) message)
        = (code, if message = "" then s.text else message) := by
  cases s <;> simp only [statusTable, Option.some.injEq, reduceCtorEq] at h <;> subst h <;>
    refine ⟨by decide, fun message => ?_⟩ <;>
    simp [resolveError, GoError.asAppError, GoError.isSentinel, GoError.text]

/-- C17, witness: the kind rate-limit-exceeded, status 429. -/
theorem resolveError_status_table_witness :
    resolveError (.sentinel .rateLimitExceeded) = (429, Sentinel.rateLimitExceeded.text) ∧
      ∀ message : String, resolveError (.app (.sentinel .rateLimitExceeded) message)
        = (429, if message = "" then Sentinel.rateLimitExceeded.text else message) :=
  resolveError_status_table .rateLimitExceeded 429 rfl

/-- C18: an error whose chain holds none of the eleven recognized sentinels, whatever its
text and whether or not it is an `AppError` with a message, is answered with status 500 and
the fixed message. -/
theorem resolveError_unrecognized (e : GoError)
    (h : ∀ s : Sentinel, s ≠ .userNotVerified → e.isSentinel s = false) :
    resolveError e = (500, "an internal error occurred") := by
  have key : ∀ e1 : GoError, (∀ s : Sentinel, e1.isSentinel s = e.isSentinel s) →
      ∀ msg : String,
      (if e1.isSentinel .notFound then (404, msg)
        else if e1.isSentinel .conflict then (409, msg)
        else if e1.isSentinel .unauthorized then (401, msg)
        else if e1.isSentinel .forbidden then (403, msg)
        else if e1.isSentinel .invalidInput then (400, msg)
        else if e1.isSentinel .otpExpired || e1.isSentinel .otpInvalid
            || e1.isSentinel .otpAlreadyUsed then (422, msg)
        else if e1.isSentinel .rateLimitExceeded then (429, msg)
        else if e1.isSentinel .insufficientStock then (409, msg)
        else if e1.isSentinel .emptyCart then (400, msg)
        else ((500, "an internal error occurred") : Nat × String))
        = (500, "an internal error occurred") := by
    intro e1 h1 msg
    simp [h1, h]
  unfold resolveError
  cases ha : e.asAppError with
  | none => exact key e (fun _ => rfl) _
  | some p =>
    obtain ⟨inner, m⟩ := p
    exact key inner (asAppError_isSentinel e inner m ha) _

/-- C18, witness: a store failure wrapped in an `AppError` that carries a message. -/
theorem resolveError_unrecognized_witness :
    resolveError (.app (.wrap "get cart" (.other "connection refused")) "a detail")
      = (500, "an internal error occurred") :=
  resolveError_unrecognized (.app (.wrap "get cart" (.other "connection refused")) "a detail")
    (by intro s _; rfl)

theorem getOrderByID_none (s : Store) (oid userID : Nat)
    (h : ∀ o ∈ s.orders, o.id = oid → o.userID ≠ userID) :
    getOrderByID Option.none s oid userID = .error .noRows := by
  unfold getOrderByID
  have : s.orders.find? (fun o => decide (o.id = oid ∧ o.userID = userID)) = Option.none := by
    rw [List.find?_eq_none]
    intro o ho
    simp only [decide_eq_true_eq, not_and]
    exact h o ho
  simp only [this]

/-- C19: a malformed order id fails with invalid-input; for a well-formed id and a lookup
that does not fail, a store `s1` in which no order with that id belongs to the caller (the
id may be that of an order of another user) gives the bare not-found error, the same result
as a store `s2` in which no order has that id at all. -/
theorem getOrder_hides_orders_of_others (parseUUID : String → Option Nat)
    (faults : GetOrderFaults) (s1 s2 : Store) (userID : Nat) (orderID : String) :
    (parseUUID orderID = Option.none →
      GetOrder parseUUID faults s1 userID orderID
        = .error (.error (.app (.sentinel .invalidInput) "invalid order id"))) ∧
    (∀ oid, parseUUID orderID = some oid → faults.getOrderByID = Option.none →
      (∀ o ∈ s1.orders, o.id = oid → o.userID ≠ userID) →
      (∀ o ∈ s2.orders, o.id ≠ oid) →
      GetOrder parseUUID faults s1 userID orderID = .error (.error (.sentinel .notFound)) ∧
      GetOrder parseUUID faults s1 userID orderID
        = GetOrder parseUUID faults s2 userID orderID) := by
  constructor
  · intro hp
    simp only [GetOrder, hp]
  · intro oid hp hf h1 h2
    have e1 := getOrderByID_none s1 oid userID h1
    have e2 := getOrderByID_none s2 oid userID (fun o ho hid => absurd hid (h2 o ho))
    simp only [GetOrder, hp, hf, e1, e2, GoError.isNoRows, if_true, and_self]

/-- C19, witness: user 43 asks for the order 1 of user 42, and for a malformed id. -/
theorem getOrder_hides_orders_of_others_witness :
    GetOrder demoParseUUID ⟨Option.none, Option.none⟩ orderStore 43 "order-1"
        = .error (.error (.sentinel .notFound)) ∧
      GetOrder demoParseUUID ⟨Option.none, Option.none⟩ orderStore 43 "order-1"
        = GetOrder demoParseUUID ⟨Option.none, Option.none⟩ emptyStore 43 "order-1" :=
  (getOrder_hides_orders_of_others demoParseUUID ⟨Option.none, Option.none⟩ orderStore
    emptyStore 43 "order-1").2 1 (by decide) rfl (by decide) (by decide)

/-- C20, the limits are reset, not clamped: `ListOrders` behaves on a page and a limit as
on the page 1 for a page below 1 and the given page otherwise, and on the limit 10 for a
limit below 1 or above 50 and the given limit otherwise, and when it succeeds it reports
that page and that limit; the product `List` does the same with the limit 20 for a limit
below 1 or above 100; and `queryInt` gives the default for an empty text. -/
theorem list_paging_inputs (q : ListOrdersQueries) (userID : Nat) (page limit : Int)
    (parseUUID : String → Option Nat) (pq : ListProductsQueries) (i : ListProductsInput) :
    ListOrders q userID page limit
      = ListOrders q userID (if page < 1 then 1 else page)
          (if limit < 1 ∨ 50 < limit then 10 else limit) ∧
    (∀ out, ListOrders q userID page limit = .ok out →
      out.page = (if page < 1 then 1 else page) ∧
      out.limit = (if limit < 1 ∨ 50 < limit then 10 else limit)) ∧
    ProductService.List parseUUID pq i
      = ProductService.List parseUUID pq
          { i with page := if i.page < 1 then 1 else i.page,
                   limit := if i.limit < 1 ∨ 100 < i.limit then 20 else i.limit } ∧
    (∀ out, ProductService.List parseUUID pq i = .ok out →
      out.page = (if i.page < 1 then 1 else i.page) ∧
      out.limit = (if i.limit < 1 ∨ 100 < i.limit then 20 else i.limit)) ∧
    (∀ scanned defaultVal, queryInt "" scanned defaultVal = defaultVal) := by
  refine ⟨?_, ?_, ?_, ?_, ?_⟩
  · unfold ListOrders
    by_cases h1 : page < 1 <;> by_cases h2 : limit < 1 ∨ 50 < limit <;> simp [h1, h2]
  · intro out h
    unfold ListOrders at h
    simp only at h
    split at h
    · simp at h
    · split at h
      · simp at h
      · split at h
        · simp at h
        · simp only [Except.ok.injEq] at h
          subst h
          simp only [gt_iff_lt, and_self]
  · unfold ProductService.List
    by_cases h1 : i.page < 1 <;> by_cases h2 : i.limit < 1 ∨ 100 < i.limit <;> simp [h1, h2]
  · intro out h
    unfold ProductService.List at h
    simp only at h
    split at h
    · simp at h
    · split at h
      · simp at h
      · split at h
        · simp at h
        · split at h
          · simp at h
          · simp only [Except.ok.injEq] at h
            subst h
            simp only [gt_iff_lt, and_self]
  · intro scanned defaultVal
    simp [queryInt]

/-- C20, witness: page 0 and limit 999 on an empty order list, and page 0 and limit 0 on an
empty product list. -/
theorem list_paging_inputs_witness :
    (∃ out, ListOrders noOrdersQueries 7 0 999 = .ok out ∧
      out.page = (if (0 : Int) < 1 then 1 else 0) ∧
      out.limit = (if (999 : Int) < 1 ∨ 50 < (999 : Int) then 10 else 999)) ∧
    (∃ out, ProductService.List demoParseUUID noProductsQueries ⟨Option.none, "", 0, 0⟩
        = .ok out ∧
      out.page = (if (0 : Int) < 1 then 1 else 0) ∧
      out.limit = (if (0 : Int) < 1 ∨ 100 < (0 : Int) then 20 else 0)) :=
  ⟨⟨_, rfl, (list_paging_inputs noOrdersQueries 7 0 999 demoParseUUID noProductsQueries
      ⟨Option.none, "", 0, 0⟩).2.1 _ rfl⟩,
   ⟨_, rfl, (list_paging_inputs noOrdersQueries 7 0 999 demoParseUUID noProductsQueries
      ⟨Option.none, "", 0, 0⟩).2.2.2.1 _ rfl⟩⟩

/-- C20, counterexample: `ListOrders` answers the limit 51 with the limit 10, while the
clamp into [1, 50] is 50; the product `List` answers the limit 101 with the limit 20, while
the clamp into [1, 100] is 100. -/
theorem list_limit_not_clamped :
    (ListOrders noOrdersQueries 7 1 51).toOption.map (fun out => out.limit) = some 10 ∧
    clampSpec 1 50 51 = 50 ∧
    (ProductService.List demoParseUUID noProductsQueries
      ⟨Option.none, "", 1, 101⟩).toOption.map (fun out => out.limit) = some 20 ∧
    clampSpec 1 100 101 = 100 := by
  decide

/-- C14: for a user found by email, `VerifyOTP` returns OTP-invalid when the user has no
code, OTP-already-used when the latest code is marked used, and OTP-expired when the latest
code is not marked used and the current instant is after its expiry; each time the result
is an error (no token) and the tables are those before the call, whatever code was
submitted. -/
theorem verifyOTP_fails_closed (env : AuthEnv) (s : AuthStore) (i : VerifyOTPInput)
    (user : User)
    (hu : getUserByEmail env.faults.getUserByEmail s (env.toLower i.email) = .ok user) :
    (∀ e, getLatestOTPByUserID env.faults.getLatestOTP s user.id = .error e →
      e.isNoRows = true →
      VerifyOTP env s i
        = (.error (.app (.sentinel .otpInvalid) "no OTP found, please request a new one"), s)) ∧
    (∀ otp, getLatestOTPByUserID env.faults.getLatestOTP s user.id = .ok otp →
      otp.isUsed = true →
      VerifyOTP env s i = (.error (.sentinel .otpAlreadyUsed), s)) ∧
    (∀ otp, getLatestOTPByUserID env.faults.getLatestOTP s user.id = .ok otp →
      otp.isUsed = false → otp.expiresAt < env.now →
      VerifyOTP env s i = (.error (.sentinel .otpExpired), s)) := by
  refine ⟨?_, ?_, ?_⟩
  · intro e he hn
    simp only [VerifyOTP, hu, he, hn, if_true]
  · intro otp ho hused
    simp only [VerifyOTP, hu, ho, hused, if_true]
  · intro otp ho hused hexp
    simp only [VerifyOTP, hu, ho, hused, gt_iff_lt, hexp, if_true, Bool.false_eq_true, if_false]

set_option maxRecDepth 100000 in
/-- C14, witness: the user of the examples without any code, with a used code, and with a
code that expired at instant 500. -/
theorem verifyOTP_fails_closed_witness :
    VerifyOTP demoAuthEnv (authStoreWith []) ⟨"Ada@Example.com", "123456"⟩
      = (.error (.app (.sentinel .otpInvalid) "no OTP found, please request a new one"),
          authStoreWith []) ∧
    VerifyOTP demoAuthEnv (authStoreWith [{ demoOtp with isUsed := true }])
        ⟨"Ada@Example.com", "123456"⟩
      = (.error (.sentinel .otpAlreadyUsed), authStoreWith [{ demoOtp with isUsed := true }]) ∧
    VerifyOTP demoAuthEnv (authStoreWith [{ demoOtp with expiresAt := 500 }])
        ⟨"Ada@Example.com", "123456"⟩
      = (.error (.sentinel .otpExpired), authStoreWith [{ demoOtp with expiresAt := 500 }]) :=
  ⟨(verifyOTP_fails_closed demoAuthEnv (authStoreWith []) ⟨"Ada@Example.com", "123456"⟩
      demoUser rfl).1 .noRows rfl rfl,
   (verifyOTP_fails_closed demoAuthEnv (authStoreWith [{ demoOtp with isUsed := true }])
      ⟨"Ada@Example.com", "123456"⟩ demoUser rfl).2.1
      { demoOtp with isUsed := true } rfl rfl,
   (verifyOTP_fails_closed demoAuthEnv (authStoreWith [{ demoOtp with expiresAt := 500 }])
      ⟨"Ada@Example.com", "123456"⟩ demoUser rfl).2.2
      { demoOtp with expiresAt := 500 } rfl rfl (by decide)⟩

theorem latest_map (otps : List Otp) (f : Otp → Otp) (userID : Nat)
    (hf : ∀ o, (f o).userID = o.userID) :
    ((otps.map f).filter (fun o => o.userID = userID)).getLast?
      = ((otps.filter (fun o => o.userID = userID)).getLast?).map f := by
  have h1 : (otps.map f).filter (fun o => decide (o.userID = userID))
      = (otps.filter (fun o => decide (o.userID = userID))).map f := by
    rw [List.filter_map]
    congr 1
    apply List.filter_congr
    intro o _
    simp [hf]
  rw [h1, List.getLast?_map]

theorem verifyOTP_wrong_code (env : AuthEnv) (s : AuthStore) (i : VerifyOTPInput)
    (user : User) (otp : Otp)
    (h : ActiveAttempt s.users user otp (env, i))
    (ho : getLatestOTPByUserID Option.none s user.id = .ok otp)
    (hused : otp.isUsed = false) (hcount : otp.attemptCount < 5)
    (hwrong : env.compareHash otp.otpHash i.otp = false) :
    (VerifyOTP env s i).1 = .error (.sentinel .otpInvalid) ∧
      (VerifyOTP env s i).2.users = s.users ∧
      getLatestOTPByUserID Option.none (VerifyOTP env s i).2 user.id
        = .ok { otp with attemptCount := otp.attemptCount + 1 } := by
  obtain ⟨h1, h2, h3, h4, h5⟩ := h
  simp only at h1 h2 h3 h4 h5
  have hnow : ¬ env.now > otp.expiresAt := not_lt.mpr h5
  have hcnt : ¬ otp.attemptCount ≥ maxOTPAttempts := by
    unfold maxOTPAttempts
    omega
  have hl : (s.otps.filter (fun o => o.userID = user.id)).getLast? = some otp := by
    unfold getLatestOTPByUserID at ho
    simp only at ho
    split at ho
    · rename_i o heq
      simp only [Except.ok.injEq] at ho
      rw [heq, ho]
    · simp at ho
  have hv : VerifyOTP env s i = (.error (.sentinel .otpInvalid),
      { s with otps := s.otps.map fun o =>
          if o.id = otp.id then { o with attemptCount := o.attemptCount + 1 } else o }) := by
    simp only [VerifyOTP, getUserByEmail, h1, h4, h2, ho, hused, hnow, hcnt, hwrong,
      incrementOTPAttempts, h3, Bool.false_eq_true, if_false, Bool.not_false, if_true]
  rw [hv]
  refine ⟨rfl, rfl, ?_⟩
  simp only [getLatestOTPByUserID]
  rw [latest_map _ _ _ (by intro o; split <;> rfl), hl]
  simp

theorem verifyAll_wrong_codes (user : User) (otp : Otp) (users : List User) :
    ∀ (calls : List (AuthEnv × VerifyOTPInput)) (s : AuthStore) (n : Int),
      s.users = users →
      getLatestOTPByUserID Option.none s user.id = .ok { otp with attemptCount := n } →
      otp.isUsed = false → n + calls.length ≤ 5 →
      (∀ c ∈ calls, ActiveAttempt users user otp c ∧
        c.1.compareHash otp.otpHash c.2.otp = false) →
      (verifyAll calls s).1 = List.replicate calls.length (.error (.sentinel .otpInvalid)) ∧
        (verifyAll calls s).2.users = users ∧
        getLatestOTPByUserID Option.none (verifyAll calls s).2 user.id
          = .ok { otp with attemptCount := n + calls.length } := by
  intro calls
  induction calls with
  | nil =>
    intro s n hu ho _ _ _
    simp [verifyAll, hu, ho]
  | cons c rest ih =>
    intro s n hu ho hused hn hall
    have hc := hall c (List.mem_cons_self _ _)
    have hlen : ((c :: rest).length : Int) = (rest.length : Int) + 1 := by
      simp
    have hstep := verifyOTP_wrong_code c.1 s c.2 user { otp with attemptCount := n }
      (by rw [hu]; exact hc.1) ho hused (by simp only; omega) hc.2
    obtain ⟨r1, r2, r3⟩ := hstep
    have hrest := ih (VerifyOTP c.1 s c.2).2 (n + 1) (by rw [r2, hu]) r3 hused
      (by omega) (fun d hd => hall d (List.mem_cons_of_mem _ hd))
    obtain ⟨q1, q2, q3⟩ := hrest
    refine ⟨?_, ?_, ?_⟩
    · simp only [verifyAll, r1, q1, List.length_cons, List.replicate_succ]
    · simp only [verifyAll, q2]
    · simp only [verifyAll, q3, Except.ok.injEq]
      rw [hlen]
      congr 1
      omega

/-- C13: from a latest code that is not used and has attempt count 0, five consecutive
`VerifyOTP` calls with wrong codes, made while the code has not expired, each fail with the
bare OTP-invalid error and leave the attempt count at 5; a sixth call with any code, the
right one included, then fails with OTP-invalid (the error of the attempt ceiling) and
changes nothing. -/
theorem verifyOTP_sixth_attempt_rejected (s : AuthStore) (user : User) (otp : Otp)
    (calls : List (AuthEnv × VerifyOTPInput)) (sixth : AuthEnv × VerifyOTPInput)
    (hlen : calls.length = 5)
    (ho : getLatestOTPByUserID Option.none s user.id = .ok otp)
    (hused : otp.isUsed = false) (hcount : otp.attemptCount = 0)
    (hcalls : ∀ c ∈ calls, ActiveAttempt s.users user otp c ∧
      c.1.compareHash otp.otpHash c.2.otp = false)
    (hsixth : ActiveAttempt s.users user otp sixth) :
    (verifyAll calls s).1 = List.replicate 5 (.error (.sentinel .otpInvalid)) ∧
      getLatestOTPByUserID Option.none (verifyAll calls s).2 user.id
        = .ok { otp with attemptCount := 5 } ∧
      VerifyOTP sixth.1 (verifyAll calls s).2 sixth.2
        = (.error (.app (.sentinel .otpInvalid)
            "too many failed attempts, please request a new OTP"), (verifyAll calls s).2) ∧
      (GoError.app (.sentinel .otpInvalid)
        "too many failed attempts, please request a new OTP").isSentinel .otpInvalid = true := by
  have h0 : otp = { otp with attemptCount := 0 } := by
    rw [← hcount]
  have hmain := verifyAll_wrong_codes user otp s.users calls s 0 rfl (by rw [← h0]; exact ho)
    hused (by rw [hlen]; norm_num) hcalls
  rw [hlen] at hmain
  obtain ⟨m1, m2, m3⟩ := hmain
  simp only [Nat.cast_ofNat, zero_add] at m3
  refine ⟨m1, m3, ?_, rfl⟩
  obtain ⟨h1, h2, -, h4, h5⟩ := hsixth
  have hnow : ¬ sixth.1.now > otp.expiresAt := not_lt.mpr h5
  simp only [VerifyOTP, getUserByEmail, h1, m2, h4, h2, m3, hused, hnow, maxOTPAttempts,
    Bool.false_eq_true, if_false, ge_iff_le, le_refl, if_true]

set_option maxRecDepth 100000 in
/-- C13, witness: five calls with the code 000000 against the code 123456 of the examples,
then a call with 123456. -/
theorem verifyOTP_sixth_attempt_rejected_witness :
    (verifyAll (List.replicate 5 (demoAuthEnv, ⟨"ada@example.com", "000000"⟩))
        (authStoreWith [demoOtp])).1
      = List.replicate 5 (.error (.sentinel .otpInvalid)) ∧
    getLatestOTPByUserID Option.none
        (verifyAll (List.replicate 5 (demoAuthEnv, ⟨"ada@example.com", "000000"⟩))
          (authStoreWith [demoOtp])).2 demoUser.id
      = .ok { demoOtp with attemptCount := 5 } ∧
    VerifyOTP (demoAuthEnv, (⟨"ada@example.com", "123456"⟩ : VerifyOTPInput)).1
        (verifyAll (List.replicate 5 (demoAuthEnv, ⟨"ada@example.com", "000000"⟩))
          (authStoreWith [demoOtp])).2
        (demoAuthEnv, (⟨"ada@example.com", "123456"⟩ : VerifyOTPInput)).2
      = (.error (.app (.sentinel .otpInvalid)
          "too many failed attempts, please request a new OTP"),
        (verifyAll (List.replicate 5 (demoAuthEnv, ⟨"ada@example.com", "000000"⟩))
          (authStoreWith [demoOtp])).2) ∧
    (GoError.app (.sentinel .otpInvalid)
      "too many failed attempts, please request a new OTP").isSentinel .otpInvalid = true :=
  verifyOTP_sixth_attempt_rejected (authStoreWith [demoOtp]) demoUser demoOtp
    (List.replicate 5 (demoAuthEnv, ⟨"ada@example.com", "000000"⟩))
    (demoAuthEnv, ⟨"ada@example.com", "123456"⟩) rfl rfl rfl rfl (by decide) (by decide)

theorem sendOTP_limited (env : AuthEnv) (s : AuthStore) (user : User)
    (hc : env.faults.countRecentOTPs = Option.none) (h : 3 ≤ recentOTPs env.now s user.id) :
    sendOTP env s user = (.error (.sentinel .rateLimitExceeded), s) := by
  have h1 : ((s.otps.filter fun o => o.userID = user.id ∧ env.now - hour < o.createdAt).length
      : Int) ≥ maxOTPPerHour := by
    unfold maxOTPPerHour
    unfold recentOTPs at h
    omega
  simp only [sendOTP, countRecentOTPsByUserID, hc, h1, if_true]

theorem sendOTP_proceeds (env : AuthEnv) (s : AuthStore) (user : User)
    (hc : env.faults.countRecentOTPs = Option.none) (h : recentOTPs env.now s user.id < 3)
    (hi : env.faults.invalidateUserOTPs = Option.none)
    (hs : env.faults.createOTP = Option.none) (rawOTP hash : String)
    (hg : generateOTP env.random otpLength = .ok rawOTP)
    (hh : env.generateHash rawOTP = .ok hash) :
    sendOTP env s user =
      ((match env.sendMail { recipient := user.emailAddress, firstName := user.firstName,
                             otp := rawOTP } with
        | some e => .error e
        | Option.none => .ok ()),
       { users := s.users, otps := invalidated s.otps user.id ++ [issuedOtp env user hash],
         outbox := s.outbox ++ [{ recipient := user.emailAddress,
                                  firstName := user.firstName, otp := rawOTP }] }) := by
  have h1 : ¬ ((s.otps.filter fun o => o.userID = user.id ∧ env.now - hour < o.createdAt).length
      : Int) ≥ maxOTPPerHour := by
    unfold maxOTPPerHour
    unfold recentOTPs at h
    omega
  cases hm : env.sendMail { recipient := user.emailAddress, firstName := user.firstName,
                            otp := rawOTP } with
  | none =>
    simp only [sendOTP, countRecentOTPsByUserID, hc, h1, if_false, invalidateUserOTPs, hi, hg,
      hh, createOTP, hs, invalidated, issuedOtp, hm]
  | some e =>
    simp only [sendOTP, countRecentOTPsByUserID, hc, h1, if_false, invalidateUserOTPs, hi, hg,
      hh, createOTP, hs, invalidated, issuedOtp, hm]

theorem resendOTP_unverified (env : AuthEnv) (s : AuthStore) (email : String) (user : User)
    (hu : getUserByEmail env.faults.getUserByEmail s (env.toLower email) = .ok user)
    (hv : user.isVerified = false) : ResendOTP env s email = sendOTP env s user := by
  simp only [ResendOTP, hu, hv, Bool.false_eq_true, if_false]

theorem filter_invalidated (otps : List Otp) (userID : Nat) (p : Otp → Bool)
    (hp : ∀ o : Otp, p { o with isUsed := true } = p o) :
    ((invalidated otps userID).filter p).length = (otps.filter p).length := by
  unfold invalidated
  rw [List.filter_map, List.length_map]
  congr 1
  apply List.filter_congr
  intro o _
  simp only [Function.comp]
  split
  · exact hp o
  · rfl

theorem issues_elim (env : AuthEnv) (users : List User) (email : String) (user : User)
    (h : issues env users email user = true) :
    env.faults.getUserByEmail = Option.none ∧
      users.find? (fun u => u.emailAddress = env.toLower email) = some user ∧
      env.faults.countRecentOTPs = Option.none ∧
      env.faults.invalidateUserOTPs = Option.none ∧ env.faults.createOTP = Option.none ∧
      ∃ rawOTP hash, generateOTP env.random otpLength = .ok rawOTP ∧
        env.generateHash rawOTP = .ok hash ∧
        env.sendMail { recipient := user.emailAddress, firstName := user.firstName,
                       otp := rawOTP } = Option.none := by
  unfold issues at h
  simp only [Bool.and_eq_true, decide_eq_true_eq] at h
  obtain ⟨⟨⟨⟨⟨h1, h2⟩, h3⟩, h4⟩, h5⟩, h6⟩ := h
  refine ⟨h1, h2, h3, h4, h5, ?_⟩
  cases hg : generateOTP env.random otpLength with
  | error e => simp [hg] at h6
  | ok rawOTP =>
    cases hh : env.generateHash rawOTP with
    | error e => simp [hg, hh] at h6
    | ok hash =>
      simp only [hg, hh, Option.isNone_iff_eq_none] at h6
      exact ⟨rawOTP, hash, rfl, hh, h6⟩

theorem resendAll_issues (users : List User) (email : String) (user : User) (bound : Int)
    (hv : user.isVerified = false) :
    ∀ (envs : List AuthEnv) (s : AuthStore) (k : Nat),
      s.users = users →
      (s.otps.filter fun o => o.userID = user.id).length = k →
      (s.otps.filter fun o => o.userID = user.id ∧ bound < o.createdAt).length = k →
      k + envs.length ≤ 3 →
      (∀ env ∈ envs, issues env users email user = true ∧ bound < env.now) →
      (resendAll envs email s).1 = List.replicate envs.length (.ok ()) ∧
        (resendAll envs email s).2.users = users ∧
        ((resendAll envs email s).2.otps.filter
          fun o => o.userID = user.id ∧ bound < o.createdAt).length = k + envs.length := by
  intro envs
  induction envs with
  | nil =>
    intro s k hu _ hk _ _
    exact ⟨rfl, hu, by simpa [resendAll] using hk⟩
  | cons env rest ih =>
    intro s k hu hall hk hlen henvs
    obtain ⟨hok, hnow⟩ := henvs env (List.mem_cons_self _ _)
    obtain ⟨h1, h2, h3, h4, h5, rawOTP, hash, hg, hh, hm⟩ := issues_elim env users email user hok
    simp only [List.length_cons] at hlen
    have hrecent : recentOTPs env.now s user.id < 3 := by
      have : recentOTPs env.now s user.id ≤ (s.otps.filter fun o => o.userID = user.id).length := by
        unfold recentOTPs
        have hsub : (s.otps.filter fun o => decide (o.userID = user.id ∧ env.now - hour < o.createdAt))
            = (s.otps.filter fun o => decide (o.userID = user.id)).filter
                fun o => decide (env.now - hour < o.createdAt) := by
          rw [List.filter_filter]
          apply List.filter_congr
          intro o _
          simp only [Bool.decide_and, Bool.and_comm]
        rw [hsub]
        exact List.length_filter_le _ _
      omega
    have hget : getUserByEmail env.faults.getUserByEmail s (env.toLower email) = .ok user := by
      simp only [getUserByEmail, h1, hu, h2]
    have hstep : ResendOTP env s email = (.ok (),
        { users := s.users, otps := invalidated s.otps user.id ++ [issuedOtp env user hash],
          outbox := s.outbox ++ [{ recipient := user.emailAddress,
                                   firstName := user.firstName, otp := rawOTP }] }) := by
      rw [resendOTP_unverified env s email user hget hv,
        sendOTP_proceeds env s user h3 hrecent h4 h5 rawOTP hash hg hh, hm]
    have hrest := ih (ResendOTP env s email).2 (k + 1) (by rw [hstep]; exact hu)
      (by
        rw [hstep]
        simp only [List.filter_append, List.length_append]
        rw [filter_invalidated _ _ _ (by intro o; rfl), hall]
        simp [issuedOtp])
      (by
        rw [hstep]
        simp only [List.filter_append, List.length_append]
        rw [filter_invalidated _ _ _ (by intro o; rfl), hk]
        simp [issuedOtp, hnow])
      (by omega) (fun d hd => henvs d (List.mem_cons_of_mem _ hd))
    obtain ⟨q1, q2, q3⟩ := hrest
    refine ⟨?_, ?_, ?_⟩
    · simp only [resendAll, hstep, List.length_cons, List.replicate_succ]
      rw [hstep] at q1
      rw [q1]
    · simp only [resendAll]
      exact q2
    · simp only [resendAll, List.length_cons]
      rw [q3]
      omega

/-- C15: when the count query does not fail, `sendOTP` fails with the bare
rate-limit-exceeded error as soon as the user has 3 or more codes issued within the past
hour, and then the tables and the messages handed to the email sender are those before the
call; with fewer than 3 such codes and no failure of the store, the random source or the
hashing, it marks the user's earlier codes used, stores a fresh code and hands the message
to the sender. `ResendOTP` for an unverified user, and `Register` with valid input for an
unverified user or for a new one, are this `sendOTP`. So of four `ResendOTP` requests for a
user without codes, the first three made within the hour before the fourth, the first three
succeed and the fourth fails with rate-limit-exceeded. -/
theorem sendOTP_rate_limit (env : AuthEnv) (s : AuthStore) (user : User)
    (hc : env.faults.countRecentOTPs = Option.none) :
    (3 ≤ recentOTPs env.now s user.id →
      sendOTP env s user = (.error (.sentinel .rateLimitExceeded), s)) ∧
    (recentOTPs env.now s user.id < 3 → env.faults.invalidateUserOTPs = Option.none →
      env.faults.createOTP = Option.none → ∀ rawOTP hash : String,
      generateOTP env.random otpLength = .ok rawOTP → env.generateHash rawOTP = .ok hash →
      sendOTP env s user =
        ((match env.sendMail { recipient := user.emailAddress, firstName := user.firstName,
                               otp := rawOTP } with
          | some e => .error e
          | Option.none => .ok ()),
         { users := s.users, otps := invalidated s.otps user.id ++ [issuedOtp env user hash],
           outbox := s.outbox ++ [{ recipient := user.emailAddress,
                                    firstName := user.firstName, otp := rawOTP }] })) ∧
    (∀ email : String,
      getUserByEmail env.faults.getUserByEmail s (env.toLower email) = .ok user →
      user.isVerified = false → ResendOTP env s email = sendOTP env s user) ∧
    (∀ i : RegisterInput, validateRegisterInput i = Option.none →
      getUserByEmail env.faults.getUserByEmail s (env.toLower i.email) = .ok user →
      user.isVerified = false → Register env s i = sendOTP env s user) ∧
    (∀ (i : RegisterInput) (e1 e2 : GoError), validateRegisterInput i = Option.none →
      getUserByEmail env.faults.getUserByEmail s (env.toLower i.email) = .error e1 →
      e1.isNoRows = true →
      getUserByPhone env.faults.getUserByPhone s i.phoneNumber = .error e2 →
      e2.isNoRows = true → env.faults.createUser = Option.none →
      Register env s i
        = sendOTP env { s with users := s.users ++ [registeredUser env i] }
            (registeredUser env i)) ∧
    (∀ (envs : List AuthEnv) (email : String), envs.length = 3 →
      user.isVerified = false → (∀ o ∈ s.otps, o.userID ≠ user.id) →
      (∀ e ∈ envs, issues e s.users email user = true ∧ env.now - hour < e.now) →
      env.faults.getUserByEmail = Option.none →
      s.users.find? (fun u => u.emailAddress = env.toLower email) = some user →
      (resendAll envs email s).1 = List.replicate 3 (.ok ()) ∧
        ResendOTP env (resendAll envs email s).2 email
          = (.error (.sentinel .rateLimitExceeded), (resendAll envs email s).2)) := by
  refine ⟨sendOTP_limited env s user hc, ?_, ?_, ?_, ?_, ?_⟩
  · intro h hi hs rawOTP hash hg hh
    exact sendOTP_proceeds env s user hc h hi hs rawOTP hash hg hh
  · intro email hu hv
    exact resendOTP_unverified env s email user hu hv
  · intro i hval hu hv
    simp only [Register, hval, hu, hv, Bool.false_eq_true, if_false]
  · intro i e1 e2 hval h1 hn1 h2 hn2 hcu
    simp only [Register, hval, h1, hn1, h2, hn2, createUser, hcu, Bool.not_true,
      Bool.false_eq_true, if_false, registeredUser]
  · intro envs email hlen hv hnone henvs hf hfind
    have hzero : ∀ p : Otp → Prop, [DecidablePred p] →
        (s.otps.filter fun o => decide (o.userID = user.id ∧ p o)).length = 0 := by
      intro p _
      rw [List.length_eq_zero, List.filter_eq_nil_iff]
      intro o ho
      simp only [decide_eq_true_eq, not_and]
      intro h
      exact absurd h (hnone o ho)
    have hzero2 : (s.otps.filter fun o => decide (o.userID = user.id)).length = 0 := by
      rw [List.length_eq_zero, List.filter_eq_nil_iff]
      intro o ho
      simp only [decide_eq_true_eq]
      exact hnone o ho
    have hmain := resendAll_issues s.users email user (env.now - hour) hv envs s 0 rfl hzero2
      (hzero _) (by omega) henvs
    rw [hlen] at hmain
    obtain ⟨m1, m2, m3⟩ := hmain
    refine ⟨m1, ?_⟩
    have hget : getUserByEmail env.faults.getUserByEmail (resendAll envs email s).2
        (env.toLower email) = .ok user := by
      simp only [getUserByEmail, hf, m2, hfind]
    rw [resendOTP_unverified env _ email user hget hv]
    apply sendOTP_limited env _ user hc
    unfold recentOTPs
    omega

set_option maxRecDepth 100000 in
/-- C15, witness: the user of the examples with three codes issued within the past hour,
and four requests in a row, at the instants 1000, 2000, 3000 and 4000, for the user without
codes. -/
theorem sendOTP_rate_limit_witness :
    sendOTP demoAuthEnv
        (authStoreWith [demoOtp, { demoOtp with id := 3, createdAt := 950 },
          { demoOtp with id := 4, createdAt := 990 }]) demoUser
      = (.error (.sentinel .rateLimitExceeded),
          authStoreWith [demoOtp, { demoOtp with id := 3, createdAt := 950 },
            { demoOtp with id := 4, createdAt := 990 }]) ∧
    ((resendAll [authEnvAt 1000 2, authEnvAt 2000 3, authEnvAt 3000 4] "ada@example.com"
        (authStoreWith [])).1 = List.replicate 3 (.ok ()) ∧
      ResendOTP (authEnvAt 4000 5)
          (resendAll [authEnvAt 1000 2, authEnvAt 2000 3, authEnvAt 3000 4] "ada@example.com"
            (authStoreWith [])).2 "ada@example.com"
        = (.error (.sentinel .rateLimitExceeded),
            (resendAll [authEnvAt 1000 2, authEnvAt 2000 3, authEnvAt 3000 4]
              "ada@example.com" (authStoreWith [])).2)) :=
  ⟨(sendOTP_rate_limit demoAuthEnv
      (authStoreWith [demoOtp, { demoOtp with id := 3, createdAt := 950 },
        { demoOtp with id := 4, createdAt := 990 }]) demoUser rfl).1 (by decide),
   (sendOTP_rate_limit (authEnvAt 4000 5) (authStoreWith []) demoUser rfl).2.2.2.2.2
      [authEnvAt 1000 2, authEnvAt 2000 3, authEnvAt 3000 4] "ada@example.com" rfl rfl
      (by decide) (by decide) rfl rfl⟩

theorem sendOTP_users (env : AuthEnv) (s : AuthStore) (user : User) :
    (sendOTP env s user).2.users = s.users := by
  unfold sendOTP
  cases h1 : countRecentOTPsByUserID env.faults.countRecentOTPs env.now s user.id with
  | error e => rfl
  | ok count =>
    simp only
    split
    · rfl
    · have hinv : ∀ s1, invalidateUserOTPs env.faults.invalidateUserOTPs s user.id = .ok s1 →
          s1.users = s.users := by
        intro s1 h
        unfold invalidateUserOTPs at h
        split at h
        · simp at h
        · simp only [Except.ok.injEq] at h
          rw [← h]
      cases h2 : invalidateUserOTPs env.faults.invalidateUserOTPs s user.id with
      | error e => rfl
      | ok s1 =>
        simp only
        cases h3 : generateOTP env.random otpLength with
        | error e => exact hinv s1 h2
        | ok rawOTP =>
          simp only
          cases h4 : env.generateHash rawOTP with
          | error e => exact hinv s1 h2
          | ok hash =>
            simp only
            have hcr : ∀ o s2, createOTP env.faults.createOTP s1 o = .ok s2 →
                s2.users = s1.users := by
              intro o s2 h
              unfold createOTP at h
              split at h
              · simp at h
              · simp only [Except.ok.injEq] at h
                rw [← h]
            split
            · exact hinv s1 h2
            · rename_i s2 h5
              split
              · exact (hcr _ s2 h5).trans (hinv s1 h2)
              · exact (hcr _ s2 h5).trans (hinv s1 h2)

theorem resendOTP_users (env : AuthEnv) (s : AuthStore) (email : String) :
    (ResendOTP env s email).2.users = s.users := by
  unfold ResendOTP
  split
  · split <;> rfl
  · split
    · rfl
    · exact sendOTP_users env s _

theorem register_users (env : AuthEnv) (s : AuthStore) (i : RegisterInput) :
    (Register env s i).2.users = s.users ∨
      (Register env s i).2.users = s.users ++ [registeredUser env i] := by
  unfold Register
  split
  · exact Or.inl rfl
  · split
    · split
      · exact Or.inl rfl
      · exact Or.inl (sendOTP_users env s _)
    · split
      · exact Or.inl rfl
      · split
        · exact Or.inl rfl
        · split
          · exact Or.inl rfl
          · split
            · exact Or.inl rfl
            · rename_i user s1 h
              right
              rw [sendOTP_users]
              unfold createUser at h
              split at h
              · simp at h
              · simp only [Except.ok.injEq, Prod.mk.injEq] at h
                rw [← h.2]
                rfl

theorem verifyOTP_users (env : AuthEnv) (s : AuthStore) (i : VerifyOTPInput) :
    (VerifyOTP env s i).2.users = s.users ∨
      ∃ user otp,
        getUserByEmail env.faults.getUserByEmail s (env.toLower i.email) = .ok user ∧
        getLatestOTPByUserID env.faults.getLatestOTP s user.id = .ok otp ∧
        otp.isUsed = false ∧ env.now ≤ otp.expiresAt ∧ otp.attemptCount < 5 ∧
        env.compareHash otp.otpHash i.otp = true ∧
        (VerifyOTP env s i).2.users
          = (s.users.map fun v => if v.id = user.id then { v with isVerified := true } else v) ∧
        (∀ o ∈ (VerifyOTP env s i).2.otps, o.id = otp.id → o.isUsed = true) ∧
        (∀ token, generateJWT env user.id = .ok token →
          ∃ r, (VerifyOTP env s i).1 = .ok r ∧ r.token = token ∧ r.user.id = user.id ∧
            r.user.isVerified = true) := by
  unfold VerifyOTP
  cases h1 : getUserByEmail env.faults.getUserByEmail s (env.toLower i.email) with
  | error e =>
    left
    simp only
    split <;> rfl
  | ok user =>
    simp only
    cases h2 : getLatestOTPByUserID env.faults.getLatestOTP s user.id with
    | error e =>
      left
      simp only
      split <;> rfl
    | ok otp =>
      simp only
      cases hused : otp.isUsed with
      | true =>
        left
        simp only [if_true]
      | false =>
        simp only [Bool.false_eq_true, if_false]
        by_cases hexp : env.now > otp.expiresAt
        · left
          simp only [hexp, if_true]
        · by_cases hcnt : otp.attemptCount ≥ maxOTPAttempts
          · left
            simp only [hexp, hcnt, if_true, if_false]
          · cases hcmp : env.compareHash otp.otpHash i.otp with
            | false =>
              left
              simp only [hexp, hcnt, if_false, Bool.not_false, if_true]
              unfold incrementOTPAttempts
              cases env.faults.incrementOTPAttempts <;> rfl
            | true =>
              simp only [hexp, hcnt, if_false, Bool.not_true, Bool.false_eq_true]
              cases h3 : markOTPUsed env.faults.markOTPUsed s otp.id with
              | error e => exact Or.inl rfl
              | ok s1 =>
                simp only
                have hs1 : s1 = { s with otps := s.otps.map fun o =>
                    if o.id = otp.id then { o with isUsed := true } else o } := by
                  unfold markOTPUsed at h3
                  split at h3
                  · simp at h3
                  · simp only [Except.ok.injEq] at h3
                    exact h3.symm
                cases h4 : markUserVerified env.faults.markUserVerified s1 user.id with
                | error e =>
                  left
                  simp only [hs1]
                | ok p =>
                  obtain ⟨verifiedUser, s2⟩ := p
                  have hs2 : s2 = { s1 with users := s1.users.map fun v =>
                      if v.id = user.id then { v with isVerified := true } else v } ∧
                      verifiedUser.id = user.id ∧ verifiedUser.isVerified = true := by
                    unfold markUserVerified at h4
                    split at h4
                    · simp at h4
                    · split at h4
                      · simp at h4
                      · rename_i u hfind
                        simp only [Except.ok.injEq, Prod.mk.injEq] at h4
                        have hid := List.find?_some hfind
                        simp only [decide_eq_true_eq] at hid
                        refine ⟨h4.2.symm, ?_, ?_⟩
                        · rw [← h4.1]
                          exact hid
                        · rw [← h4.1]
                  obtain ⟨hs2, hvid, hvv⟩ := hs2
                  right
                  refine ⟨user, otp, rfl, h2, hused, not_lt.mp hexp, ?_, hcmp, ?_, ?_, ?_⟩
                  · unfold maxOTPAttempts at hcnt
                    omega
                  · simp only
                    split <;> simp only [hs2, hs1]
                  · intro o ho hid
                    have ho2 : o ∈ s2.otps := by
                      revert ho
                      simp only
                      split <;> exact id
                    rw [hs2, hs1] at ho2
                    simp only [List.mem_map] at ho2
                    obtain ⟨o1, -, rfl⟩ := ho2
                    split
                    · rfl
                    · rename_i hne
                      rw [if_neg hne] at hid
                      exact absurd hid hne
                  · intro token htok
                    rw [← hvid] at htok
                    simp only [htok]
                    exact ⟨_, rfl, rfl, hvid, hvv⟩

theorem mark_verified_self (u : User) (id : Nat) (h : u.isVerified = true) :
    (if u.id = id then { u with isVerified := true } else u) = u := by
  split
  · cases u
    simp only at h
    simp only [h]
  · rfl

theorem run_keeps_verified (env : AuthEnv) (s : AuthStore) (call : AuthCall) (u : User)
    (hu : u ∈ s.users) (hv : u.isVerified = true) : u ∈ (call.run env s).users := by
  cases call with
  | register i =>
    rcases register_users env s i with h | h
    · simp only [AuthCall.run, h]
      exact hu
    · simp only [AuthCall.run, h]
      exact List.mem_append_left _ hu
  | resend email =>
    simp only [AuthCall.run, resendOTP_users]
    exact hu
  | verify i =>
    rcases verifyOTP_users env s i with h | ⟨user, otp, -, -, -, -, -, -, h, -, -⟩
    · simp only [AuthCall.run, h]
      exact hu
    · simp only [AuthCall.run, h, List.mem_map]
      exact ⟨u, hu, mark_verified_self u user.id hv⟩

/-- C16: across every sequence of `Register`, `ResendOTP` and `VerifyOTP` calls a verified
user row stays as it is; and when no row with an id is verified before a call and some row
with that id is verified after it, the call is a `VerifyOTP` that found this user by email
and whose latest code was not used, not expired, had fewer than 5 attempts and matched the
submitted code, after the call that code is marked used, and the call returns a token and
the verified user unless the signing of the token fails. -/
theorem verified_flag_one_way :
    (∀ (calls : List (AuthEnv × AuthCall)) (s : AuthStore) (u : User),
      u ∈ s.users → u.isVerified = true → u ∈ (runCalls calls s).users) ∧
    (∀ (env : AuthEnv) (s : AuthStore) (call : AuthCall) (id : Nat),
      (∀ u ∈ s.users, u.id = id → u.isVerified = false) →
      (∃ u ∈ (call.run env s).users, u.id = id ∧ u.isVerified = true) →
      ∃ i user otp, call = .verify i ∧
        getUserByEmail env.faults.getUserByEmail s (env.toLower i.email) = .ok user ∧
        user.id = id ∧
        getLatestOTPByUserID env.faults.getLatestOTP s user.id = .ok otp ∧
        otp.isUsed = false ∧ env.now ≤ otp.expiresAt ∧ otp.attemptCount < 5 ∧
        env.compareHash otp.otpHash i.otp = true ∧
        (∀ o ∈ (call.run env s).otps, o.id = otp.id → o.isUsed = true) ∧
        (∀ token, generateJWT env user.id = .ok token →
          ∃ r, (VerifyOTP env s i).1 = .ok r ∧ r.token = token ∧ r.user.id = user.id ∧
            r.user.isVerified = true)) := by
  constructor
  · intro calls
    induction calls with
    | nil =>
      intro s u hu _
      exact hu
    | cons c rest ih =>
      intro s u hu hv
      exact ih _ u (run_keeps_verified c.1 s c.2 u hu hv) hv
  · intro env s call id hbefore hafter
    obtain ⟨u, hu, hid, hv⟩ := hafter
    have hnot : u ∉ s.users := by
      intro hmem
      have := hbefore u hmem hid
      rw [hv] at this
      exact absurd this (by decide)
    cases call with
    | register i =>
      exfalso
      rcases register_users env s i with h | h
      · simp only [AuthCall.run, h] at hu
        exact hnot hu
      · simp only [AuthCall.run, h, List.mem_append, List.mem_singleton] at hu
        rcases hu with hu | hu
        · exact hnot hu
        · rw [hu] at hv
          simp [registeredUser] at hv
    | resend email =>
      exfalso
      simp only [AuthCall.run, resendOTP_users] at hu
      exact hnot hu
    | verify i =>
      rcases verifyOTP_users env s i with h | ⟨user, otp, h1, h2, h3, h4, h5, h6, h7, h8, h9⟩
      · exfalso
        simp only [AuthCall.run, h] at hu
        exact hnot hu
      · refine ⟨i, user, otp, rfl, h1, ?_, h2, h3, h4, h5, h6, h8, h9⟩
        simp only [AuthCall.run, h7, List.mem_map] at hu
        obtain ⟨v, hvmem, hveq⟩ := hu
        by_cases hvid : v.id = user.id
        · rw [if_pos hvid] at hveq
          rw [← hid, ← hveq]
          exact hvid.symm
        · rw [if_neg hvid] at hveq
          rw [hveq] at hvmem
          exact absurd hvmem hnot

set_option maxRecDepth 100000 in
/-- C16, witness: the user of the examples submits the code 123456 that was issued. -/
theorem verified_flag_one_way_witness :
    ∃ i user otp, AuthCall.verify ⟨"ada@example.com", "123456"⟩ = .verify i ∧
      getUserByEmail demoAuthEnv.faults.getUserByEmail (authStoreWith [demoOtp])
        (demoAuthEnv.toLower i.email) = .ok user ∧
      user.id = 1 ∧
      getLatestOTPByUserID demoAuthEnv.faults.getLatestOTP (authStoreWith [demoOtp]) user.id
        = .ok otp ∧
      otp.isUsed = false ∧ demoAuthEnv.now ≤ otp.expiresAt ∧ otp.attemptCount < 5 ∧
      demoAuthEnv.compareHash otp.otpHash i.otp = true ∧
      (∀ o ∈ ((AuthCall.verify ⟨"ada@example.com", "123456"⟩).run demoAuthEnv
          (authStoreWith [demoOtp])).otps, o.id = otp.id → o.isUsed = true) ∧
      (∀ token, generateJWT demoAuthEnv user.id = .ok token →
        ∃ r, (VerifyOTP demoAuthEnv (authStoreWith [demoOtp]) i).1 = .ok r ∧
          r.token = token ∧ r.user.id = user.id ∧ r.user.isVerified = true) :=
  verified_flag_one_way.2 demoAuthEnv (authStoreWith [demoOtp])
    (.verify ⟨"ada@example.com", "123456"⟩) 1 (by decide) (by decide)

theorem pages_spec (total L : Int) (ht : 0 ≤ total) (hL : 1 ≤ L) :
    (if Int.tmod total L > 0 then Int.tdiv total L + 1 else Int.tdiv total L)
        = ⌈(total : ℚ) / (L : ℚ)⌉ ∧
      (total = 0 →
        (if Int.tmod total L > 0 then Int.tdiv total L + 1 else Int.tdiv total L) = 0) ∧
      (0 < total →
        ((if Int.tmod total L > 0 then Int.tdiv total L + 1 else Int.tdiv total L) - 1) * L
            < total ∧
          total ≤ (if Int.tmod total L > 0 then Int.tdiv total L + 1 else Int.tdiv total L)
            * L) := by
  have hL0 : (0 : Int) ≤ L := by omega
  rw [Int.tdiv_eq_ediv ht hL0, Int.tmod_eq_emod ht hL0]
  have hdm : L * (total / L) + total % L = total := Int.ediv_add_emod total L
  have hr0 : 0 ≤ total % L := Int.emod_nonneg _ (by omega)
  have hr1 : total % L < L := Int.emod_lt_of_pos _ (by omega)
  have hq0 : 0 ≤ total / L := Int.ediv_nonneg ht hL0
  generalize total / L = q at *
  generalize total % L = r at *
  have key : ((if r > 0 then q + 1 else q) - 1) * L < total ∧
      total ≤ (if r > 0 then q + 1 else q) * L := by
    by_cases hr : r > 0
    · simp only [hr, if_true]
      constructor <;> nlinarith
    · simp only [hr, if_false]
      have : r = 0 := by omega
      constructor <;> nlinarith
  refine ⟨?_, ?_, fun _ => key⟩
  · symm
    rw [Int.ceil_eq_iff]
    have hLq : (0 : ℚ) < (L : ℚ) := by exact_mod_cast (by omega : (0 : Int) < L)
    constructor
    · rw [lt_div_iff₀ hLq]
      have := key.1
      exact_mod_cast this
    · rw [div_le_iff₀ hLq]
      have := key.2
      exact_mod_cast this
  · intro h0
    subst h0
    have hr : r = 0 := by nlinarith
    have hq : q = 0 := by
      rw [hr] at hdm
      have : L * q = 0 := by omega
      rcases Int.mul_eq_zero.mp this with h | h
      · omega
      · exact h
    simp [hr, hq]

theorem ListOrders_ok_inv (q : ListOrdersQueries) (userID : Nat) (page limit : Int)
    (out : ListOrdersOutput) (h : ListOrders q userID page limit = .ok out) :
    out.page = (if page < 1 then 1 else page) ∧
      out.limit = (if limit < 1 ∨ 50 < limit then 10 else limit) ∧
      q.countOrdersByUserID userID = .ok out.total ∧
      out.totalPages = (if Int.tmod out.total out.limit > 0
        then Int.tdiv out.total out.limit + 1 else Int.tdiv out.total out.limit) := by
  unfold ListOrders at h
  simp only at h
  split at h
  · simp at h
  · split at h
    · simp at h
    · rename_i total hcount
      split at h
      · simp at h
      · simp only [Except.ok.injEq] at h
        subst h
        exact ⟨rfl, rfl, hcount, rfl⟩

theorem List_ok_inv (parseUUID : String → Option Nat) (pq : ListProductsQueries)
    (i : ListProductsInput) (out : ListProductsOutput)
    (h : ProductService.List parseUUID pq i = .ok out) :
    out.page = (if i.page < 1 then 1 else i.page) ∧
      out.limit = (if i.limit < 1 ∨ 100 < i.limit then 20 else i.limit) ∧
      out.totalPages = (if Int.tmod out.total out.limit > 0
        then Int.tdiv out.total out.limit + 1 else Int.tdiv out.total out.limit) := by
  unfold ProductService.List at h
  simp only at h
  split at h
  · simp at h
  · split at h
    · simp at h
    · split at h
      · simp at h
      · split at h
        · simp at h
        · simp only [Except.ok.injEq] at h
          subst h
          exact ⟨rfl, rfl, rfl⟩

theorem limit_ge_one (limit hi d : Int) (hd : 1 ≤ d) :
    1 ≤ (if limit < 1 ∨ hi < limit then d else limit) := by
  split
  · exact hd
  · rename_i h
    simp only [not_or, not_lt] at h
    exact h.1

/-- C21: whenever `ListOrders` or the product `List` returns, with a total count that is
not negative, the limit it reports is at least 1 and the `TotalPages` it reports is the
ceiling of the total divided by that limit: it is 0 when the total is 0, and when the total
is positive `(TotalPages - 1) * limit < total ≤ TotalPages * limit`. Both return whenever
the store answers and the rows convert. -/
theorem totalPages_is_ceiling (q : ListOrdersQueries) (userID : Nat) (page limit : Int)
    (parseUUID : String → Option Nat) (pq : ListProductsQueries) (i : ListProductsInput) :
    (∀ out, ListOrders q userID page limit = .ok out → 0 ≤ out.total →
      1 ≤ out.limit ∧ out.totalPages = ⌈(out.total : ℚ) / (out.limit : ℚ)⌉ ∧
      (out.total = 0 → out.totalPages = 0) ∧
      (0 < out.total → (out.totalPages - 1) * out.limit < out.total ∧
        out.total ≤ out.totalPages * out.limit)) ∧
    (∀ out, ProductService.List parseUUID pq i = .ok out → 0 ≤ out.total →
      1 ≤ out.limit ∧ out.totalPages = ⌈(out.total : ℚ) / (out.limit : ℚ)⌉ ∧
      (out.total = 0 → out.totalPages = 0) ∧
      (0 < out.total → (out.totalPages - 1) * out.limit < out.total ∧
        out.total ≤ out.totalPages * out.limit)) ∧
    (∀ orders total rs, (∀ l o, q.listOrdersByUserID userID l o = .ok orders) →
      q.countOrdersByUserID userID = .ok total → listOrderResponses q orders = .ok rs →
      ∃ out, ListOrders q userID page limit = .ok out ∧ out.total = total) ∧
    (∀ rows total products, i.categoryID = Option.none →
      (∀ c s l o, pq.listProducts c s l o = .ok rows) →
      (∀ c, pq.countProducts c = .ok total) → rows.mapM mapListProductRow = some products →
      ∃ out, ProductService.List parseUUID pq i = .ok out ∧ out.total = total) := by
  refine ⟨?_, ?_, ?_, ?_⟩
  · intro out h ht
    obtain ⟨-, hl, -, htp⟩ := ListOrders_ok_inv q userID page limit out h
    have hL : 1 ≤ out.limit := by
      rw [hl]
      exact limit_ge_one limit 50 10 (by norm_num)
    rw [htp]
    exact ⟨hL, pages_spec out.total out.limit ht hL⟩
  · intro out h ht
    obtain ⟨-, hl, htp⟩ := List_ok_inv parseUUID pq i out h
    have hL : 1 ≤ out.limit := by
      rw [hl]
      exact limit_ge_one i.limit 100 20 (by norm_num)
    rw [htp]
    exact ⟨hL, pages_spec out.total out.limit ht hL⟩
  · intro orders total rs hlist hcount hrs
    unfold ListOrders
    simp only [hlist, hcount, hrs]
    exact ⟨_, rfl, rfl⟩
  · intro rows total products hcat hlist hcount hrows
    unfold ProductService.List
    simp only [hcat, hlist, hcount, hrows]
    exact ⟨_, rfl, rfl⟩

/-- C21, witness: 95 orders at the limit 10 make 10 pages, and 95 products at the limit 20
make 5 pages. -/
theorem totalPages_is_ceiling_witness :
    (∃ out, ListOrders manyOrders 7 1 10 = .ok out ∧ out.total = 95 ∧ out.limit = 10 ∧
      out.totalPages = 10 ∧ out.totalPages = ⌈(out.total : ℚ) / (out.limit : ℚ)⌉) ∧
    (∃ out, ProductService.List (fun _ => Option.none) manyProducts ⟨Option.none, "", 1, 20⟩
        = .ok out ∧ out.total = 95 ∧ out.limit = 20 ∧
      out.totalPages = 5 ∧ out.totalPages = ⌈(out.total : ℚ) / (out.limit : ℚ)⌉) :=
  ⟨⟨_, rfl, rfl, rfl, rfl,
      ((totalPages_is_ceiling manyOrders 7 1 10 (fun _ => Option.none) manyProducts
        ⟨Option.none, "", 1, 20⟩).1 _ rfl (by decide)).2.1⟩,
   ⟨_, rfl, rfl, rfl, rfl,
      ((totalPages_is_ceiling manyOrders 7 1 10 (fun _ => Option.none) manyProducts
        ⟨Option.none, "", 1, 20⟩).2.1 _ rfl (by decide)).2.1⟩⟩

theorem listOrderResponses_fixedAt (q : ListOrdersQueries) (limit offset : Int)
    (orders : List Order) :
    listOrderResponses (q.fixedAt limit offset) orders = listOrderResponses q orders := by
  induction orders with
  | nil => rfl
  | cons o rest ih =>
    simp only [listOrderResponses, ih]
    rfl

theorem toInt32_toInt64_id (x : Int) (h0 : 0 ≤ x) (h1 : x ≤ 2147483647) :
    toInt32 (toInt64 x) = x := by
  unfold toInt32 toInt64
  omega

/-- C28, within the range of `int32`: for a page of at least 1 whose product
`(page - 1) * limit` with the effective limit is at most `2 ^ 31 - 1`, the offset that
`ListOrders` and the product `List` compute is `(page - 1) * limit`, it is not negative, and
the call consults the list query at the effective limit and at this offset only. -/
theorem list_offset_in_range (q : ListOrdersQueries) (userID : Nat) (page limit : Int)
    (parseUUID : String → Option Nat) (pq : ListProductsQueries) (i : ListProductsInput) :
    (1 ≤ page → (page - 1) * (if limit < 1 ∨ 50 < limit then 10 else limit) ≤ 2147483647 →
      toInt32 (toInt64 ((page - 1) * (if limit < 1 ∨ 50 < limit then 10 else limit)))
          = (page - 1) * (if limit < 1 ∨ 50 < limit then 10 else limit) ∧
        0 ≤ (page - 1) * (if limit < 1 ∨ 50 < limit then 10 else limit) ∧
        ListOrders q userID page limit
          = ListOrders
              (q.fixedAt (if limit < 1 ∨ 50 < limit then 10 else limit)
                ((page - 1) * (if limit < 1 ∨ 50 < limit then 10 else limit)))
              userID page limit) ∧
    (1 ≤ i.page →
      (i.page - 1) * (if i.limit < 1 ∨ 100 < i.limit then 20 else i.limit) ≤ 2147483647 →
      toInt32 (toInt64 ((i.page - 1) * (if i.limit < 1 ∨ 100 < i.limit then 20 else i.limit)))
          = (i.page - 1) * (if i.limit < 1 ∨ 100 < i.limit then 20 else i.limit) ∧
        0 ≤ (i.page - 1) * (if i.limit < 1 ∨ 100 < i.limit then 20 else i.limit) ∧
        ProductService.List parseUUID pq i
          = ProductService.List parseUUID
              (pq.fixedAt (if i.limit < 1 ∨ 100 < i.limit then 20 else i.limit)
                ((i.page - 1) * (if i.limit < 1 ∨ 100 < i.limit then 20 else i.limit)))
              i) := by
  constructor
  · intro hp hb
    have hL1 := limit_ge_one limit 50 10 (by norm_num)
    have hL2 : (if limit < 1 ∨ 50 < limit then 10 else limit) ≤ 50 := by
      split
      · norm_num
      · rename_i h
        simp only [not_or, not_lt] at h
        exact h.2
    generalize hL : (if limit < 1 ∨ 50 < limit then 10 else limit) = L at *
    have h0 : 0 ≤ (page - 1) * L := mul_nonneg (by omega) (by omega)
    have hoff := toInt32_toInt64_id _ h0 hb
    have hlim : toInt32 L = L := by
      unfold toInt32
      omega
    refine ⟨hoff, h0, ?_⟩
    have hpage : (if page < 1 then 1 else page) = page := by
      rw [if_neg (by omega)]
    unfold ListOrders
    simp only [gt_iff_lt, hL, hpage, hoff, hlim, listOrderResponses_fixedAt]
    rfl
  · intro hp hb
    have hL1 := limit_ge_one i.limit 100 20 (by norm_num)
    have hL2 : (if i.limit < 1 ∨ 100 < i.limit then 20 else i.limit) ≤ 100 := by
      split
      · norm_num
      · rename_i h
        simp only [not_or, not_lt] at h
        exact h.2
    generalize hL : (if i.limit < 1 ∨ 100 < i.limit then 20 else i.limit) = L at *
    have h0 : 0 ≤ (i.page - 1) * L := mul_nonneg (by omega) (by omega)
    have hoff := toInt32_toInt64_id _ h0 hb
    have hlim : toInt32 L = L := by
      unfold toInt32
      omega
    refine ⟨hoff, h0, ?_⟩
    have hpage : (if i.page < 1 then 1 else i.page) = i.page := by
      rw [if_neg (by omega)]
    unfold ProductService.List
    simp only [gt_iff_lt, hL, hpage, hoff, hlim, ListProductsQueries.fixedAt]

/-- C28, witness: page 3 at the limit 10, and page 3 at the limit 20. -/
theorem list_offset_in_range_witness :
    toInt32 (toInt64 (((3 : Int) - 1) * (if (10 : Int) < 1 ∨ 50 < (10 : Int) then 10 else 10)))
        = ((3 : Int) - 1) * (if (10 : Int) < 1 ∨ 50 < (10 : Int) then 10 else 10) ∧
      toInt32 (toInt64 (((3 : Int) - 1) * (if (20 : Int) < 1 ∨ 100 < (20 : Int) then 20 else 20)))
        = ((3 : Int) - 1) * (if (20 : Int) < 1 ∨ 100 < (20 : Int) then 20 else 20) :=
  ⟨((list_offset_in_range manyOrders 7 3 10 (fun _ => Option.none) manyProducts
      ⟨Option.none, "", 3, 20⟩).1 (by decide) (by decide)).1,
   ((list_offset_in_range manyOrders 7 3 10 (fun _ => Option.none) manyProducts
      ⟨Option.none, "", 3, 20⟩).2 (by decide) (by decide)).1⟩

/-- C28, counterexample: for page 214748366 at the limit 10 the product `(page - 1) * 10`
is 2147483650 and `ListOrders` passes the offset -2147483646, which a store that refuses a
negative offset answers with an error; for page 21474838 at the limit 100 the product
`List` passes -2147483596. -/
theorem list_offset_wraps :
    ((214748366 : Int) - 1) * 10 = 2147483650 ∧
      toInt32 (toInt64 (((214748366 : Int) - 1) * 10)) = -2147483646 ∧
      (ListOrders offsetCheckOrders 7 214748366 10).toOption = Option.none ∧
      (ListOrders offsetCheckOrders 7 214748365 10).toOption.isSome = true ∧
      toInt32 (toInt64 (((21474838 : Int) - 1) * 100)) = -2147483596 ∧
      (ProductService.List (fun _ => Option.none) offsetCheckProducts
        ⟨Option.none, "", 21474838, 100⟩).toOption = Option.none ∧
      (ProductService.List (fun _ => Option.none) offsetCheckProducts
        ⟨Option.none, "", 21474837, 100⟩).toOption.isSome = true := by
  decide

theorem getOrCreateCart_again (newCartID : Nat) (s s1 : Store) (userID : Nat) (cart : Cart)
    (h : getOrCreateCart Option.none newCartID s userID = .ok (cart, s1)) :
    s1.carts.find? (fun c => c.userID = userID) = some cart ∧
      s1.cartItems = s.cartItems ∧ s1.products = s.products := by
  unfold getOrCreateCart at h
  simp only at h
  split at h
  · rename_i c hc
    simp only [Except.ok.injEq, Prod.mk.injEq] at h
    rw [← h.1, ← h.2]
    exact ⟨hc, rfl, rfl⟩
  · rename_i hc
    simp only [Except.ok.injEq, Prod.mk.injEq] at h
    rw [← h.1, ← h.2]
    refine ⟨?_, rfl, rfl⟩
    simp only [List.find?_append, hc, Option.none_or, List.find?_cons, decide_True,
      List.find?_nil]

/-- C22: `AddItem` fails with invalid-input when the quantity is below 1 and when the
product id is malformed, with not-found when no product has the id, and with
insufficient-stock when the stock of the product is less than the requested quantity, and
in each of these cases the tables are those before the call. Otherwise, with a store that
does not fail, the user's cart is read or created, the quantity is upserted into it for the
product, and the result is the cart view read afterwards. The lines already in the cart
take no part in any of the conditions. -/
theorem addItem_validates_requested_quantity (env : CartEnv) (s : Store)
    (i : AddCartItemInput) :
    (i.quantity < 1 →
      AddItem env s i
        = (.error (.error (.app (.sentinel .invalidInput) "quantity must be at least 1")),
            s)) ∧
    (1 ≤ i.quantity → env.parseUUID i.productID = Option.none →
      AddItem env s i
        = (.error (.error (.app (.sentinel .invalidInput) "invalid product id")), s)) ∧
    (∀ productID, 1 ≤ i.quantity → env.parseUUID i.productID = some productID →
      env.faults.getProductByID = Option.none → (∀ p ∈ s.products, p.id ≠ productID) →
      AddItem env s i = (.error (.error (.sentinel .notFound)), s)) ∧
    (∀ productID product, 1 ≤ i.quantity → env.parseUUID i.productID = some productID →
      getProductByID env.faults.getProductByID s productID = .ok product →
      product.stockQuantity < i.quantity →
      AddItem env s i = (.error (.error (.sentinel .insufficientStock)), s)) ∧
    (∀ productID product cart s1 s2, 1 ≤ i.quantity →
      env.parseUUID i.productID = some productID →
      getProductByID env.faults.getProductByID s productID = .ok product →
      i.quantity ≤ product.stockQuantity →
      env.faults.getOrCreateCart = Option.none →
      getOrCreateCart Option.none env.newCartID s i.userID = .ok (cart, s1) →
      upsertCartItem env.faults.upsertCartItem env.newCartItemID s1 cart.id productID
        i.quantity = .ok s2 →
      (AddItem env s i).2 = s2 ∧ (AddItem env s i).1 = (GetCart env s2 i.userID).1) := by
  refine ⟨?_, ?_, ?_, ?_, ?_⟩
  · intro hq
    simp only [AddItem, hq, if_true]
  · intro hq hp
    have hq1 : ¬ i.quantity < 1 := not_lt.mpr hq
    simp only [AddItem, hq1, if_false, hp]
  · intro productID hq hp hf hnone
    have hq1 : ¬ i.quantity < 1 := not_lt.mpr hq
    have hfind : s.products.find? (fun p => decide (p.id = productID)) = Option.none := by
      rw [List.find?_eq_none]
      intro p hp1
      simp only [decide_eq_true_eq]
      exact hnone p hp1
    simp only [AddItem, hq1, if_false, hp, getProductByID, hf, hfind, GoError.isNoRows,
      if_true]
  · intro productID product hq hp hprod hlt
    have hq1 : ¬ i.quantity < 1 := not_lt.mpr hq
    simp only [AddItem, hq1, if_false, hp, hprod, hlt, if_true]
  · intro productID product cart s1 s2 hq hp hprod hle hf hcart hup
    have hq1 : ¬ i.quantity < 1 := not_lt.mpr hq
    have hnl : ¬ product.stockQuantity < i.quantity := not_lt.mpr hle
    have hadd : AddItem env s i = GetCart env s2 i.userID := by
      simp only [AddItem, hq1, if_false, hp, hprod, hnl, hf, hcart, hup]
    rw [hadd]
    refine ⟨?_, rfl⟩
    obtain ⟨hfind, -, -⟩ := getOrCreateCart_again env.newCartID s s1 i.userID cart hcart
    have hcarts : s2.carts = s1.carts := by
      unfold upsertCartItem at hup
      split at hup
      · simp at hup
      · split at hup
        · simp only [Except.ok.injEq] at hup
          rw [← hup]
        · simp only [Except.ok.injEq] at hup
          rw [← hup]
    have hget : getOrCreateCart Option.none env.newCartID s2 i.userID = .ok (cart, s2) := by
      unfold getOrCreateCart
      simp only [hcarts, hfind]
    unfold GetCart
    rw [hf, hget]
    simp only
    split
    · rfl
    · split <;> rfl

set_option maxRecDepth 100000 in
/-- C22, witness: with four of product A in the cart and a stock of 5, adding six fails
with insufficient-stock, and adding three succeeds and leaves a line of seven. -/
theorem addItem_validates_requested_quantity_witness :
    AddItem demoCartEnv fullCartStore ⟨42, "product-1", 6⟩
      = (.error (.error (.sentinel .insufficientStock)), fullCartStore) ∧
    (AddItem demoCartEnv fullCartStore ⟨42, "product-1", 3⟩).2
      = { fullCartStore with cartItems := [⟨1, 7, 1, 7⟩] } ∧
    AddItem demoCartEnv fullCartStore ⟨42, "product-1", 0⟩
      = (.error (.error (.app (.sentinel .invalidInput) "quantity must be at least 1")),
          fullCartStore) ∧
    AddItem demoCartEnv fullCartStore ⟨42, "cake", 1⟩
      = (.error (.error (.app (.sentinel .invalidInput) "invalid product id")),
          fullCartStore) ∧
    AddItem demoCartEnv fullCartStore ⟨42, "product-9", 1⟩
      = (.error (.error (.sentinel .notFound)), fullCartStore) :=
  ⟨(addItem_validates_requested_quantity demoCartEnv fullCartStore
      ⟨42, "product-1", 6⟩).2.2.2.1 1 ⟨1, "A", ⟨some 999, -2, true⟩, 5⟩ (by decide) rfl rfl
      (by decide),
   ((addItem_validates_requested_quantity demoCartEnv fullCartStore
      ⟨42, "product-1", 3⟩).2.2.2.2 1 ⟨1, "A", ⟨some 999, -2, true⟩, 5⟩ ⟨7, 42⟩
      fullCartStore { fullCartStore with cartItems := [⟨1, 7, 1, 7⟩] } (by decide) rfl rfl
      (by decide) rfl rfl rfl).1,
   (addItem_validates_requested_quantity demoCartEnv fullCartStore
      ⟨42, "product-1", 0⟩).1 (by decide),
   (addItem_validates_requested_quantity demoCartEnv fullCartStore
      ⟨42, "cake", 1⟩).2.1 (by decide) rfl,
   (addItem_validates_requested_quantity demoCartEnv fullCartStore
      ⟨42, "product-9", 1⟩).2.2.1 9 (by decide) rfl rfl (by decide)⟩

theorem buildCartItems_spec (fused : Bool) :
    ∀ (rows : List GetCartItemsRow) (acc : List CartItemResponse) (total : F64),
      (∀ r ∈ rows, (numericToFloat r.productPrice).isSome = true) →
      ∃ items, buildCartItems fused rows acc total
          = some (acc ++ items,
              items.foldl (fun t it => F64.mulAdd fused t it.price (F64.ofInt it.quantity))
                total) ∧
        List.Forall₂ ItemOf rows items := by
  intro rows
  induction rows with
  | nil =>
    intro acc total _
    exact ⟨[], by simp [buildCartItems], List.Forall₂.nil⟩
  | cons r rest ih =>
    intro acc total h
    have hr := h r (List.mem_cons_self _ _)
    obtain ⟨price, hprice⟩ := Option.isSome_iff_exists.mp hr
    obtain ⟨items, h1, h2⟩ := ih
      (acc ++ [{ id := r.id, productID := r.productID, productName := r.productName,
                 productImage := r.productImageURL, price := price, quantity := r.quantity,
                 subtotal := F64.mul price (F64.ofInt r.quantity) }])
      (F64.mulAdd fused total price (F64.ofInt r.quantity))
      (fun r1 hr1 => h r1 (List.mem_cons_of_mem _ hr1))
    refine ⟨{ id := r.id, productID := r.productID, productName := r.productName,
              productImage := r.productImageURL, price := price, quantity := r.quantity,
              subtotal := F64.mul price (F64.ofInt r.quantity) } :: items, ?_,
      List.Forall₂.cons ⟨rfl, rfl, rfl, rfl, rfl, hprice, rfl⟩ h2⟩
    simp only [buildCartItems, hprice, h1, List.append_assoc, List.singleton_append,
      List.foldl_cons]

theorem unfused_total (items : List CartItemResponse) :
    ∀ total : F64,
      (∀ it ∈ items, it.subtotal = F64.mul it.price (F64.ofInt it.quantity)) →
      items.foldl (fun t it => F64.mulAdd false t it.price (F64.ofInt it.quantity)) total
        = (items.map fun it => it.subtotal).foldl F64.add total := by
  induction items with
  | nil =>
    intro total _
    rfl
  | cons it rest ih =>
    intro total h
    rw [List.foldl_cons, List.map_cons, List.foldl_cons, h it (List.mem_cons_self _ _)]
    exact ih _ (fun it1 h1 => h it1 (List.mem_cons_of_mem _ h1))

theorem itemOf_subtotal (rows : List GetCartItemsRow) (items : List CartItemResponse)
    (h : List.Forall₂ ItemOf rows items) :
    ∀ it ∈ items, it.subtotal = F64.mul it.price (F64.ofInt it.quantity) := by
  induction h with
  | nil => simp
  | @cons r it rest items1 hrow _ ih =>
    intro it1 h1
    rcases List.mem_cons.mp h1 with h2 | h2
    · rw [h2]
      exact hrow.2.2.2.2.2.2
    · exact ih it1 h2

/-- C23, as stated, fails on a build that fuses the multiplication and the addition: for a
cart with one unit at 0.01 and three units at 0.10 the two subtotals are 0.01 and
0.30000000000000004, whose `float64` sum is 0.31000000000000005, and the `Total` of the
view is 0.31, the `float64` before it. -/
theorem buildCartResponse_total_not_sum_of_subtotals :
    ∃ resp, buildCartResponse true ⟨7, 42⟩ centRows = some resp ∧
      (resp.items.map fun it => it.subtotal)
        = [F64.fin false 5764607523034235 (-59), F64.fin false 5404319552844596 (-54)] ∧
      (resp.items.map fun it => it.subtotal).foldl F64.add F64.zero
        = F64.fin false 5584463537939416 (-54) ∧
      resp.total = F64.fin false 5584463537939415 (-54) ∧
      resp.total ≠ (resp.items.map fun it => it.subtotal).foldl F64.add F64.zero := by
  set_option maxRecDepth 100000 in decide

/-- C23, amended: when the price of every row converts, `buildCartResponse` returns a view
with the id of the cart and one item per cart row, in the order of the rows, each with the
fields of its row, the converted price of the row as `Price` and the `float64` product of
that price and the quantity as `Subtotal`; its `Total` is the running sum, from 0 and in the
order of the items, of `Price * Quantity`, each step being one fused operation on a build
that fuses; on a build that does not fuse, `Total` is the `float64` sum of the subtotals;
for no rows the view has no item and the total 0. -/
theorem buildCartResponse_view (fused : Bool) (cart : Cart) (rows : List GetCartItemsRow)
    (h : ∀ r ∈ rows, (numericToFloat r.productPrice).isSome = true) :
    (∃ resp, buildCartResponse fused cart rows = some resp ∧ resp.id = cart.id ∧
      resp.items.length = rows.length ∧ List.Forall₂ ItemOf rows resp.items ∧
      resp.total = resp.items.foldl
        (fun t it => F64.mulAdd fused t it.price (F64.ofInt it.quantity)) F64.zero ∧
      (fused = false →
        resp.total = (resp.items.map fun it => it.subtotal).foldl F64.add F64.zero)) ∧
    buildCartResponse fused cart [] = some { id := cart.id, items := [], total := F64.zero } := by
  refine ⟨?_, rfl⟩
  obtain ⟨items, h1, h2⟩ := buildCartItems_spec fused rows [] F64.zero h
  refine ⟨{ id := cart.id, items := items,
            total := items.foldl
              (fun t it => F64.mulAdd fused t it.price (F64.ofInt it.quantity)) F64.zero },
    ?_, rfl, ?_, h2, rfl, ?_⟩
  · simp only [buildCartResponse, h1, Option.map_some', List.nil_append]
  · exact h2.length_eq.symm
  · intro hf
    subst hf
    exact unfused_total items F64.zero (itemOf_subtotal rows items h2)

set_option maxRecDepth 100000 in
/-- C23, witness: the cart of the example on a build that fuses, and the cart with one unit
at 0.01 and three at 0.10 on a build that does not. -/
theorem buildCartResponse_view_witness :
    (∃ resp, buildCartResponse true ⟨7, 42⟩ demoCartRows = some resp ∧
      resp.items.length = demoCartRows.length ∧ List.Forall₂ ItemOf demoCartRows resp.items ∧
      resp.total = resp.items.foldl
        (fun t it => F64.mulAdd true t it.price (F64.ofInt it.quantity)) F64.zero) ∧
    (∃ resp, buildCartResponse false ⟨7, 42⟩ centRows = some resp ∧
      resp.total = (resp.items.map fun it => it.subtotal).foldl F64.add F64.zero) := by
  obtain ⟨resp, h1, _, h3, h4, h5, _⟩ :=
    (buildCartResponse_view true ⟨7, 42⟩ demoCartRows (by decide)).1
  obtain ⟨resp2, k1, _, _, _, _, k6⟩ :=
    (buildCartResponse_view false ⟨7, 42⟩ centRows (by decide)).1
  exact ⟨⟨resp, h1, h3, h4, h5⟩, ⟨resp2, k1, k6 rfl⟩⟩

/-- The three cases of C24 on the answers of the lookups, which `Register` asks with the
texts as given, the email in lower case: for an input that `validateRegisterInput` accepts,
`Register` fails with the conflict error and leaves the tables as they are when the email
lookup returns a verified user; when it returns an unverified user, `Register` is `sendOTP`
for that user, which adds no user and, when nothing fails and the rate limit is not reached,
marks the earlier codes of that user used, stores a fresh code for that user and hands the
message to the sender; and when the email lookup finds no row and the phone lookup returns
a user, `Register` fails with the conflict error and leaves the tables as they are. -/
theorem register_existing_account (env : AuthEnv) (s : AuthStore) (i : RegisterInput)
    (hv : validateRegisterInput i = Option.none) :
    (∀ existing,
      getUserByEmail env.faults.getUserByEmail s (env.toLower i.email) = .ok existing →
      existing.isVerified = true →
      Register env s i
        = (.error (.app (.sentinel .conflict) "an account with this email already exists"),
            s)) ∧
    (∀ existing,
      getUserByEmail env.faults.getUserByEmail s (env.toLower i.email) = .ok existing →
      existing.isVerified = false →
      Register env s i = sendOTP env s existing ∧ (Register env s i).2.users = s.users ∧
      (env.faults.countRecentOTPs = Option.none → recentOTPs env.now s existing.id < 3 →
        env.faults.invalidateUserOTPs = Option.none → env.faults.createOTP = Option.none →
        ∀ rawOTP hash : String, generateOTP env.random otpLength = .ok rawOTP →
        env.generateHash rawOTP = .ok hash →
        (Register env s i).2.otps
            = invalidated s.otps existing.id ++ [issuedOtp env existing hash] ∧
          (Register env s i).2.outbox
            = s.outbox ++ [{ recipient := existing.emailAddress,
                             firstName := existing.firstName, otp := rawOTP }])) ∧
    (∀ (e : GoError) (other : User),
      getUserByEmail env.faults.getUserByEmail s (env.toLower i.email) = .error e →
      e.isNoRows = true →
      getUserByPhone env.faults.getUserByPhone s i.phoneNumber = .ok other →
      Register env s i
        = (.error (.app (.sentinel .conflict)
            "an account with this phone number already exists"), s)) := by
  refine ⟨?_, ?_, ?_⟩
  · intro existing hu hver
    simp only [Register, hv, hu, hver, if_true]
  · intro existing hu hver
    have hreg : Register env s i = sendOTP env s existing := by
      simp only [Register, hv, hu, hver, Bool.false_eq_true, if_false]
    refine ⟨hreg, ?_, ?_⟩
    · rw [hreg]
      exact sendOTP_users env s existing
    · intro hc hr hi hs rawOTP hash hg hh
      rw [hreg, sendOTP_proceeds env s existing hc hr hi hs rawOTP hash hg hh]
      exact ⟨rfl, rfl⟩
  · intro e other hu hn hp
    simp only [Register, hv, hu, hn, hp, Bool.not_true, Bool.false_eq_true, if_false]

set_option maxRecDepth 100000 in
/-- A registration with the email of the user of the examples, once when the user is
verified and once when the user is not. -/
theorem register_existing_account_witness :
    Register demoAuthEnv verifiedStore sameEmailInput
      = (.error (.app (.sentinel .conflict) "an account with this email already exists"),
          verifiedStore) ∧
    (Register demoAuthEnv (authStoreWith []) sameEmailInput
        = sendOTP demoAuthEnv (authStoreWith []) demoUser ∧
      (Register demoAuthEnv (authStoreWith []) sameEmailInput).2.users
        = (authStoreWith []).users) :=
  ⟨(register_existing_account demoAuthEnv verifiedStore sameEmailInput (by decide)).1
      { demoUser with isVerified := true } rfl rfl,
   ⟨((register_existing_account demoAuthEnv (authStoreWith []) sameEmailInput
        (by decide)).2.1 demoUser rfl rfl).1,
    ((register_existing_account demoAuthEnv (authStoreWith []) sameEmailInput
        (by decide)).2.1 demoUser rfl rfl).2.1⟩⟩

set_option maxRecDepth 100000 in
/-- C24, failing input: a registration whose email, once trimmed and in lower case, is
the email of the user of the examples is accepted by `validateRegisterInput`, which trims a
copy; `Register` looks the email up as given, with the space, and finds no user. When that
user is verified the call does not fail with the conflict error, and when the user is not
verified it does not resend: in both cases it inserts a second user and issues the code to
that one. In the same way a phone number given behind a space is not found, and the call
inserts a second user with the phone number of the first. -/
theorem register_padded_input_misses_existing_account :
    validateRegisterInput paddedEmailInput = Option.none ∧
      demoAuthEnv.toLower (trimSpace paddedEmailInput.email) = demoUser.emailAddress ∧
      (Register demoAuthEnv verifiedStore paddedEmailInput).1.isOk = true ∧
      (Register demoAuthEnv verifiedStore paddedEmailInput).2.users.map (fun u => u.id)
        = [1, 2] ∧
      (Register demoAuthEnv verifiedStore paddedEmailInput).2.otps.map (fun o => o.userID)
        = [2] ∧
      (Register demoAuthEnv (authStoreWith []) paddedEmailInput).2.users.map (fun u => u.id)
        = [1, 2] ∧
      (Register demoAuthEnv (authStoreWith []) paddedEmailInput).2.otps.map (fun o => o.userID)
        = [2] ∧
      validateRegisterInput paddedPhoneInput = Option.none ∧
      trimSpace paddedPhoneInput.phoneNumber = demoUser.phoneNumber ∧
      (Register demoAuthEnv verifiedStore paddedPhoneInput).1.isOk = true ∧
      (Register demoAuthEnv verifiedStore paddedPhoneInput).2.users.map (fun u => u.id)
        = [1, 2] := by
  decide

set_option maxRecDepth 100000 in
/-- C27, failing input: the registration with a space around the email and in front of the
phone number is accepted by `validateRegisterInput`, whose trimmed copies match the two
patterns; `Register` looks up and stores the texts as given (the email in lower case), so
the lookup misses the verified user with this email, and a second user row is inserted whose
email and phone number match neither pattern. -/
theorem register_stores_untrimmed_input :
    validateRegisterInput paddedInput = Option.none ∧
      trimSpace paddedInput.email = "Ada@Example.com" ∧
      trimSpace paddedInput.phoneNumber = "+201234567890" ∧
      (Register demoAuthEnv verifiedStore paddedInput).2.users
        = [{ demoUser with isVerified := true },
           { id := 2, firstName := "Ada", lastName := "Baker",
             phoneNumber := " +201234567890", emailAddress := " ada@example.com ",
             isVerified := false }] ∧
      emailRegexMatch " ada@example.com " = false ∧
      phoneRegexMatch " +201234567890" = false ∧
      emailRegexMatch "ada@example.com" = true ∧
      phoneRegexMatch "+201234567890" = true := by
  decide

theorem isAlpha_iff (c : Char) : c.isAlpha = true ↔ SpecLetter c := by
  unfold SpecLetter Char.isAlpha Char.isUpper Char.isLower
  simp only [Bool.or_eq_true, Bool.and_eq_true, decide_eq_true_eq, Char.le_def, ge_iff_le]
  have ha : ('a' : Char).val = 97 := rfl
  have hz : ('z' : Char).val = 122 := rfl
  have hA : ('A' : Char).val = 65 := rfl
  have hZ : ('Z' : Char).val = 90 := rfl
  rw [ha, hz, hA, hZ]
  tauto

theorem isDigit_iff (c : Char) : c.isDigit = true ↔ SpecDigit c := by
  unfold SpecDigit Char.isDigit
  simp only [Bool.and_eq_true, decide_eq_true_eq, Char.le_def, ge_iff_le]
  have h0 : ('0' : Char).val = 48 := rfl
  have h9 : ('9' : Char).val = 57 := rfl
  rw [h0, h9]

theorem emailLocalChar_iff (c : Char) :
    emailLocalChar c = true ↔
      (SpecLetter c ∨ SpecDigit c ∨ c = '.' ∨ c = '_' ∨ c = '%' ∨ c = '+' ∨ c = '-') := by
  unfold emailLocalChar Char.isAlphanum
  simp only [Bool.or_eq_true, decide_eq_true_eq, isAlpha_iff, isDigit_iff]
  tauto

theorem emailDomainChar_iff (c : Char) :
    emailDomainChar c = true ↔ (SpecLetter c ∨ SpecDigit c ∨ c = '.' ∨ c = '-') := by
  unfold emailDomainChar Char.isAlphanum
  simp only [Bool.or_eq_true, decide_eq_true_eq, isAlpha_iff, isDigit_iff]
  tauto

theorem emailLocalChar_at : emailLocalChar '@' = false := by decide

theorem emailDomainChar_at : emailDomainChar '@' = false := by decide

theorem isAlpha_at : Char.isAlpha '@' = false := by decide

theorem isAlpha_dot : Char.isAlpha '.' = false := by decide

theorem span_of_all (p : Char → Bool) (l1 l2 : List Char) (x : Char)
    (h1 : ∀ c ∈ l1, p c = true) (hx : p x = false) :
    (l1 ++ x :: l2).takeWhile p = l1 ∧ (l1 ++ x :: l2).dropWhile p = x :: l2 := by
  induction l1 with
  | nil => simp [List.takeWhile, List.dropWhile, hx]
  | cons a l ih =>
    have ha := h1 a (List.mem_cons_self _ _)
    obtain ⟨i1, i2⟩ := ih (fun c hc => h1 c (List.mem_cons_of_mem _ hc))
    simp [List.takeWhile_cons, List.dropWhile_cons, ha, i1, i2]

theorem span_inv (p : Char → Bool) :
    ∀ (l : List Char) (x : Char) (r : List Char), l.dropWhile p = x :: r →
      p x = false ∧ l = l.takeWhile p ++ x :: r ∧ ∀ c ∈ l.takeWhile p, p c = true := by
  intro l
  induction l with
  | nil =>
    intro x r h
    simp at h
  | cons a l ih =>
    intro x r h
    by_cases ha : p a = true
    · simp only [List.dropWhile, ha] at h
      obtain ⟨i1, i2, i3⟩ := ih x r h
      refine ⟨i1, ?_, ?_⟩
      · simp only [List.takeWhile, ha, List.cons_append]
        rw [← i2]
      · intro c hc
        simp only [List.takeWhile, ha, List.mem_cons] at hc
        rcases hc with hc | hc
        · rw [hc]
          exact ha
        · exact i3 c hc
    · have ha' : p a = false := by simpa using ha
      simp only [List.dropWhile, ha', List.cons.injEq] at h
      obtain ⟨h1, h2⟩ := h
      subst h1
      subst h2
      refine ⟨ha', ?_, ?_⟩
      · simp [List.takeWhile, ha']
      · intro c hc
        simp [List.takeWhile, ha'] at hc

theorem emailRegexMatch_iff (s : String) : emailRegexMatch s = true ↔ EmailFormSpec s := by
  constructor
  · intro h
    unfold emailRegexMatch at h
    simp only at h
    cases hd : s.data.dropWhile (fun c => decide (c ≠ '@')) with
    | nil =>
      rw [hd] at h
      simp at h
    | cons x rest =>
      rw [hd] at h
      simp only at h
      obtain ⟨hx, hsplit, hname⟩ := span_inv _ _ _ _ hd
      have hx' : x = '@' := by simpa using hx
      subst hx'
      cases hd2 : rest.reverse.dropWhile (fun c => decide (c ≠ '.')) with
      | nil =>
        rw [hd2] at h
        simp at h
      | cons y domainRev =>
        rw [hd2] at h
        simp only [Bool.and_eq_true, Bool.not_eq_true', decide_eq_true_eq, List.all_eq_true,
          List.isEmpty_eq_false] at h
        obtain ⟨⟨⟨⟨⟨h1, h2⟩, h3⟩, h4⟩, h5⟩, h6⟩ := h
        obtain ⟨hy, hsplit2, htld⟩ := span_inv _ _ _ _ hd2
        have hy' : y = '.' := by simpa using hy
        subst hy'
        have hrest : rest = domainRev.reverse
            ++ '.' :: (rest.reverse.takeWhile fun c => decide (c ≠ '.')).reverse := by
          have := congrArg List.reverse hsplit2
          simpa using this
        refine ⟨s.data.takeWhile (fun c => decide (c ≠ '@')), domainRev.reverse,
          (rest.reverse.takeWhile fun c => decide (c ≠ '.')).reverse, ?_, ?_, ?_, ?_, ?_, ?_, ?_⟩
        · rw [← hrest]
          exact hsplit
        · exact h1
        · intro c hc
          exact (emailLocalChar_iff c).mp (h2 c hc)
        · simpa using h3
        · intro c hc
          exact (emailDomainChar_iff c).mp (h4 c (by simpa using hc))
        · simpa using h5
        · intro c hc
          exact (isAlpha_iff c).mp (h6 c hc)
  · rintro ⟨name, domain, tld, hdata, hn0, hn, hd0, hd, ht2, ht⟩
    have hname : ∀ c ∈ name, decide (c ≠ '@') = true := by
      intro c hc
      simp only [ne_eq, decide_not, Bool.not_eq_true', decide_eq_false_iff_not]
      intro h0
      have := (emailLocalChar_iff c).mpr (hn c hc)
      rw [h0, emailLocalChar_at] at this
      exact absurd this (by decide)
    obtain ⟨s1, s2⟩ := span_of_all (fun c => decide (c ≠ '@')) name (domain ++ '.' :: tld) '@'
      hname (by decide)
    have htld : ∀ c ∈ tld.reverse, decide (c ≠ '.') = true := by
      intro c hc
      simp only [ne_eq, decide_not, Bool.not_eq_true', decide_eq_false_iff_not]
      intro h0
      have := (isAlpha_iff c).mpr (ht c (by simpa using hc))
      rw [h0, isAlpha_dot] at this
      exact absurd this (by decide)
    have hrev : (domain ++ '.' :: tld).reverse = tld.reverse ++ '.' :: domain.reverse := by
      simp
    obtain ⟨r1, r2⟩ := span_of_all (fun c => decide (c ≠ '.')) tld.reverse domain.reverse '.'
      htld (by decide)
    unfold emailRegexMatch
    simp only [hdata, s1, s2, hrev, r1, r2, List.reverse_reverse, Bool.and_eq_true,
      Bool.not_eq_true', decide_eq_true_eq, List.all_eq_true, List.isEmpty_eq_false]
    refine ⟨⟨⟨⟨⟨?_, ?_⟩, ?_⟩, ?_⟩, ht2⟩, ?_⟩
    · exact hn0
    · intro c hc
      exact (emailLocalChar_iff c).mpr (hn c hc)
    · simpa using hd0
    · intro c hc
      exact (emailDomainChar_iff c).mpr (hd c (by simpa using hc))
    · intro c hc
      exact (isAlpha_iff c).mpr (ht c hc)

theorem phoneBody_iff (d : Char) (rest : List Char) :
    (decide ('1' ≤ d ∧ d ≤ '9') && rest.all Char.isDigit && decide (7 ≤ rest.length)
        && decide (rest.length ≤ 14)) = true ↔
      ('1' ≤ d ∧ d ≤ '9' ∧ 7 ≤ rest.length ∧ rest.length ≤ 14 ∧ ∀ c ∈ rest, SpecDigit c) := by
  simp only [Bool.and_eq_true, decide_eq_true_eq, List.all_eq_true, isDigit_iff]
  tauto

theorem plus_not_digit (d : Char) (h : '1' ≤ d) : d ≠ '+' := by
  intro h0
  rw [h0] at h
  exact absurd h (by decide)

theorem phoneRegexMatch_iff (s : String) : phoneRegexMatch s = true ↔ PhoneFormSpec s := by
  unfold phoneRegexMatch PhoneFormSpec
  simp only
  split
  · rename_i heq
    constructor
    · intro h
      simp at h
    · rintro ⟨plus, d, rest, h, h1, -⟩
      exfalso
      split at heq
      · rename_i r hr
        rw [h] at hr
        cases plus with
        | true =>
          simp only [if_true, List.singleton_append, List.cons.injEq, true_and] at hr
          rw [heq] at hr
          simp at hr
        | false =>
          simp only [Bool.false_eq_true, if_false, List.nil_append, List.cons.injEq] at hr
          exact plus_not_digit d h1 hr.1
      · rw [h] at heq
        cases plus <;> simp at heq
  · rename_i d rest heq
    rw [phoneBody_iff]
    split at heq
    · rename_i r hr
      subst heq
      constructor
      · rintro ⟨h1, h2, h3, h4, h5⟩
        exact ⟨true, d, rest, by simp [hr], h1, h2, h3, h4, h5⟩
      · rintro ⟨plus, d1, rest1, h, h1, h2, h3, h4, h5⟩
        rw [hr] at h
        cases plus with
        | true =>
          simp only [if_true, List.singleton_append, List.cons.injEq, true_and] at h
          obtain ⟨e1, e2⟩ := h
          subst e1
          subst e2
          exact ⟨h1, h2, h3, h4, h5⟩
        | false =>
          exfalso
          simp only [Bool.false_eq_true, if_false, List.nil_append, List.cons.injEq] at h
          exact plus_not_digit d1 h1 h.1.symm
    · rename_i hnot
      constructor
      · rintro ⟨h1, h2, h3, h4, h5⟩
        exact ⟨false, d, rest, by simp [heq], h1, h2, h3, h4, h5⟩
      · rintro ⟨plus, d1, rest1, h, h1, h2, h3, h4, h5⟩
        cases plus with
        | true =>
          exfalso
          simp only [if_true, List.singleton_append] at h
          exact hnot _ h
        | false =>
          simp only [Bool.false_eq_true, if_false, List.nil_append] at h
          rw [heq, List.cons.injEq] at h
          obtain ⟨e1, e2⟩ := h
          subst e1
          subst e2
          exact ⟨h1, h2, h3, h4, h5⟩

/-- C25: `validateRegisterInput` returns no error exactly when, after `strings.TrimSpace`,
the first name and the last name are not empty, the email has the form of the spec and the
phone number has the form of the spec; and every error it returns is an `AppError` wrapping
`ErrInvalidInput`. -/
theorem validateRegisterInput_iff (i : RegisterInput) :
    (validateRegisterInput i = Option.none ↔
      (trimSpace i.firstName ≠ "" ∧ trimSpace i.lastName ≠ "" ∧
        EmailFormSpec (trimSpace i.email) ∧ PhoneFormSpec (trimSpace i.phoneNumber))) ∧
    (∀ e, validateRegisterInput i = some e →
      e.isSentinel .invalidInput = true ∧ ∃ message, e = .app (.sentinel .invalidInput) message) := by
  constructor
  · rw [← emailRegexMatch_iff, ← phoneRegexMatch_iff]
    unfold validateRegisterInput
    simp only
    by_cases h1 : trimSpace i.firstName = "" ∨ trimSpace i.lastName = ""
    · simp only [h1, if_true]
      constructor
      · intro h
        simp at h
      · rintro ⟨a, b, -, -⟩
        rcases h1 with h1 | h1
        · exact absurd h1 a
        · exact absurd h1 b
    · simp only [h1, if_false]
      simp only [not_or] at h1
      cases h2 : emailRegexMatch (trimSpace i.email) with
      | false => simp
      | true =>
        cases h3 : phoneRegexMatch (trimSpace i.phoneNumber) with
        | false => simp
        | true => simp [h1.1, h1.2]
  · intro e h
    unfold validateRegisterInput at h
    simp only at h
    split at h
    · simp only [Option.some.injEq] at h
      rw [← h]
      exact ⟨rfl, _, rfl⟩
    · split at h
      · simp only [Option.some.injEq] at h
        rw [← h]
        exact ⟨rfl, _, rfl⟩
      · split at h
        · simp only [Option.some.injEq] at h
          rw [← h]
          exact ⟨rfl, _, rfl⟩
        · simp at h

set_option maxRecDepth 100000 in
/-- C25, witness: the input `Ada`, `Baker`, `+201111111111`, `Ada@Example.com` is accepted,
so its email and phone number have the forms of the spec. -/
theorem validateRegisterInput_iff_witness :
    trimSpace sameEmailInput.firstName ≠ "" ∧ trimSpace sameEmailInput.lastName ≠ "" ∧
      EmailFormSpec (trimSpace sameEmailInput.email) ∧
      PhoneFormSpec (trimSpace sameEmailInput.phoneNumber) :=
  (validateRegisterInput_iff sameEmailInput).1.mp (by decide)

theorem digit_char (n : Fin 10) :
    (Char.ofNat (48 + n.val)).isDigit = true ∧
      '0' ≤ Char.ofNat (48 + n.val) ∧ Char.ofNat (48 + n.val) ≤ '9' := by
  revert n
  decide

theorem generateOTPLoop_ok (random : Nat → Except GoError (Fin 10)) :
    ∀ (k i : Nat) (digits : List Char),
      (∀ j, i ≤ j → j < i + k → ∃ d, random j = .ok d) →
      ∃ ds, generateOTPLoop random k i digits = .ok (digits ++ ds) ∧ ds.length = k ∧
        ∀ c ∈ ds, c.isDigit = true ∧ '0' ≤ c ∧ c ≤ '9' := by
  intro k
  induction k with
  | zero =>
    intro i digits _
    exact ⟨[], by simp [generateOTPLoop], rfl, by simp⟩
  | succ k ih =>
    intro i digits h
    obtain ⟨d, hd⟩ := h i (le_refl _) (by omega)
    obtain ⟨ds, h1, h2, h3⟩ := ih (i + 1) (digits ++ [Char.ofNat (48 + d.val)])
      (fun j hj1 hj2 => h j (by omega) (by omega))
    refine ⟨Char.ofNat (48 + d.val) :: ds, ?_, by simp [h2], ?_⟩
    · simp only [generateOTPLoop, hd, h1, List.append_assoc, List.singleton_append]
    · intro c hc
      rcases List.mem_cons.mp hc with hc | hc
      · rw [hc]
        exact digit_char d
      · exact h3 c hc

/-- C26: for every length `n` and every random source whose first `n` draws do not fail,
`generateOTP` returns a text of exactly `n` characters, each a decimal digit from `0` to
`9`. -/
theorem generateOTP_digits (random : Nat → Except GoError (Fin 10)) (n : Nat)
    (h : ∀ j, j < n → ∃ d, random j = .ok d) :
    ∃ otp : String, generateOTP random n = .ok otp ∧ otp.length = n ∧
      ∀ c ∈ otp.data, c.isDigit = true ∧ '0' ≤ c ∧ c ≤ '9' := by
  obtain ⟨ds, h1, h2, h3⟩ := generateOTPLoop_ok random n 0 []
    (fun j _ hj => h j (by omega))
  refine ⟨String.mk ds, ?_, ?_, ?_⟩
  · simp only [generateOTP, h1, List.nil_append]
  · simp only [String.length, h2]
  · exact h3

/-- C26, witness: six draws that are all 4. -/
theorem generateOTP_digits_witness :
    ∃ otp : String, generateOTP fourSource 6 = .ok otp ∧ otp.length = 6 ∧
      ∀ c ∈ otp.data, c.isDigit = true ∧ '0' ≤ c ∧ c ≤ '9' :=
  generateOTP_digits fourSource 6 (fun _ _ => ⟨4, rfl⟩)

/-- C30, the sentinels but one: every sentinel of the domain package other than
`ErrUserNotVerified` is answered by `resolveError` with a status from 400 to 499 and with
its own text as message, and the texts of different sentinels differ; `ErrUserNotVerified`
has no case in the switch and is answered with status 500 and the generic message. -/
theorem resolveError_sentinels (s : Sentinel) (h : s ≠ .userNotVerified) :
    (400 ≤ (resolveError (.sentinel s)).1 ∧ (resolveError (.sentinel s)).1 < 500 ∧
      (resolveError (.sentinel s)).2 = s.text) ∧
    (∀ t : Sentinel, t.text = s.text → t = s) ∧
    resolveError (.sentinel .userNotVerified) = (500, "an internal error occurred") := by
  refine ⟨?_, ?_, by decide⟩
  · cases s <;> first | exact absurd rfl h | decide
  · intro t
    cases s <;> cases t <;> decide

/-- C30, witness: the sentinel `ErrEmptyCart`. -/
theorem resolveError_sentinels_witness :
    (400 ≤ (resolveError (.sentinel .emptyCart)).1 ∧
      (resolveError (.sentinel .emptyCart)).1 < 500 ∧
      (resolveError (.sentinel .emptyCart)).2 = Sentinel.emptyCart.text) ∧
    (∀ t : Sentinel, t.text = Sentinel.emptyCart.text → t = .emptyCart) ∧
    resolveError (.sentinel .userNotVerified) = (500, "an internal error occurred") :=
  resolveError_sentinels .emptyCart (by decide)

/-- C30, counterexample: the sentinel `ErrUserNotVerified` of the domain package falls
through to the default branch: status 500, and the generic message instead of its own
text. -/
theorem resolveError_userNotVerified :
    resolveError (.sentinel .userNotVerified) = (500, "an internal error occurred") ∧
      ¬ (resolveError (.sentinel .userNotVerified)).1 < 500 ∧
      (resolveError (.sentinel .userNotVerified)).2 ≠ Sentinel.userNotVerified.text := by
  decide

end Shop
